import Mathlib

/-!
# zfse: a verification development

A shallow embedding of the Go sources of `zfse` (zone-file search engine) and
theorems about it.  Conventions of the embedding:

* Go `string` is `String`: a Go string that is valid UTF-8; `len(s)` is
  `String.utf8ByteSize`.  Byte strings that are not valid UTF-8 are outside the
  embedding.
* Go `int` / `int64` are `Int` or `Nat` (no arithmetic here comes near 2^63).
* Go `float64` is `Float64` in the score normalisation (`normalizeIndexerScore`): a
  finite value given by a rational, an infinity or a NaN, with every result rounded to
  the nearest value of 53 significant bits.  Elsewhere (the attributes of a record, the
  weights and scores of the rankers, clock readings) a `float64` is the rational it
  stands for (`ℚ`), so it is finite, and arithmetic on it is exact; `isFloat64` says that
  a rational is a `float64` value.  The text of a `float64` in JSON is the shortest
  decimal that is read back as the same value (`formatFloat`), a number read from JSON is
  rounded to the nearest `float64` (`convertNumber`), and the rounding of an integer to a
  `float64` is `float64OfInt`.
* Go `map[string]V` is an association list `GoMap V`; a well-formed map has
  pairwise distinct keys (`GoMap.WF`), lookups are `GoMap.get`, assignments
  `m[k] = v` are `GoMap.set`, and `for k, v := range m` visits the entries in
  list order (Go's order is unspecified; theorems hold for every order since
  they quantify over all lists).
* A `panic` or `zap.L().Fatal` is an `Except.error`.
* Methods guarded by a mutex are modelled as atomic state transformers.
-/

set_option maxRecDepth 100000

namespace Zfse

/-! ## `internal/enum` -/

/-- The lifecycle task of the application (`enum.ApplicationTask`). -/
inductive ApplicationTask where
  | Initializing
  | RunningPreCrawlFilters
  | FinishedPreCrawlFilters
  | RunningPostCrawlFilters
  | FinishedPostCrawlFilters
  | RunningIndexer
  | ReadyToSearch
  | RunningRankers
  | Errored
  | Shutdown
  deriving DecidableEq, Repr, Inhabited

/-! ## `internal/app/application_state.go` -/

/-- The record `ApplicationState`; `taskStartTime` is a clock reading in seconds. -/
structure ApplicationState where
  task : ApplicationTask
  taskStartTime : ℚ
  totalWorkItems : Int
  processedWorkItems : Int
  remainingWorkItems : Int
  estimateRemainingTimeInSeconds : Int
  errorDetails : String
  deriving DecidableEq

/-- The state built by `NewApplicationStateManager`. -/
def NewApplicationStateManager : ApplicationState :=
  { task := .Initializing
    taskStartTime := 0
    totalWorkItems := 0
    processedWorkItems := 0
    remainingWorkItems := 0
    estimateRemainingTimeInSeconds := 0
    errorDetails := "" }

/-- The message of every guarded transition's `panic`. -/
def programmingError : String := "Programming error."

/-- Go's conversion `int(x)` of a float: truncation toward zero. -/
def truncToInt (x : ℚ) : Int :=
  if 0 ≤ x then ⌊x⌋ else ⌈x⌉

def SetTotalWorkItems (a : ApplicationState) (totalWorkItems : Int) : ApplicationState :=
  { a with totalWorkItems := totalWorkItems }

/-- The method `SetProcessedWorkItems`; `now` is the clock reading `time.Since` uses. -/
def SetProcessedWorkItems (now : ℚ) (a : ApplicationState) (processedWorkItems : Int) :
    ApplicationState :=
  let remaining := a.totalWorkItems - processedWorkItems
  let elapsedTime := now - a.taskStartTime
  let estimate : ℚ :=
    if processedWorkItems > 0 then (elapsedTime / processedWorkItems) * remaining
    else (remaining : ℚ) * (1 / 100)
  { a with
    processedWorkItems := processedWorkItems
    remainingWorkItems := remaining
    estimateRemainingTimeInSeconds := truncToInt estimate }

def OnPreCrawlFiltersStarted (now : ℚ) (a : ApplicationState) : Except String ApplicationState :=
  if a.task ≠ .Initializing then .error programmingError
  else .ok { a with task := .RunningPreCrawlFilters, taskStartTime := now }

def OnPreCrawlFiltersFinished (a : ApplicationState) : Except String ApplicationState :=
  if a.task ≠ .RunningPreCrawlFilters then .error programmingError
  else .ok { a with
    task := .FinishedPreCrawlFilters
    totalWorkItems := 0
    processedWorkItems := 0
    estimateRemainingTimeInSeconds := 0 }

def OnPostCrawlFiltersStarted (now : ℚ) (a : ApplicationState) : Except String ApplicationState :=
  if a.task ≠ .FinishedPreCrawlFilters then .error programmingError
  else .ok { a with task := .RunningPostCrawlFilters, taskStartTime := now }

def OnPostCrawlFiltersFinished (a : ApplicationState) : Except String ApplicationState :=
  if a.task ≠ .RunningPostCrawlFilters then .error programmingError
  else .ok { a with
    task := .FinishedPostCrawlFilters
    totalWorkItems := 0
    processedWorkItems := 0
    estimateRemainingTimeInSeconds := 0 }

def OnIndexingStarted (now : ℚ) (a : ApplicationState) : Except String ApplicationState :=
  if a.task ≠ .FinishedPostCrawlFilters then .error programmingError
  else .ok { a with task := .RunningIndexer, taskStartTime := now }

def OnReadyToSearch (a : ApplicationState) : Except String ApplicationState :=
  if a.task ≠ .RunningIndexer ∧ a.task ≠ .RunningRankers then .error programmingError
  else .ok { a with
    task := .ReadyToSearch
    totalWorkItems := 0
    processedWorkItems := 0
    estimateRemainingTimeInSeconds := 0 }

def OnRankingStarted (now : ℚ) (a : ApplicationState) : Except String ApplicationState :=
  if a.task ≠ .ReadyToSearch then .error programmingError
  else .ok { a with task := .RunningRankers, taskStartTime := now }

def OnErrored (a : ApplicationState) (errorDetails : String) : ApplicationState :=
  { a with task := .Errored, errorDetails := errorDetails }

def OnShutdown (a : ApplicationState) : ApplicationState :=
  { a with task := .Shutdown }

/-- The seven guarded lifecycle operations of `ApplicationStateManager`. -/
inductive GuardedTransition where
  | PreCrawlFiltersStarted
  | PreCrawlFiltersFinished
  | PostCrawlFiltersStarted
  | PostCrawlFiltersFinished
  | IndexingStarted
  | ReadyToSearch
  | RankingStarted
  deriving DecidableEq, Repr

/-- Dispatch of a guarded operation to the method that implements it. -/
def GuardedTransition.run (t : GuardedTransition) (now : ℚ) (a : ApplicationState) :
    Except String ApplicationState :=
  match t with
  | .PreCrawlFiltersStarted => OnPreCrawlFiltersStarted now a
  | .PreCrawlFiltersFinished => OnPreCrawlFiltersFinished a
  | .PostCrawlFiltersStarted => OnPostCrawlFiltersStarted now a
  | .PostCrawlFiltersFinished => OnPostCrawlFiltersFinished a
  | .IndexingStarted => OnIndexingStarted now a
  | .ReadyToSearch => OnReadyToSearch a
  | .RankingStarted => OnRankingStarted now a

/-- The predecessors of a guarded operation in the lifecycle DAG of the specification. -/
def GuardedTransition.predecessors : GuardedTransition → List ApplicationTask
  | .PreCrawlFiltersStarted => [.Initializing]
  | .PreCrawlFiltersFinished => [.RunningPreCrawlFilters]
  | .PostCrawlFiltersStarted => [.FinishedPreCrawlFilters]
  | .PostCrawlFiltersFinished => [.RunningPostCrawlFilters]
  | .IndexingStarted => [.FinishedPostCrawlFilters]
  | .ReadyToSearch => [.RunningIndexer, .RunningRankers]
  | .RankingStarted => [.ReadyToSearch]

/-- The target state of a guarded operation in the lifecycle DAG of the specification. -/
def GuardedTransition.target : GuardedTransition → ApplicationTask
  | .PreCrawlFiltersStarted => .RunningPreCrawlFilters
  | .PreCrawlFiltersFinished => .FinishedPreCrawlFilters
  | .PostCrawlFiltersStarted => .RunningPostCrawlFilters
  | .PostCrawlFiltersFinished => .FinishedPostCrawlFilters
  | .IndexingStarted => .RunningIndexer
  | .ReadyToSearch => .ReadyToSearch
  | .RankingStarted => .RunningRankers

/-- The task after an operation, or the panic message. -/
def taskOf (r : Except String ApplicationState) : Except String ApplicationTask :=
  match r with
  | .ok a => .ok a.task
  | .error e => .error e

/-! ## Go maps -/

/-- A Go `map[string]V`: an association list (see the conventions at the top). -/
abbrev GoMap (V : Type) := List (String × V)

namespace GoMap

variable {V : Type}

/-- The lookup `v, ok := m[k]`. -/
def get : GoMap V → String → Option V
  | [], _ => none
  | (k', v) :: rest, k => if k' = k then some v else get rest k

/-- The assignment `m[k] = v`. -/
def set : GoMap V → String → V → GoMap V
  | [], k, v => [(k, v)]
  | (k', v') :: rest, k, v => if k' = k then (k, v) :: rest else (k', v') :: set rest k v

/-- The keys of the map, in list order. -/
def keys (m : GoMap V) : List String := m.map Prod.fst

/-- Well-formedness: a Go map holds every key at most once. -/
def WF (m : GoMap V) : Prop := (m.map Prod.fst).Nodup

instance (m : GoMap V) : Decidable (WF m) := by unfold WF; infer_instance

end GoMap

/-! ## Text functions of the Go standard library (`strings`, `unicode`) -/

/-- The predicate `unicode.IsSpace`. -/
def isSpace (c : Char) : Bool :=
  let n := c.toNat
  (0x09 ≤ n && n ≤ 0x0D) || n == 0x20 || n == 0x85 || n == 0xA0 || n == 0x1680 ||
    (0x2000 ≤ n && n ≤ 0x200A) || n == 0x2028 || n == 0x2029 || n == 0x202F ||
    n == 0x205F || n == 0x3000

/-- The function `strings.Fields` on the characters of a string: the maximal runs of
non-space characters, in order. -/
def fieldsChars : List Char → List (List Char)
  | [] => []
  | c :: cs =>
    if isSpace c then fieldsChars cs
    else
      match cs with
      | [] => [[c]]
      | d :: _ =>
        if isSpace d then [c] :: fieldsChars cs
        else
          match fieldsChars cs with
          | f :: fs => (c :: f) :: fs
          | [] => [[c]]

/-- The function `strings.Fields`. -/
def Fields (s : String) : List String := (fieldsChars s.toList).map String.mk

/-- The function `strings.TrimSpace`. -/
def TrimSpace (s : String) : String :=
  String.mk (((s.toList.dropWhile isSpace).reverse.dropWhile isSpace).reverse)

/-- The function `strings.Join`. -/
def Join (elems : List String) (sep : String) : String := sep.intercalate elems

/-- The position of the last occurrence of `c`, counted in characters, if there is one. -/
def lastIndexChars (c : Char) : List Char → Option Nat
  | [] => none
  | x :: xs =>
    match lastIndexChars c xs with
    | some i => some (i + 1)
    | none => if x = c then some 0 else none

/-- The function `strings.LastIndex(s, ".")`: the position of the last dot, or `-1`.  Positions are
counted in characters; the only use made of the result is the slice `s[:i]`, which holds the same
text whether `i` counts bytes or characters, a dot being one byte. -/
def LastIndexDot (s : String) : Int :=
  match lastIndexChars '.' s.toList with
  | some i => (i : Int)
  | none => -1

/-- The slice `s[:i]`. -/
def slicePrefix (s : String) (i : Int) : String := String.mk (s.toList.take i.toNat)

/-! ## IEEE 754 binary64 arithmetic (`float64`) -/

/-- A value of Go's `float64`: a finite value, given by the rational number it stands for, an
infinity, or a NaN.  A finite `float64` is a rational `q` with `isFloat64 q`.  The two zeros are
one value here: Go's comparisons do not tell them apart, and the code embedded with this type
never divides by a zero. -/
inductive Float64 where
  | finite (q : ℚ)
  | inf (negative : Bool)
  | nan
  deriving DecidableEq

/-- The number of low bits that a natural number must lose to fit a 53-bit significand. -/
def significandShift : Nat → Nat → Nat
  | 0, _ => 0
  | fuel + 1, a => if a < 2 ^ 53 then 0 else significandShift fuel (a / 2) + 1

/-- The natural number nearest to a non-negative rational, the even one of the two when the
rational lies halfway between them. -/
def roundHalfEven (x : ℚ) : Nat :=
  let f := ⌊x⌋.toNat
  if x - f < 1 / 2 then f
  else if 1 / 2 < x - f then f + 1
  else if f % 2 = 0 then f else f + 1

/-- The number of units of `2^-1074`, the smallest positive `float64`, in 1. -/
def float64Units : ℚ := ((2 ^ 1074 : ℕ) : ℚ)

/-- The least `k`, from `k` on, with `a < 2^(2^k)`; the first argument bounds the search. -/
def log2Bound (a : Nat) : Nat → Nat → Nat
  | 0, k => k
  | fuel + 1, k => if a < 2 ^ 2 ^ k then k else log2Bound a fuel (k + 1)

/-- The greatest `e` in `[lo, lo + 2^j)` with `2^e ≤ a`, found by bisection. -/
def log2Search (a : Nat) : Nat → Nat → Nat
  | 0, lo => lo
  | j + 1, lo =>
    if 2 ^ (lo + 2 ^ j) ≤ a then log2Search a j (lo + 2 ^ j) else log2Search a j lo

/-- The position of the highest bit of a positive natural number. -/
def floorLog2 (a : Nat) : Nat := log2Search a (log2Bound a a 0) 0

/-- The number of low bits that a magnitude must lose to fit a 53-bit significand: the same
number as `significandShift` gives, found by bisection. -/
def Float64.shift (a : Nat) : Nat := floorLog2 a - 52

/-- Rounding of a magnitude given in units of `2^-1074` to a magnitude with a significand of at
most 53 bits, to the nearest such value, ties to the even significand. -/
def Float64.roundUnits (x : ℚ) : Nat :=
  let a := ⌊x⌋.toNat
  let e := Float64.shift a
  roundHalfEven (x / ((2 ^ e : ℕ) : ℚ)) * 2 ^ e

/-- The `float64` that a real result of an operation is rounded to (round to nearest, ties to
even): an infinity when the rounded magnitude reaches `2^1024`. -/
def Float64.round (x : ℚ) : Float64 :=
  let k := Float64.roundUnits (|x| * float64Units)
  if 2 ^ 2098 ≤ k then .inf (decide (x < 0))
  else .finite (if x < 0 then -((k : ℚ) / float64Units) else (k : ℚ) / float64Units)

/-- The rational is a `float64` value: rounding leaves it as it is. -/
def isFloat64 (q : ℚ) : Prop := Float64.round q = .finite q

instance (q : ℚ) : Decidable (isFloat64 q) := by unfold isFloat64; infer_instance

/-- The operation `a - b` of `float64`. -/
def Float64.sub : Float64 → Float64 → Float64
  | .finite x, .finite y => Float64.round (x - y)
  | .nan, _ => .nan
  | _, .nan => .nan
  | .inf s, .inf t => if s = t then .nan else .inf s
  | .inf s, .finite _ => .inf s
  | .finite _, .inf t => .inf (!t)

/-- The operation `a / b` of `float64`; a zero divisor is taken to be the positive zero. -/
def Float64.div : Float64 → Float64 → Float64
  | .nan, _ => .nan
  | _, .nan => .nan
  | .inf _, .inf _ => .nan
  | .inf s, .finite y => .inf (s != decide (y < 0))
  | .finite _, .inf _ => .finite 0
  | .finite x, .finite y =>
    if y = 0 then (if x = 0 then .nan else .inf (decide (x < 0)))
    else Float64.round (x / y)

/-- The comparison `a < b` of `float64`: false when either side is a NaN. -/
def Float64.lt : Float64 → Float64 → Bool
  | .nan, _ => false
  | _, .nan => false
  | .finite x, .finite y => decide (x < y)
  | .finite _, .inf t => !t
  | .inf s, .finite _ => s
  | .inf s, .inf t => s && !t

/-! ## `internal/common/domain_properties.go` -/

/-- The record shuttled between the stages. -/
structure DomainProperties where
  DomainName : String
  StringProperties : GoMap String
  IntProperties : GoMap Int
  FloatProperties : GoMap ℚ
  BoolProperties : GoMap Bool
  deriving DecidableEq

def NewDomainProperties : DomainProperties :=
  { DomainName := ""
    StringProperties := []
    IntProperties := []
    FloatProperties := []
    BoolProperties := [] }

/-- A value stored in the `map[string]interface{}` that `ToJSONString` builds. -/
inductive PropertyValue where
  | str (s : String)
  | int64 (n : Int)
  | float64 (q : ℚ)
  | bool (b : Bool)
  deriving DecidableEq

/-- A value of the `map[string]interface{}` that `json.Unmarshal` produces: JSON numbers arrive
as `float64`, and `null`, arrays and objects arrive as values of other dynamic types. -/
inductive JsonValue where
  | null
  | bool (b : Bool)
  | number (q : ℚ)
  | string (s : String)
  | array (items : List JsonValue)
  | object (members : List (String × JsonValue))

/-- The map `properties` that `ToJSONString` fills before marshalling it: the domain name under
`domainName`, then the four buckets in the order string, int, float, bool. -/
def ToJSONString.properties (d : DomainProperties) : GoMap PropertyValue :=
  let properties : GoMap PropertyValue := GoMap.set [] "domainName" (.str d.DomainName)
  let properties := d.StringProperties.foldl (fun p kv => GoMap.set p kv.1 (.str kv.2)) properties
  let properties := d.IntProperties.foldl (fun p kv => GoMap.set p kv.1 (.int64 kv.2)) properties
  let properties :=
    d.FloatProperties.foldl (fun p kv => GoMap.set p kv.1 (.float64 kv.2)) properties
  d.BoolProperties.foldl (fun p kv => GoMap.set p kv.1 (.bool kv.2)) properties

/-! ### The text written by `encoding/json` -/

def hexDigit (n : Nat) : Char :=
  if n < 10 then Char.ofNat (48 + n) else Char.ofNat (87 + n)

/-- The escape `\uXXXX`. -/
def unicodeEscape (n : Nat) : String :=
  String.mk ['\\', 'u', hexDigit (n / 4096 % 16), hexDigit (n / 256 % 16), hexDigit (n / 16 % 16),
    hexDigit (n % 16)]

/-- How `json.Marshal` writes one character of a string (HTML escaping is on by default): the
quote and the backslash behind a backslash, the five control characters with a short escape as
that escape, every other control character and `<`, `>`, `&`, U+2028, U+2029 as `\uXXXX`.  (Go
releases before 1.22 wrote U+0008 and U+000C as `\u0008` and `\u000c`; both spellings are read
back as the same character.) -/
def jsonEscapeChar (c : Char) : String :=
  if c = '"' then "\\\""
  else if c = '\\' then "\\\\"
  else if c.toNat = 8 then "\\b"
  else if c.toNat = 12 then "\\f"
  else if c = '\n' then "\\n"
  else if c = '\r' then "\\r"
  else if c = '\t' then "\\t"
  else if c.toNat < 0x20 ∨ c = '<' ∨ c = '>' ∨ c = '&' ∨ c.toNat = 0x2028 ∨ c.toNat = 0x2029 then
    unicodeEscape c.toNat
  else String.mk [c]

/-- A JSON string literal. -/
def jsonQuote (s : String) : String :=
  "\"" ++ String.join (s.toList.map jsonEscapeChar) ++ "\""

/-- The power `10^p` of an integer exponent. -/
def pow10 (p : Int) : ℚ :=
  if 0 ≤ p then ((10 ^ p.toNat : ℕ) : ℚ) else 1 / ((10 ^ (-p).toNat : ℕ) : ℚ)

/-- The search of `strconv` for the shortest decimal that is read back as the positive `float64`
value `x`, from the decimal position `p` downward: at the first position at which the multiple
of `10^p` below `x` or the one above it rounds to `x`, the one of the two that does, and when
both do, the nearer one (the one with the even last digit when they are equally near).  The
result `(n, p)` stands for `n * 10^p`. -/
def shortestDecimal.search (x : ℚ) : Nat → Int → Nat × Int
  | 0, p => (0, p)
  | fuel + 1, p =>
    let down := ⌊x / pow10 p⌋.toNat
    let okdown := Float64.round (down * pow10 p) = .finite x
    let okup := Float64.round ((down + 1 : ℕ) * pow10 p) = .finite x
    if okdown ∧ okup then
      if x - down * pow10 p < (down + 1 : ℕ) * pow10 p - x then (down, p)
      else if (down + 1 : ℕ) * pow10 p - x < x - down * pow10 p then (down + 1, p)
      else if down % 2 = 0 then (down, p)
      else (down + 1, p)
    else if okdown then (down, p)
    else if okup then (down + 1, p)
    else shortestDecimal.search x fuel (p - 1)

/-- The shortest decimal `n * 10^p` that is read back as the positive `float64` value `x`.  The
search starts above the leading digit of `x` and ends at the latest at the position `-1074`, at
which every `float64` value is a multiple of `10^p`. -/
def shortestDecimal (x : ℚ) : Nat × Int :=
  let p0 : Nat := (toString ⌊x⌋.toNat).length + 1
  shortestDecimal.search x (p0 + 1075) p0

/-- Digits, with zeros in front up to the given width. -/
def zeroPad (width : Nat) (n : Nat) : String :=
  String.mk (List.replicate (width - (toString n).length) '0') ++ toString n

/-- The format `'f'` of `strconv.FormatFloat` with the shortest digits `n * 10^p`: the integer
part, and when `p` is negative a point and `-p` digits. -/
def formatFixed (n : Nat) (p : Int) : String :=
  if 0 ≤ p then toString (n * 10 ^ p.toNat)
  else
    toString (n / 10 ^ (-p).toNat) ++ "." ++ zeroPad (-p).toNat (n % 10 ^ (-p).toNat)

/-- The format `'e'` of `strconv.FormatFloat` with the shortest digits `n * 10^p`, after the
step of `encoding/json` that turns an exponent `e-0X` into `e-X`: the first digit, a point and
the other digits when there are any, and the exponent, of at least two digits when it is not
negative. -/
def formatExponent (n : Nat) (p : Int) : String :=
  let digits := (toString n).toList
  let exp : Int := p + digits.length - 1
  String.mk (digits.take 1) ++
    (if digits.length ≤ 1 then "" else "." ++ String.mk (digits.drop 1)) ++ "e" ++
    (if exp < 0 then "-" ++ toString exp.natAbs
      else "+" ++ zeroPad 2 exp.natAbs)

/-- The `float64` constant `1e-6`. -/
def float64Micro : ℚ :=
  match Float64.round (1 / 1000000) with
  | .finite r => r
  | _ => 0

/-- How `json.Marshal` writes a finite `float64`: with the shortest digits that are read back as
the same value, in the format `'e'` when the magnitude is below `1e-6` or at least `1e21` and in
the format `'f'` otherwise.  (The negative zero, written `-0`, is not a value of the
embedding.) -/
def formatFloat (q : ℚ) : String :=
  if q = 0 then "0"
  else
    let digits := shortestDecimal |q|
    (if q < 0 then "-" else "") ++
      (if |q| < float64Micro ∨ 1000000000000000000000 ≤ |q| then
        formatExponent digits.1 digits.2
      else formatFixed digits.1 digits.2)

/-- How `json.Marshal` writes a value of the `properties` map. -/
def jsonValueText : PropertyValue → String
  | .str s => jsonQuote s
  | .int64 n => toString n
  | .float64 q => formatFloat q
  | .bool b => if b then "true" else "false"

/-- The order of Go strings (byte-wise, which for UTF-8 is the order of the code points). -/
def stringLess (a b : String) : Bool := decide (a.toList < b.toList)

/-- Insertion of a member into a list of members sorted by key. -/
def insertByKey (e : String × PropertyValue) : List (String × PropertyValue) →
    List (String × PropertyValue)
  | [] => [e]
  | x :: xs => if stringLess e.1 x.1 then e :: x :: xs else x :: insertByKey e xs

/-- The members of a map in ascending key order, the order in which `json.Marshal` writes them. -/
def sortByKey (m : GoMap PropertyValue) : List (String × PropertyValue) :=
  m.foldr insertByKey []

/-- The function `json.Marshal` on a `map[string]interface{}` of property values. -/
def jsonMarshal (m : GoMap PropertyValue) : String :=
  "\x7b" ++ ",".intercalate ((sortByKey m).map fun e => jsonQuote e.1 ++ ":" ++ jsonValueText e.2)
    ++ "\x7d"

/-- The method `ToJSONString`.  The error that `json.Marshal` returns, and the method with it,
arises for a NaN or an infinite `float64` only; a record of the embedding holds finite doubles,
for which the method returns the text and a nil error. -/
def ToJSONString (d : DomainProperties) : String :=
  jsonMarshal (ToJSONString.properties d)

/-! ### The text read by `encoding/json` -/

/-- The white space of JSON. -/
def isJSONSpace (c : Char) : Bool := c = ' ' || c = '\t' || c = '\r' || c = '\n'

/-- The text after the white space in front of it. -/
def skipSpace : List Char → List Char
  | [] => []
  | c :: cs => if isJSONSpace c then skipSpace cs else c :: cs

/-- The value of a hexadecimal digit. -/
def hexValue (c : Char) : Option Nat :=
  if 48 ≤ c.toNat ∧ c.toNat ≤ 57 then some (c.toNat - 48)
  else if 97 ≤ c.toNat ∧ c.toNat ≤ 102 then some (c.toNat - 87)
  else if 65 ≤ c.toNat ∧ c.toNat ≤ 70 then some (c.toNat - 55)
  else none

/-- The number written by four hexadecimal digits. -/
def hexValue4 (a b c d : Char) : Option Nat :=
  match hexValue a, hexValue b, hexValue c, hexValue d with
  | some a, some b, some c, some d => some (((a * 16 + b) * 16 + c) * 16 + d)
  | _, _, _, _ => none

/-- The character of an escape `\c` other than `\u`. -/
def unescapeChar (c : Char) : Option Char :=
  if c = '"' then some '"'
  else if c = '\\' then some '\\'
  else if c = '/' then some '/'
  else if c = 'b' then some (Char.ofNat 8)
  else if c = 'f' then some (Char.ofNat 12)
  else if c = 'n' then some '\n'
  else if c = 'r' then some '\r'
  else if c = 't' then some '\t'
  else none

/-- The character of the escape `\uXXXX` of the code unit `n`, given the text after the escape:
a high surrogate followed by the escape of a low surrogate is the character of the pair, and
any other surrogate is U+FFFD.  The second component tells whether the following escape is part
of the character. -/
def unescapeUnit (n : Nat) (rest : List Char) : Char × Bool :=
  if 0xD800 ≤ n ∧ n < 0xE000 then
    match rest with
    | '\\' :: 'u' :: a :: b :: c :: d :: _ =>
      match hexValue4 a b c d with
      | some m =>
        if n < 0xDC00 ∧ 0xDC00 ≤ m ∧ m < 0xE000 then
          (Char.ofNat ((n - 0xD800) * 1024 + (m - 0xDC00) + 0x10000), true)
        else (Char.ofNat 0xFFFD, false)
      | none => (Char.ofNat 0xFFFD, false)
    | _ => (Char.ofNat 0xFFFD, false)
  else (Char.ofNat n, false)

/-- One step of reading a string literal: at the closing quote, `none` and the text after it;
otherwise the next character of the string, written as itself or by an escape, and the text
after it.  A control character, an unknown escape or the end of the text is a syntax error. -/
def readChar : List Char → Option (Option Char × List Char)
  | [] => none
  | c :: rest =>
    if c = '"' then some (none, rest)
    else if c = '\\' then
      match rest with
      | [] => none
      | e :: rest1 =>
        if e = 'u' then
          match rest1 with
          | a :: b :: c :: d :: rest2 =>
            match hexValue4 a b c d with
            | none => none
            | some n =>
              match unescapeUnit n rest2 with
              | (x, false) => some (some x, rest2)
              | (x, true) => some (some x, rest2.drop 6)
          | _ => none
        else
          match unescapeChar e with
          | some x => some (some x, rest1)
          | none => none
    else if c.toNat < 0x20 then none
    else some (some c, rest)

/-- The characters of a string literal and the text after its closing quote, read from the text
after the opening quote; the first argument bounds the number of characters read. -/
def readString : Nat → List Char → Option (List Char × List Char)
  | 0, _ => none
  | fuel + 1, cs =>
    match readChar cs with
    | none => none
    | some (none, rest) => some ([], rest)
    | some (some c, rest) => (readString fuel rest).map fun r => (c :: r.1, r.2)

/-- The decimal digits at the head of a text, and the text after them. -/
def readDigits : List Char → List Char × List Char
  | [] => ([], [])
  | c :: cs =>
    if 48 ≤ c.toNat ∧ c.toNat ≤ 57 then ((readDigits cs).1.cons c, (readDigits cs).2)
    else ([], c :: cs)

/-- The number written by decimal digits. -/
def digitsValue (digits : List Char) : Nat :=
  digits.foldl (fun n c => n * 10 + (c.toNat - 48)) 0

/-- The integer part of a number literal: a single `0`, or digits that do not start with `0`. -/
def readIntegerPart : List Char → Option (List Char × List Char)
  | [] => none
  | c :: cs =>
    if c = '0' then some (['0'], cs)
    else if 49 ≤ c.toNat ∧ c.toNat ≤ 57 then some (readDigits (c :: cs))
    else none

/-- The fraction of a number literal: nothing, or a point and at least one digit. -/
def readFraction : List Char → Option (List Char × List Char)
  | [] => some ([], [])
  | c :: cs =>
    if c = '.' then
      if (readDigits cs).1 = [] then none else some (readDigits cs)
    else some ([], c :: cs)

/-- The exponent of a number literal: nothing, or `e` or `E`, a sign or none, and at least one
digit. -/
def readExponent : List Char → Option (Int × List Char)
  | [] => some (0, [])
  | c :: rest =>
    if c = 'e' ∨ c = 'E' then
      match rest with
      | [] => none
      | s :: rest1 =>
        if s = '-' then
          if (readDigits rest1).1 = [] then none
          else some (-(digitsValue (readDigits rest1).1 : Int), (readDigits rest1).2)
        else if s = '+' then
          if (readDigits rest1).1 = [] then none
          else some ((digitsValue (readDigits rest1).1 : Int), (readDigits rest1).2)
        else
          if (readDigits (s :: rest1)).1 = [] then none
          else some ((digitsValue (readDigits (s :: rest1)).1 : Int), (readDigits (s :: rest1)).2)
    else some (0, c :: rest)

/-- The magnitude of a number literal, as the exact decimal it writes, and the text after it. -/
def readMagnitude (cs : List Char) : Option (ℚ × List Char) :=
  match readIntegerPart cs with
  | none => none
  | some (whole, rest) =>
    match readFraction rest with
    | none => none
    | some (fraction, rest1) =>
      match readExponent rest1 with
      | none => none
      | some (exp, rest2) =>
        some ((digitsValue (whole ++ fraction) : ℚ) * pow10 (exp - fraction.length), rest2)

/-- A number literal, as the exact decimal it writes, and the text after it. -/
def readNumber : List Char → Option (ℚ × List Char)
  | [] => none
  | c :: cs =>
    if c = '-' then (readMagnitude cs).map fun r => (-r.1, r.2)
    else readMagnitude (c :: cs)

/-- The `float64` that `strconv.ParseFloat` returns for a number literal: the nearest `float64`,
ties to even; a literal that rounds beyond the largest `float64` is an error (`none`). -/
def convertNumber (literal : ℚ) : Option ℚ :=
  match Float64.round literal with
  | .finite value => some value
  | _ => none

mutual

/-- The value `encoding/json` decodes, into an `interface{}`, from the JSON value at the head
of a text (after white space), and the text after it; `none` is an error.  The first argument
bounds the number of values read, the second is the number of arrays and objects around the
value, of which `encoding/json` accepts ten thousand.  A number is decoded with
`convertNumber`. -/
def readValue : Nat → Nat → List Char → Option (JsonValue × List Char)
  | 0, _, _ => none
  | fuel + 1, depth, cs =>
    match skipSpace cs with
    | [] => none
    | c :: rest =>
      if c = '"' then
        (readString rest.length rest).map fun r => (JsonValue.string (String.mk r.1), r.2)
      else if c = '\x7b' then
        if 10000 ≤ depth then none
        else
          match skipSpace rest with
          | '\x7d' :: rest1 => some (.object [], rest1)
          | rest1 => (readMembers fuel (depth + 1) [] rest1).map fun r => (.object r.1, r.2)
      else if c = '[' then
        if 10000 ≤ depth then none
        else
          match skipSpace rest with
          | ']' :: rest1 => some (.array [], rest1)
          | rest1 => (readElements fuel (depth + 1) [] rest1).map fun r => (.array r.1, r.2)
      else if c = 't' then
        match rest with
        | 'r' :: 'u' :: 'e' :: rest1 => some (.bool true, rest1)
        | _ => none
      else if c = 'f' then
        match rest with
        | 'a' :: 'l' :: 's' :: 'e' :: rest1 => some (.bool false, rest1)
        | _ => none
      else if c = 'n' then
        match rest with
        | 'u' :: 'l' :: 'l' :: rest1 => some (.null, rest1)
        | _ => none
      else
        match readNumber (c :: rest) with
        | none => none
        | some (literal, rest1) => (convertNumber literal).map fun value => (.number value, rest1)

/-- The members of an object from its first key on, and the text after the closing brace.  The
members are held as a Go map: a key read again takes the later value. -/
def readMembers : Nat → Nat → List (String × JsonValue) → List Char →
    Option (List (String × JsonValue) × List Char)
  | 0, _, _, _ => none
  | fuel + 1, depth, members, cs =>
    match skipSpace cs with
    | '"' :: rest =>
      match readString rest.length rest with
      | none => none
      | some (key, rest1) =>
        match skipSpace rest1 with
        | ':' :: rest2 =>
          match readValue fuel depth rest2 with
          | none => none
          | some (value, rest3) =>
            match skipSpace rest3 with
            | ',' :: rest4 => readMembers fuel depth (GoMap.set members (String.mk key) value) rest4
            | '\x7d' :: rest4 => some (GoMap.set members (String.mk key) value, rest4)
            | _ => none
        | _ => none
    | _ => none

/-- The elements of an array from its first element on, and the text after the closing
bracket. -/
def readElements : Nat → Nat → List JsonValue → List Char →
    Option (List JsonValue × List Char)
  | 0, _, _, _ => none
  | fuel + 1, depth, elements, cs =>
    match readValue fuel depth cs with
    | none => none
    | some (value, rest) =>
      match skipSpace rest with
      | ',' :: rest1 => readElements fuel depth (elements ++ [value]) rest1
      | ']' :: rest1 => some (elements ++ [value], rest1)
      | _ => none

end

/-- The call `json.Unmarshal(data, &rawData)` with a nil `rawData map[string]interface{}`: the
map of the members of the object that `data` writes.  The text `null` leaves the map nil
(empty).  A syntax error, text after the value, a number beyond the range of `float64` or a
value that is not an object is an error. -/
def jsonUnmarshal (data : String) : Except String (GoMap JsonValue) :=
  match readValue (2 * data.length + 2) 0 data.toList with
  | none => .error "json: invalid text"
  | some (value, rest) =>
    if skipSpace rest ≠ [] then .error "json: invalid character after top-level value"
    else
      match value with
      | .object members => .ok members
      | .null => .ok []
      | _ => .error "json: cannot unmarshal into Go value of type map[string]interface {}"

/-! ### Reading a record back -/

/-- The conversion `float64(n)` of an integer: rounding to the nearest value with a 53-bit
significand, ties to even.  It is exact up to `2^53` in magnitude. -/
def float64OfInt (n : Int) : Int :=
  let a := n.natAbs
  if a ≤ 2 ^ 53 then n
  else
    let e := significandShift a a
    let q := a / 2 ^ e
    let r := a % 2 ^ e
    let half := 2 ^ (e - 1)
    let q := if r > half ∨ (r = half ∧ q % 2 = 1) then q + 1 else q
    if n < 0 then -((q * 2 ^ e : Nat) : Int) else ((q * 2 ^ e : Nat) : Int)

/-- The conversion `int64(value)` of a `float64`: truncation toward zero; a value outside the
range of `int64` gives the smallest `int64` (the result on amd64; Go leaves it to the
implementation). -/
def int64OfFloat (q : ℚ) : Int :=
  let t := truncToInt q
  if -(2 : Int) ^ 63 ≤ t ∧ t < (2 : Int) ^ 63 then t else -(2 : Int) ^ 63

/-- The body of the `range rawData` loop of `UnmarshalJSON`. -/
def UnmarshalJSON.assign (d : DomainProperties) (key : String) (value : JsonValue) :
    DomainProperties :=
  if key = "domainName" then d
  else
    match value with
    | .string s => { d with StringProperties := d.StringProperties.set key s }
    | .number q =>
      if q = (float64OfInt (int64OfFloat q) : ℚ) then
        { d with IntProperties := d.IntProperties.set key (int64OfFloat q) }
      else { d with FloatProperties := d.FloatProperties.set key q }
    | .bool b => { d with BoolProperties := d.BoolProperties.set key b }
    | _ => d

/-- The method `UnmarshalJSON`, from the point where `json.Unmarshal(data, &rawData)` has
returned `rawData` without an error.  The type assertion `rawData["domainName"].(string)` panics
when the key is absent or holds a value that is not a string. -/
def UnmarshalJSON (rawData : GoMap JsonValue) (d : DomainProperties) :
    Except String DomainProperties :=
  match rawData.get "domainName" with
  | some (.string s) =>
    .ok (rawData.foldl (fun d kv => UnmarshalJSON.assign d kv.1 kv.2) { d with DomainName := s })
  | _ => .error "interface conversion: interface {} is not string"

/-- The method `UnmarshalJSON` on the text `data`: the error of `json.Unmarshal(data, &rawData)`
is returned, and otherwise the rest of the method runs on `rawData`.  The `range` loop visits
the keys in the order of the text here; the order of Go is unspecified, and the theorems on the
round trip hold for every order. -/
def UnmarshalJSON.ofText (data : String) (d : DomainProperties) :
    Except String DomainProperties :=
  match jsonUnmarshal data with
  | .error e => .error e
  | .ok rawData => UnmarshalJSON rawData d

/-! ## `internal/app/pre_crawl.go`: building a record from a zone-file line -/

/-- The record `runPreCrawlFilters` builds from the fields of a line (at least five of them):
the four string attributes, then the removal of the text from the last dot of the domain name. -/
def buildRecord (fields : List String) : DomainProperties :=
  let domainProperties : DomainProperties :=
    { DomainName := fields.getD 0 ""
      StringProperties := []
      IntProperties := []
      FloatProperties := []
      BoolProperties := [] }
  let domainProperties := { domainProperties with
    StringProperties := domainProperties.StringProperties.set "ttl" (fields.getD 1 "") }
  let domainProperties := { domainProperties with
    StringProperties := domainProperties.StringProperties.set "record_class" (fields.getD 2 "") }
  let domainProperties := { domainProperties with
    StringProperties := domainProperties.StringProperties.set "record_type" (fields.getD 3 "") }
  let domainProperties := { domainProperties with
    StringProperties :=
      domainProperties.StringProperties.set "record_data" (Join (fields.drop 4) " ") }
  let lastDotIndex := LastIndexDot domainProperties.DomainName
  if lastDotIndex ≠ -1 then
    { domainProperties with DomainName := slicePrefix domainProperties.DomainName lastDotIndex }
  else domainProperties

/-- The part of the loop body of `runPreCrawlFilters` that turns a line into a record: `none` when
the line is skipped (empty after trimming, or fewer than five fields). -/
def parseZoneLine (line : String) : Option DomainProperties :=
  let line := TrimSpace line
  if line.utf8ByteSize = 0 then none
  else
    let fields := Fields line
    if fields.length < 5 then none
    else some (buildRecord fields)

/-! ## `internal/config`: handler options -/

/-- A handler's configuration (`config.TaskHandlerOptions`); `HandlerType` is the field `Type`. -/
structure TaskHandlerOptions where
  HandlerType : String
  StringOptions : GoMap String
  IntOptions : GoMap Int
  FloatOptions : GoMap ℚ
  BoolOptions : GoMap Bool
  deriving DecidableEq

/-! ## `internal/interfaces` and the pre-crawl filter chain -/

/-- A pre-crawl filter (`interfaces.PreConnectionFilter`).  The handlers are objects with mutable
fields; `σ` is the state of all configured handler objects together, which `Input` may read and
update.  The result `none` is Go's `nil`: the record is dropped. -/
structure PreConnectionFilter (σ : Type) where
  Input : σ → DomainProperties → σ × Option DomainProperties
  GetType : String

/-- The function `preCrawlProcessDomainProperties`: the `range` loop over `preCrawlFilterArray`,
and the `return nil` after it, which is reached when the array is empty. -/
def preCrawlProcessDomainProperties {σ : Type} :
    List (PreConnectionFilter σ) → σ → DomainProperties → σ × Option DomainProperties
  | [], s, _ => (s, none)
  | preCrawlFilter :: rest, s, inProperties =>
    match preCrawlFilter.Input s inProperties with
    | (s, none) => (s, none)
    | (s, some output) =>
      if 0 < rest.length then preCrawlProcessDomainProperties rest s output
      else (s, some output)

/-! ## `internal/task_handlers/pre_crawl_filters/unique_domain.go` -/

/-- The fields of a `UniqueDomainFilter`. -/
structure UniqueDomainFilter where
  domainSet : GoMap Bool
  bNameserverCheck : Bool
  bDiscardProperties : Bool
  deriving DecidableEq

def UniqueDomainFilter.Initialize (config : TaskHandlerOptions) : Except String UniqueDomainFilter :=
  match config.BoolOptions.get "b_nameserver_check" with
  | none => .error "Unable to find b_nameserver_check config option."
  | some bNameserverCheck =>
    match config.BoolOptions.get "b_discard_properties" with
    | none => .error "Unable to find b_discard_properties config option."
    | some bDiscardProperties =>
      .ok { domainSet := [], bNameserverCheck := bNameserverCheck,
            bDiscardProperties := bDiscardProperties }

def UniqueDomainFilter.Input (f : UniqueDomainFilter) (inProperties : DomainProperties) :
    UniqueDomainFilter × Option DomainProperties :=
  if f.bNameserverCheck ∧ (inProperties.StringProperties.get "record_type").getD "" ≠ "ns" then
    (f, none)
  else
    match f.domainSet.get inProperties.DomainName with
    | none =>
      let f := if f.domainSet.length > 1024 then { f with domainSet := [] } else f
      let f := { f with domainSet := f.domainSet.set inProperties.DomainName true }
      let inProperties :=
        if f.bDiscardProperties then
          { inProperties with
            StringProperties := [], IntProperties := [], FloatProperties := [],
            BoolProperties := [] }
        else inProperties
      (f, some inProperties)
    | some _ => (f, none)

def UniqueDomainFilter.GetType : String := "builtin.unique_domain"

/-- A `UniqueDomainFilter` object as a chain element. -/
def UniqueDomainFilter.handler : PreConnectionFilter UniqueDomainFilter :=
  { Input := UniqueDomainFilter.Input, GetType := UniqueDomainFilter.GetType }

/-! ## `internal/task_handlers/pre_crawl_filters/length_filter.go` -/

/-- The fields of a `LengthFilter`. -/
structure LengthFilter where
  minLength : Int
  maxLength : Int
  deriving DecidableEq

def LengthFilter.Initialize (config : TaskHandlerOptions) : Except String LengthFilter :=
  match config.IntOptions.get "min_length" with
  | none => .error "Unable to find min_length config option."
  | some minLength =>
    match config.IntOptions.get "max_length" with
    | none => .error "Unable to find max_length config option."
    | some maxLength => .ok { minLength := minLength, maxLength := maxLength }

def LengthFilter.Input (l : LengthFilter) (inProperties : DomainProperties) :
    Option DomainProperties :=
  let lastDotIndex := LastIndexDot inProperties.DomainName
  let urlWithoutLastDot :=
    if lastDotIndex ≠ -1 then slicePrefix inProperties.DomainName lastDotIndex else ""
  if (urlWithoutLastDot.utf8ByteSize : Int) < l.minLength then none
  else if (urlWithoutLastDot.utf8ByteSize : Int) > l.maxLength then none
  else some inProperties

/-- A `LengthFilter` object as a chain element; it has no mutable state. -/
def LengthFilter.handler {σ : Type} (l : LengthFilter) : PreConnectionFilter σ :=
  { Input := fun s inProperties => (s, l.Input inProperties), GetType := "builtin.length_filter" }

/-! ## `internal/database/database.go` -/

/-- A checkpoint (`PreCrawlFilterTaskState`; the post-crawl and indexer task states have the same
two fields). -/
structure PreCrawlFilterTaskState where
  BIsFinished : Bool
  LineIndex : Int
  deriving DecidableEq, Repr

/-- A value of the key-value store: the text passed to `setString`, represented by what it encodes,
either a plain string or the JSON document of a task state. -/
inductive DbValue where
  | text (s : String)
  | taskStateJSON (state : PreCrawlFilterTaskState)
  deriving DecidableEq

/-- The contents of the key-value store. -/
abbrev Database := GoMap DbValue

/-- The method `getString`; `none` is the error of a missing key. -/
def Database.getString (db : Database) (key : String) : Option DbValue := GoMap.get db key

def Database.setString (db : Database) (key : String) (value : DbValue) : Database :=
  GoMap.set db key value

def SavePreCrawlFilterTaskState (db : Database) (zoneName : String)
    (state : PreCrawlFilterTaskState) : Database :=
  db.setString (zoneName ++ "_pre_crawl_filter_task_state_json") (.taskStateJSON state)

/-- The method `GetPreCrawlFilterTaskState`; a stored value that is not the JSON of a task state
makes `json.Unmarshal` fail, which is fatal. -/
def GetPreCrawlFilterTaskState (db : Database) (zoneName : String) :
    Except String PreCrawlFilterTaskState :=
  match db.getString (zoneName ++ "_pre_crawl_filter_task_state_json") with
  | none => .ok { BIsFinished := false, LineIndex := 0 }
  | some (.taskStateJSON taskState) => .ok taskState
  | some (.text _) => .error "Error unmarshaling JSON"

/-! ## The mutable surroundings of a stage runner -/

/-- What the stage runners and the callbacks of their output buffers read and write: the
checkpoint store, the files (path to content; an absent path is a file that does not exist), the
application state and the runner's progress counter. -/
structure World where
  db : Database
  files : GoMap String
  app : ApplicationState
  processedWorkItems : Int

/-! ## `internal/filebuf/filebuf.go` -/

/-- The options of an output buffer.  The callbacks are closures over variables of the runner that
created the buffer; a runner passes the options with every call, built from the current values
of the variables its closures capture. -/
structure FileOutputBufferOptions where
  BulkOutputLimit : Int
  FilePath : String
  OnAppendCB : Option (World → World)
  OnFlushCB : Option (Nat → World → World)

/-- The mutable fields of a `FileOutputBuffer`. -/
structure FileOutputBuffer where
  buffer : String
  appendedLinesQty : Nat
  deriving DecidableEq

def NewFileOutputBuffer : FileOutputBuffer := { buffer := "", appendedLinesQty := 0 }

/-- The method `flushToFile`: append the buffer to the file (`O_APPEND|O_CREATE`) and empty it. -/
def FileOutputBuffer.flushToFile (o : FileOutputBuffer) (filePath : String) (w : World) :
    FileOutputBuffer × World :=
  if o.buffer.utf8ByteSize = 0 then (o, w)
  else
    ({ o with buffer := "" },
     { w with files := w.files.set filePath ((w.files.get filePath).getD "" ++ o.buffer) })

def FileOutputBuffer.AppendToFile (opts : FileOutputBufferOptions) (o : FileOutputBuffer)
    (line : String) (w : World) : FileOutputBuffer × World :=
  let o := { o with appendedLinesQty := o.appendedLinesQty + 1 }
  let o := { o with buffer := o.buffer ++ (line ++ "\n") }
  let (o, w) :=
    if (o.buffer.utf8ByteSize : Int) ≥ opts.BulkOutputLimit then o.flushToFile opts.FilePath w
    else (o, w)
  match opts.OnAppendCB with
  | some cb => (o, cb w)
  | none => (o, w)

def FileOutputBuffer.Flush (opts : FileOutputBufferOptions) (o : FileOutputBuffer) (w : World) :
    FileOutputBuffer × World :=
  let (o, w) := o.flushToFile opts.FilePath w
  match opts.OnFlushCB with
  | some cb => (o, cb o.appendedLinesQty w)
  | none => (o, w)

/-! ## `internal/helper` and `internal/path_manager` -/

/-- The lines that successive calls `reader.ReadString('\n')` return without an error, each with
its newline.  At the end of the input `ReadString` returns `io.EOF` together with the bytes that
follow the last newline; every caller here leaves its loop on that error without using them. -/
def readLinesChars (current : List Char) : List Char → List (List Char)
  | [] => []
  | c :: cs =>
    if c = '\n' then (current.reverse ++ ['\n']) :: readLinesChars [] cs
    else readLinesChars (c :: current) cs

/-- The lines of a file, as read with `ReadString`. -/
def ReadLines (content : String) : List String :=
  (readLinesChars [] content.toList).map String.mk

/-- The function `CountLinesInFile`, on the content of the file. -/
def CountLinesInFile (content : String) : Int := ((ReadLines content).length : Int)

/-- The function `GetPreCrawlFilterOutputFilePath`, for a cache folder path. -/
def GetPreCrawlFilterOutputFilePath (cacheFolderPath tldName : String) : String :=
  cacheFolderPath ++ "/zone/" ++ tldName ++ "/pre_crawl_output.txt"

/-! ## `internal/app/pre_crawl.go`: the pre-crawl runner -/

/-- What `runPreCrawlFilters` reads from the application and its surroundings: the configured
filter chain, the bulk output limit, the cache folder, and two oracles indexed by the number of
shutdown checks made so far: `signal n` tells whether the signal handler has called `OnShutdown`
since the previous check, `clock n` is the reading of the clock. -/
structure PreCrawlEnv (σ : Type) where
  preCrawlFilterArray : List (PreConnectionFilter σ)
  FileBulkOutputQty : Int
  cacheFolderPath : String
  signal : Nat → Bool
  clock : Nat → ℚ

/-- The variables of `runPreCrawlFilters`. -/
structure PreCrawlRun (σ : Type) where
  world : World
  handlers : σ
  bHasAppendedToFileOnce : Bool
  tick : Nat
  outputFileBuffer : FileOutputBuffer
  lineIndex : Int

/-- The options `outputBufferOpts`; `OnFlushCB` saves the checkpoint with the value that the
variable `lineIndex` has when the callback runs. -/
def preCrawlBufferOpts {σ : Type} (env : PreCrawlEnv σ) (zoneName : String) (lineIndex : Int) :
    FileOutputBufferOptions :=
  { BulkOutputLimit := env.FileBulkOutputQty
    FilePath := GetPreCrawlFilterOutputFilePath env.cacheFolderPath zoneName
    OnAppendCB := none
    OnFlushCB := some fun _ w =>
      let taskState : PreCrawlFilterTaskState := { BIsFinished := false, LineIndex := lineIndex }
      { w with db := SavePreCrawlFilterTaskState w.db zoneName taskState } }

/-- The statements `processedWorkItems++; SetProcessedWorkItems(processedWorkItems)`. -/
def countProcessed (now : ℚ) (w : World) : World :=
  let processedWorkItems := w.processedWorkItems + 1
  { w with
    processedWorkItems := processedWorkItems
    app := SetProcessedWorkItems now w.app processedWorkItems }

/-- The body of the line loop after the shutdown check and the read.  The three `continue`
statements (empty line, fewer than five fields, record dropped by the chain) count the line as
processed and leave `lineIndex` as it is. -/
def preCrawlLine {σ : Type} (env : PreCrawlEnv σ) (zoneName : String) (startLineIndex : Int)
    (line : String) (s : PreCrawlRun σ) : PreCrawlRun σ :=
  let now := env.clock s.tick
  if s.lineIndex ≥ startLineIndex then
    match parseZoneLine line with
    | none => { s with world := countProcessed now s.world }
    | some domainProperties =>
      match preCrawlProcessDomainProperties env.preCrawlFilterArray s.handlers domainProperties with
      | (handlers, none) => { s with handlers := handlers, world := countProcessed now s.world }
      | (handlers, some output) =>
        let jsonString := ToJSONString output
        let (outputFileBuffer, world) :=
          s.outputFileBuffer.AppendToFile (preCrawlBufferOpts env zoneName s.lineIndex) jsonString
            s.world
        { s with
          handlers := handlers
          outputFileBuffer := outputFileBuffer
          bHasAppendedToFileOnce := true
          world := countProcessed now world
          lineIndex := s.lineIndex + 1 }
  else { s with world := countProcessed now s.world, lineIndex := s.lineIndex + 1 }

/-- The shutdown check at the head of the line loop: the signal handler may have run since the
previous check. -/
def observeShutdown {σ : Type} (env : PreCrawlEnv σ) (s : PreCrawlRun σ) : PreCrawlRun σ :=
  { s with
    world := { s.world with app := if env.signal s.tick then OnShutdown s.world.app else s.world.app }
    tick := s.tick + 1 }

/-- The line loop of one zone over the lines still to read; the flag tells whether the runner
returned on a shutdown (after `outputFileBuffer.Flush()`). -/
def preCrawlLoop {σ : Type} (env : PreCrawlEnv σ) (zoneName : String) (startLineIndex : Int) :
    List String → PreCrawlRun σ → PreCrawlRun σ × Bool
  | [], s =>
    let s := observeShutdown env s
    if s.world.app.task = .Shutdown then
      let (outputFileBuffer, world) :=
        s.outputFileBuffer.Flush (preCrawlBufferOpts env zoneName s.lineIndex) s.world
      ({ s with outputFileBuffer := outputFileBuffer, world := world }, true)
    else (s, false)
  | line :: rest, s =>
    let s := observeShutdown env s
    if s.world.app.task = .Shutdown then
      let (outputFileBuffer, world) :=
        s.outputFileBuffer.Flush (preCrawlBufferOpts env zoneName s.lineIndex) s.world
      ({ s with outputFileBuffer := outputFileBuffer, world := world }, true)
    else preCrawlLoop env zoneName startLineIndex rest (preCrawlLine env zoneName startLineIndex line s)

/-- One iteration of the zone loop of `runPreCrawlFilters`, for the zone `zoneName` with zone
file `zoneFile` and `totalLines = totalLinesMap[zoneName]`; the flag tells whether the runner
returned on a shutdown. -/
def preCrawlZone {σ : Type} (env : PreCrawlEnv σ) (zoneName zoneFile : String) (totalLines : Int)
    (s : PreCrawlRun σ) : Except String (PreCrawlRun σ × Bool) :=
  match GetPreCrawlFilterTaskState s.world.db zoneName with
  | .error e => .error e
  | .ok taskState =>
    if taskState.BIsFinished then
      let processedWorkItems := s.world.processedWorkItems + totalLines
      .ok ({ s with
             bHasAppendedToFileOnce := true
             world := { s.world with
               processedWorkItems := processedWorkItems
               app := SetProcessedWorkItems (env.clock s.tick) s.world.app processedWorkItems } },
           false)
    else
      match s.world.files.get zoneFile with
      | none => .error "Error opening zone file."
      | some content =>
        let s := { s with outputFileBuffer := NewFileOutputBuffer, lineIndex := 0 }
        match preCrawlLoop env zoneName taskState.LineIndex (ReadLines content) s with
        | (s, true) => .ok (s, true)
        | (s, false) =>
          let (outputFileBuffer, world) :=
            s.outputFileBuffer.Flush (preCrawlBufferOpts env zoneName s.lineIndex) s.world
          let taskState := { taskState with BIsFinished := true }
          let world := { world with db := SavePreCrawlFilterTaskState world.db zoneName taskState }
          .ok ({ s with outputFileBuffer := outputFileBuffer, world := world }, false)

/-- The zone loop of `runPreCrawlFilters` over the zones still to visit. -/
def preCrawlZones {σ : Type} (env : PreCrawlEnv σ) (totalLinesMap : GoMap Int) :
    List (String × String) → PreCrawlRun σ → Except String (PreCrawlRun σ × Bool)
  | [], s => .ok (s, false)
  | (zoneName, zoneFile) :: rest, s =>
    match preCrawlZone env zoneName zoneFile ((totalLinesMap.get zoneName).getD 0) s with
    | .error e => .error e
    | .ok (s, true) => .ok (s, true)
    | .ok (s, false) => preCrawlZones env totalLinesMap rest s

/-- The function `getTotalZoneFileLinesToRead`. -/
def getTotalZoneFileLinesToRead (files : GoMap String) :
    List (String × String) → Except String (GoMap Int)
  | [] => .ok []
  | (zoneName, zoneFile) :: rest =>
    match files.get zoneFile, getTotalZoneFileLinesToRead files rest with
    | some content, .ok totalLinesMap => .ok (totalLinesMap.set zoneName (CountLinesInFile content))
    | none, _ => .error "Unable to read zone file lines."
    | _, .error e => .error e

/-- The function `runPreCrawlFilters`, for a zone registry visited in the order of the list. -/
def runPreCrawlFilters {σ : Type} (env : PreCrawlEnv σ) (zoneFileRegistry : List (String × String))
    (handlers : σ) (tick : Nat) (w : World) : Except String (PreCrawlRun σ) :=
  match getTotalZoneFileLinesToRead w.files zoneFileRegistry with
  | .error e => .error e
  | .ok totalLinesMap =>
    let totalWorkItems := (totalLinesMap.map Prod.snd).sum
    let app := SetTotalWorkItems w.app totalWorkItems
    let app := SetProcessedWorkItems (env.clock tick) app 0
    let s : PreCrawlRun σ :=
      { world := { w with app := app, processedWorkItems := 0 }
        handlers := handlers
        bHasAppendedToFileOnce := false
        tick := tick
        outputFileBuffer := NewFileOutputBuffer
        lineIndex := 0 }
    match preCrawlZones env totalLinesMap zoneFileRegistry s with
    | .error e => .error e
    | .ok (s, true) => .ok s
    | .ok (s, false) =>
      if !s.bHasAppendedToFileOnce then
        let errorDetails := "Pre-crawl filters didn't produce any output. Unable to continue indexing."
        .ok { s with world := { s.world with app := OnErrored s.world.app errorDetails } }
      else
        match OnPreCrawlFiltersFinished s.world.app with
        | .error e => .error e
        | .ok app => .ok { s with world := { s.world with app := app } }

/-! ## `internal/app/index_task.go`: score normalisation -/

/-- The function `findMinMaxIndexerScore`; the triple carries `minScore`, `maxScore`, `first`. -/
def findMinMaxIndexerScore (scores : GoMap Float64) : Float64 × Float64 :=
  let r := scores.foldl
    (fun (acc : Float64 × Float64 × Bool) kv =>
      if acc.2.2 then (kv.2, kv.2, false)
      else
        let maxScore := if Float64.lt acc.2.1 kv.2 then kv.2 else acc.2.1
        let minScore := if Float64.lt kv.2 acc.1 then kv.2 else acc.1
        (minScore, maxScore, false))
    (.finite 0, .finite 0, true)
  (r.1, r.2.1)

/-- The function `normalizeIndexerScore`. -/
def normalizeIndexerScore (scores : GoMap Float64) : GoMap Float64 :=
  let minScore := (findMinMaxIndexerScore scores).1
  let maxScore := (findMinMaxIndexerScore scores).2
  let scoreRange := Float64.sub maxScore minScore
  scores.foldl
    (fun normalizedScores kv =>
      if scoreRange = .finite 0 then GoMap.set normalizedScores kv.1 (.finite 1)
      else
        GoMap.set normalizedScores kv.1 (Float64.div (Float64.sub kv.2 minScore) scoreRange))
    []

/-! ### Specification-side definitions for the score normalisation -/

/-- A score map of finite scores, given by their rational values. -/
def finiteScores (scores : GoMap ℚ) : GoMap Float64 :=
  scores.map fun e => (e.1, Float64.finite e.2)

/-- The least and the greatest of the scores of a map of rational scores that is not empty (the
pair 0, 0 for the empty map), found by one pass over the map. -/
def scoreBounds (scores : GoMap ℚ) : ℚ × ℚ :=
  let r := scores.foldl
    (fun (acc : ℚ × ℚ × Bool) kv =>
      if acc.2.2 then (kv.2, kv.2, false)
      else
        let maxScore := if kv.2 > acc.2.1 then kv.2 else acc.2.1
        let minScore := if kv.2 < acc.1 then kv.2 else acc.1
        (minScore, maxScore, false))
    (0, 0, true)
  (r.1, r.2.1)

/-- A score map whose range `2^1023 - (-2^1023) = 2^1024` is beyond the largest `float64`. -/
def wideScores : GoMap Float64 :=
  [("a", .finite (-(2 ^ 1023))), ("b", .finite (2 ^ 1023)), ("c", .finite 0)]

/-! ## Rankers: `internal/interfaces`, `internal/task_handlers/rankers`, `internal/app` -/

/-- A ranker (`interfaces.Ranker`).  The first argument of `Input` numbers the call within a run
of `runRankers`: it stands for what a ranker draws from outside the record and the query (the
random ranker's `rand.Float64()`); a deterministic ranker ignores it. -/
structure Ranker where
  Initialize : TaskHandlerOptions → Except String Unit
  Input : Nat → DomainProperties → String → ℚ
  GetType : String

/-- The ranker `IndexerRanker`. -/
def IndexerRanker : Ranker :=
  { Initialize := fun _ => .ok ()
    Input := fun _ inProperties _ =>
      match inProperties.FloatProperties.get "normalized_indexer_score" with
      | none => 0
      | some indexScore => indexScore
    GetType := "builtin.indexer_ranker" }

/-- The ranker `RandomRanker`; `rand n` is the value `rand.Float64()` returns in call `n`. -/
def RandomRanker (rand : Nat → ℚ) : Ranker :=
  { Initialize := fun _ => .ok ()
    Input := fun call _ _ => rand call
    GetType := "builtin.random_ranker" }

/-- The registry filled by `registerRankers`. -/
def registerRankers (rand : Nat → ℚ) : GoMap Ranker :=
  GoMap.set (GoMap.set [] "builtin.random_ranker" (RandomRanker rand)) "builtin.indexer_ranker"
    IndexerRanker

/-- The option `FloatOptions["weight"]`, zero when absent. -/
def rankerWeightOf (options : TaskHandlerOptions) : ℚ :=
  (options.FloatOptions.get "weight").getD 0

/-- The first loop of the ranker part of `initializeTaskHandlers`: resolve and initialise every
configured ranker, append it to `rankerArray`, and add up the weights. -/
def initializeRankerArray (rankerRegistry : GoMap Ranker) :
    List TaskHandlerOptions → List Ranker × ℚ → Except String (List Ranker × ℚ)
  | [], acc => .ok acc
  | rankerOptions :: rest, (rankerArray, totalRankerWeights) =>
    match rankerRegistry.get rankerOptions.HandlerType with
    | none => .error "Ranker not found in registry."
    | some ranker =>
      match ranker.Initialize rankerOptions with
      | .error _ => .error "Unable to initialize Ranker."
      | .ok _ =>
        initializeRankerArray rankerRegistry rest
          (rankerArray ++ [ranker], totalRankerWeights + rankerWeightOf rankerOptions)

/-- The options `foundRankerOption` of the second loop: the first configured entry of the given
type, the zero value when there is none. -/
def foundRankerOption (RankerOptions : List TaskHandlerOptions) (rankerType : String) :
    TaskHandlerOptions :=
  match RankerOptions.find? (fun taskHandlerConfig => taskHandlerConfig.HandlerType = rankerType) with
  | some taskHandlerConfig => taskHandlerConfig
  | none =>
    { HandlerType := "", StringOptions := [], IntOptions := [], FloatOptions := [],
      BoolOptions := [] }

/-- The second loop: the normalised weight of every ranker in `rankerArray`.  The quotient is a
quotient of `float64`; for a zero total Go yields NaN or an infinity, so the theorems about the
table assume a non-zero total. -/
def normalizeRankerWeights (RankerOptions : List TaskHandlerOptions) (totalRankerWeights : ℚ)
    (rankerArray : List Ranker) (rankerWeightMap : GoMap ℚ) : GoMap ℚ :=
  rankerArray.foldl
    (fun rankerWeightMap ranker =>
      let rankerType := ranker.GetType
      let rankerWeight := rankerWeightOf (foundRankerOption RankerOptions rankerType)
      let normalizedRankerWeight := rankerWeight / totalRankerWeights
      GoMap.set rankerWeightMap rankerType normalizedRankerWeight)
    rankerWeightMap

/-- The fields of `Application` that the rankers use. -/
structure RankerSetup where
  rankerArray : List Ranker
  rankerWeightMap : GoMap ℚ

/-- The ranker part of `initializeTaskHandlers`. -/
def initializeTaskHandlers (rankerRegistry : GoMap Ranker) (RankerOptions : List TaskHandlerOptions) :
    Except String RankerSetup :=
  match initializeRankerArray rankerRegistry RankerOptions ([], 0) with
  | .error e => .error e
  | .ok (rankerArray, totalRankerWeights) =>
    .ok { rankerArray := rankerArray
          rankerWeightMap := normalizeRankerWeights RankerOptions totalRankerWeights rankerArray [] }

/-- A `scoreItem` of `runRankers`. -/
structure scoreItem where
  DomainProperties : DomainProperties
  Score : ℚ

/-- The inner loop of `runRankers`: the score of one record, whose first ranker call has number
`call`. -/
def outputScore (a : RankerSetup) (call : Nat) (domainProperties : DomainProperties)
    (userQuery : String) : ℚ :=
  (a.rankerArray.foldl
    (fun (acc : ℚ × Nat) ranker =>
      let rankerNormalizedWeight := (a.rankerWeightMap.get ranker.GetType).getD 0
      (acc.1 + ranker.Input acc.2 domainProperties userQuery * rankerNormalizedWeight, acc.2 + 1))
    (0, call)).1

/-- The outer loop of `runRankers`: the list `scoreList`. -/
def scoreListFrom (a : RankerSetup) (userQuery : String) : Nat → List DomainProperties →
    List scoreItem
  | _, [] => []
  | call, domainProperties :: rest =>
    { DomainProperties := domainProperties
      Score := outputScore a call domainProperties userQuery } ::
      scoreListFrom a userQuery (call + a.rankerArray.length) rest

/-- Insertion of an element into a list ordered by `less`. -/
def insertSlice {α : Type} (less : α → α → Bool) (x : α) : List α → List α
  | [] => [x]
  | y :: ys => if less y x then y :: insertSlice less x ys else x :: y :: ys

/-- The function `sort.Slice` with the comparison `less`.  Go's sort is not stable and does not
fix the order of elements that compare as equal; this is one sort that meets its contract, and
the theorems use only that the result is a permutation ordered by `less`. -/
def sortSlice {α : Type} (less : α → α → Bool) (xs : List α) : List α :=
  xs.foldr (insertSlice less) []

/-- The function `runRankers`. -/
def runRankers (a : RankerSetup) (input : List DomainProperties) (userQuery : String) :
    List DomainProperties :=
  let scoreList := scoreListFrom a userQuery 0 input
  let scoreList := sortSlice (fun i j => decide (i.Score > j.Score)) scoreList
  scoreList.map fun item => item.DomainProperties

/-! ## Example records -/

/-- A record with attributes in all four buckets; `visits` is an integral double. -/
def exampleRecord : DomainProperties :=
  { DomainName := "example.com"
    StringProperties := [("owner", "John Doe"), ("email", "john@example.com")]
    IntProperties := [("creationDate", 1620784027), ("expirationDate", 1652320027)]
    FloatProperties := [("rating", 9 / 2), ("visits", 3)]
    BoolProperties := [("active", true)] }

/-- A record with a string attribute stored under the reserved key `domainName`. -/
def reservedKeyRecord : DomainProperties :=
  { DomainName := "example.com"
    StringProperties := [("domainName", "other.org")]
    IntProperties := []
    FloatProperties := []
    BoolProperties := [] }

/-- A record with an int attribute beyond `2^53`: `2^53 + 1`. -/
def largeIntRecord : DomainProperties :=
  { DomainName := "example.com"
    StringProperties := []
    IntProperties := [("serial", 9007199254740993)]
    FloatProperties := []
    BoolProperties := [] }

/-- A record with an integral double beyond the range of `int64`: `2^63`. -/
def hugeDoubleRecord : DomainProperties :=
  { DomainName := "example.com"
    StringProperties := []
    IntProperties := []
    FloatProperties := [("size", 9223372036854775808)]
    BoolProperties := [] }

/-- The record `UnmarshalJSON` reads, into a fresh record, from the text `ToJSONString` wrote. -/
def roundTrip (d : DomainProperties) : Except String DomainProperties :=
  UnmarshalJSON.ofText (ToJSONString d) NewDomainProperties

/-! ## Specification-side definitions for the rankers -/

/-- The options of a configured ranker of the given type with the given weight. -/
def rankerOptions (rankerType : String) (weight : ℚ) : TaskHandlerOptions :=
  { HandlerType := rankerType
    StringOptions := []
    IntOptions := []
    FloatOptions := [("weight", weight)]
    BoolOptions := [] }

/-- A record that carries a normalized indexer score. -/
def scoredRecord (domainName : String) (score : ℚ) : DomainProperties :=
  { DomainName := domainName
    StringProperties := []
    IntProperties := []
    FloatProperties := [("normalized_indexer_score", score)]
    BoolProperties := [] }

/-- A configuration that lists the indexer ranker twice, with the weights 3 and 1. -/
def duplicateRankerOptions : List TaskHandlerOptions :=
  [rankerOptions "builtin.indexer_ranker" 3, rankerOptions "builtin.indexer_ranker" 1]

/-! ## What the pre-crawl runner writes -/

/-- The records for which the loop body of `runPreCrawlFilters` reaches `AppendToFile`, over a
list of lines as `ReadString` returns them: the results of the calls of
`preCrawlProcessDomainProperties` that are not nil, the calls being made in input order starting
from the handler state `handlers`. -/
def emittedRecords {σ : Type} (filters : List (PreConnectionFilter σ)) :
    σ → List String → List DomainProperties
  | _, [] => []
  | handlers, line :: rest =>
    match parseZoneLine line with
    | none => emittedRecords filters handlers rest
    | some record =>
      match preCrawlProcessDomainProperties filters handlers record with
      | (handlers, none) => emittedRecords filters handlers rest
      | (handlers, some output) => output :: emittedRecords filters handlers rest

/-- One JSON line per record, each followed by a newline. -/
def jsonLines : List DomainProperties → String
  | [] => ""
  | record :: rest => (ToJSONString record ++ "\n") ++ jsonLines rest

/-- The content of a file, empty when the file does not exist. -/
def fileContent (files : GoMap String) (path : String) : String := (files.get path).getD ""

/-- The text a runner has produced for a path so far: what is in the file, followed by what is
still in the buffer. -/
def outputWritten (path : String) (o : FileOutputBuffer) (w : World) : String :=
  fileContent w.files path ++ o.buffer

/-! ## Specification-side definitions for the JSON round trip -/

/-- All attribute keys of a record: those of the string, int, float and bool buckets. -/
def attributeKeys (d : DomainProperties) : List String :=
  GoMap.keys d.StringProperties ++ GoMap.keys d.IntProperties ++ GoMap.keys d.FloatProperties ++
    GoMap.keys d.BoolProperties

/-- The value that `json.Unmarshal` reads, into an `interface{}`, from the text `json.Marshal`
writes for a property value within the conditions of the round trip (`readValue_jsonValueText`):
a string or a boolean as it is, an int as the `float64` nearest to it, a double as it is. -/
def decodeMarshalledValue : PropertyValue → JsonValue
  | .str s => .string s
  | .int64 n => .number (float64OfInt n)
  | .float64 q => .number q
  | .bool b => .bool b

/-- The members `decodeMarshalledValue` gives for the members of a map of property values. -/
def decodeMarshalled (m : GoMap PropertyValue) : GoMap JsonValue :=
  m.map fun e => (e.1, decodeMarshalledValue e.2)

/-- The value of a numeric attribute, whichever of the two numeric buckets holds it. -/
def numericValue (d : DomainProperties) (k : String) : Option ℚ :=
  match d.IntProperties.get k with
  | some n => some (n : ℚ)
  | none => d.FloatProperties.get k

/-! ## Example inputs -/

/-- The zone-file line of the specification's first scenario, as `ReadString` returns it. -/
def exampleLine : String := "example.com. 3600 IN NS ns1.example.net.\n"

/-- The same line with the record class and type in lower case. -/
def exampleLineLowerCase : String := "example.com. 3600 in ns ns1.example.net.\n"

/-- The same line with a domain name that does not end in a dot. -/
def exampleLineNoTrailingDot : String := "example.com 3600 IN NS ns1.example.net.\n"

/-- Options of a unique-domain filter with the nameserver check on. -/
def uniqueDomainOptions (bDiscardProperties : Bool) : TaskHandlerOptions :=
  { HandlerType := "builtin.unique_domain"
    StringOptions := []
    IntOptions := []
    FloatOptions := []
    BoolOptions := [("b_nameserver_check", true), ("b_discard_properties", bDiscardProperties)] }

/-- A zone file of three lines: a comment and two name-server records. -/
def exampleZoneFile : String :=
  "; zone com\na.com. 3600 in ns ns1.a.net.\nb.com. 3600 in ns ns1.b.net.\n"

/-- A pre-crawl configuration with one stateless filter, a length filter that admits labels of 1
to 63 bytes, and a bulk output limit of 4096 bytes. -/
def exampleEnv (signal : Nat → Bool) : PreCrawlEnv Unit :=
  { preCrawlFilterArray := [LengthFilter.handler { minLength := 1, maxLength := 63 }]
    FileBulkOutputQty := 4096
    cacheFolderPath := "cache"
    signal := signal
    clock := fun _ => 0 }

/-- The variables of the runner when a process starts on the given store and files. -/
def exampleStart (db : Database) (files : GoMap String) : PreCrawlRun Unit :=
  { world :=
      { db := db
        files := files
        app := { NewApplicationStateManager with task := .RunningPreCrawlFilters }
        processedWorkItems := 0 }
    handlers := ()
    bHasAppendedToFileOnce := false
    tick := 0
    outputFileBuffer := NewFileOutputBuffer
    lineIndex := 0 }

/-- What a run of `preCrawlZone` on the example zone leaves behind: whether it returned on a
shutdown, the checkpoint of the zone, and the pre-crawl output file. -/
def exampleOutcome (r : Except String (PreCrawlRun Unit × Bool)) :
    Option (Bool × Option DbValue × Option String) :=
  match r with
  | .error _ => none
  | .ok (s, stopped) =>
    some (stopped, s.world.db.getString "com_pre_crawl_filter_task_state_json",
      s.world.files.get "cache/zone/com/pre_crawl_output.txt")

/-- A first process on the example zone file that is shut down at the given check. -/
def exampleFirstRun (shutdownAt : Nat) : Except String (PreCrawlRun Unit × Bool) :=
  preCrawlZone (exampleEnv fun n => n == shutdownAt) "com" "zones/com.txt" 3
    (exampleStart [] [("zones/com.txt", exampleZoneFile)])

/-- A second, uninterrupted process that starts from what the first one left on disk. -/
def exampleSecondRun (shutdownAt : Nat) : Except String (PreCrawlRun Unit × Bool) :=
  match exampleFirstRun shutdownAt with
  | .error e => .error e
  | .ok (s, _) =>
    preCrawlZone (exampleEnv fun _ => false) "com" "zones/com.txt" 3
      (exampleStart s.world.db s.world.files)

/-- The JSON lines of the two records of the example zone file. -/
def exampleRecordA : String :=
  "\x7b\"domainName\":\"a.com\",\"record_class\":\"in\",\"record_data\":\"ns1.a.net.\"," ++
    "\"record_type\":\"ns\",\"ttl\":\"3600\"\x7d\n"

def exampleRecordB : String :=
  "\x7b\"domainName\":\"b.com\",\"record_class\":\"in\",\"record_data\":\"ns1.b.net.\"," ++
    "\"record_type\":\"ns\",\"ttl\":\"3600\"\x7d\n"

/-! ## Feeding a sequence of records to the unique-domain filter -/

/-- The loop of `TestUniqueDomainFilter`: the records are passed to `Input` in order and the
outputs that are not nil are collected. -/
def UniqueDomainFilter.feed (f : UniqueDomainFilter) :
    List DomainProperties → UniqueDomainFilter × List DomainProperties
  | [] => (f, [])
  | domainProperties :: rest =>
    match f.Input domainProperties with
    | (f, none) => UniqueDomainFilter.feed f rest
    | (f, some outProperties) =>
      let r := UniqueDomainFilter.feed f rest
      (r.1, outProperties :: r.2)

/-- Records with the same domain name are adjacent: once the run of records that carry the name
of the first record has ended, that name does not come back, and so on down the list. -/
def clustered : List DomainProperties → Prop
  | [] => True
  | record :: rest =>
    (∀ later ∈ rest.dropWhile (fun r => r.DomainName = record.DomainName),
        later.DomainName ≠ record.DomainName) ∧
      clustered rest

/-- The first record of every run of equal domain names, in input order; `previous` is the
domain name of the record that came just before, if any. -/
def runHeads : Option String → List DomainProperties → List DomainProperties
  | _, [] => []
  | previous, record :: rest =>
    if previous = some record.DomainName then runHeads previous rest
    else record :: runHeads (some record.DomainName) rest

/-- What the unique-domain filter emits for a record it lets through: the record itself, with
its four attribute maps emptied when the option `b_discard_properties` is set. -/
def emittedForm (bDiscardProperties : Bool) (record : DomainProperties) : DomainProperties :=
  if bDiscardProperties then
    { record with
      StringProperties := [], IntProperties := [], FloatProperties := [], BoolProperties := [] }
  else record

/-- The records of `TestUniqueDomainFilter`. -/
def nsRecord (domainName : String) : DomainProperties :=
  { NewDomainProperties with
    DomainName := domainName
    StringProperties := GoMap.set [] "record_type" "ns" }

/-- The nine records of `TestUniqueDomainFilter`: three name-server records for each of `a.com`,
`b.com` and `c.com`, in that order. -/
def testUniqueDomainRecords : List DomainProperties :=
  [nsRecord "a.com", nsRecord "a.com", nsRecord "a.com",
   nsRecord "b.com", nsRecord "b.com", nsRecord "b.com",
   nsRecord "c.com", nsRecord "c.com", nsRecord "c.com"]

/-! ## `internal/task_handlers/pre_crawl_filters/entropy_filter.go` -/

/-- The fields of an `EntropyFilter`. -/
structure EntropyFilter where
  discardRatio : ℚ
  deriving DecidableEq

def EntropyFilter.Initialize (config : TaskHandlerOptions) : Except String EntropyFilter :=
  match config.FloatOptions.get "discard_ratio" with
  | none => .error "Unable to find discard_ratio config option."
  | some discardRatio => .ok { discardRatio := discardRatio }

/-- The keys of the `map[rune]bool` filled by `for _, c := range s { characterSet[c] = true }`,
in order of first insertion. -/
def characterSet (s : String) : List Char :=
  s.toList.foldl (fun set c => if c ∈ set then set else set ++ [c]) []

/-- The method `EntropyFilter.Input`.  `len(characterSet)` counts runes, `len(urlWithoutDomainName)`
counts bytes.  For an empty label the quotient is `0/0`, a NaN, and `NaN >= discardRatio` is false,
so the record is returned. -/
def EntropyFilter.Input (e : EntropyFilter) (inProperties : DomainProperties) :
    Option DomainProperties :=
  let domainName := inProperties.DomainName
  let lastDotIndex := LastIndexDot domainName
  let urlWithoutDomainName :=
    if lastDotIndex ≠ -1 then slicePrefix domainName lastDotIndex else ""
  let uniqueCharactersQty : Nat := (characterSet urlWithoutDomainName).length
  let totalCharacterQty : Nat := urlWithoutDomainName.utf8ByteSize
  if totalCharacterQty = 0 then some inProperties
  else
    let ratio : ℚ := (uniqueCharactersQty : ℚ) / (totalCharacterQty : ℚ)
    if ratio ≥ e.discardRatio then none else some inProperties

def EntropyFilter.GetType : String := "builtin.discard_high_entropy"

/-- An `EntropyFilter` object as a chain element; it has no mutable state. -/
def EntropyFilter.handler {σ : Type} (e : EntropyFilter) : PreConnectionFilter σ :=
  { Input := fun s inProperties => (s, e.Input inProperties), GetType := EntropyFilter.GetType }

/-- The part of a domain name that precedes its last dot (empty when there is no dot). -/
def labelBeforeLastDot (domainName : String) : String :=
  if LastIndexDot domainName ≠ -1 then slicePrefix domainName (LastIndexDot domainName) else ""

/-- The ratio of the specification: distinct characters over all characters of the label, both
counted in characters. -/
def characterRatio (domainName : String) : ℚ :=
  ((labelBeforeLastDot domainName).toList.dedup.length : ℚ) /
    ((labelBeforeLastDot domainName).length : ℚ)

/-- A record that has only a domain name. -/
def namedRecord (domainName : String) : DomainProperties :=
  { NewDomainProperties with DomainName := domainName }

/-! ## `golang.org/x/net/html`: the node tree read by the description filter -/

/-- The type `html.NodeType`. -/
inductive NodeType where
  | ErrorNode
  | TextNode
  | DocumentNode
  | ElementNode
  | CommentNode
  | DoctypeNode
  | RawNode
  deriving DecidableEq, Repr

/-- The type `html.Attribute`. -/
structure Attribute where
  Namespace : String
  Key : String
  Val : String
  deriving DecidableEq, Repr

/-- A pointer to an `html.Node`, with the fields that `DescriptionFilter.Input` reads: `nil` is
the nil pointer, and the two pointers of a node are its first child and its next sibling. -/
inductive Node where
  | nil
  | node (NodeKind : NodeType) (Data : String) (Attr : List Attribute)
      (FirstChild NextSibling : Node)
  deriving DecidableEq, Repr

/-! ## `internal/task_handlers/post_crawl_filters/description_filter.go` -/

/-- The fields of a `DescriptionFilter`; the compiled regular expression is represented by its
method `MatchString`. -/
structure DescriptionFilter where
  descriptionRegex : String → Bool
  outputArray : List DomainProperties

/-- The method `DescriptionFilter.Initialize`; `compile` stands for `regexp.Compile`. -/
def DescriptionFilter.Initialize (compile : String → Except String (String → Bool))
    (config : TaskHandlerOptions) : Except String DescriptionFilter :=
  match config.StringOptions.get "description_regex" with
  | none => .error "Unable to find description_regex config option."
  | some descriptionRegexString =>
    match compile descriptionRegexString with
    | .error _ => .error "Unable to compile regex."
    | .ok descriptionRegex => .ok { descriptionRegex := descriptionRegex, outputArray := [] }

/-- The loop over `node.Attr`: the values of `nameAttr` and `contentAttr` after it. -/
def scanAttr (attrs : List Attribute) : Option Attribute × Option Attribute :=
  attrs.foldl
    (fun (found : Option Attribute × Option Attribute) attrCopy =>
      let nameAttr :=
        if attrCopy.Key = "name" ∧ attrCopy.Val = "description" then some attrCopy else found.1
      let contentAttr := if attrCopy.Key = "content" then some attrCopy else found.2
      (nameAttr, contentAttr))
    (none, none)

/-- The first statement of the closure `crawler`: the value assigned to `description` when the
node is a `meta` element with both attributes, in which case the call returns. -/
def metaDescription (nodeType : NodeType) (data : String) (attrs : List Attribute) :
    Option String :=
  if nodeType = NodeType.ElementNode ∧ data = "meta" then
    match scanAttr attrs with
    | (some _, some contentAttr) => some contentAttr.Val
    | _ => none
  else none

/-- The loop `for child := c; child != nil; child = child.NextSibling { crawler(child) }` started
at the pointer `c`, as a transformer of the captured variable `description`. -/
def crawlerLoop : Node → String → String
  | .nil, description => description
  | .node nodeType data attrs firstChild nextSibling, description =>
    crawlerLoop nextSibling
      (match metaDescription nodeType data attrs with
       | some val => val
       | none => crawlerLoop firstChild description)

/-- The closure `crawler`, as a transformer of the captured variable `description`; a nil pointer
is dereferenced at `node.Type`. -/
def crawler : Node → String → Except String String
  | .nil, _ => .error "invalid memory address or nil pointer dereference"
  | .node nodeType data attrs firstChild _, description =>
    match metaDescription nodeType data attrs with
    | some val => .ok val
    | none => .ok (crawlerLoop firstChild description)

/-- The method `DescriptionFilter.Input`; the header is not read. -/
def DescriptionFilter.Input (d : DescriptionFilter) (inProperties : DomainProperties)
    (baseNode : Node) : Except String (Option DomainProperties) :=
  match crawler baseNode "" with
  | .error e => .error e
  | .ok description =>
    if d.descriptionRegex description then
      .ok (some { inProperties with
        StringProperties := inProperties.StringProperties.set "description" description })
    else .ok none

def DescriptionFilter.GetType : String := "builtin.description_filter"

/-- Whether a node is a `<meta name="description">` element. -/
def isMetaNameDescription (nodeType : NodeType) (data : String) (attrs : List Attribute) : Bool :=
  decide (nodeType = NodeType.ElementNode) && decide (data = "meta") &&
    attrs.any (fun attr => decide (attr.Key = "name") && decide (attr.Val = "description"))

/-- The attributes of the first `<meta name="description">` element met in a depth-first walk in
document order through the nodes reachable from a pointer (the node, its descendants, then its
following siblings). -/
def firstMetaNameDescription : Node → Option (List Attribute)
  | .nil => none
  | .node nodeType data attrs firstChild nextSibling =>
    if isMetaNameDescription nodeType data attrs then some attrs
    else
      match firstMetaNameDescription firstChild with
      | some found => some found
      | none => firstMetaNameDescription nextSibling

/-- The value of the `content` attribute in a list of attributes. -/
def contentAttribute (attrs : List Attribute) : Option String :=
  (attrs.find? (fun attr => decide (attr.Key = "content"))).map (fun attr => attr.Val)

/-- The description of the specification: the `content` attribute of the first
`<meta name="description">` element of the walk. -/
def firstDescription (baseNode : Node) : Option String :=
  (firstMetaNameDescription baseNode).bind contentAttribute

/-- The last value a walk through the nodes reachable from a pointer assigns to `description`: the
content of the last `meta` element with both attributes, where the walk does not enter such an
element. -/
def lastDescription : Node → Option String
  | .nil => none
  | .node nodeType data attrs firstChild nextSibling =>
    match lastDescription nextSibling with
    | some val => some val
    | none =>
      match metaDescription nodeType data attrs with
      | some val => some val
      | none => lastDescription firstChild

/-- An element node without attributes. -/
def element (data : String) (firstChild nextSibling : Node) : Node :=
  .node NodeType.ElementNode data [] firstChild nextSibling

/-- A text node. -/
def textNode (data : String) (nextSibling : Node) : Node :=
  .node NodeType.TextNode data [] .nil nextSibling

/-- The element `<meta name="description" content=...>`. -/
def metaNode (content : String) (nextSibling : Node) : Node :=
  .node NodeType.ElementNode "meta"
    [{ Namespace := "", Key := "name", Val := "description" },
     { Namespace := "", Key := "content", Val := content }]
    .nil nextSibling

/-- A document whose head holds two `<meta name="description">` elements, with the contents
`Example shop` and `Other`, in this order. -/
def twoDescriptionsDocument : Node :=
  .node NodeType.DocumentNode "" []
    (element "html"
      (element "head" (metaNode "Example shop" (metaNode "Other" .nil))
        (element "body" .nil .nil))
      .nil)
    .nil

/-- The document of `TestDescriptionFilter`, white space between the elements left out. -/
def testDescriptionDocument : Node :=
  .node NodeType.DocumentNode "" []
    (.node NodeType.DoctypeNode "html" [] .nil
      (element "html"
        (element "head"
          (metaNode "This is an example meta description."
            (element "title" (textNode "Example" .nil) .nil))
          (element "body"
            (element "h1" (textNode "Heading" .nil)
              (element "p" (textNode "This is an example document." .nil) .nil))
            .nil))
        .nil))
    .nil

/-- Whether `pattern` occurs in `text` as a block of consecutive characters. -/
def occursIn (pattern : List Char) : List Char → Bool
  | [] => pattern.isEmpty
  | c :: rest => pattern.isPrefixOf (c :: rest) || occursIn pattern rest

/-- The matcher of the regular expression `^.*example meta.*$` of `TestDescriptionFilter`: the
text holds `example meta` and no line feed. -/
def matchExampleMeta (s : String) : Bool :=
  occursIn "example meta".toList s.toList && s.toList.all (fun c => decide (c ≠ '\n'))

/-- The matcher of the regular expression `^Example shop$`. -/
def matchExampleShop (s : String) : Bool := decide (s = "Example shop")

/-- The record of `TestDescriptionFilter`. -/
def exampleComRecord : DomainProperties := { NewDomainProperties with DomainName := "example.com" }

/-! ## Sequences of calls on an output buffer -/

/-- The calls `AppendToFile(line)` for the lines of a list, in order. -/
def FileOutputBuffer.appendLines (opts : FileOutputBufferOptions) :
    FileOutputBuffer → List String → World → FileOutputBuffer × World
  | o, [], w => (o, w)
  | o, line :: rest, w =>
    FileOutputBuffer.appendLines opts (o.AppendToFile opts line w).1 rest
      (o.AppendToFile opts line w).2

/-- The lines of a list, each followed by one newline. -/
def linesText : List String → String
  | [] => ""
  | line :: rest => (line ++ "\n") ++ linesText rest

/-- Options whose callbacks leave a trace: `OnAppendCB` counts its calls in `processedWorkItems`,
`OnFlushCB` stores the count it is given as the line index of the checkpoint of `com`. -/
def tracingOpts (bulkOutputLimit : Int) : FileOutputBufferOptions :=
  { BulkOutputLimit := bulkOutputLimit
    FilePath := "cache/out.txt"
    OnAppendCB := some fun w => { w with processedWorkItems := w.processedWorkItems + 1 }
    OnFlushCB := some fun appendedLinesQty w =>
      let taskState : PreCrawlFilterTaskState :=
        { BIsFinished := false, LineIndex := (appendedLinesQty : Int) }
      { w with db := SavePreCrawlFilterTaskState w.db "com" taskState } }

/-- A world with an empty store and no files. -/
def emptyWorld : World :=
  { db := [], files := [], app := NewApplicationStateManager, processedWorkItems := 0 }

/-- A sequence of calls `AppendToFile` on a new buffer, followed by one call of `Flush`. -/
def appendThenFlush (opts : FileOutputBufferOptions) (lines : List String) (w : World) :
    FileOutputBuffer × World :=
  (NewFileOutputBuffer.appendLines opts lines w).1.Flush opts
    (NewFileOutputBuffer.appendLines opts lines w).2

/-! ## `internal/database/database.go`: opening the store, the other two task states -/

/-- The constant `dbSchemeVersion`. -/
def dbSchemeVersion : String := "1.0"

/-- The method `Purge`: `DropAll` removes every key. -/
def Database.Purge (_db : Database) : Database := []

/-- The method `initialize`: it writes the version key and nothing else. -/
def Database.initialize (db : Database) : Database :=
  db.setString "db_scheme_version" (.text dbSchemeVersion)

/-- The function `NewDatabase`, on the contents of the store found at the path; opening the
underlying store is assumed to succeed.  A version key whose value is not a plain string is
compared as a text different from `1.0`. -/
def NewDatabase (stored : Database) : Database :=
  match stored.getString "db_scheme_version" with
  | none => stored.initialize
  | some (.text version) => if version ≠ "1.0" then stored.initialize else stored
  | some (.taskStateJSON _) => stored.initialize

/-- The type `PostCrawlFilterTaskState`: the same two fields with the same JSON names as
`PreCrawlFilterTaskState`, hence the same JSON documents. -/
abbrev PostCrawlFilterTaskState := PreCrawlFilterTaskState

/-- The type `IndexerTaskState`: the same two fields with the same JSON names again. -/
abbrev IndexerTaskState := PreCrawlFilterTaskState

def SavePostCrawlFilterTaskState (db : Database) (zoneName : String)
    (state : PostCrawlFilterTaskState) : Database :=
  db.setString (zoneName ++ "_post_crawl_filter_task_state_json") (.taskStateJSON state)

def GetPostCrawlFilterTaskState (db : Database) (zoneName : String) :
    Except String PostCrawlFilterTaskState :=
  match db.getString (zoneName ++ "_post_crawl_filter_task_state_json") with
  | none => .ok { BIsFinished := false, LineIndex := 0 }
  | some (.taskStateJSON taskState) => .ok taskState
  | some (.text _) => .error "Error unmarshaling JSON"

def SaveIndexerTaskState (db : Database) (zoneName : String) (state : IndexerTaskState) :
    Database :=
  db.setString (zoneName ++ "_" ++ "indexer_task_state_json") (.taskStateJSON state)

def GetIndexerTaskState (db : Database) (zoneName : String) : Except String IndexerTaskState :=
  match db.getString (zoneName ++ "_" ++ "indexer_task_state_json") with
  | none => .ok { BIsFinished := false, LineIndex := 0 }
  | some (.taskStateJSON taskState) => .ok taskState
  | some (.text _) => .error "Error unmarshaling JSON"

/-! ## The checkpoint store seen as a map from (stage, zone) -/

/-- The three stages that keep a checkpoint. -/
inductive Stage where
  | PreCrawlFilter
  | PostCrawlFilter
  | Indexer
  deriving DecidableEq, Repr

/-- The part of a checkpoint key that follows the zone name, for each stage. -/
def Stage.keySuffix : Stage → String
  | .PreCrawlFilter => "_pre_crawl_filter_task_state_json"
  | .PostCrawlFilter => "_post_crawl_filter_task_state_json"
  | .Indexer => "_indexer_task_state_json"

/-- The key under which the checkpoint of a (stage, zone) pair is stored. -/
def checkpointKey (stage : Stage) (zoneName : String) : String := zoneName ++ stage.keySuffix

/-- The `Save` method of a stage. -/
def SaveTaskState (stage : Stage) (db : Database) (zoneName : String)
    (state : PreCrawlFilterTaskState) : Database :=
  match stage with
  | .PreCrawlFilter => SavePreCrawlFilterTaskState db zoneName state
  | .PostCrawlFilter => SavePostCrawlFilterTaskState db zoneName state
  | .Indexer => SaveIndexerTaskState db zoneName state

/-- The `Get` method of a stage. -/
def GetTaskState (stage : Stage) (db : Database) (zoneName : String) :
    Except String PreCrawlFilterTaskState :=
  match stage with
  | .PreCrawlFilter => GetPreCrawlFilterTaskState db zoneName
  | .PostCrawlFilter => GetPostCrawlFilterTaskState db zoneName
  | .Indexer => GetIndexerTaskState db zoneName

/-- The zero checkpoint. -/
def zeroTaskState : PreCrawlFilterTaskState := { BIsFinished := false, LineIndex := 0 }

/-- A sequence of saves, applied in order. -/
def applySaves (db : Database) :
    List (Stage × String × PreCrawlFilterTaskState) → Database
  | [] => db
  | (stage, zoneName, state) :: rest => applySaves (SaveTaskState stage db zoneName state) rest

/-- The checkpoint of the last save of a sequence made for a (stage, zone) pair, if there is
one. -/
def lastSaved (stage : Stage) (zoneName : String) :
    List (Stage × String × PreCrawlFilterTaskState) → Option PreCrawlFilterTaskState
  | [] => none
  | (stage1, zoneName1, state) :: rest =>
    match lastSaved stage zoneName rest with
    | some later => some later
    | none => if stage1 = stage ∧ zoneName1 = zoneName then some state else none

/-- A store written under the scheme version `0.9` that holds the checkpoint of a finished
pre-crawl stage of the zone `com`. -/
def oldVersionStore : Database :=
  [("db_scheme_version", .text "0.9"),
   ("com_pre_crawl_filter_task_state_json",
    .taskStateJSON { BIsFinished := true, LineIndex := 42 })]

/-! ## `internal/app/app.go`: `Rank` -/

/-- The function `GetRankingFilePath`, for a cache folder path; the query is not used. -/
def GetRankingFilePath (cacheFolderPath _userQuery : String) : String :=
  cacheFolderPath ++ "/ranking/output.txt"

/-- What `Rank` reads from the application and its surroundings.  `queryIndexer` stands for the
method of that name, which asks the text index and reads the post-crawl files; an error is a fatal
log call.  `now` is the reading of the clock. -/
structure RankEnv where
  queryIndexer : String → World → Except String (List DomainProperties)
  rankers : RankerSetup
  FileBulkOutputQty : Int
  cacheFolderPath : String
  now : ℚ

/-- The options `rankerOutputBufferOpts` of `Rank`: no callbacks. -/
def rankerOutputBufferOpts (env : RankEnv) : FileOutputBufferOptions :=
  { BulkOutputLimit := env.FileBulkOutputQty
    FilePath := GetRankingFilePath env.cacheFolderPath ""
    OnAppendCB := none
    OnFlushCB := none }

/-- The method `Rank`. -/
def Rank (env : RankEnv) (userQuery : String) (w : World) : Except String World :=
  match OnRankingStarted env.now w.app with
  | .error e => .error e
  | .ok app =>
    let w := { w with app := app }
    match env.queryIndexer userQuery w with
    | .error e => .error e
    | .ok indexerOutput =>
      let rankerOutput := runRankers env.rankers indexerOutput userQuery
      let appended :=
        NewFileOutputBuffer.appendLines (rankerOutputBufferOpts env)
          (rankerOutput.map ToJSONString) w
      let flushed := appended.1.Flush (rankerOutputBufferOpts env) appended.2
      let w := flushed.2
      match OnReadyToSearch w.app with
      | .error e => .error e
      | .ok app => .ok { w with app := app }

/-! ## `internal/app/http_handlers.go`: the ranker query handler -/

/-- What the handler reads of an `http.Request`. -/
structure Request where
  Method : String
  Body : String
  deriving DecidableEq

/-- What the handler has done to an `http.ResponseWriter`: the headers set, the status passed to
`WriteHeader` if it was called, and the bytes written. -/
structure ResponseWriter where
  header : GoMap String
  statusCode : Option Int
  body : String
  deriving DecidableEq

/-- A response writer on which nothing has been done yet. -/
def newResponseWriter : ResponseWriter := { header := [], statusCode := none, body := "" }

def MethodOptions : String := "OPTIONS"

def MethodPost : String := "POST"

def StatusOK : Int := 200

def StatusBadRequest : Int := 400

/-- The method `Header().Set`. -/
def ResponseWriter.setHeader (w : ResponseWriter) (key value : String) : ResponseWriter :=
  { w with header := w.header.set key value }

/-- The method `WriteHeader`; only the first call sets the status. -/
def ResponseWriter.WriteHeader (w : ResponseWriter) (statusCode : Int) : ResponseWriter :=
  match w.statusCode with
  | some _ => w
  | none => { w with statusCode := some statusCode }

/-- The method `Write`; writing before `WriteHeader` sends the status 200. -/
def ResponseWriter.Write (w : ResponseWriter) (bytes : String) : ResponseWriter :=
  let w := w.WriteHeader StatusOK
  { w with body := w.body ++ bytes }

/-- The type `RankingQueryReqJSON`; the absent pointer is `none`. -/
structure RankingQueryReqJSON where
  UserQuery : Option String
  deriving DecidableEq

structure RankingQueryRepJSON where
  Success : Bool
  Error : String
  deriving DecidableEq

/-- The text `json.Marshal` writes for a `RankingQueryRepJSON`; `error` has the option
`omitempty`. -/
def marshalRankingQueryRep (rep : RankingQueryRepJSON) : String :=
  "\x7b\"success\":" ++ (if rep.Success then "true" else "false") ++
    (if rep.Error = "" then "" else ",\"error\":" ++ jsonQuote rep.Error) ++ "\x7d"

/-- The method `helperSendJSONError`; writing to the connection is assumed to succeed. -/
def helperSendJSONError (w : ResponseWriter) (jsonErrReply : RankingQueryRepJSON) :
    ResponseWriter :=
  let jsonRes := marshalRankingQueryRep jsonErrReply
  let w := w.setHeader "Content-Type" "application/json"
  let w := w.WriteHeader StatusBadRequest
  w.Write jsonRes

/-- The method `helperSendJSONSuccess`; writing to the connection is assumed to succeed. -/
def helperSendJSONSuccess (w : ResponseWriter) (jsonErrReply : RankingQueryRepJSON) :
    ResponseWriter :=
  let jsonRes := marshalRankingQueryRep jsonErrReply
  let w := w.setHeader "Content-Type" "application/json"
  let w := w.WriteHeader StatusOK
  w.Write jsonRes

/-- The handler returned by `rankerQueryHandler`.  `decode` stands for the call
`json.NewDecoder(r.Body).Decode(&jsonReq)` on the body of the request. -/
def rankerQueryHandler (decode : String → Except String RankingQueryReqJSON) (env : RankEnv)
    (w : ResponseWriter) (r : Request) (world : World) : Except String (ResponseWriter × World) :=
  let w := w.setHeader "Vary" "*"
  let w := w.setHeader "Cache-Control" "no-store"
  let w := w.setHeader "Access-Control-Allow-Headers" "*"
  let w := w.setHeader "Access-Control-Allow-Methods" "GET, OPTIONS"
  let w := w.setHeader "Access-Control-Allow-Origin" "*"
  if r.Method = MethodOptions then .ok (w.WriteHeader StatusOK, world)
  else if r.Method = MethodPost then
    match decode r.Body with
    | .error _ =>
      .ok (helperSendJSONError w { Success := false, Error := "json decode error" }, world)
    | .ok jsonReq =>
      match jsonReq.UserQuery with
      | none =>
        .ok (helperSendJSONError w { Success := false, Error := "json field missing" }, world)
      | some userQuery =>
        if world.app.task ≠ .ReadyToSearch then
          .ok (helperSendJSONError w { Success := false, Error := "index not yet ready" }, world)
        else
          match Rank env userQuery world with
          | .error e => .error e
          | .ok world => .ok (helperSendJSONSuccess w { Success := true, Error := "" }, world)
  else .ok (w.WriteHeader StatusBadRequest, world)

/-- The headers every reply of the handler carries. -/
def corsHeaders : GoMap String :=
  [("Vary", "*"), ("Cache-Control", "no-store"), ("Access-Control-Allow-Headers", "*"),
   ("Access-Control-Allow-Methods", "GET, OPTIONS"), ("Access-Control-Allow-Origin", "*")]

/-- The reply with status 400 and the JSON body `success = false` with a reason. -/
def errorReply (reason : String) : ResponseWriter :=
  { header := GoMap.set corsHeaders "Content-Type" "application/json"
    statusCode := some 400
    body := marshalRankingQueryRep { Success := false, Error := reason } }

/-- The reply with status 200 and the JSON body `success = true`. -/
def successReply : ResponseWriter :=
  { header := GoMap.set corsHeaders "Content-Type" "application/json"
    statusCode := some 200
    body := marshalRankingQueryRep { Success := true, Error := "" } }

/-- The reply with a status and no body. -/
def emptyReply (statusCode : Int) : ResponseWriter :=
  { header := corsHeaders, statusCode := some statusCode, body := "" }

/-- A decoder for three bodies: an object with the query `shop`, an empty object, and anything
else, which it rejects. -/
def exampleDecode (body : String) : Except String RankingQueryReqJSON :=
  if body = "\x7b\"user_query\":\"shop\"\x7d" then .ok { UserQuery := some "shop" }
  else if body = "\x7b\x7d" then .ok { UserQuery := none }
  else .error "invalid character"

/-- A ranking environment whose index finds nothing. -/
def exampleRankEnv : RankEnv :=
  { queryIndexer := fun _ _ => .ok []
    rankers := { rankerArray := [], rankerWeightMap := [] }
    FileBulkOutputQty := 1024
    cacheFolderPath := "cache"
    now := 0 }

/-- A world in the given application state, with an empty store and no files. -/
def worldInState (task : ApplicationTask) : World :=
  { emptyWorld with app := { NewApplicationStateManager with task := task } }

/-- The request `POST` with the query `shop`. -/
def shopRequest : Request := { Method := "POST", Body := "\x7b\"user_query\":\"shop\"\x7d" }

/-! ## `internal/app/index_task.go`: index identifiers -/

/-- The verb `%d` of `fmt.Sprintf` on an `int`: the decimal digits, after a minus sign for a
negative number. -/
def formatInt (n : Int) : String := toString n

def createIndexID (tldName : String) (lineIndex : Int) : String :=
  tldName ++ "_" ++ formatInt lineIndex

/-- The value of a decimal digit, as `strconv.Atoi` reads it. -/
def digitValue (c : Char) : Option Nat :=
  if '0' ≤ c ∧ c ≤ '9' then some (c.toNat - '0'.toNat) else none

/-- The digit loop of `strconv.Atoi`: `n = n*10 + digit`, with a syntax error at a character that
is not a digit. -/
def parseDigits : List Char → Nat → Option Nat
  | [], n => some n
  | c :: cs, n =>
    match digitValue c with
    | none => none
    | some d => parseDigits cs (n * 10 + d)

/-- The function `strconv.Atoi` for a 64-bit `int`: an optional sign, then at least one decimal
digit and nothing else, with a value in the range of `int`.  The error is represented by its kind;
the message of Go also names the function and quotes the input. -/
def Atoi (s : String) : Except String Int :=
  match s.toList with
  | [] => .error "invalid syntax"
  | c :: cs =>
    let digits := if c = '-' ∨ c = '+' then cs else c :: cs
    if digits.isEmpty then .error "invalid syntax"
    else
      match parseDigits digits 0 with
      | none => .error "invalid syntax"
      | some n =>
        let value : Int := if c = '-' then -(n : Int) else (n : Int)
        if value < -(2 : Int) ^ 63 ∨ value > (2 : Int) ^ 63 - 1 then .error "value out of range"
        else .ok value

/-- The function `strings.LastIndex(s, "_")`: the position of the last underscore, or `-1`.
Positions are counted in characters; the only use made of the result is in the slices `s[:i]` and
`s[i+1:]`, which hold the same text whether `i` counts bytes or characters, an underscore being
one byte. -/
def LastIndexUnderscore (s : String) : Int :=
  match lastIndexChars '_' s.toList with
  | some i => (i : Int)
  | none => -1

/-- The slice `s[i:]`. -/
def sliceSuffix (s : String) (i : Int) : String := String.mk (s.toList.drop i.toNat)

/-- The function `parseIndexID`; the result is the pair `(tldName, lineIndex)` or the error. -/
def parseIndexID (indexID : String) : Except String (String × Int) :=
  let lastUnderscore := LastIndexUnderscore indexID
  if lastUnderscore = -1 then .error "invalid indexID format"
  else
    let tldName := slicePrefix indexID lastUnderscore
    let lineIndexStr := sliceSuffix indexID (lastUnderscore + 1)
    match Atoi lineIndexStr with
    | .error err => .error ("failed to parse lineIndex: " ++ err)
    | .ok lineIndex => .ok (tldName, lineIndex)

/-- Whether a text is an integer in decimal writing: an optional sign followed by one or more
decimal digits. -/
def isDecimalInteger (s : String) : Bool :=
  match s.toList with
  | [] => false
  | c :: cs =>
    if c = '-' ∨ c = '+' then !cs.isEmpty && cs.all Char.isDigit
    else (c :: cs).all Char.isDigit

/-- The text of an identifier that follows its last underscore. -/
def afterLastUnderscore (indexID : String) : String :=
  sliceSuffix indexID (LastIndexUnderscore indexID + 1)

/-- The object with the members `domainName`, the string `example.com`, and `size`, the number
18446744073709551616, as decoded by `json.Unmarshal`: the number is `2^64`, an integral
`float64`. -/
def hugeNumberObject : GoMap JsonValue :=
  [("domainName", .string "example.com"), ("size", .number 18446744073709551616)]

/-- An object with a value of every JSON type: a string, a boolean, an integral and a fractional
number, `null`, an array and an object. -/
def mixedObject : GoMap JsonValue :=
  [("domainName", .string "example.com"), ("owner", .string "John Doe"),
   ("active", .bool true), ("visits", .number 3), ("rating", .number (9 / 2)),
   ("notes", .null), ("tags", .array [.string "a"]),
   ("extra", .object [("k", .number 1)])]

/-! ## Specification-side definitions for the serialised record -/

/-- The record of `TestCreateJSONString`. -/
def testCreateJSONRecord : DomainProperties :=
  { DomainName := "example.com"
    StringProperties := [("owner", "John Doe"), ("email", "john@example.com")]
    IntProperties := [("creationDate", 1620784027), ("expirationDate", 1652320027)]
    FloatProperties := [("rating", 9 / 2)]
    BoolProperties := [] }

/-- The same record with the entries of its maps listed in another order. -/
def testCreateJSONRecordReordered : DomainProperties :=
  { DomainName := "example.com"
    StringProperties := [("email", "john@example.com"), ("owner", "John Doe")]
    IntProperties := [("expirationDate", 1652320027), ("creationDate", 1620784027)]
    FloatProperties := [("rating", 9 / 2)]
    BoolProperties := [] }

/-- The text of a JSON object with the given members, in the given order. -/
def jsonObjectText (members : List (String × PropertyValue)) : String :=
  "\x7b" ++ ",".intercalate (members.map fun e => jsonQuote e.1 ++ ":" ++ jsonValueText e.2)
    ++ "\x7d"

/-- The members the flat object of a record must have: the domain name under `domainName`, and
every attribute of the four buckets under its key. -/
def isMemberOf (d : DomainProperties) (k : String) (v : PropertyValue) : Prop :=
  (k = "domainName" ∧ v = .str d.DomainName) ∨
    (∃ s, d.StringProperties.get k = some s ∧ v = .str s) ∨
    (∃ n, d.IntProperties.get k = some n ∧ v = .int64 n) ∨
    (∃ q, d.FloatProperties.get k = some q ∧ v = .float64 q) ∨
    (∃ b, d.BoolProperties.get k = some b ∧ v = .bool b)

/-- A record with the key `level` in the string bucket and in the int bucket. -/
def sharedKeyRecord : DomainProperties :=
  { DomainName := "example.com"
    StringProperties := [("level", "high")]
    IntProperties := [("level", 3)]
    FloatProperties := []
    BoolProperties := [] }

/-! ## `internal/task_handlers/rankers/indexer_ranker.go`, with the record behind the pointer -/

/-- The method `IndexerRanker.Input` as a state transformer: the score it returns, and the record
that the pointer `inProperties` refers to when it returns. -/
def indexerRankerInput (inProperties : DomainProperties) (_userQuery : String) :
    ℚ × DomainProperties :=
  match inProperties.FloatProperties.get "normalized_indexer_score" with
  | none => (0, inProperties)
  | some indexScore => (indexScore, inProperties)

/-- The record of `TestIndexerRanker`. -/
def testIndexerRankerRecord : DomainProperties :=
  { NewDomainProperties with
    DomainName := "example-01.com"
    FloatProperties := GoMap.set [] "normalized_indexer_score" (1 / 2) }

/-! ## Sequences of operations on the application state -/

/-- An operation of `ApplicationStateManager` that writes the state: one of the seven guarded
transitions, `OnErrored`, `OnShutdown`, or one of the two progress setters. -/
inductive LifecycleOp where
  | guarded (t : GuardedTransition) (now : ℚ)
  | OnErrored (errorDetails : String)
  | OnShutdown
  | SetTotalWorkItems (totalWorkItems : Int)
  | SetProcessedWorkItems (now : ℚ) (processedWorkItems : Int)

/-- The effect of one operation; the error is the panic of a guarded transition. -/
def LifecycleOp.run : LifecycleOp → ApplicationState → Except String ApplicationState
  | .guarded t now, a => t.run now a
  | .OnErrored errorDetails, a => .ok (Zfse.OnErrored a errorDetails)
  | .OnShutdown, a => .ok (Zfse.OnShutdown a)
  | .SetTotalWorkItems totalWorkItems, a => .ok (Zfse.SetTotalWorkItems a totalWorkItems)
  | .SetProcessedWorkItems now processedWorkItems, a =>
    .ok (Zfse.SetProcessedWorkItems now a processedWorkItems)

/-- A sequence of operations, applied in order; it stops at the first panic. -/
def runLifecycleOps : List LifecycleOp → ApplicationState → Except String ApplicationState
  | [], a => .ok a
  | op :: rest, a =>
    match op.run a with
    | .error e => .error e
    | .ok a => runLifecycleOps rest a

/-- The two terminal tasks. -/
def isTerminalTask (task : ApplicationTask) : Prop := task = .Errored ∨ task = .Shutdown

instance (task : ApplicationTask) : Decidable (isTerminalTask task) := by
  unfold isTerminalTask
  infer_instance

/-! ## `internal/interfaces` and `internal/app/post_crawl.go`: the post-crawl filter chain -/

/-- The type `http.Header`. -/
abbrev Header := GoMap (List String)

/-- A post-crawl filter (`interfaces.PostConnectionFilter`); `σ` is the state of all configured
handler objects together, and the result `none` is Go's `nil`: the record is dropped. -/
structure PostConnectionFilter (σ : Type) where
  Input : σ → DomainProperties → Header → Node → σ × Option DomainProperties
  GetType : String

/-- The function `postCrawlProcessDomainProperties`: the `range` loop over
`postCrawlFilterArray`, and the `return nil` after it, which is reached when the array is
empty. -/
def postCrawlProcessDomainProperties {σ : Type} :
    List (PostConnectionFilter σ) → σ → DomainProperties → Header → Node →
      σ × Option DomainProperties
  | [], s, _, _, _ => (s, none)
  | postCrawlFilter :: rest, s, inProperties, header, baseNode =>
    match postCrawlFilter.Input s inProperties header baseNode with
    | (s, none) => (s, none)
    | (s, some output) =>
      if 0 < rest.length then postCrawlProcessDomainProperties rest s output header baseNode
      else (s, some output)

/-! ## Specification-side definitions for the filter chains -/

/-- The chain of the specification, for a sequence of steps `record → record | dropped` that
share a state: every step is applied to the output of the one before it, a drop ends the chain,
and the result is the output of the last step. -/
def chainOf {σ ρ : Type} : List (σ → ρ → σ × Option ρ) → σ → ρ → σ × Option ρ
  | [], s, record => (s, some record)
  | step :: rest, s, record =>
    match step s record with
    | (s, none) => (s, none)
    | (s, some output) => chainOf rest s output

/-- The steps of a pre-crawl chain. -/
def preCrawlSteps {σ : Type} (filters : List (PreConnectionFilter σ)) :
    List (σ → DomainProperties → σ × Option DomainProperties) :=
  filters.map fun filter => filter.Input

/-- The steps of a post-crawl chain, for a header and a parsed page. -/
def postCrawlSteps {σ : Type} (filters : List (PostConnectionFilter σ)) (header : Header)
    (baseNode : Node) : List (σ → DomainProperties → σ × Option DomainProperties) :=
  filters.map fun filter => fun s record => filter.Input s record header baseNode

/-! ## Specification-side definitions for an uninterrupted pre-crawl run -/

/-- The zone file whose lines are `lines`, each ended by a newline. -/
def zoneFileOf : List String → String
  | [] => ""
  | line :: rest => line ++ "\n" ++ zoneFileOf rest

/-- The surviving records of the lines of a zone file, in input order: for every line with at
least five fields, the record built from the fields, when no filter of the chain drops it, as
the last filter returns it.  The filters are applied in configured order, each to the output of
the one before it, and the state of the handlers passes from one line to the next. -/
def survivingRecords {σ : Type} (filters : List (PreConnectionFilter σ)) :
    σ → List String → List DomainProperties
  | _, [] => []
  | handlers, line :: rest =>
    if (Fields line).length < 5 then survivingRecords filters handlers rest
    else
      match chainOf (preCrawlSteps filters) handlers (buildRecord (Fields line)) with
      | (handlers, none) => survivingRecords filters handlers rest
      | (handlers, some output) => output :: survivingRecords filters handlers rest

/-- The lines of the example zone file. -/
def exampleZoneLines : List String :=
  ["; zone com", "a.com. 3600 in ns ns1.a.net.", "b.com. 3600 in ns ns1.b.net."]

/-- Files with the example zone file and a pre-crawl output file of the zone `com` that already
holds a line. -/
def staleOutputFiles : GoMap String :=
  [("zones/com.txt", exampleZoneFile), ("cache/zone/com/pre_crawl_output.txt", "stale\n")]

/-! ## `internal/app/index_task.go`: the indexer runner -/

/-- The function `GetPostCrawlFilterOutputFilePath`, for a cache folder path. -/
def GetPostCrawlFilterOutputFilePath (cacheFolderPath tldName : String) : String :=
  cacheFolderPath ++ "/zone/" ++ tldName ++ "/post_crawl_output.txt"

/-- The call `json.Unmarshal([]byte(line), &domainProperties)` on a new, empty record; `decode`
stands for the decoding of the text into a `map[string]interface{}` by `encoding/json`. -/
def unmarshalLine (decode : String → Except String (GoMap JsonValue)) (line : String) :
    Except String DomainProperties :=
  match decode line with
  | .error e => .error e
  | .ok rawData => UnmarshalJSON rawData NewDomainProperties

/-- An indexer (`interfaces.Indexer`); `ι` is the state of the text index. -/
structure Indexer (ι : Type) where
  Index : ι → String → DomainProperties → Except String ι
  Query : ι → String → Except String (GoMap ℚ)
  GetType : String

/-- The constant `totalLinesUntilIndexerDBSave`. -/
def totalLinesUntilIndexerDBSave : Int := 1024

/-- What `runIndexer` reads from the application and its surroundings; `signal` and `clock` are
the oracles of the pre-crawl runner, indexed by the number of shutdown checks made so far. -/
structure IndexerEnv (ι : Type) where
  indexer : Indexer ι
  cacheFolderPath : String
  decode : String → Except String (GoMap JsonValue)
  signal : Nat → Bool
  clock : Nat → ℚ

/-- The variables of `runIndexer`, with the state of the text index. -/
structure IndexerRun (ι : Type) where
  world : World
  index : ι
  tick : Nat
  lineIndex : Int
  remainingLinesToNextDBSave : Int
  indexerTaskState : IndexerTaskState

/-- The shutdown check at the head of the line loop of `runIndexer`. -/
def IndexerRun.observeShutdown {ι : Type} (env : IndexerEnv ι) (s : IndexerRun ι) :
    IndexerRun ι :=
  { s with
    world := { s.world with app := if env.signal s.tick then OnShutdown s.world.app else s.world.app }
    tick := s.tick + 1 }

/-- The body of the line loop of `runIndexer` after the shutdown check and the read.  The skip
branch counts the line as processed and leaves `lineIndex` as it is. -/
def indexerLine {ι : Type} (env : IndexerEnv ι) (zoneName : String) (startIndex : Int)
    (line : String) (s : IndexerRun ι) : Except String (IndexerRun ι) :=
  let now := env.clock s.tick
  if s.lineIndex < startIndex then .ok { s with world := countProcessed now s.world }
  else
    match unmarshalLine env.decode line with
    | .error _ => .error "Unable to parse JSON."
    | .ok domainProperties =>
      let indexID := createIndexID zoneName s.lineIndex
      match env.indexer.Index s.index indexID domainProperties with
      | .error _ => .error "Unable to index."
      | .ok index =>
        let remainingLinesToNextDBSave := s.remainingLinesToNextDBSave - 1
        let lineIndex := s.lineIndex + 1
        let world := countProcessed now s.world
        if remainingLinesToNextDBSave ≤ 0 then
          let indexerTaskState := { s.indexerTaskState with LineIndex := lineIndex }
          .ok { s with
                index := index
                remainingLinesToNextDBSave := totalLinesUntilIndexerDBSave
                lineIndex := lineIndex
                indexerTaskState := indexerTaskState
                world := { world with
                  db := SaveIndexerTaskState world.db zoneName indexerTaskState } }
        else
          .ok { s with
                index := index
                remainingLinesToNextDBSave := remainingLinesToNextDBSave
                lineIndex := lineIndex
                world := world }

/-- The line loop of one zone over the lines still to read; the flag tells whether the runner
returned on a shutdown. -/
def indexerLoop {ι : Type} (env : IndexerEnv ι) (zoneName : String) (startIndex : Int) :
    List String → IndexerRun ι → Except String (IndexerRun ι × Bool)
  | [], s =>
    let s := s.observeShutdown env
    if s.world.app.task = .Shutdown then .ok (s, true) else .ok (s, false)
  | line :: rest, s =>
    let s := s.observeShutdown env
    if s.world.app.task = .Shutdown then .ok (s, true)
    else
      match indexerLine env zoneName startIndex line s with
      | .error e => .error e
      | .ok s => indexerLoop env zoneName startIndex rest s

/-- One iteration of the zone loop of `runIndexer`, with `totalLines = totalLinesMap[zoneName]`;
the flag tells whether the runner returned on a shutdown. -/
def indexerZone {ι : Type} (env : IndexerEnv ι) (zoneName : String) (totalLines : Int)
    (s : IndexerRun ι) : Except String (IndexerRun ι × Bool) :=
  match GetIndexerTaskState s.world.db zoneName with
  | .error e => .error e
  | .ok indexerTaskState =>
    if indexerTaskState.BIsFinished then
      let processedWorkItems := s.world.processedWorkItems + totalLines
      .ok ({ s with
             world := { s.world with
               processedWorkItems := processedWorkItems
               app := SetProcessedWorkItems (env.clock s.tick) s.world.app processedWorkItems } },
           false)
    else
      match s.world.files.get (GetPostCrawlFilterOutputFilePath env.cacheFolderPath zoneName) with
      | none => .error "Error opening file."
      | some content =>
        let s := { s with
          lineIndex := 0
          remainingLinesToNextDBSave := totalLinesUntilIndexerDBSave
          indexerTaskState := indexerTaskState }
        match indexerLoop env zoneName indexerTaskState.LineIndex (ReadLines content) s with
        | .error e => .error e
        | .ok (s, true) => .ok (s, true)
        | .ok (s, false) =>
          let indexerTaskState := { s.indexerTaskState with BIsFinished := true }
          let world := { s.world with
            db := SaveIndexerTaskState s.world.db zoneName indexerTaskState }
          .ok ({ s with indexerTaskState := indexerTaskState, world := world }, false)

/-- The zone loop of `runIndexer` over the zones still to visit. -/
def indexerZones {ι : Type} (env : IndexerEnv ι) (totalLinesMap : GoMap Int) :
    List (String × String) → IndexerRun ι → Except String (IndexerRun ι × Bool)
  | [], s => .ok (s, false)
  | (zoneName, _) :: rest, s =>
    match indexerZone env zoneName ((totalLinesMap.get zoneName).getD 0) s with
    | .error e => .error e
    | .ok (s, true) => .ok (s, true)
    | .ok (s, false) => indexerZones env totalLinesMap rest s

/-- The zone registry with, for every zone, the path of a cache file in place of the zone
file. -/
def cacheFileRegistry (pathOf : String → String) (zoneFileRegistry : List (String × String)) :
    List (String × String) :=
  zoneFileRegistry.map fun zone => (zone.1, pathOf zone.1)

/-- The function `getTotalPostCrawlFileLinesToRead`: the loop of `getTotalZoneFileLinesToRead`
over the post-crawl cache files. -/
def getTotalPostCrawlFileLinesToRead (cacheFolderPath : String) (files : GoMap String)
    (zoneFileRegistry : List (String × String)) : Except String (GoMap Int) :=
  getTotalZoneFileLinesToRead files
    (cacheFileRegistry (GetPostCrawlFilterOutputFilePath cacheFolderPath) zoneFileRegistry)

/-- The function `runIndexer`, for a zone registry visited in the order of the list. -/
def runIndexer {ι : Type} (env : IndexerEnv ι) (zoneFileRegistry : List (String × String))
    (index : ι) (tick : Nat) (w : World) : Except String (IndexerRun ι) :=
  match getTotalPostCrawlFileLinesToRead env.cacheFolderPath w.files zoneFileRegistry with
  | .error e => .error e
  | .ok totalLinesMap =>
    let totalWorkItems := (totalLinesMap.map Prod.snd).sum
    let app := SetTotalWorkItems w.app totalWorkItems
    let app := SetProcessedWorkItems (env.clock tick) app 0
    let s : IndexerRun ι :=
      { world := { w with app := app, processedWorkItems := 0 }
        index := index
        tick := tick
        lineIndex := 0
        remainingLinesToNextDBSave := totalLinesUntilIndexerDBSave
        indexerTaskState := { BIsFinished := false, LineIndex := 0 } }
    match indexerZones env totalLinesMap zoneFileRegistry s with
    | .error e => .error e
    | .ok (s, true) => .ok s
    | .ok (s, false) =>
      match OnReadyToSearch s.world.app with
      | .error e => .error e
      | .ok app => .ok { s with world := { s.world with app := app } }

/-- The function `helper.ReadLine` on the content of the file: the line with the given number,
with its newline, the bytes after the last newline counting as a last line. -/
def ReadLine (content : String) (lineNumber : Int) : Except String String :=
  if lineNumber < 0 then .error "invalid line number"
  else
    match (ReadLines content ++
        [String.mk ((content.toList.reverse.takeWhile (fun c => decide (c ≠ '\n'))).reverse)]).get?
          lineNumber.toNat with
    | some line => .ok line
    | none => .error "line not found"

/-! ## Example inputs for the indexer runner -/

/-- An indexer that records the calls of `Index`, in order. -/
def recordingIndexer : Indexer (List (String × DomainProperties)) :=
  { Index := fun index id properties => .ok (index ++ [(id, properties)])
    Query := fun _ _ => .ok []
    GetType := "recording_indexer" }

/-- The JSON line of a record that has only a domain name. -/
def nameLine (domainName : String) : String := ToJSONString (namedRecord domainName) ++ "\n"

/-- A decoder for the lines of `a.com` and `b.com`, with or without white space around them; it
rejects every other text. -/
def exampleDecodeLine (line : String) : Except String (GoMap JsonValue) :=
  if TrimSpace line = ToJSONString (namedRecord "a.com") then
    .ok [("domainName", .string "a.com")]
  else if TrimSpace line = ToJSONString (namedRecord "b.com") then
    .ok [("domainName", .string "b.com")]
  else .error "invalid character"

/-- An indexer environment with the recording indexer. -/
def exampleIndexerEnv (signal : Nat → Bool) : IndexerEnv (List (String × DomainProperties)) :=
  { indexer := recordingIndexer
    cacheFolderPath := "cache"
    decode := exampleDecodeLine
    signal := signal
    clock := fun _ => 0 }

/-- The post-crawl file of the zone `com` with the lines of `a.com` and `b.com`. -/
def examplePostCrawlFiles : GoMap String :=
  [("cache/zone/com/post_crawl_output.txt", nameLine "a.com" ++ nameLine "b.com")]

/-- A run of the indexer on the zone `com`, from the given store and index. -/
def exampleIndexerRun (signal : Nat → Bool) (db : Database)
    (index : List (String × DomainProperties)) :
    Except String (IndexerRun (List (String × DomainProperties))) :=
  runIndexer (exampleIndexerEnv signal) [("com", "zones/com.txt")] index 0
    { db := db
      files := examplePostCrawlFiles
      app := { NewApplicationStateManager with task := .RunningIndexer }
      processedWorkItems := 0 }

/-- What a run of the indexer leaves behind: the task, the calls of `Index` recorded, the
checkpoint of the zone `com` in the store, and the published count of processed items. -/
def indexerOutcome (r : Except String (IndexerRun (List (String × DomainProperties)))) :
    Option (ApplicationTask × List (String × DomainProperties) × Option DbValue) :=
  match r with
  | .error _ => none
  | .ok s => some (s.world.app.task, s.index, s.world.db.getString "com_indexer_task_state_json")

/-! ## `internal/crawler` and `internal/app/post_crawl.go`: the post-crawl runner -/

/-- The three calls the runner makes on the crawler.  They go to the network; here they are
oracles, whose first argument numbers the connector that makes the call. -/
structure Crawler where
  HasDNSARecord : Nat → String → Bool
  CanCrawl : Nat → String → Bool
  Crawl : Nat → String → Except String (Header × Node)

/-- What `runPostCrawlFilters` reads from the application and its surroundings.  `signal` and
`clock` are the oracles of the pre-crawl runner.  The connectors are goroutines; what each does
to the shared variables happens under the mutexes, and the model performs it in one step when
the connector finishes.  Two oracles fix the schedule: `finishing n` lists the running connectors
(by position) that finish before the shutdown check number `n`, and `next n` is the position of
the running connector that finishes first when the runner waits for a free connector for the
`n`-th time.  A negative `ConcurrentConnections` makes `make` panic and is left out. -/
structure PostCrawlEnv (σ : Type) where
  postCrawlFilterArray : List (PostConnectionFilter σ)
  FileBulkOutputQty : Int
  cacheFolderPath : String
  ConcurrentConnections : Nat
  ConnectionProtocol : String
  crawler : Crawler
  decode : String → Except String (GoMap JsonValue)
  signal : Nat → Bool
  clock : Nat → ℚ
  finishing : Nat → List Nat
  next : Nat → Nat

/-- The variables of `runPostCrawlFilters`: `availableConnectors` is the number of tokens in the
channel, `running` holds the connectors launched and not yet finished (number and record),
`processedWorkItemsMutex` tells whether the runner itself holds that mutex, which it releases
only when it returns (`defer` in the body of the function). -/
structure PostCrawlRun (σ : Type) where
  world : World
  handlers : σ
  bHasAppendedToFileOnce : Bool
  tick : Nat
  fileOutputBuffer : FileOutputBuffer
  lineIndex : Int
  availableConnectors : Nat
  running : List (Nat × DomainProperties)
  launched : Nat
  waits : Nat
  processedWorkItemsMutex : Bool

/-- The message for a runner that waits for ever: on a mutex it holds itself, or on a channel
that no goroutine will send to. -/
def blockedForever : String := "all goroutines are asleep - deadlock!"

/-- The options `outputFileBufferOpts`: `OnAppendCB` counts one processed item, `OnFlushCB` saves
a task state with the line index `startLineIndex + appendQty`, by `SavePreCrawlFilterTaskState`. -/
def postCrawlBufferOpts {σ : Type} (env : PostCrawlEnv σ) (zoneName : String)
    (startLineIndex : Int) (now : ℚ) : FileOutputBufferOptions :=
  { BulkOutputLimit := env.FileBulkOutputQty
    FilePath := GetPostCrawlFilterOutputFilePath env.cacheFolderPath zoneName
    OnAppendCB := some fun w => countProcessed now w
    OnFlushCB := some fun appendQty w =>
      let lastIndex := startLineIndex + (appendQty : Int)
      let taskState : PreCrawlFilterTaskState := { BIsFinished := false, LineIndex := lastIndex }
      { w with db := SavePreCrawlFilterTaskState w.db zoneName taskState } }

/-- The body of a connector (the goroutine launched for a line), for connector number `n`. -/
def runConnector {σ : Type} (env : PostCrawlEnv σ) (zoneName : String) (startLineIndex : Int)
    (n : Nat) (domainProperties : DomainProperties) (s : PostCrawlRun σ) : PostCrawlRun σ :=
  let now := env.clock s.tick
  if !env.crawler.HasDNSARecord n domainProperties.DomainName then
    { s with world := countProcessed now s.world }
  else
    let url := env.ConnectionProtocol ++ "://" ++ domainProperties.DomainName
    if !env.crawler.CanCrawl n url then { s with world := countProcessed now s.world }
    else
      match env.crawler.Crawl n url with
      | .error _ => { s with world := countProcessed now s.world }
      | .ok (header, baseNode) =>
        match postCrawlProcessDomainProperties env.postCrawlFilterArray s.handlers
            domainProperties header baseNode with
        | (handlers, none) => { s with handlers := handlers, world := countProcessed now s.world }
        | (handlers, some output) =>
          let appended :=
            s.fileOutputBuffer.AppendToFile (postCrawlBufferOpts env zoneName startLineIndex now)
              (ToJSONString output) s.world
          { s with
            handlers := handlers
            fileOutputBuffer := appended.1
            world := appended.2
            bHasAppendedToFileOnce := true }

/-- The running connector at position `i` (counted cyclically) finishes: its body runs and it
gives its token back.  Every path of a connector locks `processedWorkItemsMutex`, so no connector
finishes while the runner holds it. -/
def finishConnector {σ : Type} (env : PostCrawlEnv σ) (zoneName : String) (startLineIndex : Int)
    (i : Nat) (s : PostCrawlRun σ) : PostCrawlRun σ :=
  if s.processedWorkItemsMutex then s
  else
    match s.running.get? (i % s.running.length) with
    | none => s
    | some connector =>
      let s := { s with running := s.running.eraseIdx (i % s.running.length) }
      let s := runConnector env zoneName startLineIndex connector.1 connector.2 s
      { s with availableConnectors := s.availableConnectors + 1 }

/-- The receive `<-availableConnectors`: it takes a token, waiting for a running connector to
finish when the channel is empty. -/
def acquireConnector {σ : Type} (env : PostCrawlEnv σ) (zoneName : String)
    (startLineIndex : Int) (s : PostCrawlRun σ) : Except String (PostCrawlRun σ) :=
  if 0 < s.availableConnectors then .ok { s with availableConnectors := s.availableConnectors - 1 }
  else if s.running.isEmpty ∨ s.processedWorkItemsMutex then .error blockedForever
  else
    let s := finishConnector env zoneName startLineIndex (env.next s.waits)
      { s with waits := s.waits + 1 }
    .ok { s with availableConnectors := s.availableConnectors - 1 }

/-- The loop that waits until all connectors are complete: `n` receives. -/
def drainConnectors {σ : Type} (env : PostCrawlEnv σ) (zoneName : String)
    (startLineIndex : Int) : Nat → PostCrawlRun σ → Except String (PostCrawlRun σ)
  | 0, s => .ok s
  | n + 1, s =>
    match acquireConnector env zoneName startLineIndex s with
    | .error e => .error e
    | .ok s => drainConnectors env zoneName startLineIndex n s

/-- The head of the line loop: the connectors that finish before the check, then the shutdown
check. -/
def PostCrawlRun.observeShutdown {σ : Type} (env : PostCrawlEnv σ) (zoneName : String)
    (startLineIndex : Int) (s : PostCrawlRun σ) : PostCrawlRun σ :=
  let s := (env.finishing s.tick).foldl
    (fun s i => finishConnector env zoneName startLineIndex i s) s
  { s with
    world := { s.world with app := if env.signal s.tick then OnShutdown s.world.app else s.world.app }
    tick := s.tick + 1 }

/-- The body of the line loop after the shutdown check and the read.  A line below the start
index is passed over without a count; an empty line is counted under the mutex, which stays
locked, and leaves `lineIndex` as it is. -/
def postCrawlLine {σ : Type} (env : PostCrawlEnv σ) (zoneName : String) (startLineIndex : Int)
    (line : String) (s : PostCrawlRun σ) : Except String (PostCrawlRun σ) :=
  if s.lineIndex ≥ startLineIndex then
    let line := TrimSpace line
    if line.utf8ByteSize = 0 then
      if s.processedWorkItemsMutex then .error blockedForever
      else
        .ok { s with
              processedWorkItemsMutex := true
              world := countProcessed (env.clock s.tick) s.world }
    else
      match unmarshalLine env.decode line with
      | .error _ => .error "Unable to parse JSON."
      | .ok domainProperties =>
        match acquireConnector env zoneName startLineIndex s with
        | .error e => .error e
        | .ok s =>
          .ok { s with
                running := s.running ++ [(s.launched, domainProperties)]
                launched := s.launched + 1
                lineIndex := s.lineIndex + 1 }
  else .ok { s with lineIndex := s.lineIndex + 1 }

/-- The shutdown branch of the line loop: wait for all connectors, then flush. -/
def postCrawlShutdown {σ : Type} (env : PostCrawlEnv σ) (zoneName : String)
    (startLineIndex : Int) (s : PostCrawlRun σ) : Except String (PostCrawlRun σ × Bool) :=
  match drainConnectors env zoneName startLineIndex env.ConcurrentConnections s with
  | .error e => .error e
  | .ok s =>
    let flushed :=
      s.fileOutputBuffer.Flush (postCrawlBufferOpts env zoneName startLineIndex (env.clock s.tick))
        s.world
    .ok ({ s with fileOutputBuffer := flushed.1, world := flushed.2 }, true)

/-- The line loop of one zone over the lines still to read; the flag tells whether the runner
returned on a shutdown. -/
def postCrawlLoop {σ : Type} (env : PostCrawlEnv σ) (zoneName : String) (startLineIndex : Int) :
    List String → PostCrawlRun σ → Except String (PostCrawlRun σ × Bool)
  | [], s =>
    let s := s.observeShutdown env zoneName startLineIndex
    if s.world.app.task = .Shutdown then postCrawlShutdown env zoneName startLineIndex s
    else .ok (s, false)
  | line :: rest, s =>
    let s := s.observeShutdown env zoneName startLineIndex
    if s.world.app.task = .Shutdown then postCrawlShutdown env zoneName startLineIndex s
    else
      match postCrawlLine env zoneName startLineIndex line s with
      | .error e => .error e
      | .ok s => postCrawlLoop env zoneName startLineIndex rest s

/-- One iteration of the zone loop of `runPostCrawlFilters`, with
`totalLines = totalLinesMap[zoneName]`; the flag tells whether the runner returned on a shutdown.
For a finished zone the runner locks `processedWorkItemsMutex` and keeps it locked. -/
def postCrawlZone {σ : Type} (env : PostCrawlEnv σ) (zoneName : String) (totalLines : Int)
    (s : PostCrawlRun σ) : Except String (PostCrawlRun σ × Bool) :=
  match GetPostCrawlFilterTaskState s.world.db zoneName with
  | .error e => .error e
  | .ok taskState =>
    if taskState.BIsFinished then
      if s.processedWorkItemsMutex then .error blockedForever
      else
        let processedWorkItems := s.world.processedWorkItems + totalLines
        .ok ({ s with
               bHasAppendedToFileOnce := true
               processedWorkItemsMutex := true
               world := { s.world with
                 processedWorkItems := processedWorkItems
                 app := SetProcessedWorkItems (env.clock s.tick) s.world.app processedWorkItems } },
             false)
    else
      match s.world.files.get (GetPreCrawlFilterOutputFilePath env.cacheFolderPath zoneName) with
      | none => .error "Error opening file."
      | some content =>
        let s := { s with lineIndex := 0, fileOutputBuffer := NewFileOutputBuffer }
        match postCrawlLoop env zoneName taskState.LineIndex (ReadLines content) s with
        | .error e => .error e
        | .ok (s, true) => .ok (s, true)
        | .ok (s, false) =>
          match drainConnectors env zoneName taskState.LineIndex env.ConcurrentConnections s with
          | .error e => .error e
          | .ok s =>
            let flushed :=
              s.fileOutputBuffer.Flush
                (postCrawlBufferOpts env zoneName taskState.LineIndex (env.clock s.tick)) s.world
            let taskState := { taskState with BIsFinished := true }
            let world := { flushed.2 with
              db := SavePostCrawlFilterTaskState flushed.2.db zoneName taskState }
            .ok ({ s with fileOutputBuffer := flushed.1, world := world }, false)

/-- The zone loop of `runPostCrawlFilters` over the zones still to visit. -/
def postCrawlZones {σ : Type} (env : PostCrawlEnv σ) (totalLinesMap : GoMap Int) :
    List (String × String) → PostCrawlRun σ → Except String (PostCrawlRun σ × Bool)
  | [], s => .ok (s, false)
  | (zoneName, _) :: rest, s =>
    match postCrawlZone env zoneName ((totalLinesMap.get zoneName).getD 0) s with
    | .error e => .error e
    | .ok (s, true) => .ok (s, true)
    | .ok (s, false) => postCrawlZones env totalLinesMap rest s

/-- The function `getTotalPreCrawlFileLinesToRead`: the loop of `getTotalZoneFileLinesToRead`
over the pre-crawl cache files. -/
def getTotalPreCrawlFileLinesToRead (cacheFolderPath : String) (files : GoMap String)
    (zoneFileRegistry : List (String × String)) : Except String (GoMap Int) :=
  getTotalZoneFileLinesToRead files
    (cacheFileRegistry (GetPreCrawlFilterOutputFilePath cacheFolderPath) zoneFileRegistry)

/-- The state of the variables of `runPostCrawlFilters` before the zone loop. -/
def postCrawlStart {σ : Type} (env : PostCrawlEnv σ) (totalLinesMap : GoMap Int) (handlers : σ)
    (tick : Nat) (w : World) : PostCrawlRun σ :=
  let totalWorkItems := (totalLinesMap.map Prod.snd).sum
  let app := SetTotalWorkItems w.app totalWorkItems
  let app := SetProcessedWorkItems (env.clock tick) app 0
  { world := { w with app := app, processedWorkItems := 0 }
    handlers := handlers
    bHasAppendedToFileOnce := false
    tick := tick
    fileOutputBuffer := NewFileOutputBuffer
    lineIndex := 0
    availableConnectors := env.ConcurrentConnections
    running := []
    launched := 0
    waits := 0
    processedWorkItemsMutex := false }

/-- The function `runPostCrawlFilters`, for a zone registry visited in the order of the list. -/
def runPostCrawlFilters {σ : Type} (env : PostCrawlEnv σ)
    (zoneFileRegistry : List (String × String)) (handlers : σ) (tick : Nat) (w : World) :
    Except String (PostCrawlRun σ) :=
  match getTotalPreCrawlFileLinesToRead env.cacheFolderPath w.files zoneFileRegistry with
  | .error e => .error e
  | .ok totalLinesMap =>
    match postCrawlZones env totalLinesMap zoneFileRegistry
        (postCrawlStart env totalLinesMap handlers tick w) with
    | .error e => .error e
    | .ok (s, true) => .ok { s with processedWorkItemsMutex := false }
    | .ok (s, false) =>
      let s := { s with processedWorkItemsMutex := false }
      if !s.bHasAppendedToFileOnce then
        let errorDetails :=
          "Post-crawl filters didn't produce any output. Unable to continue indexing."
        .ok { s with world := { s.world with app := OnErrored s.world.app errorDetails } }
      else
        match OnPostCrawlFiltersFinished s.world.app with
        | .error e => .error e
        | .ok app => .ok { s with world := { s.world with app := app } }

/-! ## Example inputs for the post-crawl runner -/

/-- A post-crawl filter that returns every record as it is. -/
def keepAllFilter : PostConnectionFilter Unit :=
  { Input := fun s inProperties _ _ => (s, some inProperties), GetType := "keep_all" }

/-- A crawler for which every domain resolves, may be crawled and serves the document of
`TestDescriptionFilter`. -/
def exampleCrawler : Crawler :=
  { HasDNSARecord := fun _ _ => true
    CanCrawl := fun _ _ => true
    Crawl := fun _ _ => .ok ([], testDescriptionDocument) }

/-- A post-crawl environment with the filter that keeps every record, two connectors, a bulk
output limit of 4096 bytes, and connectors that finish only when the runner waits for them. -/
def examplePostCrawlEnv (signal : Nat → Bool) : PostCrawlEnv Unit :=
  { postCrawlFilterArray := [keepAllFilter]
    FileBulkOutputQty := 4096
    cacheFolderPath := "cache"
    ConcurrentConnections := 2
    ConnectionProtocol := "https"
    crawler := exampleCrawler
    decode := exampleDecodeLine
    signal := signal
    clock := fun _ => 0
    finishing := fun _ => []
    next := fun _ => 0 }

/-- The pre-crawl file of the zone `com` with the lines of `a.com` and `b.com`. -/
def examplePreCrawlFiles : GoMap String :=
  [("cache/zone/com/pre_crawl_output.txt", nameLine "a.com" ++ nameLine "b.com")]

/-- The world of a post-crawl run on the zone `com`, with the given store. -/
def examplePostCrawlWorld (db : Database) : World :=
  { db := db
    files := examplePreCrawlFiles
    app := { NewApplicationStateManager with task := .RunningPostCrawlFilters }
    processedWorkItems := 0 }

/-- The store after the pre-crawl stage has finished the zone `com`. -/
def preCrawlFinishedStore : Database :=
  [("db_scheme_version", .text "1.0"),
   ("com_pre_crawl_filter_task_state_json",
    .taskStateJSON { BIsFinished := true, LineIndex := 0 })]

/-- What a post-crawl run leaves behind: the task, the checkpoints of the zone `com` for the
pre-crawl and for the post-crawl stage, and the post-crawl output file. -/
def postCrawlOutcome (r : Except String (PostCrawlRun Unit)) :
    Option (ApplicationTask × Option DbValue × Option DbValue × Option String) :=
  match r with
  | .error _ => none
  | .ok s =>
    some (s.world.app.task, s.world.db.getString "com_pre_crawl_filter_task_state_json",
      s.world.db.getString "com_post_crawl_filter_task_state_json",
      s.world.files.get "cache/zone/com/post_crawl_output.txt")

/-- The state of the variables of `runPreCrawlFilters` before the zone loop. -/
def preCrawlStart {σ : Type} (env : PreCrawlEnv σ) (totalLinesMap : GoMap Int) (handlers : σ)
    (tick : Nat) (w : World) : PreCrawlRun σ :=
  let totalWorkItems := (totalLinesMap.map Prod.snd).sum
  let app := SetTotalWorkItems w.app totalWorkItems
  let app := SetProcessedWorkItems (env.clock tick) app 0
  { world := { w with app := app, processedWorkItems := 0 }
    handlers := handlers
    bHasAppendedToFileOnce := false
    tick := tick
    outputFileBuffer := NewFileOutputBuffer
    lineIndex := 0 }

/-- The state of the variables of `runIndexer` before the zone loop. -/
def indexerStart {ι : Type} (env : IndexerEnv ι) (totalLinesMap : GoMap Int) (index : ι)
    (tick : Nat) (w : World) : IndexerRun ι :=
  let totalWorkItems := (totalLinesMap.map Prod.snd).sum
  let app := SetTotalWorkItems w.app totalWorkItems
  let app := SetProcessedWorkItems (env.clock tick) app 0
  { world := { w with app := app, processedWorkItems := 0 }
    index := index
    tick := tick
    lineIndex := 0
    remainingLinesToNextDBSave := totalLinesUntilIndexerDBSave
    indexerTaskState := { BIsFinished := false, LineIndex := 0 } }

/-! ## Specification-side definitions for the progress and the output of a stage run -/

/-- The number of lines of a file of the file system, 0 for a file that does not exist. -/
def lineCount (files : GoMap String) (path : String) : Int :=
  match files.get path with
  | some content => CountLinesInFile content
  | none => 0

/-- The sum of the line counts of the input files of a registry of pairs (zone name, path of the
input file). -/
def totalLineCount (files : GoMap String) (registry : List (String × String)) : Int :=
  (registry.map fun zone => lineCount files zone.2).sum

/-- The published progress is that of the runner's counter, for the total `total`: the total, the
processed count and the remaining count as `SetTotalWorkItems` and `SetProcessedWorkItems` leave
them. -/
def Published (total : Int) (w : World) : Prop :=
  w.app.totalWorkItems = total ∧ w.app.processedWorkItems = w.processedWorkItems ∧
    w.app.remainingWorkItems = total - w.processedWorkItems

/-- The progress made between two worlds of a run, measured against a budget of work items that
may still be counted (`budget` before, `budget1` after): the published progress stays that of
the counter, the counter does not decrease, and it grows by no more than the budget shrinks. -/
def Counted (budget budget1 : Int) (w w1 : World) : Prop :=
  (∀ total, Published total w → Published total w1) ∧
    w.processedWorkItems ≤ w1.processedWorkItems ∧
    w1.processedWorkItems + budget1 ≤ w.processedWorkItems + budget

/-- What a part of a stage run wrote, between the world, output buffer and flag
`bHasAppendedToFileOnce` before it and those after it: it wrote no file but the output file
`out`, no key of the store outside `keys`, it left the task as it was, it added a text to the
output (file and buffer together), and the flag is set after it exactly when it was set before or
the text is not empty. -/
def Wrote (out : String) (keys : List String) (w : World) (o : FileOutputBuffer) (flag : Bool)
    (w1 : World) (o1 : FileOutputBuffer) (flag1 : Bool) : Prop :=
  (∀ p, p ≠ out → w1.files.get p = w.files.get p) ∧
    (∀ k, k ∉ keys → GoMap.get w1.db k = GoMap.get w.db k) ∧
    w1.app.task = w.app.task ∧
    ∃ text, outputWritten out o1 w1 = outputWritten out o w ++ text ∧
      flag1 = (flag || decide (text ≠ ""))

/-- A stage finds the zone already finished: its checkpoint in the store says so. -/
def foundFinished (stage : Stage) (db : Database) (zoneName : String) : Prop :=
  ∃ taskState, GetTaskState stage db zoneName = .ok taskState ∧ taskState.BIsFinished = true

/-- What a stage run wrote while it went through the zones `zones`, between the world and flag
`bHasAppendedToFileOnce` before and those after: no file but the output files `out z` of these
zones, no key of the store but the keys `keysOf z` of these zones, the task is as it was, and the
flag is set after it exactly when it was set before, or one of the zones was found already
finished, or the output file of one of the zones has changed. -/
def RunWrote (out : String → String) (keysOf : String → List String) (stage : Stage)
    (zones : List String) (w : World) (flag : Bool) (w1 : World) (flag1 : Bool) : Prop :=
  (∀ p, (∀ z ∈ zones, p ≠ out z) → w1.files.get p = w.files.get p) ∧
    (∀ k, (∀ z ∈ zones, k ∉ keysOf z) → GoMap.get w1.db k = GoMap.get w.db k) ∧
    w1.app.task = w.app.task ∧
    (flag1 = true ↔
      flag = true ∨ (∃ z ∈ zones, foundFinished stage w.db z) ∨
        ∃ z ∈ zones, fileContent w1.files (out z) ≠ fileContent w.files (out z))

/-- The published progress is within the total `total`: the published total is `total`, the
published processed count lies between 0 and the total, and the published remaining count is
the total less the processed count and is not negative. -/
def WithinTotal (total : Int) (w : World) : Prop :=
  w.app.totalWorkItems = total ∧ 0 ≤ w.app.processedWorkItems ∧
    w.app.processedWorkItems ≤ total ∧
    w.app.remainingWorkItems = total - w.app.processedWorkItems ∧ 0 ≤ w.app.remainingWorkItems

/-! ## Example inputs for the progress of the three stages -/

/-- A file system with the zone file of `com` (three lines) and the pre-crawl and post-crawl
files of `com` (two lines each). -/
def exampleStageFiles : GoMap String :=
  [("zones/com.txt", exampleZoneFile),
   ("cache/zone/com/pre_crawl_output.txt", nameLine "a.com" ++ nameLine "b.com"),
   ("cache/zone/com/post_crawl_output.txt", nameLine "a.com" ++ nameLine "b.com")]

/-- A world with these files and the given store and task. -/
def exampleStageWorld (db : Database) (task : ApplicationTask) : World :=
  { db := db
    files := exampleStageFiles
    app := { NewApplicationStateManager with task := task }
    processedWorkItems := 0 }

/-- The registry with the zone `com`. -/
def exampleRegistry : List (String × String) := [("com", "zones/com.txt")]

/-- Some zone of the registry is found already finished by the stage, on the store `db`. -/
def anyZoneFoundFinished (stage : Stage) (registry : List (String × String)) (db : Database) :
    Prop :=
  ∃ zone ∈ registry, foundFinished stage db zone.1

/-- Something was appended to the output file of some zone of the registry: the content
`files1` of that file after the run is not the content `files` before it. -/
def anyOutputAppended (out : String → String) (registry : List (String × String))
    (files files1 : GoMap String) : Prop :=
  ∃ zone ∈ registry, fileContent files1 (out zone.1) ≠ fileContent files (out zone.1)

/-- A zone file with a comment line only: no line of it has a record. -/
def commentOnlyZoneFile : String := "; zone com\n"

/-- The store in which the given stage has finished the zone `com`. -/
def comFinishedStore (stage : Stage) : Database :=
  [(checkpointKey stage "com", .taskStateJSON { BIsFinished := true, LineIndex := 0 })]

/-- The characters `json.Marshal` writes for the characters of a string, between the quotes. -/
def escapeChars : List Char → List Char
  | [] => []
  | c :: cs => (jsonEscapeChar c).toList ++ escapeChars cs

/-- The characters `json.Marshal` writes for a member of an object: the key, a colon and the
value. -/
def memberChars (e : String × PropertyValue) : List Char :=
  (jsonQuote e.1).toList ++ ':' :: (jsonValueText e.2).toList

/-- The characters `json.Marshal` writes behind the first member of an object: every further
member behind a comma, and the closing brace. -/
def tailChars : List (String × PropertyValue) → List Char
  | [] => ['\x7d']
  | e :: rest => ',' :: (memberChars e ++ tailChars rest)

/-! ## Theorems -/

/-! ### Lemmas on Go maps -/

namespace GoMap

variable {V : Type}

theorem get_set_self (m : GoMap V) (k : String) (v : V) : get (set m k v) k = some v := by
  induction m with
  | nil => simp [set, get]
  | cons e m ih =>
    obtain ⟨k0, v0⟩ := e
    by_cases h : k0 = k <;> simp [set, get, h, ih]

theorem get_set_ne (m : GoMap V) {k k1 : String} (v : V) (h : k1 ≠ k) :
    get (set m k v) k1 = get m k1 := by
  induction m with
  | nil => simp [set, get, h.symm]
  | cons e m ih =>
    obtain ⟨k0, v0⟩ := e
    by_cases h0 : k0 = k
    · subst h0
      simp [set, get, h.symm]
    · by_cases h1 : k0 = k1
      · subst h1
        simp [set, get, h0]
      · simp [set, get, h0, h1, ih]

theorem get_eq_none_iff (m : GoMap V) (k : String) : get m k = none ↔ k ∉ keys m := by
  induction m with
  | nil => simp [get, keys]
  | cons e m ih =>
    obtain ⟨k0, v0⟩ := e
    by_cases h : k0 = k
    · simp [get, keys, h]
    · have h1 : ¬ k = k0 := fun h2 => h h2.symm
      simpa [get, keys, h, h1] using ih

theorem mem_keys_of_get {m : GoMap V} {k : String} {v : V} (h : get m k = some v) :
    k ∈ keys m := by
  by_contra hk
  rw [(get_eq_none_iff m k).2 hk] at h
  cases h

theorem get_of_mem {m : GoMap V} (hwf : WF m) {k : String} {v : V} (h : (k, v) ∈ m) :
    get m k = some v := by
  induction m with
  | nil => cases h
  | cons e m ih =>
    obtain ⟨k0, v0⟩ := e
    have hnd : k0 ∉ m.map Prod.fst ∧ (m.map Prod.fst).Nodup := by
      simpa [WF] using hwf
    rcases List.mem_cons.1 h with h1 | h1
    · cases h1
      simp [get]
    · have hk : k0 ≠ k := by
        intro h2
        subst h2
        exact hnd.1 (List.mem_map_of_mem Prod.fst h1)
      simpa [get, hk] using ih hnd.2 h1

theorem mem_of_get {m : GoMap V} {k : String} {v : V} (h : get m k = some v) : (k, v) ∈ m := by
  induction m with
  | nil => cases h
  | cons e m ih =>
    obtain ⟨k0, v0⟩ := e
    by_cases h0 : k0 = k
    · subst h0
      simp [get] at h
      simp [h]
    · simp [get, h0] at h
      exact List.mem_cons_of_mem _ (ih h)

theorem keys_set (m : GoMap V) (k : String) (v : V) :
    keys (set m k v) = if k ∈ keys m then keys m else keys m ++ [k] := by
  induction m with
  | nil => simp [set, keys]
  | cons e m ih =>
    obtain ⟨k0, v0⟩ := e
    by_cases h : k0 = k
    · subst h
      simp [set, keys]
    · have h1 : ¬ k = k0 := fun h2 => h h2.symm
      have ih1 : List.map Prod.fst (set m k v) =
          if k ∈ List.map Prod.fst m then List.map Prod.fst m else List.map Prod.fst m ++ [k] := ih
      simp only [set, keys, h, if_false, List.map_cons, List.mem_cons, h1, false_or, ih1]
      split <;> simp

theorem WF_set {m : GoMap V} (hwf : WF m) (k : String) (v : V) : WF (set m k v) := by
  have h := keys_set m k v
  unfold WF
  unfold WF at hwf
  unfold keys at h
  rw [h]
  split
  · exact hwf
  · rename_i hk
    exact List.Nodup.append hwf (List.nodup_singleton k) (by simpa using hk)

theorem get_map {W : Type} (f : V → W) (m : GoMap V) (k : String) :
    get (m.map fun e => (e.1, f e.2)) k = (get m k).map f := by
  induction m with
  | nil => simp [get]
  | cons e m ih =>
    obtain ⟨k0, v0⟩ := e
    by_cases h : k0 = k <;> simp [get, h, ih]

theorem get_perm {m m1 : GoMap V} (hwf : WF m) (hp : List.Perm m m1) (k : String) :
    get m k = get m1 k := by
  have hwf1 : WF m1 := (hp.map Prod.fst).nodup_iff.1 hwf
  cases h : get m k with
  | none =>
    have hk : k ∉ keys m1 := fun hm =>
      (get_eq_none_iff m k).1 h ((hp.map Prod.fst).mem_iff.2 hm)
    exact ((get_eq_none_iff m1 k).2 hk).symm
  | some v => exact (get_of_mem hwf1 (hp.mem_iff.1 (mem_of_get h))).symm

end GoMap

/-! ### Lemmas on the text functions -/

theorem fieldsChars_dropWhile (l : List Char) :
    fieldsChars (l.dropWhile isSpace) = fieldsChars l := by
  induction l with
  | nil => rfl
  | cons c cs ih =>
    by_cases h : isSpace c = true
    · simp [List.dropWhile, h, fieldsChars, ih]
    · simp [List.dropWhile, h]

theorem fieldsChars_cons_nonspace (c d : Char) (ds : List Char) (hc : isSpace c ≠ true) :
    fieldsChars (c :: d :: ds) =
      if isSpace d then [c] :: fieldsChars (d :: ds)
      else
        match fieldsChars (d :: ds) with
        | f :: fs => (c :: f) :: fs
        | [] => [[c]] := by
  rw [fieldsChars]
  simp [hc]

theorem fieldsChars_append_space (l : List Char) (c : Char) (hc : isSpace c = true) :
    fieldsChars (l ++ [c]) = fieldsChars l := by
  induction l with
  | nil => simp [fieldsChars, hc]
  | cons x xs ih =>
    by_cases hx : isSpace x = true
    · simp [fieldsChars, hx, ih]
    · cases xs with
      | nil => simp [fieldsChars, hx, hc]
      | cons d ds =>
        have ih1 : fieldsChars (d :: (ds ++ [c])) = fieldsChars (d :: ds) := ih
        rw [List.cons_append, List.cons_append, fieldsChars_cons_nonspace x d _ hx,
          fieldsChars_cons_nonspace x d _ hx, ih1]

theorem fieldsChars_trimRight (l : List Char) :
    fieldsChars ((l.reverse.dropWhile isSpace).reverse) = fieldsChars l := by
  induction l using List.reverseRecOn with
  | nil => rfl
  | append_singleton l c ih =>
    by_cases hc : isSpace c = true
    · simp [List.dropWhile, hc, ih, fieldsChars_append_space]
    · simp [List.dropWhile, hc]

theorem Fields_TrimSpace (s : String) : Fields (TrimSpace s) = Fields s := by
  simp [Fields, TrimSpace, fieldsChars_trimRight, fieldsChars_dropWhile]

theorem Fields_of_TrimSpace_empty (s : String) (h : (TrimSpace s).utf8ByteSize = 0) :
    Fields s = [] := by
  have h1 : (TrimSpace s).data = [] := by
    have h2 : String.utf8Len (TrimSpace s).data = 0 := h
    exact String.utf8Len_eq_zero.1 h2
  rw [← Fields_TrimSpace]
  simp [Fields, h1, fieldsChars]

theorem parseZoneLine_eq (line : String) :
    parseZoneLine line =
      if (Fields line).length < 5 then none else some (buildRecord (Fields line)) := by
  unfold parseZoneLine
  by_cases h : (TrimSpace line).utf8ByteSize = 0
  · simp [h, Fields_of_TrimSpace_empty line h]
  · simp [h, Fields_TrimSpace]

/-- C1: every guarded lifecycle transition succeeds exactly from its predecessor(s) in the
lifecycle DAG, then leaving the task at the transition's target state, and panics with
"Programming error." from every other task state. -/
theorem guarded_transition_exact (t : GuardedTransition) (now : ℚ) (a : ApplicationState) :
    taskOf (t.run now a) =
      if a.task ∈ t.predecessors then .ok t.target else .error programmingError := by
  obtain ⟨task, t0, tw, pw, rw, ew, ed⟩ := a
  cases t <;> cases task <;>
    simp [GuardedTransition.run, GuardedTransition.predecessors, GuardedTransition.target, taskOf,
      OnPreCrawlFiltersStarted, OnPreCrawlFiltersFinished, OnPostCrawlFiltersStarted,
      OnPostCrawlFiltersFinished, OnIndexingStarted, OnReadyToSearch, OnRankingStarted]

/-! ### The pre-crawl parse of a zone-file line -/

/-- C8: the pre-crawl runner splits a zone-file line on whitespace (`Fields line`).  With fewer
than five fields no record is built, and the loop body only counts the line as processed: the
progress counter goes up by one while the output buffer, the files, the checkpoint store, the
handlers and `lineIndex` stay as they are.  With five or more fields the record has exactly the
string attributes ttl = 2nd field, record_class = 3rd field, record_type = 4th field and
record_data = the 5th and later fields joined with single spaces, and no other attribute. -/
theorem pre_crawl_line_fields {σ : Type} (env : PreCrawlEnv σ) (zoneName : String)
    (startLineIndex : Int) (line : String) (s : PreCrawlRun σ) :
    ((Fields line).length < 5 →
      parseZoneLine line = none ∧
      (s.lineIndex ≥ startLineIndex →
        (preCrawlLine env zoneName startLineIndex line s).world.processedWorkItems
            = s.world.processedWorkItems + 1 ∧
          (preCrawlLine env zoneName startLineIndex line s).outputFileBuffer = s.outputFileBuffer ∧
          (preCrawlLine env zoneName startLineIndex line s).world.files = s.world.files ∧
          (preCrawlLine env zoneName startLineIndex line s).world.db = s.world.db ∧
          (preCrawlLine env zoneName startLineIndex line s).handlers = s.handlers ∧
          (preCrawlLine env zoneName startLineIndex line s).lineIndex = s.lineIndex)) ∧
    (5 ≤ (Fields line).length →
      ∃ f0 f1 f2 f3 rest record,
        Fields line = f0 :: f1 :: f2 :: f3 :: rest ∧
        parseZoneLine line = some record ∧
        record.StringProperties =
          [("ttl", f1), ("record_class", f2), ("record_type", f3),
            ("record_data", Join rest " ")] ∧
        record.IntProperties = [] ∧ record.FloatProperties = [] ∧
        record.BoolProperties = []) := by
  constructor
  · intro h
    have hp : parseZoneLine line = none := by
      rw [parseZoneLine_eq]
      simp [h]
    refine ⟨hp, fun hs => ?_⟩
    simp [preCrawlLine, hs, hp, countProcessed]
  · intro h
    have hp : parseZoneLine line = some (buildRecord (Fields line)) := by
      rw [parseZoneLine_eq]
      simp [Nat.not_lt.2 h]
    match hf : Fields line, h with
    | f0 :: f1 :: f2 :: f3 :: f4 :: rest, _ =>
      refine ⟨f0, f1, f2, f3, f4 :: rest, buildRecord (f0 :: f1 :: f2 :: f3 :: f4 :: rest),
        rfl, by rw [hp, hf], ?_⟩
      unfold buildRecord
      dsimp only
      split <;> simp [GoMap.set, List.getD]

/-- A line of two fields and the example line of the specification. -/
theorem pre_crawl_line_fields_witness :
    parseZoneLine "com. 3600\n" = none ∧
      ∃ record, parseZoneLine exampleLine = some record ∧
        record.StringProperties =
          [("ttl", "3600"), ("record_class", "IN"), ("record_type", "NS"),
            ("record_data", "ns1.example.net.")] :=
  ⟨((pre_crawl_line_fields (exampleEnv fun _ => false) "com" 0 "com. 3600\n"
      (exampleStart [] [])).1 (by decide)).1,
    by
      obtain ⟨f0, f1, f2, f3, rest, record, hf, hr, hs, _⟩ :=
        (pre_crawl_line_fields (exampleEnv fun _ => false) "com" 0 exampleLine
          (exampleStart [] [])).2 (by decide)
      refine ⟨record, hr, ?_⟩
      have hf1 : Fields exampleLine = ["example.com.", "3600", "IN", "NS", "ns1.example.net."] := by
        decide
      rw [hf1] at hf
      injection hf with h0 hf
      injection hf with h1 hf
      injection hf with h2 hf
      injection hf with h3 hf
      subst h0 h1 h2 h3 hf
      exact hs⟩

/-- C9 (evaluation of the code): the record built from `example.com. 3600 IN NS …` has the domain
name `example.com`, the trailing dot being stripped; but a first field without a trailing dot is
not kept as it is: the record built from `example.com 3600 IN NS …` has the domain name
`example`, because the name is cut at its last dot wherever that dot stands. -/
theorem domain_name_cut_at_last_dot :
    (parseZoneLine exampleLine).map (fun r => r.DomainName) = some "example.com" ∧
      (parseZoneLine exampleLineNoTrailingDot).map (fun r => r.DomainName) = some "example" := by
  constructor <;> decide

/-! ### The unique-domain filter on the example record -/

/-- C10 (counterexample): the record built from `example.com. 3600 IN NS ns1.example.net.` has
record_type `NS` and is dropped by a freshly initialised unique-domain filter whose nameserver
check is on. -/
theorem unique_domain_drops_upper_case_example :
    ∃ f record,
      UniqueDomainFilter.Initialize (uniqueDomainOptions false) = .ok f ∧
      f.bNameserverCheck = true ∧
      parseZoneLine exampleLine = some record ∧
      record.DomainName = "example.com" ∧
      record.StringProperties.get "record_type" = some "NS" ∧
      record.StringProperties.get "record_data" = some "ns1.example.net." ∧
      (f.Input record).2 = none :=
  ⟨{ domainSet := [], bNameserverCheck := true, bDiscardProperties := false },
    buildRecord (Fields exampleLine), rfl, rfl, rfl, rfl, rfl, rfl, rfl⟩

/-- C10 (amended): whatever the discard option, a freshly initialised unique-domain filter whose
nameserver check is on emits the record built from `example.com. 3600 in ns ns1.example.net.`,
whose record_type is the lower-case `ns` the check compares with, keeping its domain name
`example.com`; and it drops the record built from the upper-case line of the scenario. -/
theorem unique_domain_example (bDiscardProperties : Bool) :
    ∃ f lower upper output,
      UniqueDomainFilter.Initialize (uniqueDomainOptions bDiscardProperties) = .ok f ∧
      f.bNameserverCheck = true ∧
      parseZoneLine exampleLineLowerCase = some lower ∧
      lower.DomainName = "example.com" ∧
      lower.StringProperties.get "record_type" = some "ns" ∧
      lower.StringProperties.get "record_data" = some "ns1.example.net." ∧
      (f.Input lower).2 = some output ∧
      output.DomainName = "example.com" ∧
      parseZoneLine exampleLine = some upper ∧
      upper.StringProperties.get "record_type" = some "NS" ∧
      (f.Input upper).2 = none := by
  cases bDiscardProperties
  · exact ⟨{ domainSet := [], bNameserverCheck := true, bDiscardProperties := false },
      buildRecord (Fields exampleLineLowerCase), buildRecord (Fields exampleLine),
      buildRecord (Fields exampleLineLowerCase), rfl, rfl, rfl, rfl, rfl, rfl, rfl, rfl, rfl, rfl,
      rfl⟩
  · exact ⟨{ domainSet := [], bNameserverCheck := true, bDiscardProperties := true },
      buildRecord (Fields exampleLineLowerCase), buildRecord (Fields exampleLine),
      { buildRecord (Fields exampleLineLowerCase) with StringProperties := [] }, rfl, rfl, rfl, rfl,
      rfl, rfl, rfl, rfl, rfl, rfl, rfl⟩

/-! ### The output buffer -/

theorem buffer_eq_empty_of_size (t : String) (h : t.utf8ByteSize = 0) : t = "" := by
  have h2 : String.utf8Len t.data = 0 := h
  have h3 : t.data = [] := String.utf8Len_eq_zero.1 h2
  exact String.ext h3

theorem flushToFile_spec (o : FileOutputBuffer) (path : String) (w : World) :
    (o.flushToFile path w).1.buffer = "" ∧
      (o.flushToFile path w).1.appendedLinesQty = o.appendedLinesQty ∧
      fileContent (o.flushToFile path w).2.files path = fileContent w.files path ++ o.buffer ∧
      (o.flushToFile path w).2.db = w.db ∧
      (o.flushToFile path w).2.app = w.app ∧
      (o.flushToFile path w).2.processedWorkItems = w.processedWorkItems := by
  unfold FileOutputBuffer.flushToFile
  by_cases h : o.buffer.utf8ByteSize = 0
  · have hb := buffer_eq_empty_of_size o.buffer h
    rw [if_pos h]
    simp [hb]
  · rw [if_neg h]
    simp [fileContent, GoMap.get_set_self]

theorem AppendToFile_spec (opts : FileOutputBufferOptions) (hcb : opts.OnAppendCB = none)
    (o : FileOutputBuffer) (line : String) (w : World) :
    outputWritten opts.FilePath (o.AppendToFile opts line w).1 (o.AppendToFile opts line w).2 =
        outputWritten opts.FilePath o w ++ (line ++ "\n") ∧
      (o.AppendToFile opts line w).2.db = w.db ∧
      (o.AppendToFile opts line w).2.app = w.app ∧
      (o.AppendToFile opts line w).2.processedWorkItems = w.processedWorkItems := by
  have hf := flushToFile_spec
    { buffer := o.buffer ++ (line ++ "\n"), appendedLinesQty := o.appendedLinesQty + 1 }
    opts.FilePath w
  obtain ⟨h1, _, h3, h4, h5, h6⟩ := hf
  by_cases hc : ((o.buffer ++ (line ++ "\n")).utf8ByteSize : Int) ≥ opts.BulkOutputLimit
  · simp only [FileOutputBuffer.AppendToFile, hcb, hc, if_true]
    simp only [outputWritten, h1, h3, h4, h5, h6]
    simp [String.append_assoc]
  · simp only [FileOutputBuffer.AppendToFile, hcb, hc, if_false]
    simp [outputWritten, String.append_assoc]

theorem jsonLines_append (xs ys : List DomainProperties) :
    jsonLines (xs ++ ys) = jsonLines xs ++ jsonLines ys := by
  induction xs with
  | nil => simp [jsonLines]
  | cons x xs ih => simp [jsonLines, ih, String.append_assoc]

/-! ### The uninterrupted pre-crawl run of a zone -/

theorem SetProcessedWorkItems_task (now : ℚ) (a : ApplicationState) (n : Int) :
    (SetProcessedWorkItems now a n).task = a.task := rfl

/-- One pass through the loop body when nothing is skipped for a resume (`startLineIndex = 0`):
the text produced grows by the JSON line of the record if the line has a surviving record, and by
nothing otherwise; the checkpoint store and the task are not touched. -/
theorem preCrawlLine_fresh {σ : Type} (env : PreCrawlEnv σ) (zoneName line : String)
    (s : PreCrawlRun σ) (hidx : 0 ≤ s.lineIndex) :
    (preCrawlLine env zoneName 0 line s).world.db = s.world.db ∧
      (preCrawlLine env zoneName 0 line s).world.app.task = s.world.app.task ∧
      0 ≤ (preCrawlLine env zoneName 0 line s).lineIndex ∧
      (preCrawlLine env zoneName 0 line s).tick = s.tick ∧
      outputWritten (GetPreCrawlFilterOutputFilePath env.cacheFolderPath zoneName)
          (preCrawlLine env zoneName 0 line s).outputFileBuffer
          (preCrawlLine env zoneName 0 line s).world =
        outputWritten (GetPreCrawlFilterOutputFilePath env.cacheFolderPath zoneName)
            s.outputFileBuffer s.world ++
          jsonLines (emittedRecords env.preCrawlFilterArray s.handlers [line]) ∧
      ∀ rest, emittedRecords env.preCrawlFilterArray s.handlers (line :: rest) =
        emittedRecords env.preCrawlFilterArray s.handlers [line] ++
          emittedRecords env.preCrawlFilterArray
            (preCrawlLine env zoneName 0 line s).handlers rest := by
  unfold preCrawlLine
  simp only [ge_iff_le, hidx, if_true]
  cases hp : parseZoneLine line with
  | none =>
    simp [emittedRecords, hp, countProcessed, SetProcessedWorkItems_task, hidx, outputWritten,
      jsonLines]
  | some record =>
    cases hc : preCrawlProcessDomainProperties env.preCrawlFilterArray s.handlers record with
    | mk handlers out =>
      cases out with
      | none =>
        simp [emittedRecords, hp, hc, countProcessed, SetProcessedWorkItems_task, hidx,
          outputWritten, jsonLines]
      | some output =>
        have ha := AppendToFile_spec (preCrawlBufferOpts env zoneName s.lineIndex) rfl
          s.outputFileBuffer (ToJSONString output) s.world
        obtain ⟨h1, h2, h3, _⟩ := ha
        have hpath : (preCrawlBufferOpts env zoneName s.lineIndex).FilePath =
            GetPreCrawlFilterOutputFilePath env.cacheFolderPath zoneName := rfl
        rw [hpath] at h1
        simp only [emittedRecords, hp, hc, jsonLines]
        refine ⟨?_, ?_, ?_, trivial, ?_, ?_⟩
        · simpa [countProcessed] using h2
        · simp [countProcessed, SetProcessedWorkItems_task, h3]
        · omega
        · simp only [countProcessed, outputWritten] at h1 ⊢
          rw [h1]
          simp
        · intro rest
          simp

/-- The line loop without a shutdown signal, started with `startLineIndex = 0`: it runs to the
end of the input, leaves the checkpoint store alone, and the text produced grows by the JSON
lines of the surviving records. -/
theorem preCrawlLoop_fresh {σ : Type} (env : PreCrawlEnv σ) (zoneName : String)
    (hsig : ∀ n, env.signal n = false) (lines : List String) :
    ∀ s : PreCrawlRun σ, s.world.app.task ≠ .Shutdown → 0 ≤ s.lineIndex →
      (preCrawlLoop env zoneName 0 lines s).2 = false ∧
        (preCrawlLoop env zoneName 0 lines s).1.world.db = s.world.db ∧
        outputWritten (GetPreCrawlFilterOutputFilePath env.cacheFolderPath zoneName)
            (preCrawlLoop env zoneName 0 lines s).1.outputFileBuffer
            (preCrawlLoop env zoneName 0 lines s).1.world =
          outputWritten (GetPreCrawlFilterOutputFilePath env.cacheFolderPath zoneName)
              s.outputFileBuffer s.world ++
            jsonLines (emittedRecords env.preCrawlFilterArray s.handlers lines) := by
  induction lines with
  | nil =>
    intro s htask _
    simp [preCrawlLoop, observeShutdown, hsig, htask, emittedRecords, jsonLines, outputWritten]
  | cons line rest ih =>
    intro s htask hidx
    have hobs : (observeShutdown env s).world.app.task = s.world.app.task := by
      simp [observeShutdown, hsig]
    have hstep := preCrawlLine_fresh env zoneName line (observeShutdown env s) hidx
    obtain ⟨h1, h2, h3, _, h5, h6⟩ := hstep
    have hnext := ih (preCrawlLine env zoneName 0 line (observeShutdown env s))
      (by rw [h2, hobs]; exact htask) h3
    obtain ⟨g1, g2, g3⟩ := hnext
    have hloop : preCrawlLoop env zoneName 0 (line :: rest) s =
        preCrawlLoop env zoneName 0 rest (preCrawlLine env zoneName 0 line (observeShutdown env s)) := by
      simp [preCrawlLoop, hobs, htask]
    rw [hloop]
    refine ⟨g1, ?_, ?_⟩
    · rw [g2, h1]
      simp [observeShutdown]
    · rw [g3, h5]
      have h7 := h6 rest
      have hh : (observeShutdown env s).handlers = s.handlers := rfl
      have ho : outputWritten (GetPreCrawlFilterOutputFilePath env.cacheFolderPath zoneName)
          (observeShutdown env s).outputFileBuffer (observeShutdown env s).world =
          outputWritten (GetPreCrawlFilterOutputFilePath env.cacheFolderPath zoneName)
            s.outputFileBuffer s.world := rfl
      rw [hh] at h7
      rw [h7, ho, hh]
      rw [jsonLines_append, String.append_assoc]


theorem GetPreCrawlFilterTaskState_Save (db : Database) (zoneName : String)
    (state : PreCrawlFilterTaskState) :
    GetPreCrawlFilterTaskState (SavePreCrawlFilterTaskState db zoneName state) zoneName =
      .ok state := by
  simp [GetPreCrawlFilterTaskState, SavePreCrawlFilterTaskState, Database.getString,
    Database.setString, GoMap.get_set_self]

/-- A pre-crawl run of a zone that starts from the zero checkpoint and meets no shutdown returns
normally with the zone's checkpoint at finished = true, line_index = 0, with nothing left in the
buffer, and with the output file extended by one JSON line per record that
`preCrawlProcessDomainProperties` returned, in input order. -/
theorem preCrawlZone_uninterrupted {σ : Type} (env : PreCrawlEnv σ)
    (zoneName zoneFile content : String) (totalLines : Int) (s : PreCrawlRun σ)
    (hsig : ∀ n, env.signal n = false)
    (htask : s.world.app.task ≠ .Shutdown)
    (hzero : GetPreCrawlFilterTaskState s.world.db zoneName =
      .ok { BIsFinished := false, LineIndex := 0 })
    (hfile : s.world.files.get zoneFile = some content) :
    ∃ s1, preCrawlZone env zoneName zoneFile totalLines s = .ok (s1, false) ∧
      GetPreCrawlFilterTaskState s1.world.db zoneName =
        .ok { BIsFinished := true, LineIndex := 0 } ∧
      s1.outputFileBuffer.buffer = "" ∧
      fileContent s1.world.files (GetPreCrawlFilterOutputFilePath env.cacheFolderPath zoneName) =
        fileContent s.world.files (GetPreCrawlFilterOutputFilePath env.cacheFolderPath zoneName) ++
          jsonLines (emittedRecords env.preCrawlFilterArray s.handlers (ReadLines content)) := by
  have hl := preCrawlLoop_fresh env zoneName hsig (ReadLines content)
    { s with outputFileBuffer := NewFileOutputBuffer, lineIndex := 0 } htask (le_refl _)
  obtain ⟨l1, _, l3⟩ := hl
  rcases hr : preCrawlLoop env zoneName 0 (ReadLines content)
    { s with outputFileBuffer := NewFileOutputBuffer, lineIndex := 0 } with ⟨s2, stopped⟩
  rw [hr] at l1 l3
  simp only at l1 l3
  subst l1
  have hf := flushToFile_spec s2.outputFileBuffer
    (GetPreCrawlFilterOutputFilePath env.cacheFolderPath zoneName) s2.world
  obtain ⟨f1, _, f3, _, _, _⟩ := hf
  refine ⟨{ s2 with
      outputFileBuffer :=
        (s2.outputFileBuffer.Flush (preCrawlBufferOpts env zoneName s2.lineIndex) s2.world).1
      world :=
        { (s2.outputFileBuffer.Flush (preCrawlBufferOpts env zoneName s2.lineIndex) s2.world).2 with
          db := SavePreCrawlFilterTaskState
            (s2.outputFileBuffer.Flush (preCrawlBufferOpts env zoneName s2.lineIndex) s2.world).2.db
            zoneName { BIsFinished := true, LineIndex := 0 } } }, ?_, ?_, ?_, ?_⟩
  · simp only [preCrawlZone, hzero, hfile, hr, Bool.false_eq_true, if_false]
  · exact GetPreCrawlFilterTaskState_Save _ _ _
  · simpa [FileOutputBuffer.Flush, preCrawlBufferOpts] using f1
  · simp only [FileOutputBuffer.Flush, preCrawlBufferOpts]
    rw [f3]
    simp only [outputWritten] at l3
    rw [l3]
    simp [NewFileOutputBuffer]

/-! ### The JSON round trip of a record -/

namespace GoMap

variable {V W : Type}

theorem foldl_set_WF (f : V → W) (m : GoMap V) :
    ∀ p : GoMap W, WF p → WF (m.foldl (fun p kv => set p kv.1 (f kv.2)) p) := by
  induction m with
  | nil => intro p hp; exact hp
  | cons e m ih => intro p hp; exact ih _ (WF_set hp _ _)

theorem get_foldl_set (f : V → W) (m : GoMap V) (hwf : WF m) (k : String) :
    ∀ p : GoMap W, get (m.foldl (fun p kv => set p kv.1 (f kv.2)) p) k =
      match get m k with
      | some v => some (f v)
      | none => get p k := by
  induction m with
  | nil => intro p; simp [get]
  | cons e m ih =>
    intro p
    obtain ⟨k0, v0⟩ := e
    have hnd : k0 ∉ m.map Prod.fst ∧ (m.map Prod.fst).Nodup := by
      simpa [WF] using hwf
    rw [List.foldl_cons, ih hnd.2]
    by_cases h : k0 = k
    · subst h
      have hn : get m k0 = none := (get_eq_none_iff m k0).2 hnd.1
      simp [get, hn, get_set_self]
    · have h1 : k ≠ k0 := fun h2 => h h2.symm
      simp [get, h, get_set_ne _ _ h1]

end GoMap

theorem properties_WF (d : DomainProperties) : GoMap.WF (ToJSONString.properties d) := by
  unfold ToJSONString.properties
  apply GoMap.foldl_set_WF
  apply GoMap.foldl_set_WF
  apply GoMap.foldl_set_WF
  apply GoMap.foldl_set_WF
  exact GoMap.WF_set (by simp [GoMap.WF]) _ _

theorem properties_get (d : DomainProperties) (hS : GoMap.WF d.StringProperties)
    (hI : GoMap.WF d.IntProperties) (hF : GoMap.WF d.FloatProperties)
    (hB : GoMap.WF d.BoolProperties) (k : String) :
    GoMap.get (ToJSONString.properties d) k =
      match d.BoolProperties.get k with
      | some b => some (.bool b)
      | none =>
        match d.FloatProperties.get k with
        | some q => some (.float64 q)
        | none =>
          match d.IntProperties.get k with
          | some n => some (.int64 n)
          | none =>
            match d.StringProperties.get k with
            | some s => some (.str s)
            | none => if k = "domainName" then some (.str d.DomainName) else none := by
  unfold ToJSONString.properties
  simp only []
  rw [GoMap.get_foldl_set _ _ hB, GoMap.get_foldl_set _ _ hF, GoMap.get_foldl_set _ _ hI,
    GoMap.get_foldl_set _ _ hS]
  have h0 : GoMap.get (GoMap.set ([] : GoMap PropertyValue) "domainName" (.str d.DomainName)) k =
      if k = "domainName" then some (.str d.DomainName) else none := by
    by_cases hk : k = "domainName"
    · subst hk
      simp [GoMap.get_set_self]
    · simp [hk, GoMap.set, GoMap.get, Ne.symm hk]
  rw [h0]
  cases d.BoolProperties.get k <;> cases d.FloatProperties.get k <;>
    cases d.IntProperties.get k <;> cases d.StringProperties.get k <;> rfl

/-- The loop of `UnmarshalJSON` over a well-formed `rawData`, seen through an observation `g` of
the record that an assignment under another key leaves alone and that an assignment under `k`
changes by `upd`. -/
theorem foldl_assign_get {X : Type} (g : DomainProperties → X) (k : String)
    (upd : JsonValue → X → X)
    (hother : ∀ d k1 v, k1 ≠ k → g (UnmarshalJSON.assign d k1 v) = g d)
    (hself : ∀ d v, g (UnmarshalJSON.assign d k v) = upd v (g d))
    (raw : GoMap JsonValue) (hwf : GoMap.WF raw) :
    ∀ d0, g (raw.foldl (fun d kv => UnmarshalJSON.assign d kv.1 kv.2) d0) =
      match GoMap.get raw k with
      | some v => upd v (g d0)
      | none => g d0 := by
  induction raw with
  | nil => intro d0; simp [GoMap.get]
  | cons e raw ih =>
    intro d0
    obtain ⟨k0, v0⟩ := e
    have hnd : k0 ∉ raw.map Prod.fst ∧ (raw.map Prod.fst).Nodup := by
      simpa [GoMap.WF] using hwf
    rw [List.foldl_cons, ih hnd.2]
    by_cases h : k0 = k
    · subst h
      have hn : GoMap.get raw k0 = none := (GoMap.get_eq_none_iff raw k0).2 hnd.1
      simp [GoMap.get, hn, hself]
    · simp only [GoMap.get, h, if_false]
      rw [hother d0 k0 v0 h]

theorem assign_other (d : DomainProperties) (k1 : String) (v : JsonValue) (k : String)
    (h : k1 ≠ k) :
    (UnmarshalJSON.assign d k1 v).StringProperties.get k = d.StringProperties.get k ∧
      (UnmarshalJSON.assign d k1 v).IntProperties.get k = d.IntProperties.get k ∧
      (UnmarshalJSON.assign d k1 v).FloatProperties.get k = d.FloatProperties.get k ∧
      (UnmarshalJSON.assign d k1 v).BoolProperties.get k = d.BoolProperties.get k := by
  have hk : k ≠ k1 := fun h2 => h h2.symm
  unfold UnmarshalJSON.assign
  by_cases h1 : k1 = "domainName"
  · simp [h1]
  · cases v with
    | number q =>
      by_cases hq : q = (float64OfInt (int64OfFloat q) : ℚ)
      · simp only [h1, if_false]
        rw [if_pos hq]
        simp [GoMap.get_set_ne _ _ hk]
      · simp only [h1, if_false]
        rw [if_neg hq]
        simp [GoMap.get_set_ne _ _ hk]
    | _ => simp [h1, GoMap.get_set_ne _ _ hk]

theorem assign_DomainName (d : DomainProperties) (k1 : String) (v : JsonValue) :
    (UnmarshalJSON.assign d k1 v).DomainName = d.DomainName := by
  unfold UnmarshalJSON.assign
  by_cases h1 : k1 = "domainName"
  · simp [h1]
  · cases v with
    | number q =>
      by_cases hq : q = (float64OfInt (int64OfFloat q) : ℚ)
      · simp only [h1, if_false]
        rw [if_pos hq]
      · simp only [h1, if_false]
        rw [if_neg hq]
    | _ => simp [h1]

theorem foldl_assign_DomainName (raw : GoMap JsonValue) :
    ∀ d0, (raw.foldl (fun d kv => UnmarshalJSON.assign d kv.1 kv.2) d0).DomainName =
      d0.DomainName := by
  induction raw with
  | nil => intro d0; rfl
  | cons e raw ih => intro d0; rw [List.foldl_cons, ih, assign_DomainName]

theorem assign_self (d : DomainProperties) (k : String) (v : JsonValue)
    (hk : k ≠ "domainName") :
    (UnmarshalJSON.assign d k v).StringProperties.get k =
        (match v with
          | .string s => some s
          | _ => d.StringProperties.get k) ∧
      (UnmarshalJSON.assign d k v).IntProperties.get k =
        (match v with
          | .number q =>
            if q = (float64OfInt (int64OfFloat q) : ℚ) then some (int64OfFloat q)
            else d.IntProperties.get k
          | _ => d.IntProperties.get k) ∧
      (UnmarshalJSON.assign d k v).FloatProperties.get k =
        (match v with
          | .number q =>
            if q = (float64OfInt (int64OfFloat q) : ℚ) then d.FloatProperties.get k
            else some q
          | _ => d.FloatProperties.get k) ∧
      (UnmarshalJSON.assign d k v).BoolProperties.get k =
        (match v with
          | .bool b => some b
          | _ => d.BoolProperties.get k) := by
  unfold UnmarshalJSON.assign
  cases v with
  | number q =>
    by_cases hq : q = (float64OfInt (int64OfFloat q) : ℚ)
    · simp only [hk, if_false]
      rw [if_pos hq, if_pos hq, if_pos hq]
      simp [GoMap.get_set_self]
    · simp only [hk, if_false]
      rw [if_neg hq, if_neg hq, if_neg hq]
      simp [GoMap.get_set_self]
  | _ => simp [hk, GoMap.get_set_self]

/-- What `UnmarshalJSON` leaves in the four buckets under a key other than `domainName`, read
off the value that a well-formed `rawData` holds under that key. -/
theorem UnmarshalJSON_buckets (raw : GoMap JsonValue) (hwf : GoMap.WF raw) (k : String)
    (hk : k ≠ "domainName") (d0 : DomainProperties) :
    (raw.foldl (fun d kv => UnmarshalJSON.assign d kv.1 kv.2) d0).StringProperties.get k =
        (match GoMap.get raw k with
          | some (.string s) => some s
          | _ => d0.StringProperties.get k) ∧
      (raw.foldl (fun d kv => UnmarshalJSON.assign d kv.1 kv.2) d0).IntProperties.get k =
        (match GoMap.get raw k with
          | some (.number q) =>
            if q = (float64OfInt (int64OfFloat q) : ℚ) then some (int64OfFloat q)
            else d0.IntProperties.get k
          | _ => d0.IntProperties.get k) ∧
      (raw.foldl (fun d kv => UnmarshalJSON.assign d kv.1 kv.2) d0).FloatProperties.get k =
        (match GoMap.get raw k with
          | some (.number q) =>
            if q = (float64OfInt (int64OfFloat q) : ℚ) then d0.FloatProperties.get k
            else some q
          | _ => d0.FloatProperties.get k) ∧
      (raw.foldl (fun d kv => UnmarshalJSON.assign d kv.1 kv.2) d0).BoolProperties.get k =
        (match GoMap.get raw k with
          | some (.bool b) => some b
          | _ => d0.BoolProperties.get k) := by
  refine ⟨?_, ?_, ?_, ?_⟩
  · rw [foldl_assign_get (fun d => d.StringProperties.get k) k
      (fun v old => match v with
        | .string s => some s
        | _ => old)
      (fun d k1 v h => (assign_other d k1 v k h).1)
      (fun d v => (assign_self d k v hk).1) raw hwf d0]
    cases GoMap.get raw k with
    | none => rfl
    | some v => cases v <;> rfl
  · rw [foldl_assign_get (fun d => d.IntProperties.get k) k
      (fun v old => match v with
        | .number q => if q = (float64OfInt (int64OfFloat q) : ℚ) then some (int64OfFloat q) else old
        | _ => old)
      (fun d k1 v h => (assign_other d k1 v k h).2.1)
      (fun d v => (assign_self d k v hk).2.1) raw hwf d0]
    cases GoMap.get raw k with
    | none => rfl
    | some v => cases v <;> rfl
  · rw [foldl_assign_get (fun d => d.FloatProperties.get k) k
      (fun v old => match v with
        | .number q => if q = (float64OfInt (int64OfFloat q) : ℚ) then old else some q
        | _ => old)
      (fun d k1 v h => (assign_other d k1 v k h).2.2.1)
      (fun d v => (assign_self d k v hk).2.2.1) raw hwf d0]
    cases GoMap.get raw k with
    | none => rfl
    | some v => cases v <;> rfl
  · rw [foldl_assign_get (fun d => d.BoolProperties.get k) k
      (fun v old => match v with
        | .bool b => some b
        | _ => old)
      (fun d k1 v h => (assign_other d k1 v k h).2.2.2)
      (fun d v => (assign_self d k v hk).2.2.2) raw hwf d0]
    cases GoMap.get raw k with
    | none => rfl
    | some v => cases v <;> rfl

/-- The key `domainName` never enters a bucket. -/
theorem UnmarshalJSON_reserved (raw : GoMap JsonValue) :
    ∀ d0, (raw.foldl (fun d kv => UnmarshalJSON.assign d kv.1 kv.2) d0).StringProperties.get
          "domainName" = d0.StringProperties.get "domainName" ∧
      (raw.foldl (fun d kv => UnmarshalJSON.assign d kv.1 kv.2) d0).IntProperties.get
          "domainName" = d0.IntProperties.get "domainName" ∧
      (raw.foldl (fun d kv => UnmarshalJSON.assign d kv.1 kv.2) d0).FloatProperties.get
          "domainName" = d0.FloatProperties.get "domainName" ∧
      (raw.foldl (fun d kv => UnmarshalJSON.assign d kv.1 kv.2) d0).BoolProperties.get
          "domainName" = d0.BoolProperties.get "domainName" := by
  induction raw with
  | nil => intro d0; exact ⟨rfl, rfl, rfl, rfl⟩
  | cons e raw ih =>
    intro d0
    obtain ⟨k0, v0⟩ := e
    rw [List.foldl_cons]
    obtain ⟨h1, h2, h3, h4⟩ := ih (UnmarshalJSON.assign d0 k0 v0)
    rw [h1, h2, h3, h4]
    by_cases h : k0 = "domainName"
    · subst h
      simp [UnmarshalJSON.assign]
    · exact assign_other d0 k0 v0 "domainName" h


theorem float64OfInt_small (n : Int) (h : n.natAbs ≤ 2 ^ 53) : float64OfInt n = n := by
  unfold float64OfInt
  simp only []
  rw [if_pos h]

theorem float64OfInt_min : float64OfInt (-(2 : Int) ^ 63) = -(2 : Int) ^ 63 := by
  decide

theorem truncToInt_intCast (n : Int) : truncToInt (n : ℚ) = n := by
  unfold truncToInt
  split <;> simp

theorem int64OfFloat_intCast (n : Int) (h1 : -(2 : Int) ^ 63 ≤ n) (h2 : n < (2 : Int) ^ 63) :
    int64OfFloat (n : ℚ) = n := by
  unfold int64OfFloat
  simp only [truncToInt_intCast]
  rw [if_pos ⟨h1, h2⟩]

theorem int64OfFloat_intCast_out (n : Int) (h : ¬ (-(2 : Int) ^ 63 ≤ n ∧ n < (2 : Int) ^ 63)) :
    int64OfFloat (n : ℚ) = -(2 : Int) ^ 63 := by
  unfold int64OfFloat
  simp only [truncToInt_intCast]
  rw [if_neg h]

theorem rat_eq_intCast_of_den (q : ℚ) (h : q.den = 1) : q = (q.num : ℚ) :=
  (Rat.coe_int_num_of_den_eq_one h).symm

theorem rat_ne_intCast_of_den (q : ℚ) (h : q.den ≠ 1) (m : Int) : q ≠ (m : ℚ) := by
  intro h1
  apply h
  rw [h1]
  simp

/-- The integrality test of `UnmarshalJSON` on a double: it succeeds exactly on the integral
values within the range of `int64` (given that an integral double is a `float64`). -/
theorem integrality_test (q : ℚ) (hq : q.den = 1 → float64OfInt q.num = q.num) :
    (q = (float64OfInt (int64OfFloat q) : ℚ)) ↔
      (q.den = 1 ∧ -(2 : Int) ^ 63 ≤ q.num ∧ q.num < (2 : Int) ^ 63) := by
  by_cases hd : q.den = 1
  · have hqn := rat_eq_intCast_of_den q hd
    by_cases hr : -(2 : Int) ^ 63 ≤ q.num ∧ q.num < (2 : Int) ^ 63
    · have h1 : int64OfFloat q = q.num := by
        rw [hqn]
        simpa using int64OfFloat_intCast q.num hr.1 hr.2
      rw [h1, hq hd]
      exact ⟨fun _ => ⟨hd, hr⟩, fun _ => hqn⟩
    · have h1 : int64OfFloat q = -(2 : Int) ^ 63 := by
        rw [hqn]
        simpa using int64OfFloat_intCast_out q.num hr
      rw [h1, float64OfInt_min]
      constructor
      · intro h2
        exfalso
        apply hr
        have h3 : (q.num : ℚ) = ((-(2 : Int) ^ 63 : Int) : ℚ) := by
          rw [← hqn]
          exact h2
        have h4 : q.num = -(2 : Int) ^ 63 := by exact_mod_cast h3
        rw [h4]
        constructor <;> norm_num
      · intro h2
        exact absurd ⟨h2.2.1, h2.2.2⟩ hr
  · constructor
    · intro h
      exact absurd h (rat_ne_intCast_of_den q hd _)
    · intro h
      exact absurd h.1 hd


/-- The four buckets of the record read back, key by key, for a key other than `domainName`:
strings and booleans are where they were; an int within `±2^53` is in the int bucket; a double
is in the int bucket when it passes the integrality test and in the float bucket otherwise. -/
theorem round_trip_key (d : DomainProperties) (raw : GoMap JsonValue)
    (horder : List.Perm raw (decodeMarshalled (ToJSONString.properties d)))
    (hkeys : (attributeKeys d).Nodup)
    (hint : ∀ k n, d.IntProperties.get k = some n → n.natAbs ≤ 2 ^ 53)
    (d0 : DomainProperties) (hd0 : d0.StringProperties = [] ∧ d0.IntProperties = [] ∧
      d0.FloatProperties = [] ∧ d0.BoolProperties = [])
    (k : String) (hk : k ≠ "domainName") :
    (raw.foldl (fun d kv => UnmarshalJSON.assign d kv.1 kv.2) d0).StringProperties.get k =
        d.StringProperties.get k ∧
      (raw.foldl (fun d kv => UnmarshalJSON.assign d kv.1 kv.2) d0).BoolProperties.get k =
        d.BoolProperties.get k ∧
      (raw.foldl (fun d kv => UnmarshalJSON.assign d kv.1 kv.2) d0).IntProperties.get k =
        (match d.IntProperties.get k, d.FloatProperties.get k with
          | some n, _ => some n
          | none, some q =>
            if q = (float64OfInt (int64OfFloat q) : ℚ) then some (int64OfFloat q) else none
          | none, none => none) ∧
      (raw.foldl (fun d kv => UnmarshalJSON.assign d kv.1 kv.2) d0).FloatProperties.get k =
        (match d.IntProperties.get k, d.FloatProperties.get k with
          | some _, _ => none
          | none, some q => if q = (float64OfInt (int64OfFloat q) : ℚ) then none else some q
          | none, none => none) := by
  have hnd := hkeys
  unfold attributeKeys at hnd
  rw [List.nodup_append] at hnd
  obtain ⟨hSIF, hB, dB⟩ := hnd
  rw [List.nodup_append] at hSIF
  obtain ⟨hSI, hF, dF⟩ := hSIF
  rw [List.nodup_append] at hSI
  obtain ⟨hS, hI, dI⟩ := hSI
  have hwfP := properties_WF d
  have hwfD : GoMap.WF (decodeMarshalled (ToJSONString.properties d)) := by
    unfold decodeMarshalled GoMap.WF
    simpa [List.map_map, Function.comp_def] using hwfP
  have hwfR : GoMap.WF raw := (horder.map Prod.fst).nodup_iff.2 hwfD
  have hraw : GoMap.get raw k =
      (GoMap.get (ToJSONString.properties d) k).map decodeMarshalledValue := by
    rw [GoMap.get_perm hwfR horder]
    exact GoMap.get_map _ _ _
  rw [properties_get d hS hI hF hB] at hraw
  obtain ⟨e1, e2, e3, e4⟩ := hd0
  obtain ⟨b1, b2, b3, b4⟩ := UnmarshalJSON_buckets raw hwfR k hk d0
  rw [b1, b2, b3, b4, hraw, e1, e2, e3, e4]
  -- which buckets hold the key
  have mS : ∀ s, d.StringProperties.get k = some s → k ∈ GoMap.keys d.StringProperties :=
    fun s h => GoMap.mem_keys_of_get h
  have mI : ∀ n, d.IntProperties.get k = some n → k ∈ GoMap.keys d.IntProperties :=
    fun n h => GoMap.mem_keys_of_get h
  have mF : ∀ q, d.FloatProperties.get k = some q → k ∈ GoMap.keys d.FloatProperties :=
    fun q h => GoMap.mem_keys_of_get h
  have mB : ∀ b, d.BoolProperties.get k = some b → k ∈ GoMap.keys d.BoolProperties :=
    fun b h => GoMap.mem_keys_of_get h
  cases hb : d.BoolProperties.get k with
  | some b =>
    have kB := mB b hb
    cases hf : d.FloatProperties.get k with
    | some q => exact absurd kB (fun h => dB (List.mem_append_right _ (mF q hf)) h)
    | none =>
      cases hi : d.IntProperties.get k with
      | some n =>
        exact absurd kB (fun h =>
          dB (List.mem_append_left _ (List.mem_append_right _ (mI n hi))) h)
      | none =>
        cases hs : d.StringProperties.get k with
        | some s =>
          exact absurd kB (fun h =>
            dB (List.mem_append_left _ (List.mem_append_left _ (mS s hs))) h)
        | none => simp [decodeMarshalledValue, GoMap.get]
  | none =>
    cases hf : d.FloatProperties.get k with
    | some q =>
      have kF := mF q hf
      cases hi : d.IntProperties.get k with
      | some n => exact absurd kF (fun h => dF (List.mem_append_right _ (mI n hi)) h)
      | none =>
        cases hs : d.StringProperties.get k with
        | some s => exact absurd kF (fun h => dF (List.mem_append_left _ (mS s hs)) h)
        | none => simp [decodeMarshalledValue, GoMap.get]
    | none =>
      cases hi : d.IntProperties.get k with
      | some n =>
        have kI := mI n hi
        have hn := hint k n hi
        have hn1 : float64OfInt n = n := float64OfInt_small n hn
        have hr1 : -(2 : Int) ^ 63 ≤ n := by
          have : (n.natAbs : Int) ≤ 2 ^ 53 := by exact_mod_cast hn
          omega
        have hr2 : n < (2 : Int) ^ 63 := by
          have : (n.natAbs : Int) ≤ 2 ^ 53 := by exact_mod_cast hn
          omega
        have hn2 : int64OfFloat (n : ℚ) = n := int64OfFloat_intCast n hr1 hr2
        cases hs : d.StringProperties.get k with
        | some s => exact absurd kI (fun h => dI (mS s hs) h)
        | none => simp [decodeMarshalledValue, GoMap.get, hn1, hn2]
      | none =>
        cases hs : d.StringProperties.get k with
        | some s => simp [decodeMarshalledValue, GoMap.get]
        | none => simp [decodeMarshalledValue, GoMap.get, hk]


/-- The loop of `UnmarshalJSON` on the values that the round trip reads back: for a record whose
attribute keys are pairwise distinct within and across the four buckets, none of them the
reserved key `domainName`, whose int attributes lie within `±2^53` and whose integral doubles
are `float64` values, `UnmarshalJSON` on the members `decodeMarshalled` gives (in whatever order
the map is visited) succeeds and preserves the domain name, every string attribute, every bool
attribute and the value of every numeric attribute; an int stays in the int bucket, and an
integral double within the range of `int64` comes back in the int bucket, and not in the float
bucket, with the same value. -/
theorem unmarshal_decodeMarshalled (d : DomainProperties) (raw : GoMap JsonValue)
    (horder : List.Perm raw (decodeMarshalled (ToJSONString.properties d)))
    (hkeys : (attributeKeys d).Nodup)
    (hreserved : "domainName" ∉ attributeKeys d)
    (hint : ∀ k n, d.IntProperties.get k = some n → n.natAbs ≤ 2 ^ 53)
    (hfloat : ∀ k q, d.FloatProperties.get k = some q → q.den = 1 →
      float64OfInt q.num = q.num) :
    ∃ d1, UnmarshalJSON raw NewDomainProperties = .ok d1 ∧
      d1.DomainName = d.DomainName ∧
      (∀ k, d1.StringProperties.get k = d.StringProperties.get k) ∧
      (∀ k, d1.BoolProperties.get k = d.BoolProperties.get k) ∧
      (∀ k, numericValue d1 k = numericValue d k) ∧
      (∀ k n, d.IntProperties.get k = some n → d1.IntProperties.get k = some n) ∧
      (∀ k q, d.FloatProperties.get k = some q → q.den = 1 → -(2 : Int) ^ 63 ≤ q.num →
        q.num < (2 : Int) ^ 63 →
        d1.IntProperties.get k = some q.num ∧ d1.FloatProperties.get k = none) := by
  have hnd := hkeys
  unfold attributeKeys at hnd
  rw [List.nodup_append] at hnd
  obtain ⟨hSIF, hB, dB⟩ := hnd
  rw [List.nodup_append] at hSIF
  obtain ⟨hSI, hF, dF⟩ := hSIF
  rw [List.nodup_append] at hSI
  obtain ⟨hS, hI, dI⟩ := hSI
  have hres : "domainName" ∉ GoMap.keys d.StringProperties ∧
      "domainName" ∉ GoMap.keys d.IntProperties ∧
      "domainName" ∉ GoMap.keys d.FloatProperties ∧
      "domainName" ∉ GoMap.keys d.BoolProperties := by
    simpa [attributeKeys, not_or, and_assoc] using hreserved
  obtain ⟨rS, rI, rF, rB⟩ := hres
  have nS := (GoMap.get_eq_none_iff _ _).2 rS
  have nI := (GoMap.get_eq_none_iff _ _).2 rI
  have nF := (GoMap.get_eq_none_iff _ _).2 rF
  have nB := (GoMap.get_eq_none_iff _ _).2 rB
  have hwfP := properties_WF d
  have hwfD : GoMap.WF (decodeMarshalled (ToJSONString.properties d)) := by
    unfold decodeMarshalled GoMap.WF
    simpa [List.map_map, Function.comp_def] using hwfP
  have hwfR : GoMap.WF raw := (horder.map Prod.fst).nodup_iff.2 hwfD
  have hname : GoMap.get raw "domainName" = some (.string d.DomainName) := by
    rw [GoMap.get_perm hwfR horder]
    unfold decodeMarshalled
    rw [GoMap.get_map, properties_get d hS hI hF hB, nS, nI, nF, nB]
    rfl
  have hkey := fun k hk => round_trip_key d raw horder hkeys hint
    { NewDomainProperties with DomainName := d.DomainName } ⟨rfl, rfl, rfl, rfl⟩ k hk
  have hresv := UnmarshalJSON_reserved raw { NewDomainProperties with DomainName := d.DomainName }
  refine ⟨raw.foldl (fun d kv => UnmarshalJSON.assign d kv.1 kv.2)
    { NewDomainProperties with DomainName := d.DomainName }, ?_, ?_, ?_, ?_, ?_, ?_, ?_⟩
  · simp only [UnmarshalJSON, hname]
  · rw [foldl_assign_DomainName]
  · intro k
    by_cases hk : k = "domainName"
    · subst hk
      rw [hresv.1, nS]
      rfl
    · exact (hkey k hk).1
  · intro k
    by_cases hk : k = "domainName"
    · subst hk
      rw [hresv.2.2.2, nB]
      rfl
    · exact (hkey k hk).2.1
  · intro k
    unfold numericValue
    by_cases hk : k = "domainName"
    · subst hk
      rw [hresv.2.1, hresv.2.2.1, nI, nF]
      rfl
    · rw [(hkey k hk).2.2.1, (hkey k hk).2.2.2]
      cases hi : d.IntProperties.get k with
      | some n => simp
      | none =>
        cases hf : d.FloatProperties.get k with
        | none => simp
        | some q =>
          by_cases ht : q = (float64OfInt (int64OfFloat q) : ℚ)
          · have h1 := (integrality_test q (hfloat k q hf)).1 ht
            have h2 : int64OfFloat q = q.num := by
              rw [rat_eq_intCast_of_den q h1.1]
              simpa using int64OfFloat_intCast q.num h1.2.1 h1.2.2
            rw [h2] at ht
            simp only [h2, if_pos ht]
            exact congrArg some (rat_eq_intCast_of_den q h1.1).symm
          · simp only [if_neg ht]
  · intro k n hi
    have hk : k ≠ "domainName" := by
      intro h
      rw [h, nI] at hi
      cases hi
    rw [(hkey k hk).2.2.1, hi]
  · intro k q hf hden hlo hhi
    have hk : k ≠ "domainName" := by
      intro h
      rw [h, nF] at hf
      cases hf
    have hi : d.IntProperties.get k = none := by
      rw [GoMap.get_eq_none_iff]
      intro hmem
      exact dF (List.mem_append_right _ hmem) (GoMap.mem_keys_of_get hf)
    have ht : q = (float64OfInt (int64OfFloat q) : ℚ) :=
      (integrality_test q (hfloat k q hf)).2 ⟨hden, hlo, hhi⟩
    have h2 : int64OfFloat q = q.num := by
      rw [rat_eq_intCast_of_den q hden]
      simpa using int64OfFloat_intCast q.num hlo hhi
    rw [(hkey k hk).2.2.1, (hkey k hk).2.2.2, hi, hf]
    rw [h2] at ht
    simp only [h2, if_pos ht]
    exact ⟨trivial, trivial⟩


/-! ### Score normalisation -/

namespace GoMap

variable {V W : Type}

theorem keys_foldl_set (f : V → W) (m : GoMap V) (hwf : WF m) :
    ∀ p : GoMap W, (∀ k ∈ keys m, k ∉ keys p) →
      keys (m.foldl (fun p kv => set p kv.1 (f kv.2)) p) = keys p ++ keys m := by
  induction m with
  | nil => intro p _; simp [keys]
  | cons e m ih =>
    intro p hp
    obtain ⟨k0, v0⟩ := e
    have hnd : k0 ∉ m.map Prod.fst ∧ (m.map Prod.fst).Nodup := by
      simpa [WF] using hwf
    have hk0 : k0 ∉ keys p := hp k0 (by simp [keys])
    have hset : keys (set p k0 (f v0)) = keys p ++ [k0] := by
      rw [keys_set, if_neg hk0]
    rw [List.foldl_cons, ih hnd.2, hset]
    · simp [keys]
    · intro k hk
      rw [hset]
      intro hmem
      rcases List.mem_append.1 hmem with h1 | h1
      · exact hp k (by simp only [keys, List.map_cons, List.mem_cons]; exact Or.inr hk) h1
      · have : k = k0 := by simpa using h1
        subst this
        exact hnd.1 hk

end GoMap

/-- The loop of `scoreBounds` once the first score has been visited: the pair it returns bounds the
running pair and every score visited, and each bound is the running one or a visited score. -/
theorem findMinMax_loop (l : GoMap ℚ) :
    ∀ mn mx : ℚ,
      let r := l.foldl
        (fun (acc : ℚ × ℚ × Bool) kv =>
          if acc.2.2 then (kv.2, kv.2, false)
          else
            let maxScore := if kv.2 > acc.2.1 then kv.2 else acc.2.1
            let minScore := if kv.2 < acc.1 then kv.2 else acc.1
            (minScore, maxScore, false))
        (mn, mx, false)
      r.1 ≤ mn ∧ mx ≤ r.2.1 ∧ (∀ e ∈ l, r.1 ≤ e.2 ∧ e.2 ≤ r.2.1) ∧
        (r.1 = mn ∨ ∃ e ∈ l, r.1 = e.2) ∧ (r.2.1 = mx ∨ ∃ e ∈ l, r.2.1 = e.2) := by
  induction l with
  | nil => intro mn mx; simp
  | cons e l ih =>
    intro mn mx
    simp only [List.foldl_cons, Bool.false_eq_true, if_false]
    have h := ih (if e.2 < mn then e.2 else mn) (if e.2 > mx then e.2 else mx)
    simp only at h
    obtain ⟨h1, h2, h3, h4, h5⟩ := h
    have hmn : (if e.2 < mn then e.2 else mn) ≤ mn ∧ (if e.2 < mn then e.2 else mn) ≤ e.2 := by
      split <;> constructor <;> linarith
    have hmx : mx ≤ (if e.2 > mx then e.2 else mx) ∧ e.2 ≤ (if e.2 > mx then e.2 else mx) := by
      split <;> constructor <;> linarith
    refine ⟨le_trans h1 hmn.1, le_trans hmx.1 h2, ?_, ?_, ?_⟩
    · intro x hx
      rcases List.mem_cons.1 hx with hx | hx
      · subst hx
        exact ⟨le_trans h1 hmn.2, le_trans hmx.2 h2⟩
      · exact h3 x hx
    · rcases h4 with h4 | ⟨x, hx, h4⟩
      · by_cases hc : e.2 < mn
        · right
          exact ⟨e, List.mem_cons_self _ _, by rw [h4, if_pos hc]⟩
        · left
          rw [h4, if_neg hc]
      · right
        exact ⟨x, List.mem_cons_of_mem _ hx, h4⟩
    · rcases h5 with h5 | ⟨x, hx, h5⟩
      · by_cases hc : e.2 > mx
        · right
          exact ⟨e, List.mem_cons_self _ _, by rw [h5, if_pos hc]⟩
        · left
          rw [h5, if_neg hc]
      · right
        exact ⟨x, List.mem_cons_of_mem _ hx, h5⟩

/-- On a non-empty map `scoreBounds` returns the least and the greatest score. -/
theorem findMinMax_spec (scores : GoMap ℚ) (hne : scores ≠ []) :
    (∀ e ∈ scores, (scoreBounds scores).1 ≤ e.2 ∧
        e.2 ≤ (scoreBounds scores).2) ∧
      (∃ e ∈ scores, (scoreBounds scores).1 = e.2) ∧
      (∃ e ∈ scores, (scoreBounds scores).2 = e.2) := by
  cases scores with
  | nil => exact absurd rfl hne
  | cons e l =>
    have h := findMinMax_loop l e.2 e.2
    simp only at h
    obtain ⟨h1, h2, h3, h4, h5⟩ := h
    unfold scoreBounds
    simp only [List.foldl_cons, if_true]
    refine ⟨?_, ?_, ?_⟩
    · intro x hx
      rcases List.mem_cons.1 hx with hx | hx
      · subst hx
        exact ⟨h1, h2⟩
      · exact h3 x hx
    · rcases h4 with h4 | ⟨x, hx, h4⟩
      · exact ⟨e, List.mem_cons_self _ _, h4⟩
      · exact ⟨x, List.mem_cons_of_mem _ hx, h4⟩
    · rcases h5 with h5 | ⟨x, hx, h5⟩
      · exact ⟨e, List.mem_cons_self _ _, h5⟩
      · exact ⟨x, List.mem_cons_of_mem _ hx, h5⟩

/-! ### The normalized ranker weight table -/

namespace GoMap

variable {V : Type}

theorem set_fresh (p : GoMap V) (k : String) (v : V) (h : k ∉ keys p) :
    set p k v = p ++ [(k, v)] := by
  induction p with
  | nil => rfl
  | cons e p ih =>
    obtain ⟨k0, v0⟩ := e
    have h0 : k0 ≠ k := by
      intro h1
      apply h
      simp [keys, h1]
    have h2 : k ∉ keys p := by
      intro h1
      apply h
      simp only [keys, List.map_cons, List.mem_cons]
      exact Or.inr h1
    simp [set, h0, ih h2]

/-- Assigning entries with pairwise distinct fresh keys, one after the other, appends them. -/
theorem foldl_set_fresh {α : Type} (key : α → String) (val : α → V) (xs : List α)
    (hnd : (xs.map key).Nodup) :
    ∀ p : GoMap V, (∀ x ∈ xs, key x ∉ keys p) →
      xs.foldl (fun p x => set p (key x) (val x)) p = p ++ xs.map fun x => (key x, val x) := by
  induction xs with
  | nil => intro p _; simp
  | cons x xs ih =>
    intro p hp
    have hnd1 : key x ∉ xs.map key ∧ (xs.map key).Nodup := by
      simpa using hnd
    rw [List.foldl_cons, set_fresh p _ _ (hp x (List.mem_cons_self _ _)), ih hnd1.2]
    · simp
    · intro y hy hmem
      simp only [keys, List.map_append, List.map_cons, List.map_nil, List.mem_append,
        List.mem_singleton] at hmem
      rcases hmem with h1 | h1
      · exact hp y (List.mem_cons_of_mem _ hy) h1
      · exact hnd1.1 (by rw [← h1]; exact List.mem_map_of_mem key hy)

end GoMap

theorem initializeRankerArray_ok (rankerRegistry : GoMap Ranker) :
    ∀ (RankerOptions : List TaskHandlerOptions) (rankerArray : List Ranker) (total : ℚ),
      (∀ o ∈ RankerOptions, ∃ r, rankerRegistry.get o.HandlerType = some r ∧
        r.Initialize o = .ok () ∧ r.GetType = o.HandlerType) →
      ∃ rankers : List Ranker,
        initializeRankerArray rankerRegistry RankerOptions (rankerArray, total) =
          .ok (rankerArray ++ rankers, total + (RankerOptions.map rankerWeightOf).sum) ∧
        rankers.map (fun r => r.GetType) = RankerOptions.map (fun o => o.HandlerType) := by
  intro RankerOptions
  induction RankerOptions with
  | nil =>
    intro rankerArray total _
    exact ⟨[], by simp [initializeRankerArray], rfl⟩
  | cons o rest ih =>
    intro rankerArray total h
    obtain ⟨r, h1, h2, h3⟩ := h o (List.mem_cons_self _ _)
    obtain ⟨rankers, g1, g2⟩ := ih (rankerArray ++ [r]) (total + rankerWeightOf o)
      (fun o1 ho1 => h o1 (List.mem_cons_of_mem _ ho1))
    refine ⟨r :: rankers, ?_, ?_⟩
    · simp only [initializeRankerArray, h1, h2, g1, List.map_cons, List.sum_cons]
      simp [add_assoc]
    · simp [h3, g2]

theorem foundRankerOption_self (RankerOptions : List TaskHandlerOptions)
    (hnd : (RankerOptions.map fun o => o.HandlerType).Nodup) (o : TaskHandlerOptions)
    (ho : o ∈ RankerOptions) : foundRankerOption RankerOptions o.HandlerType = o := by
  induction RankerOptions with
  | nil => cases ho
  | cons x rest ih =>
    have hnd1 : x.HandlerType ∉ rest.map (fun o => o.HandlerType) ∧
        (rest.map fun o => o.HandlerType).Nodup := by
      simpa using hnd
    rcases List.mem_cons.1 ho with h | h
    · subst h
      simp [foundRankerOption, List.find?]
    · have hne : x.HandlerType ≠ o.HandlerType := by
        intro h1
        apply hnd1.1
        rw [h1]
        exact List.mem_map_of_mem (fun o => o.HandlerType) h
      have ih1 := ih hnd1.2 h
      unfold foundRankerOption at ih1 ⊢
      simp only [List.find?, hne, decide_False]
      exact ih1

theorem sum_map_div {α : Type} (w : α → ℚ) (t : ℚ) (l : List α) :
    (l.map fun x => w x / t).sum = (l.map w).sum / t := by
  induction l with
  | nil => simp
  | cons x l ih => simp [ih, add_div]


/-- C6 (amended): when every configured ranker type is registered (under its own type tag, and
initialises without an error), the configured types are pairwise distinct and the total weight
is not zero (so at least one ranker is configured), `initializeTaskHandlers` succeeds, the
normalized weight table has exactly one entry per configured ranker, `weight_i / Σ weight_j`,
and its values sum to 1 (in exact arithmetic). -/
theorem ranker_weights_normalized (rankerRegistry : GoMap Ranker)
    (RankerOptions : List TaskHandlerOptions)
    (hreg : ∀ o ∈ RankerOptions, ∃ r, rankerRegistry.get o.HandlerType = some r ∧
      r.Initialize o = .ok () ∧ r.GetType = o.HandlerType)
    (hdistinct : (RankerOptions.map fun o => o.HandlerType).Nodup)
    (htotal : (RankerOptions.map rankerWeightOf).sum ≠ 0) :
    ∃ a, initializeTaskHandlers rankerRegistry RankerOptions = .ok a ∧
      a.rankerArray.map (fun r => r.GetType) = RankerOptions.map (fun o => o.HandlerType) ∧
      a.rankerWeightMap =
        RankerOptions.map (fun o =>
          (o.HandlerType, rankerWeightOf o / (RankerOptions.map rankerWeightOf).sum)) ∧
      (a.rankerWeightMap.map Prod.snd).sum = 1 := by
  obtain ⟨rankers, h1, h2⟩ := initializeRankerArray_ok rankerRegistry RankerOptions [] 0 hreg
  simp only [List.nil_append, zero_add] at h1
  have hnd : (rankers.map fun r => r.GetType).Nodup := by
    rw [h2]
    exact hdistinct
  have htable : normalizeRankerWeights RankerOptions (RankerOptions.map rankerWeightOf).sum
      rankers [] =
      RankerOptions.map (fun o =>
        (o.HandlerType, rankerWeightOf o / (RankerOptions.map rankerWeightOf).sum)) := by
    unfold normalizeRankerWeights
    have hf := GoMap.foldl_set_fresh (fun r : Ranker => r.GetType)
      (fun r : Ranker => rankerWeightOf (foundRankerOption RankerOptions r.GetType) /
        (RankerOptions.map rankerWeightOf).sum) rankers hnd []
      (by intro x _; simp [GoMap.keys])
    simp only [List.nil_append] at hf
    rw [hf]
    have hm : (rankers.map fun x =>
        (x.GetType, rankerWeightOf (foundRankerOption RankerOptions x.GetType) /
          (RankerOptions.map rankerWeightOf).sum)) =
        (rankers.map fun r => r.GetType).map fun t =>
          (t, rankerWeightOf (foundRankerOption RankerOptions t) /
            (RankerOptions.map rankerWeightOf).sum) := by
      simp [List.map_map, Function.comp_def]
    rw [hm, h2, List.map_map]
    apply List.map_congr_left
    intro o ho
    simp only [Function.comp_apply]
    rw [foundRankerOption_self RankerOptions hdistinct o ho]
  refine ⟨{ rankerArray := rankers
            rankerWeightMap := normalizeRankerWeights RankerOptions
              (RankerOptions.map rankerWeightOf).sum rankers [] }, ?_, h2, htable, ?_⟩
  · simp only [initializeTaskHandlers, h1]
  · simp only [htable, List.map_map, Function.comp_def]
    rw [sum_map_div]
    exact div_self htotal

/-- C6 (counterexample): with the indexer ranker configured twice, with weights 3 and 1, the
table has the single entry 3/4, and its values do not sum to 1. -/
theorem ranker_weights_duplicate_type :
    ∃ a, initializeTaskHandlers (registerRankers fun _ => 0) duplicateRankerOptions = .ok a ∧
      a.rankerArray.length = 2 ∧
      a.rankerWeightMap = [("builtin.indexer_ranker", 3 / 4)] ∧
      (a.rankerWeightMap.map Prod.snd).sum ≠ 1 := by
  refine ⟨{ rankerArray := [IndexerRanker, IndexerRanker]
            rankerWeightMap := [("builtin.indexer_ranker", 3 / 4)] }, ?_, rfl, rfl, ?_⟩
  · simp [initializeTaskHandlers, initializeRankerArray, duplicateRankerOptions, rankerOptions,
      registerRankers, GoMap.get, GoMap.set, IndexerRanker, RandomRanker, rankerWeightOf,
      normalizeRankerWeights, foundRankerOption]
    norm_num
  · norm_num

/-- The two built-in rankers with the weights 3 and 1. -/
theorem ranker_weights_normalized_witness :
    ∃ a, initializeTaskHandlers (registerRankers fun _ => 0)
        [rankerOptions "builtin.indexer_ranker" 3, rankerOptions "builtin.random_ranker" 1] =
          .ok a ∧
      (a.rankerWeightMap.map Prod.snd).sum = 1 := by
  obtain ⟨a, h1, _, _, h4⟩ := ranker_weights_normalized (registerRankers fun _ => 0)
    [rankerOptions "builtin.indexer_ranker" 3, rankerOptions "builtin.random_ranker" 1]
    (by
      intro o ho
      simp only [List.mem_cons, List.mem_singleton, List.not_mem_nil, or_false] at ho
      rcases ho with h | h <;> subst h
      · exact ⟨IndexerRanker, rfl, rfl, rfl⟩
      · exact ⟨RandomRanker fun _ => 0, rfl, rfl, rfl⟩)
    (by decide)
    (by
      simp only [rankerOptions, rankerWeightOf, GoMap.get, List.map_cons, List.map_nil,
        List.sum_cons, List.sum_nil, if_true, Option.getD_some]
      norm_num)
  exact ⟨a, h1, h4⟩


/-! ### The ranker fusion -/

/-- C2 (evaluation of the code): on the example zone file (a comment line, then the records of
`a.com` and `b.com`) an uninterrupted run writes the two records.  A run shut down at its third
check has read two lines, has written the record of `a.com` and persists the checkpoint
`line_index = 1`, the number of records appended and not of lines read; the run that resumes
from that checkpoint skips one line only, the comment, and writes the record of `a.com` a second
time. -/
theorem pre_crawl_resume_duplicates :
    exampleOutcome (exampleFirstRun 9) =
        some (false, some (.taskStateJSON { BIsFinished := true, LineIndex := 0 }),
          some (exampleRecordA ++ exampleRecordB)) ∧
      exampleOutcome (exampleFirstRun 2) =
        some (true, some (.taskStateJSON { BIsFinished := false, LineIndex := 1 }),
          some exampleRecordA) ∧
      exampleOutcome (exampleSecondRun 2) =
        some (false, some (.taskStateJSON { BIsFinished := true, LineIndex := 1 }),
          some (exampleRecordA ++ exampleRecordA ++ exampleRecordB)) := by
  refine ⟨?_, ?_, ?_⟩ <;> decide


/-! ### The unique-domain filter on clustered input -/

theorem GoMap.mem_keys_set {V : Type} (m : GoMap V) (k : String) (v : V) (n : String) :
    n ∈ GoMap.keys (GoMap.set m k v) ↔ n ∈ GoMap.keys m ∨ n = k := by
  rw [GoMap.keys_set]
  by_cases h : k ∈ GoMap.keys m
  · rw [if_pos h]
    constructor
    · exact Or.inl
    · rintro (h1 | h1)
      · exact h1
      · rw [h1]
        exact h
  · rw [if_neg h]
    simp

/-- The step of the unique-domain filter on a record of type `ns`. -/
theorem UniqueDomainFilter.Input_ns (domainSet : GoMap Bool) (c d : Bool)
    (record : DomainProperties)
    (hns : record.StringProperties.get "record_type" = some "ns") :
    UniqueDomainFilter.Input
        { domainSet := domainSet, bNameserverCheck := c, bDiscardProperties := d } record =
      if record.DomainName ∈ GoMap.keys domainSet then
        ({ domainSet := domainSet, bNameserverCheck := c, bDiscardProperties := d }, none)
      else
        ({ domainSet :=
              GoMap.set (if domainSet.length > 1024 then [] else domainSet) record.DomainName true,
            bNameserverCheck := c,
            bDiscardProperties := d },
          some (emittedForm d record)) := by
  unfold UniqueDomainFilter.Input
  simp only [hns, Option.getD_some, ne_eq, not_true_eq_false, and_false, if_false]
  by_cases hk : record.DomainName ∈ GoMap.keys domainSet
  · rw [if_pos hk]
    cases hg : GoMap.get domainSet record.DomainName with
    | none => exact absurd hk ((GoMap.get_eq_none_iff _ _).1 hg)
    | some b => rfl
  · rw [if_neg hk, (GoMap.get_eq_none_iff _ _).2 hk]
    by_cases hl : domainSet.length > 1024 <;> cases d <;> simp [hl, emittedForm]

theorem UniqueDomainFilter.feed_clustered (c d : Bool) (records : List DomainProperties) :
    ∀ (domainSet : GoMap Bool) (previous : Option String),
      (∀ r ∈ records, r.StringProperties.get "record_type" = some "ns") →
      clustered records →
      (∀ n ∈ GoMap.keys domainSet, some n ≠ previous → ∀ r ∈ records, r.DomainName ≠ n) →
      (∀ n, previous = some n → n ∈ GoMap.keys domainSet ∧
        ∀ r ∈ records.dropWhile (fun r => r.DomainName = n), r.DomainName ≠ n) →
      (UniqueDomainFilter.feed
          { domainSet := domainSet, bNameserverCheck := c, bDiscardProperties := d } records).2 =
        (runHeads previous records).map (emittedForm d) := by
  induction records with
  | nil => intro domainSet previous _ _ _ _; rfl
  | cons x rest ih =>
    intro domainSet previous hns hcl h1 h2
    have hx := hns x (List.mem_cons_self _ _)
    have hrest : ∀ r ∈ rest, r.StringProperties.get "record_type" = some "ns" :=
      fun r hr => hns r (List.mem_cons_of_mem _ hr)
    obtain ⟨hcx, hcr⟩ := hcl
    by_cases hp : previous = some x.DomainName
    · obtain ⟨hmem, hdrop⟩ := h2 x.DomainName hp
      have hstep := UniqueDomainFilter.Input_ns domainSet c d x hx
      rw [if_pos hmem] at hstep
      simp only [UniqueDomainFilter.feed, hstep, runHeads, hp, if_true]
      rw [← hp]
      apply ih domainSet previous hrest hcr
      · intro n hn hne r hr
        exact h1 n hn hne r (List.mem_cons_of_mem _ hr)
      · intro n hn
        have hnx : n = x.DomainName := by
          rw [hp] at hn
          exact (Option.some.inj hn).symm
        subst hnx
        refine ⟨hmem, ?_⟩
        intro r hr
        apply hdrop r
        simpa [List.dropWhile] using hr
    · have hnot : x.DomainName ∉ GoMap.keys domainSet := by
        intro hmem
        exact h1 x.DomainName hmem (fun h => hp h.symm) x (List.mem_cons_self _ _) rfl
      have hstep := UniqueDomainFilter.Input_ns domainSet c d x hx
      rw [if_neg hnot] at hstep
      simp only [UniqueDomainFilter.feed, hstep, runHeads, hp, if_false, List.map_cons]
      congr 1
      apply ih _ (some x.DomainName) hrest hcr
      · intro n hn hne r hr
        have hnx : n ≠ x.DomainName := fun h => hne (by rw [h])
        have hn1 : n ∈ GoMap.keys domainSet := by
          rcases (GoMap.mem_keys_set _ _ _ _).1 hn with h | h
          · by_cases hl : domainSet.length > 1024
            · rw [if_pos hl] at h
              cases h
            · rw [if_neg hl] at h
              exact h
          · exact absurd h hnx
        by_cases hprev : some n = previous
        · have hd := (h2 n hprev.symm).2 r
          apply hd
          have hxn : ¬ x.DomainName = n := fun h => hnx h.symm
          simp only [List.dropWhile, hxn, decide_False]
          exact List.mem_cons_of_mem _ hr
        · exact h1 n hn1 hprev r (List.mem_cons_of_mem _ hr)
      · intro n hn
        have hnx : n = x.DomainName := (Option.some.inj hn).symm
        subst hnx
        refine ⟨(GoMap.mem_keys_set _ _ _ _).2 (Or.inr rfl), ?_⟩
        intro r hr
        exact hcx r hr

/-- C11: a freshly initialised unique-domain filter (any option values), fed in order a sequence
of `ns` records in which equal domain names are adjacent, emits exactly the first record of every
run of equal domain names, in input order and in the emitted form (attribute maps emptied when
`b_discard_properties` is set), and drops the others; the sequence may have any length, so the
clearing of the running set beyond 1024 entries is covered. -/
theorem unique_domain_one_per_run (config : TaskHandlerOptions) (f : UniqueDomainFilter)
    (hinit : UniqueDomainFilter.Initialize config = .ok f)
    (records : List DomainProperties)
    (hns : ∀ r ∈ records, r.StringProperties.get "record_type" = some "ns")
    (hcl : clustered records) :
    (f.feed records).2 = (runHeads none records).map (emittedForm f.bDiscardProperties) ∧
      ((f.feed records).2.map (fun r => r.DomainName)) =
        (runHeads none records).map (fun r => r.DomainName) := by
  have hset : f.domainSet = [] := by
    unfold UniqueDomainFilter.Initialize at hinit
    cases h1 : config.BoolOptions.get "b_nameserver_check" with
    | none => rw [h1] at hinit; cases hinit
    | some c =>
      cases h2 : config.BoolOptions.get "b_discard_properties" with
      | none => rw [h1, h2] at hinit; cases hinit
      | some d =>
        rw [h1, h2] at hinit
        cases hinit
        rfl
  have hmain : (f.feed records).2 =
      (runHeads none records).map (emittedForm f.bDiscardProperties) := by
    obtain ⟨s, c, d⟩ := f
    simp only at hset
    subst hset
    apply UniqueDomainFilter.feed_clustered c d records [] none hns hcl
    · intro n hn
      cases hn
    · intro n hn
      cases hn
  refine ⟨hmain, ?_⟩
  rw [hmain, List.map_map]
  apply List.map_congr_left
  intro r _
  unfold emittedForm
  cases f.bDiscardProperties <;> rfl

theorem unique_domain_one_per_run_witness :
    ((UniqueDomainFilter.feed
        { domainSet := [], bNameserverCheck := true, bDiscardProperties := true }
        testUniqueDomainRecords).2 =
      (runHeads none testUniqueDomainRecords).map (emittedForm true)) ∧
    ((UniqueDomainFilter.feed
        { domainSet := [], bNameserverCheck := true, bDiscardProperties := true }
        testUniqueDomainRecords).2.map (fun r => r.DomainName)) =
      (runHeads none testUniqueDomainRecords).map (fun r => r.DomainName) :=
  unique_domain_one_per_run (uniqueDomainOptions true)
    { domainSet := [], bNameserverCheck := true, bDiscardProperties := true } rfl
    testUniqueDomainRecords (by decide) (by simp [clustered, testUniqueDomainRecords, nsRecord])

/-- On the records of `TestUniqueDomainFilter` the filter emits three records named `a.com`,
`b.com` and `c.com`. -/
theorem unique_domain_test_records :
    ((UniqueDomainFilter.feed
        { domainSet := [], bNameserverCheck := true, bDiscardProperties := true }
        testUniqueDomainRecords).2.map (fun r => r.DomainName)) = ["a.com", "b.com", "c.com"] := by
  decide


/-! ### The entropy filter -/

theorem utf8Size_ascii (c : Char) (h : c.val ≤ 127) : c.utf8Size = 1 := by
  unfold Char.utf8Size
  simp [h]

theorem utf8ByteSize_go_ascii (l : List Char) (h : ∀ c ∈ l, c.val ≤ 127) :
    String.utf8ByteSize.go l = l.length := by
  induction l with
  | nil => rfl
  | cons x xs ih =>
    simp only [String.utf8ByteSize.go, List.length_cons]
    rw [ih (fun c hc => h c (List.mem_cons_of_mem _ hc)), utf8Size_ascii x (h x (List.mem_cons_self _ _))]

theorem utf8ByteSize_ascii (s : String) (h : ∀ c ∈ s.toList, c.val ≤ 127) :
    s.utf8ByteSize = s.length := by
  cases s with
  | mk l => exact utf8ByteSize_go_ascii l h

theorem characterSet_fold (l : List Char) :
    ∀ acc : List Char, acc.Nodup →
      (l.foldl (fun set c => if c ∈ set then set else set ++ [c]) acc).Nodup ∧
      ∀ c, c ∈ l.foldl (fun set c => if c ∈ set then set else set ++ [c]) acc ↔ c ∈ acc ∨ c ∈ l := by
  induction l with
  | nil => intro acc h; simp [h]
  | cons x xs ih =>
    intro acc h
    simp only [List.foldl_cons]
    by_cases hx : x ∈ acc
    · rw [if_pos hx]
      obtain ⟨h1, h2⟩ := ih acc h
      refine ⟨h1, fun c => ?_⟩
      rw [h2 c]
      constructor
      · rintro (hc | hc)
        · exact Or.inl hc
        · exact Or.inr (List.mem_cons_of_mem _ hc)
      · rintro (hc | hc)
        · exact Or.inl hc
        · rcases List.mem_cons.1 hc with hc | hc
          · exact Or.inl (hc ▸ hx)
          · exact Or.inr hc
    · rw [if_neg hx]
      have hn : (acc ++ [x]).Nodup := by
        rw [List.nodup_append]
        refine ⟨h, List.nodup_singleton x, ?_⟩
        intro a ha hb
        rw [List.mem_singleton] at hb
        exact hx (hb ▸ ha)
      obtain ⟨h1, h2⟩ := ih (acc ++ [x]) hn
      refine ⟨h1, fun c => ?_⟩
      rw [h2 c]
      simp only [List.mem_append, List.mem_singleton, List.mem_cons]
      tauto

theorem characterSet_length (s : String) : (characterSet s).length = s.toList.dedup.length := by
  obtain ⟨h1, h2⟩ := characterSet_fold s.toList [] List.nodup_nil
  apply List.Perm.length_eq
  unfold characterSet
  rw [List.perm_ext_iff_of_nodup h1 (List.nodup_dedup _)]
  intro c
  rw [h2 c, List.mem_dedup]
  simp

/-- On a domain name whose label before the last dot is non-empty and made of ASCII characters
only, bytes and characters coincide and the entropy filter drops the record exactly when the
character ratio reaches the discard ratio. -/
theorem entropy_filter_ascii_label (e : EntropyFilter) (inProperties : DomainProperties)
    (hascii : ∀ c ∈ (labelBeforeLastDot inProperties.DomainName).toList, c.val ≤ 127)
    (hne : labelBeforeLastDot inProperties.DomainName ≠ "") :
    e.Input inProperties =
      if characterRatio inProperties.DomainName ≥ e.discardRatio then none
      else some inProperties := by
  have hlen := utf8ByteSize_ascii _ hascii
  have hpos : (labelBeforeLastDot inProperties.DomainName).length ≠ 0 := by
    intro h0
    apply hne
    cases hl : labelBeforeLastDot inProperties.DomainName with
    | mk l =>
      rw [hl] at h0
      cases l with
      | nil => rfl
      | cons x xs => cases h0
  unfold EntropyFilter.Input characterRatio
  simp only
  rw [← characterSet_length]
  change (if (labelBeforeLastDot inProperties.DomainName).utf8ByteSize = 0 then _ else _) = _
  rw [hlen, if_neg hpos]
  change (if _ / (((labelBeforeLastDot inProperties.DomainName).utf8ByteSize : Nat) : ℚ) ≥ _
    then _ else _) = _
  rw [hlen]
  rfl

/-- C12: the entropy filter counts the distinct characters of the label in characters but its
total in bytes.  With `discard_ratio = 0.4` the record `éé.com` (one distinct character, two
characters, four bytes) is returned by the code, its ratio being taken as 1/4, although the ratio
counted in characters is 1/2 and reaches the discard ratio.  The example `aB1cD2.com` with
`discard_ratio = 0.8` has ratio 1 and is dropped. -/
theorem entropy_filter_counts_bytes :
    EntropyFilter.Initialize
        { HandlerType := "builtin.discard_high_entropy", StringOptions := [], IntOptions := [],
          FloatOptions := [("discard_ratio", 2 / 5)], BoolOptions := [] } =
      .ok { discardRatio := 2 / 5 } ∧
    EntropyFilter.Input { discardRatio := 2 / 5 } (namedRecord "éé.com") =
      some (namedRecord "éé.com") ∧
    characterRatio "éé.com" = 1 / 2 ∧
    characterRatio "éé.com" ≥ 2 / 5 ∧
    (labelBeforeLastDot "éé.com").utf8ByteSize = 4 ∧
    (characterSet (labelBeforeLastDot "éé.com")).length = 1 ∧
    characterRatio "aB1cD2.com" = 1 ∧
    EntropyFilter.Input { discardRatio := 4 / 5 } (namedRecord "aB1cD2.com") = none := by
  refine ⟨rfl, ?_, ?_, ?_, ?_, ?_, ?_, ?_⟩
  · decide!
  · decide!
  · decide!
  · decide
  · decide
  · decide!
  · decide!


/-! ### The description filter -/

/-- The walk leaves in `description` the last value assigned to it, or its initial value. -/
theorem crawlerLoop_eq_lastDescription (node : Node) :
    ∀ description : String,
      crawlerLoop node description = (lastDescription node).getD description := by
  induction node with
  | nil => intro description; rfl
  | node nodeType data attrs firstChild nextSibling ihc ihs =>
    intro description
    simp only [crawlerLoop, lastDescription]
    rw [ihs]
    cases hs : lastDescription nextSibling with
    | some val => rfl
    | none =>
      cases hm : metaDescription nodeType data attrs with
      | some val => rfl
      | none =>
        simp only [Option.getD_none]
        exact ihc description

/-- What the description filter returns for a tree: the description found by the walk decides,
and an emitted record is the input record with the description stored under `description`. -/
theorem description_filter_result (d : DescriptionFilter) (inProperties : DomainProperties)
    (nodeType : NodeType) (data : String) (attrs : List Attribute)
    (firstChild nextSibling : Node) :
    ∃ description : String,
      crawler (.node nodeType data attrs firstChild nextSibling) "" = .ok description ∧
      d.Input inProperties (.node nodeType data attrs firstChild nextSibling) =
        .ok (if d.descriptionRegex description then
          some { inProperties with
            StringProperties := inProperties.StringProperties.set "description" description }
          else none) := by
  cases hm : metaDescription nodeType data attrs with
  | some val =>
    refine ⟨val, ?_, ?_⟩
    · simp only [crawler, hm]
    · simp only [DescriptionFilter.Input, crawler, hm]
      cases d.descriptionRegex val <;> rfl
  | none =>
    refine ⟨crawlerLoop firstChild "", ?_, ?_⟩
    · simp only [crawler, hm]
    · simp only [DescriptionFilter.Input, crawler, hm]
      cases d.descriptionRegex (crawlerLoop firstChild "") <;> rfl

/-- On the document of `TestDescriptionFilter` the filter emits the record, with its domain name
and with the description stored. -/
theorem description_filter_test_document :
    DescriptionFilter.Input { descriptionRegex := matchExampleMeta, outputArray := [] }
        exampleComRecord testDescriptionDocument =
      .ok (some { exampleComRecord with
        StringProperties := [("description", "This is an example meta description.")] }) ∧
    firstDescription testDescriptionDocument = some "This is an example meta description." := by
  refine ⟨rfl, ?_⟩
  decide

/-- C13: the walk of the description filter does not stop at the first
`<meta name="description">` element, the `return` leaving only the innermost call, so a later
element overwrites the description.  On a document whose head holds the descriptions
`Example shop` and `Other`, in this order, with the regular expression `^Example shop$`, the first
description is `Example shop` and matches, but the filter tests `Other` and drops the record. -/
theorem description_filter_takes_last_meta :
    firstDescription twoDescriptionsDocument = some "Example shop" ∧
    matchExampleShop "Example shop" = true ∧
    crawler twoDescriptionsDocument "" = .ok "Other" ∧
    lastDescription twoDescriptionsDocument = some "Other" ∧
    DescriptionFilter.Input { descriptionRegex := matchExampleShop, outputArray := [] }
        exampleComRecord twoDescriptionsDocument = .ok none := by
  refine ⟨?_, ?_, rfl, ?_, rfl⟩
  · decide
  · decide
  · decide


/-! ### Appends followed by a flush -/

theorem flushToFile_other (o : FileOutputBuffer) (path other : String) (w : World)
    (hne : other ≠ path) :
    fileContent (o.flushToFile path w).2.files other = fileContent w.files other := by
  unfold FileOutputBuffer.flushToFile
  by_cases h : o.buffer.utf8ByteSize = 0
  · rw [if_pos h]
  · rw [if_neg h]
    simp only [fileContent]
    rw [GoMap.get_set_ne _ _ hne]

/-- One append, with a callback that leaves the files alone: the text produced for the path grows
by the line and a newline, no other file changes, and the count of appends grows by one. -/
theorem AppendToFile_files (opts : FileOutputBufferOptions)
    (hA : ∀ cb, opts.OnAppendCB = some cb → ∀ w, (cb w).files = w.files)
    (o : FileOutputBuffer) (line : String) (w : World) :
    outputWritten opts.FilePath (o.AppendToFile opts line w).1 (o.AppendToFile opts line w).2 =
        outputWritten opts.FilePath o w ++ (line ++ "\n") ∧
      (o.AppendToFile opts line w).1.appendedLinesQty = o.appendedLinesQty + 1 ∧
      ∀ other, other ≠ opts.FilePath →
        fileContent (o.AppendToFile opts line w).2.files other = fileContent w.files other := by
  have hf := flushToFile_spec
    { buffer := o.buffer ++ (line ++ "\n"), appendedLinesQty := o.appendedLinesQty + 1 }
    opts.FilePath w
  have ho := flushToFile_other
    { buffer := o.buffer ++ (line ++ "\n"), appendedLinesQty := o.appendedLinesQty + 1 }
    opts.FilePath
  obtain ⟨h1, h2, h3, _, _, _⟩ := hf
  cases hcb : opts.OnAppendCB with
  | none =>
    by_cases hc : ((o.buffer ++ (line ++ "\n")).utf8ByteSize : Int) ≥ opts.BulkOutputLimit
    · simp only [FileOutputBuffer.AppendToFile, hcb, hc, if_true]
      refine ⟨?_, h2, fun other hne => ho other w hne⟩
      simp only [outputWritten, h1, h3]
      simp [String.append_assoc]
    · simp only [FileOutputBuffer.AppendToFile, hcb, hc, if_false]
      simp [outputWritten, String.append_assoc]
  | some cb =>
    have hfiles := hA cb hcb
    by_cases hc : ((o.buffer ++ (line ++ "\n")).utf8ByteSize : Int) ≥ opts.BulkOutputLimit
    · simp only [FileOutputBuffer.AppendToFile, hcb, hc, if_true]
      refine ⟨?_, h2, fun other hne => ?_⟩
      · simp only [outputWritten, h1, hfiles, h3]
        simp [String.append_assoc]
      · rw [hfiles]
        exact ho other w hne
    · simp only [FileOutputBuffer.AppendToFile, hcb, hc, if_false]
      refine ⟨?_, by simp, fun other _ => ?_⟩
      · simp [outputWritten, hfiles, String.append_assoc]
      · rw [hfiles]

theorem appendLines_files (opts : FileOutputBufferOptions)
    (hA : ∀ cb, opts.OnAppendCB = some cb → ∀ w, (cb w).files = w.files)
    (lines : List String) :
    ∀ (o : FileOutputBuffer) (w : World),
      outputWritten opts.FilePath (o.appendLines opts lines w).1 (o.appendLines opts lines w).2 =
          outputWritten opts.FilePath o w ++ linesText lines ∧
        (o.appendLines opts lines w).1.appendedLinesQty = o.appendedLinesQty + lines.length ∧
        ∀ other, other ≠ opts.FilePath →
          fileContent (o.appendLines opts lines w).2.files other = fileContent w.files other := by
  induction lines with
  | nil =>
    intro o w
    simp [FileOutputBuffer.appendLines, linesText]
  | cons line rest ih =>
    intro o w
    obtain ⟨h1, h2, h3⟩ := AppendToFile_files opts hA o line w
    obtain ⟨i1, i2, i3⟩ := ih (o.AppendToFile opts line w).1 (o.AppendToFile opts line w).2
    simp only [FileOutputBuffer.appendLines, linesText, List.length_cons]
    refine ⟨?_, ?_, fun other hne => ?_⟩
    · rw [i1, h1, String.append_assoc]
    · rw [i2, h2]
      omega
    · rw [i3 other hne, h3 other hne]

/-- C14: for every bulk output limit and every sequence of lines, appending the lines to a new
buffer and flushing once appends to the output file exactly the lines in call order, each followed
by one newline, leaves every other file as it was, and leaves the buffer empty; the callbacks are
assumed not to write files. -/
theorem append_then_flush_writes_lines (opts : FileOutputBufferOptions)
    (hA : ∀ cb, opts.OnAppendCB = some cb → ∀ w, (cb w).files = w.files)
    (hF : ∀ cb, opts.OnFlushCB = some cb → ∀ n w, (cb n w).files = w.files)
    (lines : List String) (w : World) :
    fileContent (appendThenFlush opts lines w).2.files opts.FilePath =
        fileContent w.files opts.FilePath ++ linesText lines ∧
      (appendThenFlush opts lines w).1.buffer = "" ∧
      (appendThenFlush opts lines w).1.appendedLinesQty = lines.length ∧
      ∀ other, other ≠ opts.FilePath →
        fileContent (appendThenFlush opts lines w).2.files other = fileContent w.files other := by
  obtain ⟨h1, h2, h3⟩ := appendLines_files opts hA lines NewFileOutputBuffer w
  obtain ⟨f1, f2, f3, _, _, _⟩ := flushToFile_spec
    (NewFileOutputBuffer.appendLines opts lines w).1 opts.FilePath
    (NewFileOutputBuffer.appendLines opts lines w).2
  have fo := flushToFile_other
    (NewFileOutputBuffer.appendLines opts lines w).1 opts.FilePath
  simp only [outputWritten] at h1
  have hnew : fileContent w.files opts.FilePath ++ NewFileOutputBuffer.buffer =
      fileContent w.files opts.FilePath := by
    simp [NewFileOutputBuffer]
  rw [hnew] at h1
  have hq : NewFileOutputBuffer.appendedLinesQty + lines.length = lines.length := by
    simp [NewFileOutputBuffer]
  rw [hq] at h2
  cases hcb : opts.OnFlushCB with
  | none =>
    simp only [appendThenFlush, FileOutputBuffer.Flush, hcb]
    refine ⟨?_, f1, ?_, fun other hne => ?_⟩
    · rw [f3, h1]
    · rw [f2, h2]
    · rw [fo other _ hne, h3 other hne]
  | some cb =>
    have hfiles := hF cb hcb
    simp only [appendThenFlush, FileOutputBuffer.Flush, hcb]
    refine ⟨?_, f1, ?_, fun other hne => ?_⟩
    · rw [hfiles, f3, h1]
    · rw [f2, h2]
    · rw [hfiles, fo other _ hne, h3 other hne]

theorem append_then_flush_writes_lines_witness :
    fileContent (appendThenFlush (tracingOpts 8) ["ab", "cd", "efghij"] emptyWorld).2.files
        (tracingOpts 8).FilePath =
        fileContent emptyWorld.files (tracingOpts 8).FilePath ++
          linesText ["ab", "cd", "efghij"] ∧
      (appendThenFlush (tracingOpts 8) ["ab", "cd", "efghij"] emptyWorld).1.buffer = "" ∧
      (appendThenFlush (tracingOpts 8) ["ab", "cd", "efghij"] emptyWorld).1.appendedLinesQty =
        ["ab", "cd", "efghij"].length ∧
      ∀ other, other ≠ (tracingOpts 8).FilePath →
        fileContent (appendThenFlush (tracingOpts 8) ["ab", "cd", "efghij"] emptyWorld).2.files
          other = fileContent emptyWorld.files other :=
  append_then_flush_writes_lines (tracingOpts 8)
    (fun cb h w => by
      cases h
      rfl)
    (fun cb h n w => by
      cases h
      rfl)
    ["ab", "cd", "efghij"] emptyWorld

/-- With a limit of eight bytes the lines `ab`, `cd` and `efghij` reach the file in two automatic
flushes, and the final content is `ab\ncd\nefghij\n`. -/
theorem append_then_flush_example :
    fileContent (appendThenFlush (tracingOpts 8) ["ab", "cd", "efghij"] emptyWorld).2.files
        "cache/out.txt" = "ab\ncd\nefghij\n" := by
  decide


/-! ### The callbacks of an output buffer -/

/-- An append does not read `OnFlushCB`: its result is the same whatever that callback is. -/
theorem AppendToFile_ignores_OnFlushCB (opts : FileOutputBufferOptions)
    (cb : Option (Nat → World → World)) (o : FileOutputBuffer) (line : String) (w : World) :
    o.AppendToFile { opts with OnFlushCB := cb } line w = o.AppendToFile opts line w := rfl

/-- An append calls `OnAppendCB` once, after the automatic flush if there is one. -/
theorem AppendToFile_calls_OnAppendCB (opts : FileOutputBufferOptions) (cb : World → World)
    (hcb : opts.OnAppendCB = some cb) (o : FileOutputBuffer) (line : String) (w : World) :
    (o.AppendToFile opts line w).2 =
      cb (o.AppendToFile { opts with OnAppendCB := none } line w).2 := by
  by_cases hc : ((o.buffer ++ (line ++ "\n")).utf8ByteSize : Int) ≥ opts.BulkOutputLimit
  · simp only [FileOutputBuffer.AppendToFile, hcb, hc, if_true]
  · simp only [FileOutputBuffer.AppendToFile, hcb, hc, if_false]

/-- C15: the flush that an append triggers when the buffer reaches the bulk output limit does not
call `OnFlushCB`; only `Flush` does.  With a limit of one byte, one append of `x` to a new buffer
writes `x\n` to the file and empties the buffer, `OnAppendCB` has run once, and the store holds no
checkpoint: `OnFlushCB` has not run.  A call of `Flush` afterwards runs it with the count 1. -/
theorem automatic_flush_skips_on_flush :
    fileContent (NewFileOutputBuffer.AppendToFile (tracingOpts 1) "x" emptyWorld).2.files
        "cache/out.txt" = "x\n" ∧
    (NewFileOutputBuffer.AppendToFile (tracingOpts 1) "x" emptyWorld).1 =
        { buffer := "", appendedLinesQty := 1 } ∧
    (NewFileOutputBuffer.AppendToFile (tracingOpts 1) "x" emptyWorld).2.processedWorkItems = 1 ∧
    (NewFileOutputBuffer.AppendToFile (tracingOpts 1) "x" emptyWorld).2.db = [] ∧
    (appendThenFlush (tracingOpts 1) ["x"] emptyWorld).2.db =
        [("com_pre_crawl_filter_task_state_json",
          DbValue.taskStateJSON { BIsFinished := false, LineIndex := 1 })] := by
  refine ⟨?_, ?_, ?_, ?_, ?_⟩ <;> decide


/-! ### The checkpoint store as a map from (stage, zone) -/

theorem String.append_suffix_cases (a b s1 s2 : String) (h : a ++ s1 = b ++ s2) :
    s1.toList <:+ s2.toList ∨ s2.toList <:+ s1.toList := by
  have h1 : s1.toList <:+ (a ++ s1).toList := by
    show s1.data <:+ (a ++ s1).data
    rw [String.data_append]
    exact List.suffix_append _ _
  have h2 : s2.toList <:+ (a ++ s1).toList := by
    show s2.data <:+ (a ++ s1).data
    rw [h, String.data_append]
    exact List.suffix_append _ _
  exact List.suffix_or_suffix_of_suffix h1 h2

theorem String.append_right_cancel (a b s : String) (h : a ++ s = b ++ s) : a = b := by
  have h1 := congrArg String.data h
  rw [String.data_append, String.data_append] at h1
  exact String.ext (List.append_cancel_right h1)

theorem checkpointKey_injective (stage stage1 : Stage) (zoneName zoneName1 : String)
    (h : checkpointKey stage zoneName = checkpointKey stage1 zoneName1) :
    stage = stage1 ∧ zoneName = zoneName1 := by
  unfold checkpointKey at h
  have hc := String.append_suffix_cases _ _ _ _ h
  cases stage <;> cases stage1
  all_goals first
    | exact ⟨rfl, String.append_right_cancel _ _ _ h⟩
    | (exfalso; revert hc; decide)

theorem checkpointKey_ne_version (stage : Stage) (zoneName : String) :
    "db_scheme_version" ≠ checkpointKey stage zoneName := by
  intro h
  have h1 : stage.keySuffix.toList <:+ "db_scheme_version".toList := by
    rw [h]
    show stage.keySuffix.data <:+ (zoneName ++ stage.keySuffix).data
    rw [String.data_append]
    exact List.suffix_append _ _
  revert h1
  cases stage <;> decide

theorem SaveTaskState_eq (stage : Stage) (db : Database) (zoneName : String)
    (state : PreCrawlFilterTaskState) :
    SaveTaskState stage db zoneName state =
      GoMap.set db (checkpointKey stage zoneName) (.taskStateJSON state) := by
  cases stage
  · rfl
  · rfl
  · show GoMap.set db (zoneName ++ "_" ++ "indexer_task_state_json") _ = _
    rw [String.append_assoc]
    rfl

theorem GetTaskState_eq (stage : Stage) (db : Database) (zoneName : String) :
    GetTaskState stage db zoneName =
      match GoMap.get db (checkpointKey stage zoneName) with
      | none => .ok zeroTaskState
      | some (.taskStateJSON taskState) => .ok taskState
      | some (.text _) => .error "Error unmarshaling JSON" := by
  cases stage
  · rfl
  · rfl
  · show (match GoMap.get db (zoneName ++ "_" ++ "indexer_task_state_json") with
      | none => Except.ok zeroTaskState
      | some (.taskStateJSON taskState) => .ok taskState
      | some (.text _) => .error "Error unmarshaling JSON") = _
    rw [String.append_assoc]
    rfl

theorem GetTaskState_Save_self (stage : Stage) (db : Database) (zoneName : String)
    (state : PreCrawlFilterTaskState) :
    GetTaskState stage (SaveTaskState stage db zoneName state) zoneName = .ok state := by
  rw [GetTaskState_eq, SaveTaskState_eq, GoMap.get_set_self]

theorem GetTaskState_Save_other (stage stage1 : Stage) (db : Database)
    (zoneName zoneName1 : String) (state : PreCrawlFilterTaskState)
    (hne : ¬ (stage1 = stage ∧ zoneName1 = zoneName)) :
    GetTaskState stage1 (SaveTaskState stage db zoneName state) zoneName1 =
      GetTaskState stage1 db zoneName1 := by
  have hk : checkpointKey stage1 zoneName1 ≠ checkpointKey stage zoneName :=
    fun h => hne (checkpointKey_injective _ _ _ _ h)
  rw [GetTaskState_eq, GetTaskState_eq, SaveTaskState_eq, GoMap.get_set_ne _ _ hk]

theorem GetTaskState_applySaves (stage : Stage) (zoneName : String)
    (ops : List (Stage × String × PreCrawlFilterTaskState)) :
    ∀ db : Database,
      GetTaskState stage (applySaves db ops) zoneName =
        match lastSaved stage zoneName ops with
        | some state => .ok state
        | none => GetTaskState stage db zoneName := by
  induction ops with
  | nil => intro db; rfl
  | cons op rest ih =>
    intro db
    obtain ⟨stage1, zoneName1, state⟩ := op
    simp only [applySaves, lastSaved]
    rw [ih]
    cases hl : lastSaved stage zoneName rest with
    | some later => rfl
    | none =>
      by_cases hsame : stage1 = stage ∧ zoneName1 = zoneName
      · obtain ⟨h1, h2⟩ := hsame
        subst h1
        subst h2
        simp only [and_self, if_true]
        exact GetTaskState_Save_self _ _ _ _
      · simp only [hsame, if_false]
        apply GetTaskState_Save_other
        intro h
        exact hsame ⟨h.1.symm, h.2.symm⟩

theorem GetTaskState_fresh (stage : Stage) (zoneName : String) :
    GetTaskState stage (NewDatabase []) zoneName = .ok zeroTaskState := by
  rw [GetTaskState_eq]
  have h : GoMap.get (NewDatabase []) (checkpointKey stage zoneName) = none := by
    show GoMap.get [("db_scheme_version", DbValue.text dbSchemeVersion)] _ = none
    simp [GoMap.get, checkpointKey_ne_version]
  rw [h]

/-- C16: the checkpoint store is a map from (stage, zone) to checkpoint with default zero.  After
any sequence of saves on a store opened for the first time, `Get` for a pair returns the last
checkpoint saved for that pair, or the zero checkpoint when there is none; a `Save` writes the key
of its pair, `Get` after it returns what was saved, and for a different pair the key is different
and `Get` returns what it returned before. -/
theorem checkpoint_store_is_map (ops : List (Stage × String × PreCrawlFilterTaskState))
    (db : Database) (stage stage1 : Stage) (zoneName zoneName1 : String)
    (state : PreCrawlFilterTaskState) :
    GetTaskState stage (applySaves (NewDatabase []) ops) zoneName =
        .ok ((lastSaved stage zoneName ops).getD zeroTaskState) ∧
      SaveTaskState stage db zoneName state =
        db.setString (checkpointKey stage zoneName) (.taskStateJSON state) ∧
      GetTaskState stage (SaveTaskState stage db zoneName state) zoneName = .ok state ∧
      (¬ (stage1 = stage ∧ zoneName1 = zoneName) →
        checkpointKey stage1 zoneName1 ≠ checkpointKey stage zoneName ∧
        GetTaskState stage1 (SaveTaskState stage db zoneName state) zoneName1 =
          GetTaskState stage1 db zoneName1) := by
  refine ⟨?_, SaveTaskState_eq _ _ _ _, GetTaskState_Save_self _ _ _ _, fun hne => ⟨?_, ?_⟩⟩
  · rw [GetTaskState_applySaves]
    cases hl : lastSaved stage zoneName ops with
    | some later => rfl
    | none => exact GetTaskState_fresh _ _
  · exact fun h => hne (checkpointKey_injective _ _ _ _ h)
  · exact GetTaskState_Save_other _ _ _ _ _ _ hne

theorem checkpoint_store_is_map_witness :
    GetTaskState .PreCrawlFilter
        (applySaves (NewDatabase [])
          [(.PreCrawlFilter, "com", { BIsFinished := false, LineIndex := 5 }),
           (.PostCrawlFilter, "com", { BIsFinished := true, LineIndex := 0 }),
           (.PreCrawlFilter, "com", { BIsFinished := false, LineIndex := 9 })]) "com" =
        .ok { BIsFinished := false, LineIndex := 9 } ∧
      checkpointKey .Indexer "co_uk" ≠ checkpointKey .PreCrawlFilter "com" ∧
      GetTaskState .Indexer
          (SaveTaskState .PreCrawlFilter [] "com" { BIsFinished := true, LineIndex := 3 })
          "co_uk" = .ok zeroTaskState :=
  have h := checkpoint_store_is_map
    [(.PreCrawlFilter, "com", { BIsFinished := false, LineIndex := 5 }),
     (.PostCrawlFilter, "com", { BIsFinished := true, LineIndex := 0 }),
     (.PreCrawlFilter, "com", { BIsFinished := false, LineIndex := 9 })]
    [] .PreCrawlFilter .Indexer "com" "co_uk" { BIsFinished := true, LineIndex := 3 }
  ⟨h.1, (h.2.2.2 (by decide)).1, (h.2.2.2 (by decide)).2⟩


/-! ### Opening the checkpoint store -/

/-- Opening the store changes no checkpoint, whatever the stored version key is: `initialize`
writes the version key only. -/
theorem NewDatabase_keeps_checkpoints (stored : Database) (stage : Stage) (zoneName : String) :
    GetTaskState stage (NewDatabase stored) zoneName = GetTaskState stage stored zoneName := by
  have hk : checkpointKey stage zoneName ≠ "db_scheme_version" :=
    fun h => checkpointKey_ne_version stage zoneName h.symm
  have hinit : GetTaskState stage stored.initialize zoneName =
      GetTaskState stage stored zoneName := by
    rw [GetTaskState_eq, GetTaskState_eq]
    unfold Database.initialize Database.setString
    rw [GoMap.get_set_ne _ _ hk]
  unfold NewDatabase
  cases hv : stored.getString "db_scheme_version" with
  | none => exact hinit
  | some value =>
    cases value with
    | text version =>
      by_cases h : version ≠ "1.0"
      · show GetTaskState stage (if version ≠ "1.0" then stored.initialize else stored)
          zoneName = _
        rw [if_pos h]
        exact hinit
      · show GetTaskState stage (if version ≠ "1.0" then stored.initialize else stored)
          zoneName = _
        rw [if_neg h]
    | taskStateJSON taskState => exact hinit

/-- C17: opening a store whose version key differs from the current version writes the current
version but drops nothing, `initialize` being a single `setString`; `Purge` is not called.  A store
of version `0.9` that holds the checkpoint (finished, 42) of the pre-crawl stage of `com` still
returns that checkpoint after it is opened, not the zero checkpoint; the same holds when the
version key is absent. -/
theorem new_database_keeps_old_data :
    NewDatabase oldVersionStore =
      [("db_scheme_version", .text "1.0"),
       ("com_pre_crawl_filter_task_state_json",
        .taskStateJSON { BIsFinished := true, LineIndex := 42 })] ∧
    GetPreCrawlFilterTaskState (NewDatabase oldVersionStore) "com" =
      .ok { BIsFinished := true, LineIndex := 42 } ∧
    GetPreCrawlFilterTaskState (NewDatabase oldVersionStore.tail) "com" =
      .ok { BIsFinished := true, LineIndex := 42 } ∧
    (NewDatabase oldVersionStore.tail).getString "db_scheme_version" = some (.text "1.0") ∧
    GetPreCrawlFilterTaskState ( Database.initialize (Database.Purge oldVersionStore)) "com" =
      .ok { BIsFinished := false, LineIndex := 0 } := by
  refine ⟨by decide, rfl, rfl, by decide, rfl⟩


/-! ### The ranker query handler -/

theorem appendLines_app (opts : FileOutputBufferOptions) (hcb : opts.OnAppendCB = none)
    (lines : List String) :
    ∀ (o : FileOutputBuffer) (w : World), (o.appendLines opts lines w).2.app = w.app := by
  induction lines with
  | nil => intro o w; rfl
  | cons line rest ih =>
    intro o w
    simp only [FileOutputBuffer.appendLines]
    rw [ih, (AppendToFile_spec opts hcb o line w).2.2.1]

theorem Flush_app (opts : FileOutputBufferOptions) (hcb : opts.OnFlushCB = none)
    (o : FileOutputBuffer) (w : World) : (o.Flush opts w).2.app = w.app := by
  simp only [FileOutputBuffer.Flush, hcb]
  exact (flushToFile_spec o opts.FilePath w).2.2.2.2.1

/-- From the state `ReadyToSearch`, `Rank` returns when the query of the index does, and leaves
the application in the state `ReadyToSearch`. -/
theorem Rank_returns (env : RankEnv) (userQuery : String) (w : World)
    (hready : w.app.task = .ReadyToSearch)
    (hquery : ∀ w0, ∃ indexerOutput, env.queryIndexer userQuery w0 = .ok indexerOutput) :
    ∃ w1, Rank env userQuery w = .ok w1 ∧ w1.app.task = .ReadyToSearch := by
  unfold Rank
  have h1 : OnRankingStarted env.now w.app =
      .ok { w.app with task := .RunningRankers, taskStartTime := env.now } := by
    unfold OnRankingStarted
    simp [hready]
  obtain ⟨indexerOutput, hq⟩ := hquery
    { w with app := { w.app with task := .RunningRankers, taskStartTime := env.now } }
  simp only [h1, hq]
  generalize (runRankers env.rankers indexerOutput userQuery).map ToJSONString = lines
  have happ := appendLines_app (rankerOutputBufferOpts env) rfl lines NewFileOutputBuffer
    { w with app := { w.app with task := .RunningRankers, taskStartTime := env.now } }
  have htask := Flush_app (rankerOutputBufferOpts env) rfl
    (NewFileOutputBuffer.appendLines (rankerOutputBufferOpts env) lines
      { w with app := { w.app with task := .RunningRankers, taskStartTime := env.now } }).1
    (NewFileOutputBuffer.appendLines (rankerOutputBufferOpts env) lines
      { w with app := { w.app with task := .RunningRankers, taskStartTime := env.now } }).2
  rw [happ] at htask
  simp only [OnReadyToSearch, htask]
  simp

theorem handler_headers :
    ((((newResponseWriter.setHeader "Vary" "*").setHeader "Cache-Control" "no-store").setHeader
      "Access-Control-Allow-Headers" "*").setHeader "Access-Control-Allow-Methods"
      "GET, OPTIONS").setHeader "Access-Control-Allow-Origin" "*" =
      { header := corsHeaders, statusCode := none, body := "" } := by
  decide

theorem helperSendJSONError_eq (reason : String) :
    helperSendJSONError { header := corsHeaders, statusCode := none, body := "" }
      { Success := false, Error := reason } = errorReply reason := by
  simp [helperSendJSONError, errorReply, ResponseWriter.setHeader, ResponseWriter.WriteHeader,
    ResponseWriter.Write, StatusBadRequest]

theorem helperSendJSONSuccess_eq :
    helperSendJSONSuccess { header := corsHeaders, statusCode := none, body := "" }
      { Success := true, Error := "" } = successReply := by
  decide

/-- The handler on a new response writer, case by case. -/
theorem rankerQueryHandler_eq (decode : String → Except String RankingQueryReqJSON)
    (env : RankEnv) (r : Request) (world : World) :
    rankerQueryHandler decode env newResponseWriter r world =
      if r.Method = "OPTIONS" then .ok (emptyReply 200, world)
      else if r.Method = "POST" then
        match decode r.Body with
        | .error _ => .ok (errorReply "json decode error", world)
        | .ok jsonReq =>
          match jsonReq.UserQuery with
          | none => .ok (errorReply "json field missing", world)
          | some userQuery =>
            if world.app.task ≠ .ReadyToSearch then .ok (errorReply "index not yet ready", world)
            else
              match Rank env userQuery world with
              | .error e => .error e
              | .ok world1 => .ok (successReply, world1)
      else .ok (emptyReply 400, world) := by
  unfold rankerQueryHandler
  simp only [handler_headers, helperSendJSONError_eq, helperSendJSONSuccess_eq]
  rfl

/-- C18: the replies of the ranker query handler, for every request, decoder, ranking environment
and state.  `OPTIONS` is answered 200 and a method other than `OPTIONS` and `POST` 400, both
without a body.  A `POST` whose body does not decode, or decodes without `user_query`, or that
arrives in a state other than `ReadyToSearch`, is answered 400 with `success = false` and the
reason, with the state left as it was and whatever the ranking environment is: no ranking is
started.  A `POST` with a `user_query` in the state `ReadyToSearch` runs `Rank` on the query and
then answers 200 with `success = true`, and it does answer when the query of the index returns.
A reply whose body is `success = true` is given only in this last case. -/
theorem ranker_query_handler_replies (decode : String → Except String RankingQueryReqJSON)
    (env : RankEnv) (r : Request) (world : World) :
    (r.Method = "OPTIONS" →
      rankerQueryHandler decode env newResponseWriter r world = .ok (emptyReply 200, world)) ∧
    (r.Method ≠ "OPTIONS" → r.Method ≠ "POST" →
      rankerQueryHandler decode env newResponseWriter r world = .ok (emptyReply 400, world)) ∧
    (r.Method = "POST" →
      (∀ e, decode r.Body = .error e →
        rankerQueryHandler decode env newResponseWriter r world =
          .ok (errorReply "json decode error", world)) ∧
      (decode r.Body = .ok { UserQuery := none } →
        rankerQueryHandler decode env newResponseWriter r world =
          .ok (errorReply "json field missing", world)) ∧
      (∀ userQuery, decode r.Body = .ok { UserQuery := some userQuery } →
        (world.app.task ≠ .ReadyToSearch →
          rankerQueryHandler decode env newResponseWriter r world =
            .ok (errorReply "index not yet ready", world)) ∧
        (world.app.task = .ReadyToSearch →
          rankerQueryHandler decode env newResponseWriter r world =
              (Rank env userQuery world).map (fun world1 => (successReply, world1)) ∧
            ((∀ w0, ∃ indexerOutput, env.queryIndexer userQuery w0 = .ok indexerOutput) →
              ∃ world1,
                rankerQueryHandler decode env newResponseWriter r world =
                  .ok (successReply, world1) ∧
                world1.app.task = .ReadyToSearch)))) ∧
    (∀ w1 world1, rankerQueryHandler decode env newResponseWriter r world = .ok (w1, world1) →
      w1.body = marshalRankingQueryRep { Success := true, Error := "" } →
      w1.statusCode = some 200 ∧ r.Method = "POST" ∧ world.app.task = .ReadyToSearch ∧
        ∃ userQuery, decode r.Body = .ok { UserQuery := some userQuery }) := by
  rw [rankerQueryHandler_eq]
  refine ⟨?_, ?_, ?_, ?_⟩
  · intro hm
    rw [if_pos hm]
  · intro h1 h2
    rw [if_neg h1, if_neg h2]
  · intro hm
    have hno : ¬ r.Method = "OPTIONS" := by
      rw [hm]
      decide
    rw [if_neg hno, if_pos hm]
    refine ⟨?_, ?_, ?_⟩
    · intro e he
      rw [he]
    · intro he
      rw [he]
    · intro userQuery he
      rw [he]
      refine ⟨?_, ?_⟩
      · intro hs
        simp only [hs, ne_eq, not_false_eq_true, if_true]
      · intro hs
        have hmap : (match Rank env userQuery world with
            | .error e => (.error e : Except String (ResponseWriter × World))
            | .ok world1 => .ok (successReply, world1)) =
            (Rank env userQuery world).map (fun world1 => (successReply, world1)) := by
          cases Rank env userQuery world <;> rfl
        simp only [hs, ne_eq, not_true_eq_false, if_false]
        refine ⟨hmap, ?_⟩
        intro hquery
        obtain ⟨world1, hr, ht⟩ := Rank_returns env userQuery world hs hquery
        exact ⟨world1, by rw [hr], ht⟩
  · intro w1 world1 hres hbody
    by_cases ho : r.Method = "OPTIONS"
    · rw [if_pos ho] at hres
      cases hres
      exact absurd hbody (by decide)
    · rw [if_neg ho] at hres
      by_cases hp : r.Method = "POST"
      · rw [if_pos hp] at hres
        cases hd : decode r.Body with
        | error e =>
          rw [hd] at hres
          cases hres
          exact absurd hbody (by decide)
        | ok jsonReq =>
          obtain ⟨userQuery⟩ := jsonReq
          rw [hd] at hres
          cases userQuery with
          | none =>
            cases hres
            exact absurd hbody (by decide)
          | some userQuery =>
            by_cases hs : world.app.task = .ReadyToSearch
            · simp only [hs, ne_eq, not_true_eq_false, if_false] at hres
              cases hrank : Rank env userQuery world with
              | error e =>
                rw [hrank] at hres
                cases hres
              | ok world2 =>
                rw [hrank] at hres
                cases hres
                exact ⟨rfl, hp, hs, userQuery, rfl⟩
            · simp only [hs, ne_eq, not_false_eq_true, if_true] at hres
              cases hres
              exact absurd hbody (by decide)
      · rw [if_neg hp] at hres
        cases hres
        exact absurd hbody (by decide)

theorem ranker_query_handler_replies_witness :
    rankerQueryHandler exampleDecode exampleRankEnv newResponseWriter shopRequest
        (worldInState .RunningIndexer) =
      .ok (errorReply "index not yet ready", worldInState .RunningIndexer) :=
  (((ranker_query_handler_replies exampleDecode exampleRankEnv shopRequest
    (worldInState .RunningIndexer)).2.2.1 rfl).2.2 "shop" rfl).1 (by decide)

/-- The texts of the replies: the body sent in a state other than `ReadyToSearch`, and the body
of a success. -/
theorem ranker_query_reply_bodies :
    (errorReply "index not yet ready").body =
        "\x7b\"success\":false,\"error\":\"index not yet ready\"\x7d" ∧
      (errorReply "index not yet ready").statusCode = some 400 ∧
      successReply.body = "\x7b\"success\":true\x7d" ∧
      successReply.statusCode = some 200 := by
  decide


/-! ### Index identifiers -/

theorem digitValue_digitChar (d : Nat) (h : d < 10) :
    digitValue (Nat.digitChar d) = some d ∧ (Nat.digitChar d).isDigit = true ∧
      Nat.digitChar d ≠ '_' ∧ Nat.digitChar d ≠ '-' ∧ Nat.digitChar d ≠ '+' := by
  interval_cases d <;> decide

/-- Reading back the digits that `Nat.toDigitsCore` puts in front of `ds`. -/
theorem parseDigits_toDigitsCore (fuel : Nat) :
    ∀ (n : Nat) (ds : List Char), n < fuel →
      parseDigits (Nat.toDigitsCore 10 fuel n ds) 0 = parseDigits ds n := by
  induction fuel with
  | zero => intro n ds h; omega
  | succ fuel ih =>
    intro n ds h
    have hd := (digitValue_digitChar (n % 10) (Nat.mod_lt _ (by decide))).1
    unfold Nat.toDigitsCore
    by_cases h0 : n / 10 = 0
    · simp only [h0, if_true]
      simp only [parseDigits, hd]
      have : 0 * 10 + n % 10 = n := by omega
      rw [this]
    · simp only [h0, if_false]
      rw [ih (n / 10) _ (by omega)]
      simp only [parseDigits, hd]
      have : n / 10 * 10 + n % 10 = n := by omega
      rw [this]

/-- The digit list `Nat.toDigitsCore` builds in front of `ds`: not empty, decimal digits only. -/
theorem toDigitsCore_digits (fuel : Nat) :
    ∀ (n : Nat) (ds : List Char),
      ∃ l, l ≠ [] ∧ (∀ c ∈ l, c.isDigit = true ∧ c ≠ '_' ∧ c ≠ '-' ∧ c ≠ '+') ∧
        Nat.toDigitsCore 10 (fuel + 1) n ds = l ++ ds := by
  induction fuel with
  | zero =>
    intro n ds
    refine ⟨[Nat.digitChar (n % 10)], by simp, ?_, ?_⟩
    · intro c hc
      rw [List.mem_singleton] at hc
      rw [hc]
      exact (digitValue_digitChar (n % 10) (Nat.mod_lt _ (by decide))).2
    · unfold Nat.toDigitsCore
      by_cases h0 : n / 10 = 0
      · simp [h0]
      · simp [h0, Nat.toDigitsCore]
  | succ fuel ih =>
    intro n ds
    unfold Nat.toDigitsCore
    by_cases h0 : n / 10 = 0
    · refine ⟨[Nat.digitChar (n % 10)], by simp, ?_, by simp [h0]⟩
      intro c hc
      rw [List.mem_singleton] at hc
      rw [hc]
      exact (digitValue_digitChar (n % 10) (Nat.mod_lt _ (by decide))).2
    · obtain ⟨l, hl1, hl2, hl3⟩ := ih (n / 10) (Nat.digitChar (n % 10) :: ds)
      refine ⟨l ++ [Nat.digitChar (n % 10)], by simp, ?_, ?_⟩
      · intro c hc
        rcases List.mem_append.1 hc with hc | hc
        · exact hl2 c hc
        · rw [List.mem_singleton] at hc
          rw [hc]
          exact (digitValue_digitChar (n % 10) (Nat.mod_lt _ (by decide))).2
      · simp only [h0, if_false]
        rw [hl3]
        simp

theorem lastIndexChars_none (c : Char) (l : List Char) (h : c ∉ l) :
    lastIndexChars c l = none := by
  induction l with
  | nil => rfl
  | cons x xs ih =>
    have hx : ¬ x = c := fun e => h (e ▸ List.mem_cons_self _ _)
    simp only [lastIndexChars, ih (fun hm => h (List.mem_cons_of_mem _ hm)), hx, if_false]

theorem lastIndexChars_append (c : Char) (xs ys : List Char) (h : c ∉ ys) :
    lastIndexChars c (xs ++ c :: ys) = some xs.length := by
  induction xs with
  | nil => simp [lastIndexChars, lastIndexChars_none c ys h]
  | cons x xs ih => simp [lastIndexChars, ih]

theorem lastIndexChars_mem (c : Char) (l : List Char) (i : Nat)
    (h : lastIndexChars c l = some i) : c ∈ l := by
  by_contra hc
  rw [lastIndexChars_none c l hc] at h
  cases h

theorem formatInt_natCast (n : Nat) :
    (formatInt (n : Int)).toList = Nat.toDigitsCore 10 (n + 1) n [] := rfl


theorem Atoi_digits (l : List Char) (n : Nat) (hne : l ≠ [])
    (hd : ∀ c ∈ l, c.isDigit = true ∧ c ≠ '_' ∧ c ≠ '-' ∧ c ≠ '+')
    (hp : parseDigits l 0 = some n) (hr : (n : Int) < 2 ^ 63) :
    Atoi (String.mk l) = .ok (n : Int) := by
  cases l with
  | nil => exact absurd rfl hne
  | cons c cs =>
    obtain ⟨_, _, h1, h2⟩ := hd c (List.mem_cons_self _ _)
    have hsign : ¬ (c = '-' ∨ c = '+') := fun h => h.elim h1 h2
    have hrange : ¬ ((n : Int) < -(2 : Int) ^ 63 ∨ (n : Int) > (2 : Int) ^ 63 - 1) := by
      have h0 : (0 : Int) ≤ (n : Int) := Int.ofNat_nonneg n
      omega
    simp only [Atoi, String.toList, h1, h2, or_self, if_false, List.isEmpty_cons,
      Bool.false_eq_true, hp, hrange]

theorem createIndexID_toList (tldName : String) (n : Nat) :
    ∃ l, l ≠ [] ∧ (∀ c ∈ l, c.isDigit = true ∧ c ≠ '_' ∧ c ≠ '-' ∧ c ≠ '+') ∧
      parseDigits l 0 = some n ∧
      (createIndexID tldName (n : Int)).toList = tldName.toList ++ '_' :: l := by
  obtain ⟨l, h1, h2, h3⟩ := toDigitsCore_digits n n []
  rw [List.append_nil] at h3
  refine ⟨l, h1, h2, ?_, ?_⟩
  · rw [← h3, parseDigits_toDigitsCore (n + 1) n [] (by omega)]
    rfl
  · have hf := formatInt_natCast n
    rw [h3] at hf
    show (tldName ++ "_" ++ formatInt (n : Int)).data = _
    rw [String.data_append, String.data_append]
    show (tldName.data ++ ['_']) ++ (formatInt (n : Int)).toList = _
    rw [hf]
    simp

/-- The identifier made for a zone and a natural line index parses back. -/
theorem parseIndexID_createIndexID_nat (tldName : String) (n : Nat) (hr : (n : Int) < 2 ^ 63) :
    parseIndexID (createIndexID tldName (n : Int)) = .ok (tldName, (n : Int)) := by
  obtain ⟨l, h1, h2, h3, h4⟩ := createIndexID_toList tldName n
  have hnot : '_' ∉ l := fun hm => (h2 '_' hm).2.1 rfl
  have hlast : LastIndexUnderscore (createIndexID tldName (n : Int)) =
      (tldName.toList.length : Int) := by
    unfold LastIndexUnderscore
    rw [h4, lastIndexChars_append '_' _ _ hnot]
  have hpre : slicePrefix (createIndexID tldName (n : Int)) (tldName.toList.length : Int) =
      tldName := by
    unfold slicePrefix
    rw [h4, Int.toNat_ofNat, List.take_left' rfl]
    rfl
  have hsuf : sliceSuffix (createIndexID tldName (n : Int))
      ((tldName.toList.length : Int) + 1) = String.mk l := by
    unfold sliceSuffix
    have : ((tldName.toList.length : Int) + 1).toNat = tldName.toList.length + 1 := by omega
    rw [h4, this]
    congr 1
    have hsplit : tldName.toList ++ '_' :: l = (tldName.toList ++ ['_']) ++ l := by simp
    rw [hsplit, List.drop_left' (by simp)]
  have hne : ¬ ((tldName.toList.length : Int) = -1) := by omega
  unfold parseIndexID
  simp only [hlast, hne, if_false, hpre, hsuf, Atoi_digits l n h1 h2 h3 hr]

theorem digitValue_isDigit (c : Char) (d : Nat) (h : digitValue c = some d) :
    c.isDigit = true := by
  unfold digitValue at h
  by_cases hc : '0' ≤ c ∧ c ≤ '9'
  · obtain ⟨h1, h2⟩ := hc
    have h3 : (48 : UInt32) ≤ c.val := h1
    have h4 : c.val ≤ (57 : UInt32) := h2
    simp [Char.isDigit, h3, h4]
  · rw [if_neg hc] at h
    cases h

theorem parseDigits_isDigit (l : List Char) :
    ∀ acc n, parseDigits l acc = some n → l.all Char.isDigit = true := by
  induction l with
  | nil => intro acc n _; rfl
  | cons c cs ih =>
    intro acc n h
    unfold parseDigits at h
    cases hd : digitValue c with
    | none =>
      rw [hd] at h
      cases h
    | some d =>
      rw [hd] at h
      simp only [List.all_cons, Bool.and_eq_true]
      exact ⟨digitValue_isDigit c d hd, ih _ _ h⟩

/-- What `Atoi` accepts is an integer in decimal writing. -/
theorem Atoi_ok_isDecimalInteger (s : String) (value : Int) (h : Atoi s = .ok value) :
    isDecimalInteger s = true := by
  unfold Atoi at h
  unfold isDecimalInteger
  cases hs : s.toList with
  | nil =>
    rw [hs] at h
    cases h
  | cons c cs =>
    rw [hs] at h
    simp only at h
    by_cases hsign : c = '-' ∨ c = '+'
    · simp only [hsign, if_true] at h ⊢
      cases hcs : cs with
      | nil =>
        rw [hcs] at h
        simp at h
      | cons x xs =>
        rw [hcs] at h
        simp only [List.isEmpty_cons, Bool.false_eq_true, if_false] at h
        cases hp : parseDigits (x :: xs) 0 with
        | none =>
          rw [hp] at h
          cases h
        | some n =>
          have := parseDigits_isDigit (x :: xs) 0 n hp
          simp only [List.isEmpty_cons, Bool.not_false, Bool.true_and]
          exact this
    · simp only [hsign, if_false] at h ⊢
      simp only [List.isEmpty_cons, Bool.false_eq_true, if_false] at h
      cases hp : parseDigits (c :: cs) 0 with
      | none =>
        rw [hp] at h
        cases h
      | some n => exact parseDigits_isDigit (c :: cs) 0 n hp

theorem parseIndexID_no_underscore (indexID : String) (h : '_' ∉ indexID.toList) :
    parseIndexID indexID = .error "invalid indexID format" := by
  unfold parseIndexID LastIndexUnderscore
  rw [lastIndexChars_none '_' _ h]
  rfl

theorem parseIndexID_not_integer (indexID : String)
    (h : isDecimalInteger (afterLastUnderscore indexID) = false) :
    ∃ err, parseIndexID indexID = .error err := by
  unfold parseIndexID
  by_cases hl : LastIndexUnderscore indexID = -1
  · exact ⟨"invalid indexID format", by simp only [hl, if_true]⟩
  · simp only [hl, if_false]
    cases ha : Atoi (sliceSuffix indexID (LastIndexUnderscore indexID + 1)) with
    | error err => exact ⟨_, rfl⟩
    | ok value =>
      have := Atoi_ok_isDecimalInteger _ value ha
      unfold afterLastUnderscore at h
      rw [h] at this
      cases this

/-- C19: for every zone name, whatever characters it holds, and every line index from 0 up to the
largest `int`, `parseIndexID` applied to `createIndexID` returns the zone name and the line index,
with no error; and `parseIndexID` returns an error for every identifier without an underscore and
for every identifier whose text after the last underscore is not an integer in decimal writing. -/
theorem parse_index_id_round_trip (tldName : String) (lineIndex : Int) (h0 : 0 ≤ lineIndex)
    (hr : lineIndex < 2 ^ 63) (indexID : String) :
    parseIndexID (createIndexID tldName lineIndex) = .ok (tldName, lineIndex) ∧
      ('_' ∉ indexID.toList → parseIndexID indexID = .error "invalid indexID format") ∧
      (isDecimalInteger (afterLastUnderscore indexID) = false →
        ∃ err, parseIndexID indexID = .error err) := by
  refine ⟨?_, parseIndexID_no_underscore indexID, parseIndexID_not_integer indexID⟩
  obtain ⟨n, hn⟩ := Int.eq_ofNat_of_zero_le h0
  subst hn
  exact parseIndexID_createIndexID_nat tldName n hr

theorem parse_index_id_round_trip_witness :
    parseIndexID (createIndexID "co_uk9" 17) = .ok ("co_uk9", 17) ∧
      ('_' ∉ "com_12x".toList → parseIndexID "com_12x" = .error "invalid indexID format") ∧
      (isDecimalInteger (afterLastUnderscore "com_12x") = false →
        ∃ err, parseIndexID "com_12x" = .error err) :=
  parse_index_id_round_trip "co_uk9" 17 (by decide) (by decide) "com_12x"

/-- Examples: a zone name with an underscore and a final digit; an identifier without an
underscore; identifiers whose last part is not a number, is empty, or is out of range. -/
theorem parse_index_id_examples :
    createIndexID "co_uk9" 17 = "co_uk9_17" ∧
      parseIndexID "co_uk9_17" = .ok ("co_uk9", 17) ∧
      parseIndexID "com" = .error "invalid indexID format" ∧
      isDecimalInteger (afterLastUnderscore "com_12x") = false ∧
      parseIndexID "com_12x" = .error "failed to parse lineIndex: invalid syntax" ∧
      parseIndexID "com_" = .error "failed to parse lineIndex: invalid syntax" ∧
      parseIndexID "com_9223372036854775808" =
        .error "failed to parse lineIndex: value out of range" := by
  refine ⟨by decide, rfl, rfl, by decide, rfl, rfl, rfl⟩


/-! ### The buckets chosen by `UnmarshalJSON` -/

/-- C20 (amended): `UnmarshalJSON` applied to a decoded flat object whose `domainName` is a
string returns without an error, sets the domain name from that key, and for every other key
changes at most one bucket, chosen by the type of the value: a string goes into the string bucket,
a boolean into the bool bucket, a number into the int bucket when it is integral and within the
range of `int64`, and into the double bucket otherwise; under a key whose value is `null`, an array
or an object no bucket changes.  The buckets not named are as they were before the call, empty for
a new record.  Integral numbers are assumed to be `float64` values. -/
theorem unmarshal_json_buckets (raw : GoMap JsonValue) (hwf : GoMap.WF raw) (s : String)
    (hname : raw.get "domainName" = some (.string s)) (d0 : DomainProperties)
    (hfloat : ∀ k q, raw.get k = some (.number q) → q.den = 1 → float64OfInt q.num = q.num) :
    ∃ d, UnmarshalJSON raw d0 = .ok d ∧ d.DomainName = s ∧
      ∀ k, k ≠ "domainName" →
        (∀ v, raw.get k = some (.string v) →
          d.StringProperties.get k = some v ∧ d.IntProperties.get k = d0.IntProperties.get k ∧
          d.FloatProperties.get k = d0.FloatProperties.get k ∧
          d.BoolProperties.get k = d0.BoolProperties.get k) ∧
        (∀ b, raw.get k = some (.bool b) →
          d.BoolProperties.get k = some b ∧ d.StringProperties.get k = d0.StringProperties.get k ∧
          d.IntProperties.get k = d0.IntProperties.get k ∧
          d.FloatProperties.get k = d0.FloatProperties.get k) ∧
        (∀ q, raw.get k = some (.number q) →
          (q.den = 1 ∧ -(2 : Int) ^ 63 ≤ q.num ∧ q.num < (2 : Int) ^ 63 →
            d.IntProperties.get k = some q.num ∧
            d.FloatProperties.get k = d0.FloatProperties.get k) ∧
          (¬ (q.den = 1 ∧ -(2 : Int) ^ 63 ≤ q.num ∧ q.num < (2 : Int) ^ 63) →
            d.FloatProperties.get k = some q ∧
            d.IntProperties.get k = d0.IntProperties.get k) ∧
          d.StringProperties.get k = d0.StringProperties.get k ∧
          d.BoolProperties.get k = d0.BoolProperties.get k) ∧
        ((raw.get k = some .null ∨ (∃ items, raw.get k = some (.array items)) ∨
            ∃ members, raw.get k = some (.object members)) →
          d.StringProperties.get k = d0.StringProperties.get k ∧
          d.IntProperties.get k = d0.IntProperties.get k ∧
          d.FloatProperties.get k = d0.FloatProperties.get k ∧
          d.BoolProperties.get k = d0.BoolProperties.get k) := by
  refine ⟨raw.foldl (fun d kv => UnmarshalJSON.assign d kv.1 kv.2) { d0 with DomainName := s },
    ?_, ?_, ?_⟩
  · unfold UnmarshalJSON
    rw [hname]
  · rw [foldl_assign_DomainName]
  · intro k hk
    obtain ⟨hS, hI, hF, hB⟩ := UnmarshalJSON_buckets raw hwf k hk { d0 with DomainName := s }
    refine ⟨?_, ?_, ?_, ?_⟩
    · intro v hv
      rw [hS, hI, hF, hB, hv]
      exact ⟨rfl, rfl, rfl, rfl⟩
    · intro b hb
      rw [hS, hI, hF, hB, hb]
      exact ⟨rfl, rfl, rfl, rfl⟩
    · intro q hq
      have htest := integrality_test q (hfloat k q hq)
      rw [hS, hI, hF, hB, hq]
      refine ⟨?_, ?_, rfl, rfl⟩
      · intro hin
        have ht := htest.2 hin
        have hval : int64OfFloat q = q.num := by
          have hqn := rat_eq_intCast_of_den q hin.1
          rw [hqn]
          simpa using int64OfFloat_intCast q.num hin.2.1 hin.2.2
        simp only []
        rw [if_pos ht, if_pos ht, hval]
        exact ⟨rfl, rfl⟩
      · intro hout
        have ht : ¬ q = (float64OfInt (int64OfFloat q) : ℚ) := fun h => hout (htest.1 h)
        simp only []
        rw [if_neg ht, if_neg ht]
        exact ⟨rfl, rfl⟩
    · intro hother
      rw [hS, hI, hF, hB]
      rcases hother with h | ⟨items, h⟩ | ⟨members, h⟩ <;> rw [h] <;> exact ⟨rfl, rfl, rfl, rfl⟩

theorem mixedObject_numbers (k : String) (q : ℚ)
    (h : GoMap.get mixedObject k = some (.number q)) : q = 3 ∨ q = 9 / 2 := by
  simp only [mixedObject, GoMap.get] at h
  split_ifs at h <;> simp_all

theorem unmarshal_json_buckets_witness :
    ∃ d, UnmarshalJSON mixedObject NewDomainProperties = .ok d ∧ d.DomainName = "example.com" ∧
      d.StringProperties.get "owner" = some "John Doe" ∧
      d.BoolProperties.get "active" = some true ∧
      d.IntProperties.get "visits" = some 3 ∧
      d.FloatProperties.get "rating" = some (9 / 2) ∧
      d.FloatProperties.get "visits" = none ∧
      d.IntProperties.get "rating" = none ∧
      d.StringProperties.get "notes" = none ∧
      d.IntProperties.get "tags" = none ∧
      d.BoolProperties.get "extra" = none := by
  obtain ⟨d, h1, h2, h3⟩ := unmarshal_json_buckets mixedObject (by decide) "example.com" rfl
    NewDomainProperties (by
      intro k q h hden
      rcases mixedObject_numbers k q h with hq | hq
      · rw [hq]
        decide
      · rw [hq] at hden
        exact absurd hden (by decide!))
  refine ⟨d, h1, h2, ?_⟩
  have owner := ((h3 "owner" (by decide)).1 "John Doe" rfl).1
  have active := ((h3 "active" (by decide)).2.1 true rfl).1
  have visits := ((h3 "visits" (by decide)).2.2.1 3 rfl).1 (by decide!)
  have rating := ((h3 "rating" (by decide)).2.2.1 (9 / 2) rfl).2.1 (by decide!)
  have notes := ((h3 "notes" (by decide)).2.2.2 (Or.inl rfl)).1
  have tags := ((h3 "tags" (by decide)).2.2.2 (Or.inr (Or.inl ⟨_, rfl⟩))).2.1
  have extra := ((h3 "extra" (by decide)).2.2.2 (Or.inr (Or.inr ⟨_, rfl⟩))).2.2.2
  exact ⟨owner, active, visits.1, rating.1, visits.2, rating.2, notes, tags, extra⟩

/-- C20 (counterexample): the number `2^64` is exactly integral, and `UnmarshalJSON` puts it in
the double bucket, the int bucket staying empty. -/
theorem unmarshal_json_huge_integral :
    GoMap.get hugeNumberObject "size" = some (.number 18446744073709551616) ∧
      (18446744073709551616 : ℚ).den = 1 ∧
      ∃ d, UnmarshalJSON hugeNumberObject NewDomainProperties = .ok d ∧
        d.IntProperties.get "size" = none ∧
        d.FloatProperties.get "size" = some 18446744073709551616 := by
  refine ⟨rfl, by decide!, { NewDomainProperties with
    DomainName := "example.com", FloatProperties := [("size", 18446744073709551616)] }, ?_, rfl,
    rfl⟩
  rfl


/-! ### The flat JSON object of a record -/

theorem stringLess_iff (a b : String) : stringLess a b = true ↔ a.toList < b.toList := by
  simp [stringLess]

theorem insertByKey_perm (e : String × PropertyValue) (l : List (String × PropertyValue)) :
    List.Perm (insertByKey e l) (e :: l) := by
  induction l with
  | nil => exact List.Perm.refl _
  | cons x xs ih =>
    unfold insertByKey
    by_cases h : stringLess e.1 x.1 = true
    · rw [if_pos h]
    · rw [if_neg h]
      exact (List.Perm.cons x ih).trans (List.Perm.swap e x xs)

theorem sortByKey_perm (m : GoMap PropertyValue) : List.Perm (sortByKey m) m := by
  induction m with
  | nil => exact List.Perm.refl _
  | cons e m ih =>
    show List.Perm (insertByKey e (sortByKey m)) (e :: m)
    exact (insertByKey_perm e _).trans (List.Perm.cons e ih)

theorem insertByKey_sorted (e : String × PropertyValue) (l : List (String × PropertyValue))
    (hne : ∀ x ∈ l, x.1 ≠ e.1)
    (hs : l.Pairwise (fun a b => a.1.toList < b.1.toList)) :
    (insertByKey e l).Pairwise (fun a b => a.1.toList < b.1.toList) := by
  induction l with
  | nil => simp [insertByKey]
  | cons x xs ih =>
    rw [List.pairwise_cons] at hs
    obtain ⟨hx, hxs⟩ := hs
    unfold insertByKey
    by_cases h : stringLess e.1 x.1 = true
    · rw [if_pos h]
      have hlt := (stringLess_iff _ _).1 h
      refine List.Pairwise.cons ?_ (List.Pairwise.cons hx hxs)
      intro y hy
      rcases List.mem_cons.1 hy with hy | hy
      · rw [hy]
        exact hlt
      · exact lt_trans hlt (hx y hy)
    · rw [if_neg h]
      have hnlt : ¬ e.1.toList < x.1.toList := fun hl => h ((stringLess_iff _ _).2 hl)
      have hneq : x.1.toList ≠ e.1.toList := by
        intro heq
        exact hne x (List.mem_cons_self _ _) (String.ext heq)
      have hxe : x.1.toList < e.1.toList := by
        rcases lt_trichotomy x.1.toList e.1.toList with h1 | h1 | h1
        · exact h1
        · exact absurd h1 hneq
        · exact absurd h1 hnlt
      refine List.Pairwise.cons ?_ (ih (fun y hy => hne y (List.mem_cons_of_mem _ hy)) hxs)
      intro y hy
      rcases List.mem_cons.1 ((insertByKey_perm e xs).subset hy) with hy | hy
      · rw [hy]
        exact hxe
      · exact hx y hy

theorem sortByKey_sorted (m : GoMap PropertyValue) (hwf : GoMap.WF m) :
    (sortByKey m).Pairwise (fun a b => a.1.toList < b.1.toList) := by
  induction m with
  | nil => exact List.Pairwise.nil
  | cons e m ih =>
    unfold GoMap.WF at hwf
    rw [List.map_cons, List.nodup_cons] at hwf
    show (insertByKey e (sortByKey m)).Pairwise _
    apply insertByKey_sorted e _ _ (ih hwf.2)
    intro x hx heq
    apply hwf.1
    rw [← heq]
    exact List.mem_map_of_mem _ ((sortByKey_perm m).subset hx)

theorem GoMap.nodup_of_WF {V : Type} (m : GoMap V) (hwf : GoMap.WF m) : m.Nodup :=
  List.Nodup.of_map _ hwf

theorem GoMap.perm_of_get_eq {V : Type} (m1 m2 : GoMap V) (h1 : GoMap.WF m1)
    (h2 : GoMap.WF m2) (hget : ∀ k, GoMap.get m1 k = GoMap.get m2 k) : List.Perm m1 m2 := by
  rw [List.perm_ext_iff_of_nodup (GoMap.nodup_of_WF m1 h1) (GoMap.nodup_of_WF m2 h2)]
  intro e
  obtain ⟨k, v⟩ := e
  constructor
  · intro h
    have := GoMap.get_of_mem h1 h
    rw [hget] at this
    exact GoMap.mem_of_get this
  · intro h
    have := GoMap.get_of_mem h2 h
    rw [← hget] at this
    exact GoMap.mem_of_get this

/-- The order in which `json.Marshal` writes the members depends only on the content of the
map, not on the order in which the map holds them. -/
theorem sortByKey_canonical (m1 m2 : GoMap PropertyValue) (h1 : GoMap.WF m1)
    (h2 : GoMap.WF m2) (hget : ∀ k, GoMap.get m1 k = GoMap.get m2 k) :
    sortByKey m1 = sortByKey m2 := by
  have hp : List.Perm (sortByKey m1) (sortByKey m2) :=
    ((sortByKey_perm m1).trans (GoMap.perm_of_get_eq m1 m2 h1 h2 hget)).trans
      (sortByKey_perm m2).symm
  haveI : IsAntisymm (String × PropertyValue) (fun a b => a.1.toList < b.1.toList) :=
    ⟨fun a b hab hba => absurd hab (lt_asymm hba)⟩
  exact List.eq_of_perm_of_sorted hp (sortByKey_sorted m1 h1) (sortByKey_sorted m2 h2)

/-- For a record whose attribute keys are pairwise distinct and not `domainName`, the map that
`ToJSONString` marshals holds exactly the members the flat object must have. -/
theorem properties_get_iff (d : DomainProperties) (hkeys : (attributeKeys d).Nodup)
    (hres : "domainName" ∉ attributeKeys d) (k : String) (v : PropertyValue) :
    GoMap.get (ToJSONString.properties d) k = some v ↔ isMemberOf d k v := by
  have hnd := hkeys
  unfold attributeKeys at hnd
  rw [List.nodup_append] at hnd
  obtain ⟨hSIF, hB, dB⟩ := hnd
  rw [List.nodup_append] at hSIF
  obtain ⟨hSI, hF, dF⟩ := hSIF
  rw [List.nodup_append] at hSI
  obtain ⟨hS, hI, dI⟩ := hSI
  have hr : "domainName" ∉ GoMap.keys d.StringProperties ∧
      "domainName" ∉ GoMap.keys d.IntProperties ∧
      "domainName" ∉ GoMap.keys d.FloatProperties ∧
      "domainName" ∉ GoMap.keys d.BoolProperties := by
    simpa [attributeKeys, not_or, and_assoc] using hres
  obtain ⟨rS, rI, rF, rB⟩ := hr
  rw [properties_get d hS hI hF hB k]
  unfold isMemberOf
  constructor
  · intro h
    cases hb : d.BoolProperties.get k with
    | some b =>
      rw [hb] at h
      exact Or.inr (Or.inr (Or.inr (Or.inr ⟨b, rfl, (Option.some.inj h).symm⟩)))
    | none =>
      rw [hb] at h
      cases hf : d.FloatProperties.get k with
      | some q =>
        rw [hf] at h
        exact Or.inr (Or.inr (Or.inr (Or.inl ⟨q, rfl, (Option.some.inj h).symm⟩)))
      | none =>
        rw [hf] at h
        cases hi : d.IntProperties.get k with
        | some n =>
          rw [hi] at h
          exact Or.inr (Or.inr (Or.inl ⟨n, rfl, (Option.some.inj h).symm⟩))
        | none =>
          rw [hi] at h
          cases hs : d.StringProperties.get k with
          | some s =>
            rw [hs] at h
            exact Or.inr (Or.inl ⟨s, rfl, (Option.some.inj h).symm⟩)
          | none =>
            rw [hs] at h
            by_cases hk : k = "domainName"
            · rw [if_pos hk] at h
              exact Or.inl ⟨hk, (Option.some.inj h).symm⟩
            · rw [if_neg hk] at h
              cases h
  · rintro (⟨hk, hv⟩ | ⟨s, hs, hv⟩ | ⟨n, hn, hv⟩ | ⟨q, hq, hv⟩ | ⟨b, hb, hv⟩)
    · subst hk
      rw [(GoMap.get_eq_none_iff _ _).2 rB, (GoMap.get_eq_none_iff _ _).2 rF,
        (GoMap.get_eq_none_iff _ _).2 rI, (GoMap.get_eq_none_iff _ _).2 rS, hv]
      rfl
    · have kS := GoMap.mem_keys_of_get hs
      have nI : k ∉ GoMap.keys d.IntProperties := fun h => dI kS h
      have nF : k ∉ GoMap.keys d.FloatProperties :=
        fun h => dF (List.mem_append_left _ kS) h
      have nB : k ∉ GoMap.keys d.BoolProperties :=
        fun h => dB (List.mem_append_left _ (List.mem_append_left _ kS)) h
      rw [(GoMap.get_eq_none_iff _ _).2 nB, (GoMap.get_eq_none_iff _ _).2 nF,
        (GoMap.get_eq_none_iff _ _).2 nI, hs, hv]
    · have kI := GoMap.mem_keys_of_get hn
      have nF : k ∉ GoMap.keys d.FloatProperties :=
        fun h => dF (List.mem_append_right _ kI) h
      have nB : k ∉ GoMap.keys d.BoolProperties :=
        fun h => dB (List.mem_append_left _ (List.mem_append_right _ kI)) h
      rw [(GoMap.get_eq_none_iff _ _).2 nB, (GoMap.get_eq_none_iff _ _).2 nF, hn, hv]
    · have kF := GoMap.mem_keys_of_get hq
      have nB : k ∉ GoMap.keys d.BoolProperties :=
        fun h => dB (List.mem_append_right _ kF) h
      rw [(GoMap.get_eq_none_iff _ _).2 nB, hq, hv]
    · rw [hb, hv]

/-- C21 (amended): for every record whose attribute keys are pairwise distinct within and across
the four buckets and different from the reserved key `domainName` (a record of the embedding
holds valid Unicode strings and finite doubles, for which `json.Marshal` returns no error),
`ToJSONString` returns the text of one flat JSON object whose members are in strictly ascending
key order and are exactly the domain name under `domainName` and every attribute of the string,
int, double and bool buckets under its key with its value; a record with the same domain name
and the same content of the four maps, held in any order, gives the same text. -/
theorem to_json_string_flat_object (d : DomainProperties) (hkeys : (attributeKeys d).Nodup)
    (hres : "domainName" ∉ attributeKeys d) :
    ∃ members : List (String × PropertyValue),
      ToJSONString d = jsonObjectText members ∧
      members.Pairwise (fun a b => a.1.toList < b.1.toList) ∧
      (∀ k v, (k, v) ∈ members ↔ isMemberOf d k v) ∧
      ∀ d2 : DomainProperties, d2.DomainName = d.DomainName →
        GoMap.WF d2.StringProperties → GoMap.WF d2.IntProperties →
        GoMap.WF d2.FloatProperties → GoMap.WF d2.BoolProperties →
        (∀ k, d2.StringProperties.get k = d.StringProperties.get k) →
        (∀ k, d2.IntProperties.get k = d.IntProperties.get k) →
        (∀ k, d2.FloatProperties.get k = d.FloatProperties.get k) →
        (∀ k, d2.BoolProperties.get k = d.BoolProperties.get k) →
        ToJSONString d2 = ToJSONString d := by
  have hwf := properties_WF d
  refine ⟨sortByKey (ToJSONString.properties d), rfl, sortByKey_sorted _ hwf, ?_, ?_⟩
  · intro k v
    rw [← properties_get_iff d hkeys hres k v]
    constructor
    · intro h
      exact GoMap.get_of_mem hwf ((sortByKey_perm _).subset h)
    · intro h
      exact (sortByKey_perm _).symm.subset (GoMap.mem_of_get h)
  · intro d2 hname wS wI wF wB gS gI gF gB
    have hnd := hkeys
    unfold attributeKeys at hnd
    rw [List.nodup_append] at hnd
    obtain ⟨hSIF, hB, _⟩ := hnd
    rw [List.nodup_append] at hSIF
    obtain ⟨hSI, hF, _⟩ := hSIF
    rw [List.nodup_append] at hSI
    obtain ⟨hS, hI, _⟩ := hSI
    unfold ToJSONString jsonMarshal
    rw [sortByKey_canonical (ToJSONString.properties d2) (ToJSONString.properties d)
      (properties_WF d2) hwf ?_]
    intro k
    rw [properties_get d2 wS wI wF wB k, properties_get d hS hI hF hB k, gS, gI, gF, gB, hname]

theorem GoMap.get_swap {V : Type} (a b : String) (x y : V) (m : GoMap V) (hab : a ≠ b)
    (k : String) :
    GoMap.get ((a, x) :: (b, y) :: m) k = GoMap.get ((b, y) :: (a, x) :: m) k := by
  simp only [GoMap.get]
  by_cases ha : a = k
  · have hb : ¬ b = k := fun h => hab (ha.trans h.symm)
    rw [if_pos ha, if_neg hb, if_pos ha]
  · rw [if_neg ha, if_neg ha]

theorem to_json_string_flat_object_witness :
    ∃ members : List (String × PropertyValue),
      ToJSONString testCreateJSONRecord = jsonObjectText members ∧
      members.Pairwise (fun a b => a.1.toList < b.1.toList) ∧
      (∀ k v, (k, v) ∈ members ↔ isMemberOf testCreateJSONRecord k v) ∧
      ToJSONString testCreateJSONRecordReordered = ToJSONString testCreateJSONRecord ∧
      ToJSONString testCreateJSONRecord =
        "\x7b\"creationDate\":1620784027,\"domainName\":\"example.com\"," ++
          "\"email\":\"john@example.com\",\"expirationDate\":1652320027," ++
          "\"owner\":\"John Doe\",\"rating\":4.5\x7d" := by
  obtain ⟨members, h1, h2, h3, h4⟩ :=
    to_json_string_flat_object testCreateJSONRecord (by decide) (by decide)
  exact ⟨members, h1, h2, h3, h4 testCreateJSONRecordReordered rfl (by decide) (by decide)
    (by decide) (by decide)
    (fun k => GoMap.get_swap "email" "owner" _ _ [] (by decide) k)
    (fun k => GoMap.get_swap "expirationDate" "creationDate" _ _ [] (by decide) k)
    (fun _ => rfl) (fun _ => rfl), by decide!⟩

/-- The text `ToJSONString` returns for the record of `TestCreateJSONString` is the text the test
expects. -/
theorem to_json_string_test_record :
    ToJSONString testCreateJSONRecord =
      "\x7b\"creationDate\":1620784027,\"domainName\":\"example.com\"," ++
        "\"email\":\"john@example.com\",\"expirationDate\":1652320027," ++
        "\"owner\":\"John Doe\",\"rating\":4.5\x7d" := by
  decide!

/-- C21 (counterexample): two records outside the convention on keys.  With the key `level` in
the string bucket and in the int bucket the object holds the int only, the string `high` is not
written; with a string attribute under the key `domainName` the object holds that string under
`domainName`, not the domain name. -/
theorem to_json_string_shared_key :
    sharedKeyRecord.StringProperties.get "level" = some "high" ∧
      ToJSONString sharedKeyRecord = "\x7b\"domainName\":\"example.com\",\"level\":3\x7d" ∧
      reservedKeyRecord.DomainName = "example.com" ∧
      ToJSONString reservedKeyRecord = "\x7b\"domainName\":\"other.org\"\x7d" := by
  refine ⟨rfl, ?_, rfl, ?_⟩ <;> decide!


/-! ### The indexer ranker -/

/-- C23: for every record and query (and every call), the indexer ranker returns the value the
record holds under `normalized_indexer_score` in its double bucket, and 0 when the bucket has no
such key; the record is the same after the call; the ranker configured in the application returns
the same score; and on the record of `TestIndexerRanker` the score is 0.5. -/
theorem indexer_ranker_returns_score (call : Nat) (record : DomainProperties)
    (userQuery : String) :
    (indexerRankerInput record userQuery).1 =
        (record.FloatProperties.get "normalized_indexer_score").getD 0 ∧
      (indexerRankerInput record userQuery).2 = record ∧
      IndexerRanker.Input call record userQuery = (indexerRankerInput record userQuery).1 ∧
      (record.FloatProperties.get "normalized_indexer_score" = none →
        IndexerRanker.Input call record userQuery = 0) ∧
      (∀ score, record.FloatProperties.get "normalized_indexer_score" = some score →
        IndexerRanker.Input call record userQuery = score) ∧
      IndexerRanker.Input call testIndexerRankerRecord "" = 1 / 2 := by
  refine ⟨?_, ?_, ?_, ?_, ?_, ?_⟩
  · unfold indexerRankerInput
    cases record.FloatProperties.get "normalized_indexer_score" <;> rfl
  · unfold indexerRankerInput
    cases record.FloatProperties.get "normalized_indexer_score" <;> rfl
  · unfold indexerRankerInput
    show (match record.FloatProperties.get "normalized_indexer_score" with
      | none => (0 : ℚ)
      | some indexScore => indexScore) = _
    cases record.FloatProperties.get "normalized_indexer_score" <;> rfl
  · intro h
    show (match record.FloatProperties.get "normalized_indexer_score" with
      | none => (0 : ℚ)
      | some indexScore => indexScore) = _
    rw [h]
  · intro score h
    show (match record.FloatProperties.get "normalized_indexer_score" with
      | none => (0 : ℚ)
      | some indexScore => indexScore) = _
    rw [h]
  · rfl

theorem indexer_ranker_returns_score_witness :
    IndexerRanker.Input 0 (scoredRecord "a.com" (3 / 4)) "shop" = 3 / 4 :=
  (indexer_ranker_returns_score 0 (scoredRecord "a.com" (3 / 4)) "shop").2.2.2.2.1 (3 / 4) rfl


/-! ### The terminal states of the lifecycle -/

theorem LifecycleOp.run_terminal (op : LifecycleOp) (a a1 : ApplicationState)
    (hterm : isTerminalTask a.task) (hrun : op.run a = .ok a1) : isTerminalTask a1.task := by
  cases op with
  | guarded t now =>
    exfalso
    rcases hterm with h | h <;> cases t <;>
      simp [LifecycleOp.run, GuardedTransition.run, OnPreCrawlFiltersStarted,
        OnPreCrawlFiltersFinished, OnPostCrawlFiltersStarted, OnPostCrawlFiltersFinished,
        OnIndexingStarted, OnReadyToSearch, OnRankingStarted, h] at hrun
  | OnErrored errorDetails =>
    cases hrun
    exact Or.inl rfl
  | OnShutdown =>
    cases hrun
    exact Or.inr rfl
  | SetTotalWorkItems totalWorkItems =>
    cases hrun
    exact hterm
  | SetProcessedWorkItems now processedWorkItems =>
    cases hrun
    exact hterm

/-- C30: from a state whose task is `Errored` or `Shutdown`, each of the seven guarded transitions
panics, `OnErrored` leaves the task `Errored` and `OnShutdown` leaves it `Shutdown`, and after
every sequence of operations that does not panic the task is still `Errored` or `Shutdown`; the
two progress setters never change the task, in any state. -/
theorem terminal_states_closed (a : ApplicationState) (hterm : isTerminalTask a.task) :
    (∀ (t : GuardedTransition) (now : ℚ), t.run now a = .error programmingError) ∧
      (∀ errorDetails, (OnErrored a errorDetails).task = .Errored) ∧
      (OnShutdown a).task = .Shutdown ∧
      (∀ (ops : List LifecycleOp) (a1 : ApplicationState),
        runLifecycleOps ops a = .ok a1 → isTerminalTask a1.task) ∧
      (∀ (b : ApplicationState) (now : ℚ) (n : Int),
        (SetTotalWorkItems b n).task = b.task ∧ (SetProcessedWorkItems now b n).task = b.task) := by
  refine ⟨?_, fun _ => rfl, rfl, ?_, fun _ _ _ => ⟨rfl, rfl⟩⟩
  · intro t now
    rcases hterm with h | h <;> cases t <;>
      simp [GuardedTransition.run, OnPreCrawlFiltersStarted, OnPreCrawlFiltersFinished,
        OnPostCrawlFiltersStarted, OnPostCrawlFiltersFinished, OnIndexingStarted,
        OnReadyToSearch, OnRankingStarted, h]
  · intro ops
    induction ops generalizing a with
    | nil =>
      intro a1 h
      cases h
      exact hterm
    | cons op rest ih =>
      intro a1 h
      simp only [runLifecycleOps] at h
      cases hop : op.run a with
      | error e =>
        rw [hop] at h
        cases h
      | ok a2 =>
        rw [hop] at h
        exact ih a2 (LifecycleOp.run_terminal op a a2 hterm hop) a1 h

theorem terminal_states_closed_witness :
    (∀ (t : GuardedTransition) (now : ℚ),
        t.run now (OnShutdown NewApplicationStateManager) = .error programmingError) ∧
      (∀ (ops : List LifecycleOp) (a1 : ApplicationState),
        runLifecycleOps ops (OnShutdown NewApplicationStateManager) = .ok a1 →
          isTerminalTask a1.task) :=
  ⟨(terminal_states_closed (OnShutdown NewApplicationStateManager) (Or.inr rfl)).1,
    (terminal_states_closed (OnShutdown NewApplicationStateManager) (Or.inr rfl)).2.2.2.1⟩

/-- After a shutdown, an error and a progress update the task is `Errored`, and the start of
the pre-crawl stage panics. -/
theorem terminal_states_example :
    (runLifecycleOps [.OnShutdown, .OnErrored "stopped", .SetProcessedWorkItems 0 5]
        NewApplicationStateManager).map (fun a => a.task) = .ok .Errored ∧
      (runLifecycleOps [.OnShutdown, .guarded .PreCrawlFiltersStarted 0]
        NewApplicationStateManager).map (fun a => a.task) = .error programmingError := by
  exact ⟨rfl, rfl⟩


/-! ### The filter chains -/

/-- On a chain that is not empty, `preCrawlProcessDomainProperties` is the chain of the
specification: filters applied in order, each to the output of the one before, ended by the first
drop, the state of the handlers being that left by the last filter called. -/
theorem preCrawlProcessDomainProperties_eq_chain {σ : Type}
    (filters : List (PreConnectionFilter σ)) (hne : filters ≠ []) :
    ∀ (s : σ) (record : DomainProperties),
      preCrawlProcessDomainProperties filters s record =
        chainOf (preCrawlSteps filters) s record := by
  induction filters with
  | nil => exact absurd rfl hne
  | cons filter rest ih =>
    intro s record
    simp only [preCrawlProcessDomainProperties, preCrawlSteps, List.map_cons, chainOf]
    cases hf : filter.Input s record with
    | mk s1 out =>
      cases out with
      | none => rfl
      | some output =>
        cases rest with
        | nil => simp [chainOf]
        | cons next rest1 =>
          simp only [List.length_cons, Nat.zero_lt_succ, if_true]
          exact ih (List.cons_ne_nil _ _) s1 output

theorem postCrawlProcessDomainProperties_eq_chain {σ : Type}
    (filters : List (PostConnectionFilter σ)) (hne : filters ≠ []) (header : Header)
    (baseNode : Node) :
    ∀ (s : σ) (record : DomainProperties),
      postCrawlProcessDomainProperties filters s record header baseNode =
        chainOf (postCrawlSteps filters header baseNode) s record := by
  induction filters with
  | nil => exact absurd rfl hne
  | cons filter rest ih =>
    intro s record
    simp only [postCrawlProcessDomainProperties, postCrawlSteps, List.map_cons, chainOf]
    cases hf : filter.Input s record header baseNode with
    | mk s1 out =>
      cases out with
      | none => rfl
      | some output =>
        cases rest with
        | nil => simp [chainOf]
        | cons next rest1 =>
          simp only [List.length_cons, Nat.zero_lt_succ, if_true]
          exact ih (List.cons_ne_nil _ _) s1 output

/-- The chain of the specification drops a record exactly when one of its steps does, and the
steps after that one are not applied. -/
theorem chainOf_append_drop {σ ρ : Type} (before : List (σ → ρ → σ × Option ρ))
    (step : σ → ρ → σ × Option ρ) (after : List (σ → ρ → σ × Option ρ)) :
    ∀ (s s1 s2 : σ) (record output : ρ), chainOf before s record = (s1, some output) →
      step s1 output = (s2, none) →
      chainOf (before ++ step :: after) s record = (s2, none) := by
  induction before with
  | nil =>
    intro s s1 s2 record output h1 h2
    simp only [chainOf] at h1
    cases h1
    simp only [List.nil_append, chainOf, h2]
  | cons first rest ih =>
    intro s s1 s2 record output h1 h2
    simp only [List.cons_append, chainOf] at h1 ⊢
    cases hf : first s record with
    | mk s0 out =>
      rw [hf] at h1
      cases out with
      | none => cases h1
      | some mid => exact ih s0 s1 s2 mid output h1 h2

/-- C28: with an empty chain no filter returns a drop, yet both chain functions return `nil`: the
`range` loop is not entered and the `return nil` after it is reached, so every record is dropped,
where the chain of the specification returns the record. -/
theorem empty_chain_drops_record {σ : Type} (s : σ) (record : DomainProperties)
    (header : Header) (baseNode : Node) :
    preCrawlProcessDomainProperties ([] : List (PreConnectionFilter σ)) s record = (s, none) ∧
      postCrawlProcessDomainProperties ([] : List (PostConnectionFilter σ)) s record header
          baseNode = (s, none) ∧
      chainOf (preCrawlSteps ([] : List (PreConnectionFilter σ))) s record = (s, some record) ∧
      chainOf (postCrawlSteps ([] : List (PostConnectionFilter σ)) header baseNode) s record =
        (s, some record) :=
  ⟨rfl, rfl, rfl, rfl⟩


/-! ### The indexer runner -/

/-- With a checkpoint `line_index = k > 0` the line loop of the indexer, entered with
`lineIndex = 0`, takes the skip branch for every line: `lineIndex` stays 0 and `Index` is never
called, whatever the lines and the shutdown signal are. -/
theorem indexerLoop_resumed_skips_all {ι : Type} (env : IndexerEnv ι) (zoneName : String)
    (startIndex : Int) (hk : 0 < startIndex) (lines : List String) :
    ∀ s : IndexerRun ι, s.lineIndex = 0 →
      ∃ s1 stopped, indexerLoop env zoneName startIndex lines s = .ok (s1, stopped) ∧
        s1.index = s.index ∧ s1.lineIndex = 0 ∧ s1.world.db = s.world.db := by
  induction lines with
  | nil =>
    intro s _
    by_cases h : (s.observeShutdown env).world.app.task = .Shutdown
    · exact ⟨s.observeShutdown env, true, by simp [indexerLoop, h], rfl, by assumption, rfl⟩
    · exact ⟨s.observeShutdown env, false, by simp [indexerLoop, h], rfl, by assumption, rfl⟩
  | cons line rest ih =>
    intro s hs
    by_cases h : (s.observeShutdown env).world.app.task = .Shutdown
    · exact ⟨s.observeShutdown env, true, by simp [indexerLoop, h], rfl, hs, rfl⟩
    · have hl : (s.observeShutdown env).lineIndex < startIndex := by
        show s.lineIndex < startIndex
        rw [hs]
        exact hk
      have hstep : indexerLine env zoneName startIndex line (s.observeShutdown env) =
          .ok { s.observeShutdown env with
            world := countProcessed (env.clock (s.observeShutdown env).tick)
              (s.observeShutdown env).world } := by
        unfold indexerLine
        simp only [hl, if_true]
      obtain ⟨s1, stopped, h1, h2, h3, h4⟩ := ih
        { s.observeShutdown env with
          world := countProcessed (env.clock (s.observeShutdown env).tick)
            (s.observeShutdown env).world } hs
      refine ⟨s1, stopped, ?_, h2, h3, h4⟩
      simp only [indexerLoop, h, if_false, hstep]
      exact h1

/-- C24: resumed from the checkpoint (not finished, line_index = 1) on a post-crawl file of two
lines, the indexer runner submits nothing: the skip branch does not advance `lineIndex`, so the
second line, of index 1, is skipped as well and is never indexed under `com_1`, and the zone is
marked finished.  From the zero checkpoint the runner submits the two lines under `com_0` and
`com_1`, the identifiers by which the query path reads the lines back. -/
theorem indexer_resume_skips_every_line :
    indexerOutcome (exampleIndexerRun (fun _ => false)
        [("com_indexer_task_state_json",
          .taskStateJSON { BIsFinished := false, LineIndex := 1 })] []) =
      some (.ReadyToSearch, [],
        some (.taskStateJSON { BIsFinished := true, LineIndex := 1 })) ∧
    indexerOutcome (exampleIndexerRun (fun _ => false) [] []) =
      some (.ReadyToSearch, [("com_0", namedRecord "a.com"), ("com_1", namedRecord "b.com")],
        some (.taskStateJSON { BIsFinished := true, LineIndex := 0 })) ∧
    parseIndexID "com_1" = .ok ("com", 1) ∧
    ReadLine (nameLine "a.com" ++ nameLine "b.com") 1 = .ok (nameLine "b.com") ∧
    unmarshalLine exampleDecodeLine (nameLine "b.com") = .ok (namedRecord "b.com") := by
  refine ⟨by decide!, by decide!, rfl, by rfl, by rfl⟩

/-- C27: the shutdown branch of the indexer runner returns at once, without persisting a
checkpoint.  Shut down at its second check, after the first of two lines was indexed, the runner
leaves the task `Shutdown` and the store without a checkpoint for the zone, so that a restart
reads the zero checkpoint, not line_index = 1, and indexes the first line a second time. -/
theorem indexer_shutdown_saves_no_checkpoint :
    indexerOutcome (exampleIndexerRun (fun n => n == 1) [] []) =
      some (.Shutdown, [("com_0", namedRecord "a.com")], none) ∧
    GetIndexerTaskState [] "com" = .ok { BIsFinished := false, LineIndex := 0 } ∧
    indexerOutcome (exampleIndexerRun (fun _ => false) [] [("com_0", namedRecord "a.com")]) =
      some (.ReadyToSearch,
        [("com_0", namedRecord "a.com"), ("com_0", namedRecord "a.com"),
         ("com_1", namedRecord "b.com")],
        some (.taskStateJSON { BIsFinished := true, LineIndex := 0 })) := by
  refine ⟨by decide!, rfl, by decide!⟩


/-! ### The post-crawl runner: checkpoint on flush, and progress -/

/-- A flush of the post-crawl output buffer leaves the post-crawl checkpoint of the zone as it
was and overwrites the pre-crawl checkpoint of the zone with (not finished, start line index plus
the count of appends). -/
theorem postCrawl_Flush_checkpoints {σ : Type} (env : PostCrawlEnv σ) (zoneName : String)
    (startLineIndex : Int) (now : ℚ) (o : FileOutputBuffer) (w : World) :
    GetPostCrawlFilterTaskState
        (o.Flush (postCrawlBufferOpts env zoneName startLineIndex now) w).2.db zoneName =
      GetPostCrawlFilterTaskState w.db zoneName ∧
    GetPreCrawlFilterTaskState
        (o.Flush (postCrawlBufferOpts env zoneName startLineIndex now) w).2.db zoneName =
      .ok { BIsFinished := false, LineIndex := startLineIndex + (o.appendedLinesQty : Int) } := by
  obtain ⟨_, h2, _, h4, _, _⟩ := flushToFile_spec o
    (GetPostCrawlFilterOutputFilePath env.cacheFolderPath zoneName) w
  have hdb : (o.Flush (postCrawlBufferOpts env zoneName startLineIndex now) w).2.db =
      SavePreCrawlFilterTaskState w.db zoneName
        { BIsFinished := false, LineIndex := startLineIndex + (o.appendedLinesQty : Int) } := by
    simp only [FileOutputBuffer.Flush, postCrawlBufferOpts]
    rw [h2, h4]
  rw [hdb]
  constructor
  · have h := GetTaskState_Save_other .PreCrawlFilter .PostCrawlFilter w.db zoneName zoneName
      { BIsFinished := false, LineIndex := startLineIndex + (o.appendedLinesQty : Int) }
      (by simp)
    exact h
  · exact GetPreCrawlFilterTaskState_Save _ _ _

/-- C25: the `OnFlushCB` of the post-crawl output buffer saves its task state with
`SavePreCrawlFilterTaskState`, under the key of the pre-crawl stage.  After one append and a
flush of a buffer of the zone `com` with start line index 5, on a store in which the pre-crawl
stage of `com` is finished, the post-crawl checkpoint a restarted run reads is still the zero
checkpoint, not (not finished, 6), and the pre-crawl checkpoint reads (not finished, 6).  A whole
post-crawl run of `com` over two lines leaves the pre-crawl checkpoint at (not finished, 2); a run
shut down after one line leaves no post-crawl checkpoint. -/
theorem post_crawl_flush_saves_pre_crawl_key :
    GetPostCrawlFilterTaskState
        (appendThenFlush (postCrawlBufferOpts (examplePostCrawlEnv fun _ => false) "com" 5 0)
          [ToJSONString (namedRecord "a.com")] (examplePostCrawlWorld preCrawlFinishedStore)).2.db
        "com" = .ok { BIsFinished := false, LineIndex := 0 } ∧
    GetPreCrawlFilterTaskState
        (appendThenFlush (postCrawlBufferOpts (examplePostCrawlEnv fun _ => false) "com" 5 0)
          [ToJSONString (namedRecord "a.com")] (examplePostCrawlWorld preCrawlFinishedStore)).2.db
        "com" = .ok { BIsFinished := false, LineIndex := 6 } ∧
    postCrawlOutcome (runPostCrawlFilters (examplePostCrawlEnv fun _ => false)
        [("com", "zones/com.txt")] () 0 (examplePostCrawlWorld preCrawlFinishedStore)) =
      some (.FinishedPostCrawlFilters,
        some (.taskStateJSON { BIsFinished := false, LineIndex := 2 }),
        some (.taskStateJSON { BIsFinished := true, LineIndex := 0 }),
        some (nameLine "a.com" ++ nameLine "b.com")) ∧
    postCrawlOutcome (runPostCrawlFilters (examplePostCrawlEnv fun n => n == 1)
        [("com", "zones/com.txt")] () 0 (examplePostCrawlWorld preCrawlFinishedStore)) =
      some (.Shutdown, some (.taskStateJSON { BIsFinished := false, LineIndex := 1 }), none,
        some (nameLine "a.com")) := by
  refine ⟨by rfl, by rfl, by decide!, by decide!⟩

/-- A line whose index is below the start line index: the body of the line loop only advances
`lineIndex`; nothing is counted or published. -/
theorem postCrawlLine_below_start {σ : Type} (env : PostCrawlEnv σ) (zoneName : String)
    (startLineIndex : Int) (line : String) (s : PostCrawlRun σ)
    (hlt : s.lineIndex < startLineIndex) :
    postCrawlLine env zoneName startLineIndex line s =
      .ok { s with lineIndex := s.lineIndex + 1 } := by
  unfold postCrawlLine
  have h : ¬ s.lineIndex ≥ startLineIndex := by omega
  rw [if_neg h]

theorem Counted.refl (b : Int) (w : World) : Counted b b w w :=
  ⟨fun _ h => h, le_refl _, le_refl _⟩

theorem Counted.trans {b b1 b2 : Int} {w w1 w2 : World} (h1 : Counted b b1 w w1)
    (h2 : Counted b1 b2 w1 w2) : Counted b b2 w w2 := by
  obtain ⟨p1, m1, c1⟩ := h1
  obtain ⟨p2, m2, c2⟩ := h2
  exact ⟨fun T h => p2 T (p1 T h), le_trans m1 m2, by omega⟩

theorem Counted.weaken {b b1 c c1 : Int} {w w1 : World} (h : Counted b b1 w w1)
    (hb : b ≤ c) (hb1 : c1 ≤ b1) : Counted c c1 w w1 := by
  obtain ⟨p1, m1, c1⟩ := h
  exact ⟨p1, m1, by omega⟩

/-- A weakening by the same amount on both sides. -/
theorem Counted.shift {b b1 : Int} {w w1 : World} (h : Counted b b1 w w1) (d : Int) :
    Counted (b + d) (b1 + d) w w1 := by
  obtain ⟨p1, m1, c1⟩ := h
  exact ⟨p1, m1, by omega⟩

/-- A change of the world that leaves the application state and the counter alone. -/
theorem Counted.of_same (b : Int) (w w1 : World) (happ : w1.app = w.app)
    (hp : w1.processedWorkItems = w.processedWorkItems) : Counted b b w w1 := by
  refine ⟨fun T h => ?_, by rw [hp], by rw [hp]⟩
  unfold Published at h ⊢
  rw [happ, hp]
  exact h

theorem Published_countProcessed (now : ℚ) (total : Int) (w : World) (h : Published total w) :
    Published total (countProcessed now w) := by
  obtain ⟨h1, _, _⟩ := h
  refine ⟨?_, rfl, ?_⟩
  · exact h1
  · show w.app.totalWorkItems - (w.processedWorkItems + 1) = total - (w.processedWorkItems + 1)
    rw [h1]

/-- The statements `processedWorkItems++; SetProcessedWorkItems(processedWorkItems)` use up one
item of the budget. -/
theorem Counted_countProcessed (now : ℚ) (b : Int) (w : World) :
    Counted (b + 1) b w (countProcessed now w) := by
  refine ⟨fun T h => Published_countProcessed now T w h, ?_, ?_⟩
  · show w.processedWorkItems ≤ w.processedWorkItems + 1
    omega
  · show w.processedWorkItems + 1 + b ≤ w.processedWorkItems + (b + 1)
    omega

/-- The statements `processedWorkItems += n; SetProcessedWorkItems(processedWorkItems)` of a
zone that is already finished use up `n` items of the budget. -/
theorem Counted_finished (now : ℚ) (b n : Int) (hn : 0 ≤ n) (w : World) :
    Counted (b + n) b w
      { w with
        processedWorkItems := w.processedWorkItems + n
        app := SetProcessedWorkItems now w.app (w.processedWorkItems + n) } := by
  refine ⟨fun T h => ?_, ?_, ?_⟩
  · obtain ⟨h1, _, _⟩ := h
    refine ⟨h1, rfl, ?_⟩
    show w.app.totalWorkItems - (w.processedWorkItems + n) = T - (w.processedWorkItems + n)
    rw [h1]
  · show w.processedWorkItems ≤ w.processedWorkItems + n
    omega
  · show w.processedWorkItems + n + b ≤ w.processedWorkItems + (b + n)
    omega

theorem Counted_observe (b : Int) (w : World) (fire : Bool) :
    Counted b b w { w with app := if fire then OnShutdown w.app else w.app } := by
  refine ⟨fun T h => ?_, le_refl _, le_refl _⟩
  cases fire
  · exact h
  · exact h

theorem String.append_ne_empty_iff (a b : String) : a ++ b ≠ "" ↔ a ≠ "" ∨ b ≠ "" := by
  constructor
  · intro h
    by_contra hc
    rw [not_or, not_not, not_not] at hc
    rw [hc.1, hc.2] at h
    exact h rfl
  · intro h hab
    have hd := congrArg String.data hab
    rw [String.data_append] at hd
    have hnil : a.data = [] ∧ b.data = [] := List.append_eq_nil.1 hd
    rcases h with h | h
    · exact h (String.ext hnil.1)
    · exact h (String.ext hnil.2)

theorem String.append_ne_self_iff (a t : String) : a ++ t ≠ a ↔ t ≠ "" := by
  constructor
  · intro h ht
    rw [ht] at h
    exact h (by simp)
  · intro h hat
    have hd := congrArg String.data hat
    rw [String.data_append] at hd
    have hnil : t.data = [] := List.append_right_eq_self.1 hd
    exact h (String.ext hnil)

theorem String.append_left_cancel (s a b : String) (h : s ++ a = s ++ b) : a = b := by
  have h1 := congrArg String.data h
  rw [String.data_append, String.data_append] at h1
  exact String.ext (List.append_cancel_left h1)

theorem Wrote.same (out : String) (keys : List String) (w : World) (o : FileOutputBuffer)
    (flag : Bool) : Wrote out keys w o flag w o flag :=
  ⟨fun _ _ => rfl, fun _ _ => rfl, rfl, "", by simp, by simp⟩

theorem Wrote.andThen {out : String} {keys : List String} {w w1 w2 : World}
    {o o1 o2 : FileOutputBuffer} {flag flag1 flag2 : Bool}
    (h1 : Wrote out keys w o flag w1 o1 flag1) (h2 : Wrote out keys w1 o1 flag1 w2 o2 flag2) :
    Wrote out keys w o flag w2 o2 flag2 := by
  obtain ⟨f1, d1, k1, t1, g1, e1⟩ := h1
  obtain ⟨f2, d2, k2, t2, g2, e2⟩ := h2
  refine ⟨fun p hp => (f2 p hp).trans (f1 p hp), fun k hk => (d2 k hk).trans (d1 k hk),
    k2.trans k1, t1 ++ t2, ?_, ?_⟩
  · rw [g2, g1, String.append_assoc]
  · rw [e2, e1]
    by_cases ha : t1 = ""
    · by_cases hb : t2 = "" <;> simp [ha, hb]
    · have hab : t1 ++ t2 ≠ "" := (String.append_ne_empty_iff _ _).2 (Or.inl ha)
      simp [ha, hab]

theorem Wrote.mono_keys {out : String} {keys keys1 : List String} {w w1 : World}
    {o o1 : FileOutputBuffer} {flag flag1 : Bool} (h : Wrote out keys w o flag w1 o1 flag1)
    (hsub : ∀ k, k ∈ keys → k ∈ keys1) : Wrote out keys1 w o flag w1 o1 flag1 := by
  obtain ⟨f1, d1, k1, g1⟩ := h
  exact ⟨f1, fun k hk => d1 k (fun hm => hk (hsub k hm)), k1, g1⟩

/-- A change of the world that leaves the files, the store and the task alone, after a part of
the run. -/
theorem Wrote.then_same {out : String} {keys : List String} {w w1 w2 : World}
    {o o1 : FileOutputBuffer} {flag flag1 : Bool} (h : Wrote out keys w o flag w1 o1 flag1)
    (hf : w2.files = w1.files) (hd : w2.db = w1.db) (ht : w2.app.task = w1.app.task) :
    Wrote out keys w o flag w2 o1 flag1 := by
  obtain ⟨f1, d1, k1, t1, g1, e1⟩ := h
  refine ⟨fun p hp => by rw [hf]; exact f1 p hp, fun k hk => by rw [hd]; exact d1 k hk,
    ht.trans k1, t1, ?_, e1⟩
  unfold outputWritten at g1 ⊢
  rw [hf]
  exact g1

/-- A write to the store under a key of `keys`, after a part of the run. -/
theorem Wrote.then_save {out : String} {keys : List String} {w w1 : World}
    {o o1 : FileOutputBuffer} {flag flag1 : Bool} (h : Wrote out keys w o flag w1 o1 flag1)
    (key : String) (value : DbValue) (hk : key ∈ keys) :
    Wrote out keys w o flag { w1 with db := GoMap.set w1.db key value } o1 flag1 := by
  obtain ⟨f1, d1, k1, t1, g1, e1⟩ := h
  refine ⟨f1, fun k hkn => ?_, k1, t1, g1, e1⟩
  have hne : k ≠ key := fun heq => hkn (heq ▸ hk)
  show GoMap.get (GoMap.set w1.db key value) k = _
  rw [GoMap.get_set_ne _ _ hne]
  exact d1 k hkn


/-! ### The output buffer in a stage run -/

theorem flushToFile_get_other (o : FileOutputBuffer) (path other : String) (w : World)
    (hne : other ≠ path) : (o.flushToFile path w).2.files.get other = w.files.get other := by
  unfold FileOutputBuffer.flushToFile
  by_cases h : o.buffer.utf8ByteSize = 0
  · rw [if_pos h]
  · rw [if_neg h]
    exact GoMap.get_set_ne _ _ hne

theorem flushToFile_Wrote (o : FileOutputBuffer) (path : String) (keys : List String)
    (flag : Bool) (w : World) :
    Wrote path keys w o flag (o.flushToFile path w).2 (o.flushToFile path w).1 flag := by
  obtain ⟨h1, _, h3, h4, h5, _⟩ := flushToFile_spec o path w
  refine ⟨fun p hp => flushToFile_get_other o path p w hp, fun k _ => by rw [h4], by rw [h5],
    "", ?_, by simp⟩
  simp [outputWritten, h1, h3]

theorem flushToFile_Counted (o : FileOutputBuffer) (path : String) (b : Int) (w : World) :
    Counted b b w (o.flushToFile path w).2 := by
  obtain ⟨_, _, _, _, h5, h6⟩ := flushToFile_spec o path w
  exact Counted.of_same b w _ h5 h6

/-- The world after an append: that of a flush or the world as it was, then the callback. -/
theorem AppendToFile_world (opts : FileOutputBufferOptions) (o : FileOutputBuffer)
    (line : String) (w : World) :
    ∃ w1 : World, (∀ p, p ≠ opts.FilePath → w1.files.get p = w.files.get p) ∧ w1.db = w.db ∧
      w1.app = w.app ∧ w1.processedWorkItems = w.processedWorkItems ∧
      outputWritten opts.FilePath (o.AppendToFile opts line w).1 w1 =
        outputWritten opts.FilePath o w ++ (line ++ "\n") ∧
      (o.AppendToFile opts line w).2 =
        match opts.OnAppendCB with
        | some cb => cb w1
        | none => w1 := by
  have hf := flushToFile_spec
    { buffer := o.buffer ++ (line ++ "\n"), appendedLinesQty := o.appendedLinesQty + 1 }
    opts.FilePath w
  obtain ⟨h1, _, h3, h4, h5, h6⟩ := hf
  by_cases hc : ((o.buffer ++ (line ++ "\n")).utf8ByteSize : Int) ≥ opts.BulkOutputLimit
  · refine ⟨(FileOutputBuffer.flushToFile
      { buffer := o.buffer ++ (line ++ "\n"), appendedLinesQty := o.appendedLinesQty + 1 }
      opts.FilePath w).2, fun p hp => flushToFile_get_other _ _ _ _ hp, h4, h5, h6, ?_, ?_⟩
    · cases hcb : opts.OnAppendCB <;>
        simp only [FileOutputBuffer.AppendToFile, hcb, hc, if_true, outputWritten, h1, h3] <;>
        simp [String.append_assoc]
    · cases hcb : opts.OnAppendCB <;> simp only [FileOutputBuffer.AppendToFile, hcb, hc, if_true]
  · refine ⟨w, fun _ _ => rfl, rfl, rfl, rfl, ?_, ?_⟩
    · cases hcb : opts.OnAppendCB <;>
        simp only [FileOutputBuffer.AppendToFile, hcb, hc, if_false, outputWritten] <;>
        simp [String.append_assoc]
    · cases hcb : opts.OnAppendCB <;> simp only [FileOutputBuffer.AppendToFile, hcb, hc, if_false]

theorem line_newline_ne_empty (line : String) : line ++ "\n" ≠ "" :=
  (String.append_ne_empty_iff _ _).2 (Or.inr (by decide))

/-- An append whose callback, if any, leaves the files, the store and the task alone. -/
theorem AppendToFile_Wrote (opts : FileOutputBufferOptions)
    (hA : ∀ cb, opts.OnAppendCB = some cb →
      ∀ w, (cb w).files = w.files ∧ (cb w).db = w.db ∧ (cb w).app.task = w.app.task)
    (keys : List String) (o : FileOutputBuffer) (flag : Bool) (line : String) (w : World) :
    Wrote opts.FilePath keys w o flag (o.AppendToFile opts line w).2 (o.AppendToFile opts line w).1
      true := by
  obtain ⟨w1, hf, hd, ha, _, hout, hw⟩ := AppendToFile_world opts o line w
  have h1 : Wrote opts.FilePath keys w o flag w1 (o.AppendToFile opts line w).1 true :=
    ⟨hf, fun k _ => by rw [hd], by rw [ha], line ++ "\n", hout,
      by simp [line_newline_ne_empty line]⟩
  rw [hw]
  cases hcb : opts.OnAppendCB with
  | none => exact h1
  | some cb =>
    obtain ⟨c1, c2, c3⟩ := hA cb hcb w1
    exact h1.then_same c1 c2 c3

theorem Flush_Wrote (opts : FileOutputBufferOptions) (keys : List String)
    (hF : ∀ cb, opts.OnFlushCB = some cb → ∀ n w, ∃ key value, key ∈ keys ∧
      cb n w = { w with db := GoMap.set w.db key value })
    (o : FileOutputBuffer) (flag : Bool) (w : World) :
    Wrote opts.FilePath keys w o flag (o.Flush opts w).2 (o.Flush opts w).1 flag := by
  have h1 := flushToFile_Wrote o opts.FilePath keys flag w
  cases hcb : opts.OnFlushCB with
  | none =>
    simp only [FileOutputBuffer.Flush, hcb]
    exact h1
  | some cb =>
    simp only [FileOutputBuffer.Flush, hcb]
    obtain ⟨key, value, hk, heq⟩ := hF cb hcb (o.flushToFile opts.FilePath w).1.appendedLinesQty
      (o.flushToFile opts.FilePath w).2
    rw [heq]
    exact h1.then_save key value hk

theorem Flush_Counted (opts : FileOutputBufferOptions)
    (hF : ∀ cb, opts.OnFlushCB = some cb → ∀ n w, (cb n w).app = w.app ∧
      (cb n w).processedWorkItems = w.processedWorkItems)
    (o : FileOutputBuffer) (b : Int) (w : World) : Counted b b w (o.Flush opts w).2 := by
  have h1 := flushToFile_Counted o opts.FilePath b w
  cases hcb : opts.OnFlushCB with
  | none =>
    simp only [FileOutputBuffer.Flush, hcb]
    exact h1
  | some cb =>
    simp only [FileOutputBuffer.Flush, hcb]
    obtain ⟨c1, c2⟩ := hF cb hcb (o.flushToFile opts.FilePath w).1.appendedLinesQty
      (o.flushToFile opts.FilePath w).2
    exact h1.trans (Counted.of_same b _ _ c1 c2)

theorem Flush_buffer (opts : FileOutputBufferOptions) (o : FileOutputBuffer) (w : World) :
    (o.Flush opts w).1.buffer = "" := by
  obtain ⟨h1, _⟩ := flushToFile_spec o opts.FilePath w
  cases hcb : opts.OnFlushCB <;> simp only [FileOutputBuffer.Flush, hcb] <;> exact h1

/-- An append without a callback counts nothing. -/
theorem AppendToFile_Counted (opts : FileOutputBufferOptions) (hcb : opts.OnAppendCB = none)
    (o : FileOutputBuffer) (line : String) (b : Int) (w : World) :
    Counted b b w (o.AppendToFile opts line w).2 := by
  obtain ⟨_, _, h3, h4⟩ := AppendToFile_spec opts hcb o line w
  exact Counted.of_same b w _ h3 h4

/-- An append whose callback counts one processed item uses up one item of the budget. -/
theorem AppendToFile_Counted_one (opts : FileOutputBufferOptions) (now : ℚ)
    (hcb : opts.OnAppendCB = some (countProcessed now))
    (o : FileOutputBuffer) (line : String) (b : Int) (w : World) :
    Counted (b + 1) b w (o.AppendToFile opts line w).2 := by
  obtain ⟨w1, _, _, ha, hp, _, hw⟩ := AppendToFile_world opts o line w
  rw [hw, hcb]
  exact (Counted.of_same (b + 1) w w1 ha hp).trans (Counted_countProcessed now b w1)


/-! ### The pre-crawl runner: what a run writes -/

theorem countProcessed_frame (now : ℚ) (w : World) :
    (countProcessed now w).files = w.files ∧ (countProcessed now w).db = w.db ∧
      (countProcessed now w).app.task = w.app.task :=
  ⟨rfl, rfl, rfl⟩

theorem preCrawlLine_Wrote {σ : Type} (env : PreCrawlEnv σ) (zoneName : String)
    (startLineIndex : Int) (line : String) (keys : List String) (s : PreCrawlRun σ) :
    Wrote (GetPreCrawlFilterOutputFilePath env.cacheFolderPath zoneName) keys
      s.world s.outputFileBuffer s.bHasAppendedToFileOnce
      (preCrawlLine env zoneName startLineIndex line s).world
      (preCrawlLine env zoneName startLineIndex line s).outputFileBuffer
      (preCrawlLine env zoneName startLineIndex line s).bHasAppendedToFileOnce := by
  have hskip : Wrote (GetPreCrawlFilterOutputFilePath env.cacheFolderPath zoneName) keys
      s.world s.outputFileBuffer s.bHasAppendedToFileOnce
      (countProcessed (env.clock s.tick) s.world) s.outputFileBuffer s.bHasAppendedToFileOnce :=
    (Wrote.same _ keys s.world s.outputFileBuffer s.bHasAppendedToFileOnce).then_same rfl rfl rfl
  unfold preCrawlLine
  by_cases hidx : s.lineIndex ≥ startLineIndex
  · simp only [hidx, if_true]
    cases hp : parseZoneLine line with
    | none => exact hskip
    | some record =>
      dsimp only
      cases hc : preCrawlProcessDomainProperties env.preCrawlFilterArray s.handlers record with
      | mk handlers out =>
        cases out with
        | none => exact hskip
        | some output =>
          dsimp only
          have ha := AppendToFile_Wrote (preCrawlBufferOpts env zoneName s.lineIndex)
            (fun cb hcb => by cases hcb) keys s.outputFileBuffer s.bHasAppendedToFileOnce
            (ToJSONString output) s.world
          exact ha.then_same rfl rfl rfl
  · simp only [hidx, if_false]
    exact hskip

theorem preCrawlLine_Counted {σ : Type} (env : PreCrawlEnv σ) (zoneName : String)
    (startLineIndex : Int) (line : String) (b : Int) (s : PreCrawlRun σ) :
    Counted (b + 1) b s.world (preCrawlLine env zoneName startLineIndex line s).world := by
  have hskip := Counted_countProcessed (env.clock s.tick) b s.world
  unfold preCrawlLine
  by_cases hidx : s.lineIndex ≥ startLineIndex
  · simp only [hidx, if_true]
    cases hp : parseZoneLine line with
    | none => exact hskip
    | some record =>
      dsimp only
      cases hc : preCrawlProcessDomainProperties env.preCrawlFilterArray s.handlers record with
      | mk handlers out =>
        cases out with
        | none => exact hskip
        | some output =>
          dsimp only
          have ha := AppendToFile_Counted (preCrawlBufferOpts env zoneName s.lineIndex) rfl
            s.outputFileBuffer (ToJSONString output) (b + 1) s.world
          exact ha.trans (Counted_countProcessed (env.clock s.tick) b _)
  · simp only [hidx, if_false]
    exact hskip

theorem preCrawlBufferOpts_flush {σ : Type} (env : PreCrawlEnv σ) (zoneName : String)
    (lineIndex : Int) (cb : Nat → World → World)
    (hcb : (preCrawlBufferOpts env zoneName lineIndex).OnFlushCB = some cb) (n : Nat) (w : World) :
    ∃ key value, key ∈ [checkpointKey .PreCrawlFilter zoneName] ∧
      cb n w = { w with db := GoMap.set w.db key value } := by
  cases hcb
  exact ⟨_, _, List.mem_singleton.2 rfl, rfl⟩

theorem preCrawlBufferOpts_flush_counts {σ : Type} (env : PreCrawlEnv σ) (zoneName : String)
    (lineIndex : Int) (cb : Nat → World → World)
    (hcb : (preCrawlBufferOpts env zoneName lineIndex).OnFlushCB = some cb) (n : Nat) (w : World) :
    (cb n w).app = w.app ∧ (cb n w).processedWorkItems = w.processedWorkItems := by
  cases hcb
  exact ⟨rfl, rfl⟩

/-- A shutdown check that sees no shutdown leaves the world as it is. -/
theorem observeShutdown_world {σ : Type} (env : PreCrawlEnv σ) (s : PreCrawlRun σ)
    (h : (observeShutdown env s).world.app.task ≠ .Shutdown) :
    (observeShutdown env s).world = s.world := by
  unfold observeShutdown at h ⊢
  cases hs : env.signal s.tick
  · simp
  · rw [hs] at h
    exact absurd rfl h

theorem observeShutdown_Counted {σ : Type} (env : PreCrawlEnv σ) (s : PreCrawlRun σ) (b : Int) :
    Counted b b s.world (observeShutdown env s).world :=
  Counted_observe b s.world (env.signal s.tick)

/-- The line loop of the pre-crawl runner, when it ends without a shutdown. -/
theorem preCrawlLoop_Wrote {σ : Type} (env : PreCrawlEnv σ) (zoneName : String)
    (startLineIndex : Int) (lines : List String) :
    ∀ (s s1 : PreCrawlRun σ), preCrawlLoop env zoneName startLineIndex lines s = (s1, false) →
      Wrote (GetPreCrawlFilterOutputFilePath env.cacheFolderPath zoneName)
        [checkpointKey .PreCrawlFilter zoneName]
        s.world s.outputFileBuffer s.bHasAppendedToFileOnce
        s1.world s1.outputFileBuffer s1.bHasAppendedToFileOnce := by
  induction lines with
  | nil =>
    intro s s1 h
    unfold preCrawlLoop at h
    by_cases ht : (observeShutdown env s).world.app.task = .Shutdown
    · simp [ht] at h
    · simp only [ht, if_false] at h
      cases h
      have hw := observeShutdown_world env s ht
      exact (Wrote.same _ _ s.world s.outputFileBuffer s.bHasAppendedToFileOnce).then_same
        (by rw [hw]) (by rw [hw]) (by rw [hw])
  | cons line rest ih =>
    intro s s1 h
    unfold preCrawlLoop at h
    by_cases ht : (observeShutdown env s).world.app.task = .Shutdown
    · simp [ht] at h
    · simp only [ht, if_false] at h
      have hw := observeShutdown_world env s ht
      have h0 : Wrote (GetPreCrawlFilterOutputFilePath env.cacheFolderPath zoneName)
          [checkpointKey .PreCrawlFilter zoneName]
          s.world s.outputFileBuffer s.bHasAppendedToFileOnce
          (observeShutdown env s).world (observeShutdown env s).outputFileBuffer
          (observeShutdown env s).bHasAppendedToFileOnce :=
        (Wrote.same _ _ s.world s.outputFileBuffer s.bHasAppendedToFileOnce).then_same
          (by rw [hw]) (by rw [hw]) (by rw [hw])
      exact (h0.andThen (preCrawlLine_Wrote env zoneName startLineIndex line _ _)).andThen
        (ih _ s1 h)

/-- The line loop of the pre-crawl runner counts every line read at most once. -/
theorem preCrawlLoop_Counted {σ : Type} (env : PreCrawlEnv σ) (zoneName : String)
    (startLineIndex : Int) (lines : List String) :
    ∀ (b : Int) (s : PreCrawlRun σ),
      Counted (b + (lines.length : Int)) b s.world
        (preCrawlLoop env zoneName startLineIndex lines s).1.world := by
  have hflush : ∀ (b c : Int) (s : PreCrawlRun σ), 0 ≤ c →
      Counted (b + c) b s.world
        ((observeShutdown env s).outputFileBuffer.Flush
          (preCrawlBufferOpts env zoneName (observeShutdown env s).lineIndex)
          (observeShutdown env s).world).2 := by
    intro b c s hc
    have h1 := (observeShutdown_Counted env s b).trans
      (Flush_Counted (preCrawlBufferOpts env zoneName (observeShutdown env s).lineIndex)
        (preCrawlBufferOpts_flush_counts env zoneName _) (observeShutdown env s).outputFileBuffer b
        (observeShutdown env s).world)
    exact h1.weaken (by omega) (le_refl _)
  induction lines with
  | nil =>
    intro b s
    unfold preCrawlLoop
    by_cases ht : (observeShutdown env s).world.app.task = .Shutdown
    · simp only [ht, if_true]
      exact hflush b _ s (by simp)
    · simp only [ht, if_false]
      exact (observeShutdown_Counted env s b).weaken (by simp) (le_refl _)
  | cons line rest ih =>
    intro b s
    unfold preCrawlLoop
    by_cases ht : (observeShutdown env s).world.app.task = .Shutdown
    · simp only [ht, if_true]
      exact hflush b _ s (by positivity)
    · simp only [ht, if_false]
      have h1 := observeShutdown_Counted env s (b + (rest.length : Int) + 1)
      have h2 := preCrawlLine_Counted env zoneName startLineIndex line (b + (rest.length : Int))
        (observeShutdown env s)
      have h3 := ih b (preCrawlLine env zoneName startLineIndex line (observeShutdown env s))
      have h4 := (h1.trans h2).trans h3
      refine h4.weaken ?_ (le_refl _)
      simp only [List.length_cons, Nat.cast_add, Nat.cast_one]
      omega


/-! ### Zones, their files and their keys -/

theorem foundFinished_congr (stage : Stage) (db db1 : Database) (zoneName : String)
    (h : GoMap.get db1 (checkpointKey stage zoneName) = GoMap.get db (checkpointKey stage zoneName)) :
    foundFinished stage db1 zoneName ↔ foundFinished stage db zoneName := by
  unfold foundFinished
  rw [GetTaskState_eq, GetTaskState_eq, h]

/-- Going through a zone and then through further zones. -/
theorem RunWrote.cons {out : String → String} {keysOf : String → List String} {stage : Stage}
    {z : String} {zones : List String} {w w1 w2 : World} {flag flag1 flag2 : Bool}
    (hout : ∀ a b, out a = out b → a = b)
    (hkeys : ∀ a b, a ≠ b → checkpointKey stage b ∉ keysOf a)
    (hz : z ∉ zones)
    (h1 : RunWrote out keysOf stage [z] w flag w1 flag1)
    (h2 : RunWrote out keysOf stage zones w1 flag1 w2 flag2) :
    RunWrote out keysOf stage (z :: zones) w flag w2 flag2 := by
  obtain ⟨f1, d1, t1, e1⟩ := h1
  obtain ⟨f2, d2, t2, e2⟩ := h2
  have hne : ∀ a ∈ zones, z ≠ a := fun a ha heq => hz (heq ▸ ha)
  have hfz : fileContent w2.files (out z) = fileContent w1.files (out z) := by
    unfold fileContent
    rw [f2 (out z) (fun a ha heq => hne a ha (hout _ _ heq))]
  have hfa : ∀ a ∈ zones, fileContent w1.files (out a) = fileContent w.files (out a) := by
    intro a ha
    unfold fileContent
    rw [f1 (out a) (fun b hb heq => by
      rw [List.mem_singleton] at hb
      subst hb
      exact hne a ha (hout _ _ heq).symm)]
  have hda : ∀ a ∈ zones, (foundFinished stage w1.db a ↔ foundFinished stage w.db a) := by
    intro a ha
    apply foundFinished_congr
    apply d1
    intro b hb
    rw [List.mem_singleton] at hb
    subst hb
    exact hkeys b a (hne a ha)
  refine ⟨?_, ?_, t2.trans t1, ?_⟩
  · intro p hp
    rw [f2 p (fun a ha => hp a (List.mem_cons_of_mem _ ha)),
      f1 p (fun a ha => by
        rw [List.mem_singleton] at ha
        subst ha
        exact hp a (List.mem_cons_self _ _))]
  · intro k hk
    rw [d2 k (fun a ha => hk a (List.mem_cons_of_mem _ ha)),
      d1 k (fun a ha => by
        rw [List.mem_singleton] at ha
        subst ha
        exact hk a (List.mem_cons_self _ _))]
  · rw [e2, e1]
    constructor
    · rintro ((h | ⟨a, ha, h⟩ | ⟨a, ha, h⟩) | ⟨a, ha, h⟩ | ⟨a, ha, h⟩)
      · exact Or.inl h
      · rw [List.mem_singleton] at ha
        subst ha
        exact Or.inr (Or.inl ⟨a, List.mem_cons_self _ _, h⟩)
      · rw [List.mem_singleton] at ha
        subst ha
        exact Or.inr (Or.inr ⟨a, List.mem_cons_self _ _, by rw [hfz]; exact h⟩)
      · exact Or.inr (Or.inl ⟨a, List.mem_cons_of_mem _ ha, (hda a ha).1 h⟩)
      · exact Or.inr (Or.inr ⟨a, List.mem_cons_of_mem _ ha, by rw [← hfa a ha]; exact h⟩)
    · rintro (h | ⟨a, ha, h⟩ | ⟨a, ha, h⟩)
      · exact Or.inl (Or.inl h)
      · rcases List.mem_cons.1 ha with heq | hmem
        · subst heq
          exact Or.inl (Or.inr (Or.inl ⟨a, List.mem_singleton.2 rfl, h⟩))
        · exact Or.inr (Or.inl ⟨a, hmem, (hda a hmem).2 h⟩)
      · rcases List.mem_cons.1 ha with heq | hmem
        · subst heq
          exact Or.inl (Or.inr (Or.inr ⟨a, List.mem_singleton.2 rfl, by rw [← hfz]; exact h⟩))
        · exact Or.inr (Or.inr ⟨a, hmem, by rw [hfa a hmem]; exact h⟩)

theorem RunWrote.nil (out : String → String) (keysOf : String → List String) (stage : Stage)
    (w : World) (flag : Bool) : RunWrote out keysOf stage [] w flag w flag :=
  ⟨fun _ _ => rfl, fun _ _ => rfl, rfl, by simp⟩

theorem GetPreCrawlFilterOutputFilePath_injective (cacheFolderPath a b : String)
    (h : GetPreCrawlFilterOutputFilePath cacheFolderPath a =
      GetPreCrawlFilterOutputFilePath cacheFolderPath b) : a = b := by
  unfold GetPreCrawlFilterOutputFilePath at h
  exact String.append_left_cancel _ _ _ (String.append_right_cancel _ _ _ h)

theorem GetPostCrawlFilterOutputFilePath_injective (cacheFolderPath a b : String)
    (h : GetPostCrawlFilterOutputFilePath cacheFolderPath a =
      GetPostCrawlFilterOutputFilePath cacheFolderPath b) : a = b := by
  unfold GetPostCrawlFilterOutputFilePath at h
  exact String.append_left_cancel _ _ _ (String.append_right_cancel _ _ _ h)

/-- No pre-crawl output file is a post-crawl output file. -/
theorem pre_path_ne_post_path (c a c1 b : String) :
    GetPreCrawlFilterOutputFilePath c a ≠ GetPostCrawlFilterOutputFilePath c1 b := by
  intro h
  unfold GetPreCrawlFilterOutputFilePath GetPostCrawlFilterOutputFilePath at h
  have hc := String.append_suffix_cases _ _ _ _ h
  revert hc
  decide

theorem lineCount_nonneg (files : GoMap String) (path : String) : 0 ≤ lineCount files path := by
  unfold lineCount
  cases files.get path with
  | none => exact le_refl _
  | some content => exact Int.natCast_nonneg _

theorem GoMap.sum_set_fresh (m : GoMap Int) (k : String) (v : Int) (h : k ∉ GoMap.keys m) :
    ((GoMap.set m k v).map Prod.snd).sum = (m.map Prod.snd).sum + v := by
  rw [GoMap.set_fresh m k v h]
  simp

/-- The map of `getTotalZoneFileLinesToRead` for a registry of distinct zone names: every input
file exists, the map holds the line count of the input file of every zone, and nothing else. -/
theorem getTotalZoneFileLinesToRead_spec (files : GoMap String) :
    ∀ (registry : List (String × String)) (totalLinesMap : GoMap Int),
      (registry.map Prod.fst).Nodup →
      getTotalZoneFileLinesToRead files registry = .ok totalLinesMap →
      (∀ k, k ∈ GoMap.keys totalLinesMap → k ∈ registry.map Prod.fst) ∧
        (∀ zone ∈ registry, (totalLinesMap.get zone.1).getD 0 = lineCount files zone.2) ∧
        (totalLinesMap.map Prod.snd).sum = totalLineCount files registry := by
  intro registry
  induction registry with
  | nil =>
    intro totalLinesMap _ h
    cases h
    exact ⟨fun k hk => by simp [GoMap.keys] at hk, fun zone hz => by simp at hz, rfl⟩
  | cons zone rest ih =>
    intro totalLinesMap hnd h
    obtain ⟨zoneName, zoneFile⟩ := zone
    have hnd1 : zoneName ∉ rest.map Prod.fst ∧ (rest.map Prod.fst).Nodup := by
      simpa using hnd
    unfold getTotalZoneFileLinesToRead at h
    cases hf : files.get zoneFile with
    | none => simp [hf] at h
    | some content =>
      cases hr : getTotalZoneFileLinesToRead files rest with
      | error e => simp [hf, hr] at h
      | ok m =>
        simp only [hf, hr] at h
        cases h
        obtain ⟨i1, i2, i3⟩ := ih m hnd1.2 hr
        have hfresh : zoneName ∉ GoMap.keys m := fun hk => hnd1.1 (i1 _ hk)
        have hlc : lineCount files zoneFile = CountLinesInFile content := by
          simp [lineCount, hf]
        refine ⟨?_, ?_, ?_⟩
        · intro k hk
          rw [GoMap.keys_set, if_neg hfresh] at hk
          rcases List.mem_append.1 hk with hk1 | hk1
          · exact List.mem_cons_of_mem _ (i1 _ hk1)
          · rw [List.mem_singleton] at hk1
            subst hk1
            exact List.mem_cons_self _ _
        · intro zone hz
          rcases List.mem_cons.1 hz with heq | hmem
          · subst heq
            rw [GoMap.get_set_self]
            exact hlc.symm
          · have hne : zone.1 ≠ zoneName := fun heq =>
              hnd1.1 (heq ▸ List.mem_map_of_mem Prod.fst hmem)
            rw [GoMap.get_set_ne _ _ hne]
            exact i2 zone hmem
        · rw [GoMap.sum_set_fresh m zoneName _ hfresh, i3]
          simp only [totalLineCount, List.map_cons, List.sum_cons, hlc]
          omega

theorem totalLineCount_eq_sum (files : GoMap String) (registry : List (String × String))
    (totalLinesMap : GoMap Int)
    (h : ∀ zone ∈ registry, (totalLinesMap.get zone.1).getD 0 = lineCount files zone.2) :
    (registry.map fun zone => (totalLinesMap.get zone.1).getD 0).sum =
      totalLineCount files registry := by
  unfold totalLineCount
  congr 1
  exact List.map_congr_left h

theorem sum_lineCounts_nonneg (totalLinesMap : GoMap Int) (files : GoMap String)
    (registry : List (String × String))
    (h : ∀ zone ∈ registry, (totalLinesMap.get zone.1).getD 0 = lineCount files zone.2) :
    0 ≤ (registry.map fun zone => (totalLinesMap.get zone.1).getD 0).sum := by
  apply List.sum_nonneg
  intro x hx
  obtain ⟨zone, hz, rfl⟩ := List.mem_map.1 hx
  rw [h zone hz]
  exact lineCount_nonneg _ _


/-! ### The pre-crawl runner: zones -/

/-- One zone of the pre-crawl runner, when the runner goes on to the next zone. -/
theorem preCrawlZone_Wrote {σ : Type} (env : PreCrawlEnv σ) (zoneName zoneFile : String)
    (totalLines : Int) (s s1 : PreCrawlRun σ)
    (h : preCrawlZone env zoneName zoneFile totalLines s = .ok (s1, false)) :
    RunWrote (GetPreCrawlFilterOutputFilePath env.cacheFolderPath)
      (fun z => [checkpointKey .PreCrawlFilter z]) .PreCrawlFilter [zoneName]
      s.world s.bHasAppendedToFileOnce s1.world s1.bHasAppendedToFileOnce := by
  unfold preCrawlZone at h
  cases hg : GetPreCrawlFilterTaskState s.world.db zoneName with
  | error e => simp [hg] at h
  | ok taskState =>
    simp only [hg] at h
    by_cases hfin : taskState.BIsFinished = true
    · simp only [hfin, if_true] at h
      cases h
      exact ⟨fun _ _ => rfl, fun _ _ => rfl, rfl,
        ⟨fun _ => Or.inr (Or.inl ⟨zoneName, List.mem_singleton.2 rfl, taskState, hg, hfin⟩),
          fun _ => rfl⟩⟩
    · simp only [hfin] at h
      cases hf : s.world.files.get zoneFile with
      | none => simp [hf] at h
      | some content =>
        simp only [hf] at h
        cases hl : preCrawlLoop env zoneName taskState.LineIndex (ReadLines content)
            { s with outputFileBuffer := NewFileOutputBuffer, lineIndex := 0 } with
        | mk s2 b =>
          cases b with
          | true => simp [hl] at h
          | false =>
            simp only [hl] at h
            cases h
            have h1 := preCrawlLoop_Wrote env zoneName taskState.LineIndex (ReadLines content)
              _ s2 hl
            have h2 := Flush_Wrote (preCrawlBufferOpts env zoneName s2.lineIndex)
              [checkpointKey .PreCrawlFilter zoneName]
              (preCrawlBufferOpts_flush env zoneName s2.lineIndex) s2.outputFileBuffer
              s2.bHasAppendedToFileOnce s2.world
            have h3 := (h1.andThen h2).then_save (checkpointKey .PreCrawlFilter zoneName)
              (.taskStateJSON { taskState with BIsFinished := true }) (List.mem_singleton.2 rfl)
            obtain ⟨f1, d1, t1, text, g1, e1⟩ := h3
            have hb := Flush_buffer (preCrawlBufferOpts env zoneName s2.lineIndex)
              s2.outputFileBuffer s2.world
            refine ⟨fun p hp => f1 p (hp zoneName (List.mem_singleton.2 rfl)),
              fun k hk => d1 k (hk zoneName (List.mem_singleton.2 rfl)), t1, ?_⟩
            simp only [outputWritten, hb, NewFileOutputBuffer, String.append_empty] at g1
            have hnot : ¬ ∃ z ∈ [zoneName], foundFinished .PreCrawlFilter s.world.db z := by
              rintro ⟨z, hz, ts, hts, hfin1⟩
              rw [List.mem_singleton] at hz
              subst hz
              have hts1 : GetPreCrawlFilterTaskState s.world.db z = .ok ts := hts
              rw [hg] at hts1
              cases hts1
              exact hfin hfin1
            have hchg : (∃ z ∈ [zoneName],
                fileContent
                    ({ ((s2.outputFileBuffer.Flush (preCrawlBufferOpts env zoneName s2.lineIndex)
                        s2.world).2) with
                      db := GoMap.set
                        (s2.outputFileBuffer.Flush (preCrawlBufferOpts env zoneName s2.lineIndex)
                          s2.world).2.db
                        (checkpointKey .PreCrawlFilter zoneName)
                        (.taskStateJSON { taskState with BIsFinished := true }) } : World).files
                    (GetPreCrawlFilterOutputFilePath env.cacheFolderPath z) ≠
                  fileContent s.world.files
                    (GetPreCrawlFilterOutputFilePath env.cacheFolderPath z)) ↔ text ≠ "" := by
              simp only [List.mem_singleton, exists_eq_left]
              rw [g1]
              exact String.append_ne_self_iff _ _
            show (s2.bHasAppendedToFileOnce = true ↔ _)
            rw [e1]
            constructor
            · intro hflag
              rcases Bool.or_eq_true _ _ ▸ hflag with h5 | h5
              · exact Or.inl h5
              · exact Or.inr (Or.inr (hchg.2 (of_decide_eq_true h5)))
            · rintro (h5 | h5 | h5)
              · simp [h5]
              · exact absurd h5 hnot
              · simp [hchg.1 h5]

/-- One zone of the pre-crawl runner counts no more than the lines of its zone file. -/
theorem preCrawlZone_Counted {σ : Type} (env : PreCrawlEnv σ) (zoneName zoneFile : String)
    (totalLines b : Int) (s s1 : PreCrawlRun σ) (stopped : Bool)
    (hlines : lineCount s.world.files zoneFile = totalLines)
    (h : preCrawlZone env zoneName zoneFile totalLines s = .ok (s1, stopped)) :
    Counted (b + totalLines) b s.world s1.world := by
  unfold preCrawlZone at h
  cases hg : GetPreCrawlFilterTaskState s.world.db zoneName with
  | error e => simp [hg] at h
  | ok taskState =>
    simp only [hg] at h
    by_cases hfin : taskState.BIsFinished = true
    · simp only [hfin, if_true] at h
      cases h
      exact Counted_finished (env.clock s.tick) b totalLines
        (by rw [← hlines]; exact lineCount_nonneg _ _) s.world
    · simp only [hfin] at h
      cases hf : s.world.files.get zoneFile with
      | none => simp [hf] at h
      | some content =>
        simp only [hf] at h
        have hlen : ((ReadLines content).length : Int) = totalLines := by
          rw [← hlines]
          simp [lineCount, hf, CountLinesInFile]
        have h1 := preCrawlLoop_Counted env zoneName taskState.LineIndex (ReadLines content) b
          { s with outputFileBuffer := NewFileOutputBuffer, lineIndex := 0 }
        rw [hlen] at h1
        cases hl : preCrawlLoop env zoneName taskState.LineIndex (ReadLines content)
            { s with outputFileBuffer := NewFileOutputBuffer, lineIndex := 0 } with
        | mk s2 b2 =>
          rw [hl] at h1
          cases b2 with
          | true =>
            simp only [hl] at h
            cases h
            exact h1
          | false =>
            simp only [hl] at h
            cases h
            have h2 := Flush_Counted (preCrawlBufferOpts env zoneName s2.lineIndex)
              (preCrawlBufferOpts_flush_counts env zoneName s2.lineIndex) s2.outputFileBuffer b
              s2.world
            exact (h1.trans h2).trans (Counted.of_same b _ _ rfl rfl)

/-- The zone loop of the pre-crawl runner, when it ends without a shutdown. -/
theorem preCrawlZones_Wrote {σ : Type} (env : PreCrawlEnv σ) (totalLinesMap : GoMap Int) :
    ∀ (registry : List (String × String)) (s s1 : PreCrawlRun σ),
      (registry.map Prod.fst).Nodup →
      preCrawlZones env totalLinesMap registry s = .ok (s1, false) →
      RunWrote (GetPreCrawlFilterOutputFilePath env.cacheFolderPath)
        (fun z => [checkpointKey .PreCrawlFilter z]) .PreCrawlFilter (registry.map Prod.fst)
        s.world s.bHasAppendedToFileOnce s1.world s1.bHasAppendedToFileOnce := by
  intro registry
  induction registry with
  | nil =>
    intro s s1 _ h
    unfold preCrawlZones at h
    cases h
    exact RunWrote.nil _ _ _ _ _
  | cons zone rest ih =>
    intro s s1 hnd h
    obtain ⟨zoneName, zoneFile⟩ := zone
    have hnd1 : zoneName ∉ rest.map Prod.fst ∧ (rest.map Prod.fst).Nodup := by
      simpa using hnd
    unfold preCrawlZones at h
    cases hz : preCrawlZone env zoneName zoneFile ((totalLinesMap.get zoneName).getD 0) s with
    | error e => simp [hz] at h
    | ok r =>
      obtain ⟨s2, b⟩ := r
      cases b with
      | true => simp [hz] at h
      | false =>
        simp only [hz] at h
        have h1 := preCrawlZone_Wrote env zoneName zoneFile _ s s2 hz
        have h2 := ih s2 s1 hnd1.2 h
        refine RunWrote.cons (GetPreCrawlFilterOutputFilePath_injective env.cacheFolderPath)
          ?_ hnd1.1 h1 h2
        intro a b hab hmem
        rw [List.mem_singleton] at hmem
        exact hab (checkpointKey_injective _ _ _ _ hmem).2.symm

/-- The zone loop of the pre-crawl runner counts no more than the lines of the zone files still
to visit, when none of them is an output file of the stage. -/
theorem preCrawlZones_Counted {σ : Type} (env : PreCrawlEnv σ) (totalLinesMap : GoMap Int) :
    ∀ (registry : List (String × String)) (s s1 : PreCrawlRun σ) (stopped : Bool),
      (∀ zone ∈ registry, (totalLinesMap.get zone.1).getD 0 = lineCount s.world.files zone.2) →
      (∀ zone ∈ registry, ∀ zone1 ∈ registry,
        zone.2 ≠ GetPreCrawlFilterOutputFilePath env.cacheFolderPath zone1.1) →
      preCrawlZones env totalLinesMap registry s = .ok (s1, stopped) →
      Counted ((registry.map fun zone => (totalLinesMap.get zone.1).getD 0).sum) 0
        s.world s1.world := by
  intro registry
  induction registry with
  | nil =>
    intro s s1 stopped _ _ h
    unfold preCrawlZones at h
    cases h
    exact Counted.refl _ _
  | cons zone rest ih =>
    intro s s1 stopped hmap hpaths h
    obtain ⟨zoneName, zoneFile⟩ := zone
    have hrest : ∀ zone ∈ rest,
        (totalLinesMap.get zone.1).getD 0 = lineCount s.world.files zone.2 :=
      fun zone hz => hmap zone (List.mem_cons_of_mem _ hz)
    have hpos := sum_lineCounts_nonneg totalLinesMap s.world.files rest hrest
    unfold preCrawlZones at h
    cases hz : preCrawlZone env zoneName zoneFile ((totalLinesMap.get zoneName).getD 0) s with
    | error e => simp [hz] at h
    | ok r =>
      obtain ⟨s2, b⟩ := r
      have h1 := preCrawlZone_Counted env zoneName zoneFile _
        ((rest.map fun zone => (totalLinesMap.get zone.1).getD 0).sum) s s2 b
        (hmap (zoneName, zoneFile) (List.mem_cons_self _ _)).symm hz
      have hsum : ((((zoneName, zoneFile) :: rest).map
          fun zone => (totalLinesMap.get zone.1).getD 0).sum) =
          (rest.map fun zone => (totalLinesMap.get zone.1).getD 0).sum +
            (totalLinesMap.get zoneName).getD 0 := by
        simp only [List.map_cons, List.sum_cons]
        omega
      rw [hsum]
      cases b with
      | true =>
        simp only [hz] at h
        cases h
        exact h1.weaken (le_refl _) hpos
      | false =>
        simp only [hz] at h
        obtain ⟨f1, _, _, _⟩ := preCrawlZone_Wrote env zoneName zoneFile _ s s2 hz
        have hfiles : ∀ zone ∈ rest, s2.world.files.get zone.2 = s.world.files.get zone.2 := by
          intro zone hzone
          apply f1
          intro z hz1
          rw [List.mem_singleton] at hz1
          subst hz1
          exact hpaths zone (List.mem_cons_of_mem _ hzone) (z, zoneFile) (List.mem_cons_self _ _)
        have h2 := ih s2 s1 stopped
          (fun zone hzone => by
            rw [hrest zone hzone]
            unfold lineCount
            rw [hfiles zone hzone])
          (fun zone hzone zone1 hzone1 =>
            hpaths zone (List.mem_cons_of_mem _ hzone) zone1 (List.mem_cons_of_mem _ hzone1))
          h
        exact h1.trans h2


/-! ### The indexer: progress -/

theorem indexerLine_Counted {ι : Type} (env : IndexerEnv ι) (zoneName : String)
    (startIndex : Int) (line : String) (b : Int) (s s1 : IndexerRun ι)
    (h : indexerLine env zoneName startIndex line s = .ok s1) :
    Counted (b + 1) b s.world s1.world ∧ s1.world.files = s.world.files := by
  have hcount := Counted_countProcessed (env.clock s.tick) b s.world
  unfold indexerLine at h
  by_cases hidx : s.lineIndex < startIndex
  · simp only [hidx, if_true] at h
    cases h
    exact ⟨hcount, rfl⟩
  · simp only [hidx, if_false] at h
    cases hu : unmarshalLine env.decode line with
    | error e => simp [hu] at h
    | ok domainProperties =>
      simp only [hu] at h
      cases hi : env.indexer.Index s.index (createIndexID zoneName s.lineIndex)
          domainProperties with
      | error e => simp [hi] at h
      | ok index =>
        simp only [hi] at h
        by_cases hsave : s.remainingLinesToNextDBSave - 1 ≤ 0
        · simp only [hsave, if_true] at h
          cases h
          exact ⟨hcount.trans (Counted.of_same b _ _ rfl rfl), rfl⟩
        · simp only [hsave, if_false] at h
          cases h
          exact ⟨hcount, rfl⟩

theorem IndexerRun.observe_Counted {ι : Type} (env : IndexerEnv ι) (s : IndexerRun ι)
    (b : Int) : Counted b b s.world (s.observeShutdown env).world :=
  Counted_observe b s.world (env.signal s.tick)

/-- The line loop of the indexer counts every line read at most once and writes no file. -/
theorem indexerLoop_Counted {ι : Type} (env : IndexerEnv ι) (zoneName : String)
    (startIndex : Int) (lines : List String) :
    ∀ (b : Int) (s s1 : IndexerRun ι) (stopped : Bool),
      indexerLoop env zoneName startIndex lines s = .ok (s1, stopped) →
      Counted (b + (lines.length : Int)) b s.world s1.world ∧
        s1.world.files = s.world.files := by
  induction lines with
  | nil =>
    intro b s s1 stopped h
    unfold indexerLoop at h
    have h0 := (IndexerRun.observe_Counted env s b).weaken
      (show b ≤ b + (([] : List String).length : Int) by simp) (le_refl b)
    by_cases ht : (s.observeShutdown env).world.app.task = .Shutdown
    · simp only [ht, if_true] at h
      cases h
      exact ⟨h0, rfl⟩
    · simp only [ht, if_false] at h
      cases h
      exact ⟨h0, rfl⟩
  | cons line rest ih =>
    intro b s s1 stopped h
    unfold indexerLoop at h
    by_cases ht : (s.observeShutdown env).world.app.task = .Shutdown
    · simp only [ht, if_true] at h
      cases h
      exact ⟨(IndexerRun.observe_Counted env s b).weaken
        (by simp only [List.length_cons, Nat.cast_add, Nat.cast_one]; omega) (le_refl b), rfl⟩
    · simp only [ht, if_false] at h
      cases hl : indexerLine env zoneName startIndex line (s.observeShutdown env) with
      | error e => simp [hl] at h
      | ok s2 =>
        simp only [hl] at h
        have h1 := IndexerRun.observe_Counted env s (b + (rest.length : Int) + 1)
        obtain ⟨h2, f2⟩ := indexerLine_Counted env zoneName startIndex line
          (b + (rest.length : Int)) _ s2 hl
        obtain ⟨h3, f3⟩ := ih b s2 s1 stopped h
        refine ⟨((h1.trans h2).trans h3).weaken ?_ (le_refl b), ?_⟩
        · simp only [List.length_cons, Nat.cast_add, Nat.cast_one]
          omega
        · rw [f3, f2]
          rfl

/-- One zone of the indexer counts no more than the lines of its post-crawl file. -/
theorem indexerZone_Counted {ι : Type} (env : IndexerEnv ι) (zoneName : String)
    (totalLines b : Int) (s s1 : IndexerRun ι) (stopped : Bool)
    (hlines : lineCount s.world.files
      (GetPostCrawlFilterOutputFilePath env.cacheFolderPath zoneName) = totalLines)
    (h : indexerZone env zoneName totalLines s = .ok (s1, stopped)) :
    Counted (b + totalLines) b s.world s1.world ∧ s1.world.files = s.world.files := by
  unfold indexerZone at h
  cases hg : GetIndexerTaskState s.world.db zoneName with
  | error e => simp [hg] at h
  | ok taskState =>
    simp only [hg] at h
    by_cases hfin : taskState.BIsFinished = true
    · simp only [hfin, if_true] at h
      cases h
      exact ⟨Counted_finished (env.clock s.tick) b totalLines
        (by rw [← hlines]; exact lineCount_nonneg _ _) s.world, rfl⟩
    · simp only [hfin] at h
      cases hf : s.world.files.get
          (GetPostCrawlFilterOutputFilePath env.cacheFolderPath zoneName) with
      | none => simp [hf] at h
      | some content =>
        simp only [hf] at h
        have hlen : ((ReadLines content).length : Int) = totalLines := by
          rw [← hlines]
          simp [lineCount, hf, CountLinesInFile]
        cases hl : indexerLoop env zoneName taskState.LineIndex (ReadLines content)
            { s with
              lineIndex := 0
              remainingLinesToNextDBSave := totalLinesUntilIndexerDBSave
              indexerTaskState := taskState } with
        | error e => simp [hl] at h
        | ok r =>
          obtain ⟨s2, b2⟩ := r
          obtain ⟨h1, f1⟩ := indexerLoop_Counted env zoneName taskState.LineIndex
            (ReadLines content) b _ s2 b2 hl
          rw [hlen] at h1
          cases b2 with
          | true =>
            simp only [hl] at h
            cases h
            exact ⟨h1, f1⟩
          | false =>
            simp only [hl] at h
            cases h
            exact ⟨h1.trans (Counted.of_same b _ _ rfl rfl), f1⟩

/-- The zone loop of the indexer counts no more than the lines of the post-crawl files of the
zones still to visit. -/
theorem indexerZones_Counted {ι : Type} (env : IndexerEnv ι) (totalLinesMap : GoMap Int) :
    ∀ (registry : List (String × String)) (s s1 : IndexerRun ι) (stopped : Bool),
      (∀ zone ∈ registry, (totalLinesMap.get zone.1).getD 0 =
        lineCount s.world.files (GetPostCrawlFilterOutputFilePath env.cacheFolderPath zone.1)) →
      indexerZones env totalLinesMap registry s = .ok (s1, stopped) →
      Counted ((registry.map fun zone => (totalLinesMap.get zone.1).getD 0).sum) 0
        s.world s1.world := by
  intro registry
  induction registry with
  | nil =>
    intro s s1 stopped _ h
    unfold indexerZones at h
    cases h
    exact Counted.refl _ _
  | cons zone rest ih =>
    intro s s1 stopped hmap h
    obtain ⟨zoneName, zoneFile⟩ := zone
    have hrest : ∀ zone ∈ rest, (totalLinesMap.get zone.1).getD 0 =
        lineCount s.world.files (GetPostCrawlFilterOutputFilePath env.cacheFolderPath zone.1) :=
      fun zone hz => hmap zone (List.mem_cons_of_mem _ hz)
    have hpos : 0 ≤ (rest.map fun zone => (totalLinesMap.get zone.1).getD 0).sum := by
      apply List.sum_nonneg
      intro x hx
      obtain ⟨zone, hz, rfl⟩ := List.mem_map.1 hx
      rw [hrest zone hz]
      exact lineCount_nonneg _ _
    unfold indexerZones at h
    cases hz : indexerZone env zoneName ((totalLinesMap.get zoneName).getD 0) s with
    | error e => simp [hz] at h
    | ok r =>
      obtain ⟨s2, b⟩ := r
      obtain ⟨h1, f1⟩ := indexerZone_Counted env zoneName _
        ((rest.map fun zone => (totalLinesMap.get zone.1).getD 0).sum) s s2 b
        (hmap (zoneName, zoneFile) (List.mem_cons_self _ _)).symm hz
      have hsum : ((((zoneName, zoneFile) :: rest).map
          fun zone => (totalLinesMap.get zone.1).getD 0).sum) =
          (rest.map fun zone => (totalLinesMap.get zone.1).getD 0).sum +
            (totalLinesMap.get zoneName).getD 0 := by
        simp only [List.map_cons, List.sum_cons]
        omega
      rw [hsum]
      cases b with
      | true =>
        simp only [hz] at h
        cases h
        exact h1.weaken (le_refl _) hpos
      | false =>
        simp only [hz] at h
        have h2 := ih s2 s1 stopped (fun zone hzone => by rw [hrest zone hzone, f1]) h
        exact h1.trans h2


/-! ### The post-crawl runner: connectors -/

/-- The keys of the store that the post-crawl runner writes for a zone. -/
theorem postCrawlBufferOpts_flush {σ : Type} (env : PostCrawlEnv σ) (zoneName : String)
    (startLineIndex : Int) (now : ℚ) (cb : Nat → World → World)
    (hcb : (postCrawlBufferOpts env zoneName startLineIndex now).OnFlushCB = some cb) (n : Nat)
    (w : World) :
    ∃ key value, key ∈ [checkpointKey .PreCrawlFilter zoneName,
        checkpointKey .PostCrawlFilter zoneName] ∧
      cb n w = { w with db := GoMap.set w.db key value } := by
  cases hcb
  exact ⟨checkpointKey .PreCrawlFilter zoneName, _, List.mem_cons_self _ _, rfl⟩

theorem postCrawlBufferOpts_flush_counts {σ : Type} (env : PostCrawlEnv σ) (zoneName : String)
    (startLineIndex : Int) (now : ℚ) (cb : Nat → World → World)
    (hcb : (postCrawlBufferOpts env zoneName startLineIndex now).OnFlushCB = some cb) (n : Nat)
    (w : World) :
    (cb n w).app = w.app ∧ (cb n w).processedWorkItems = w.processedWorkItems := by
  cases hcb
  exact ⟨rfl, rfl⟩

theorem postCrawlBufferOpts_append {σ : Type} (env : PostCrawlEnv σ) (zoneName : String)
    (startLineIndex : Int) (now : ℚ) (cb : World → World)
    (hcb : (postCrawlBufferOpts env zoneName startLineIndex now).OnAppendCB = some cb)
    (w : World) :
    (cb w).files = w.files ∧ (cb w).db = w.db ∧ (cb w).app.task = w.app.task := by
  cases hcb
  exact ⟨rfl, rfl, rfl⟩

/-- What a part of a post-crawl run of the zone `zoneName` did, between two states of the
runner: it counted no more than the budget allows, a connector still running being one item of
the budget, and it wrote to the output of the zone only. -/
theorem runConnector_spec {σ : Type} (env : PostCrawlEnv σ) (zoneName : String)
    (startLineIndex : Int) (n : Nat) (domainProperties : DomainProperties) (b : Int)
    (s : PostCrawlRun σ) :
    Counted (b + 1) b s.world
        (runConnector env zoneName startLineIndex n domainProperties s).world ∧
      (runConnector env zoneName startLineIndex n domainProperties s).running = s.running ∧
      Wrote (GetPostCrawlFilterOutputFilePath env.cacheFolderPath zoneName)
        [checkpointKey .PreCrawlFilter zoneName, checkpointKey .PostCrawlFilter zoneName]
        s.world s.fileOutputBuffer s.bHasAppendedToFileOnce
        (runConnector env zoneName startLineIndex n domainProperties s).world
        (runConnector env zoneName startLineIndex n domainProperties s).fileOutputBuffer
        (runConnector env zoneName startLineIndex n domainProperties s).bHasAppendedToFileOnce := by
  have hcount := Counted_countProcessed (env.clock s.tick) b s.world
  have hskip : Wrote (GetPostCrawlFilterOutputFilePath env.cacheFolderPath zoneName)
      [checkpointKey .PreCrawlFilter zoneName, checkpointKey .PostCrawlFilter zoneName]
      s.world s.fileOutputBuffer s.bHasAppendedToFileOnce
      (countProcessed (env.clock s.tick) s.world) s.fileOutputBuffer s.bHasAppendedToFileOnce :=
    (Wrote.same _ _ s.world s.fileOutputBuffer s.bHasAppendedToFileOnce).then_same rfl rfl rfl
  unfold runConnector
  by_cases hdns : env.crawler.HasDNSARecord n domainProperties.DomainName = true
  · simp only [hdns, Bool.not_true, Bool.false_eq_true, if_false]
    by_cases hcan : env.crawler.CanCrawl n
        (env.ConnectionProtocol ++ "://" ++ domainProperties.DomainName) = true
    · simp only [hcan, Bool.not_true, Bool.false_eq_true, if_false]
      cases hcrawl : env.crawler.Crawl n
          (env.ConnectionProtocol ++ "://" ++ domainProperties.DomainName) with
      | error e => exact ⟨hcount, rfl, hskip⟩
      | ok page =>
        obtain ⟨header, baseNode⟩ := page
        dsimp only
        cases hc : postCrawlProcessDomainProperties env.postCrawlFilterArray s.handlers
            domainProperties header baseNode with
        | mk handlers out =>
          cases out with
          | none => exact ⟨hcount, rfl, hskip⟩
          | some output =>
            dsimp only
            exact ⟨AppendToFile_Counted_one
                (postCrawlBufferOpts env zoneName startLineIndex (env.clock s.tick))
                (env.clock s.tick) rfl s.fileOutputBuffer (ToJSONString output) b s.world,
              rfl,
              AppendToFile_Wrote
                (postCrawlBufferOpts env zoneName startLineIndex (env.clock s.tick))
                (postCrawlBufferOpts_append env zoneName startLineIndex (env.clock s.tick))
                _ s.fileOutputBuffer s.bHasAppendedToFileOnce (ToJSONString output) s.world⟩
    · simp only [hcan, Bool.not_false, if_true]
      exact ⟨hcount, trivial, hskip⟩
  · simp only [hdns, Bool.not_false, if_true]
    exact ⟨hcount, trivial, hskip⟩

theorem finishConnector_spec {σ : Type} (env : PostCrawlEnv σ) (zoneName : String)
    (startLineIndex : Int) (i : Nat) (b : Int) (s : PostCrawlRun σ) :
    Counted (b + (s.running.length : Int))
        (b + ((finishConnector env zoneName startLineIndex i s).running.length : Int))
        s.world (finishConnector env zoneName startLineIndex i s).world ∧
      Wrote (GetPostCrawlFilterOutputFilePath env.cacheFolderPath zoneName)
        [checkpointKey .PreCrawlFilter zoneName, checkpointKey .PostCrawlFilter zoneName]
        s.world s.fileOutputBuffer s.bHasAppendedToFileOnce
        (finishConnector env zoneName startLineIndex i s).world
        (finishConnector env zoneName startLineIndex i s).fileOutputBuffer
        (finishConnector env zoneName startLineIndex i s).bHasAppendedToFileOnce := by
  unfold finishConnector
  by_cases hm : s.processedWorkItemsMutex = true
  · simp only [hm, if_true]
    exact ⟨Counted.refl _ _, Wrote.same _ _ _ _ _⟩
  · rw [if_neg hm]
    cases hg : s.running.get? (i % s.running.length) with
    | none => exact ⟨Counted.refl _ _, Wrote.same _ _ _ _ _⟩
    | some connector =>
      dsimp only
      have hlt : i % s.running.length < s.running.length := by
        rcases List.get?_eq_some.1 hg with ⟨hlt, _⟩
        exact hlt
      have hlen : (s.running.eraseIdx (i % s.running.length)).length + 1 = s.running.length := by
        rw [List.length_eraseIdx, if_pos hlt]
        omega
      obtain ⟨h1, h2, h3⟩ := runConnector_spec env zoneName startLineIndex connector.1
        connector.2 (b + ((s.running.eraseIdx (i % s.running.length)).length : Int))
        { s with running := s.running.eraseIdx (i % s.running.length) }
      refine ⟨?_, h3⟩
      show Counted _ (b + ((runConnector env zoneName startLineIndex connector.1 connector.2
        { s with running := s.running.eraseIdx (i % s.running.length) }).running.length : Int))
        _ _
      rw [h2]
      refine h1.weaken ?_ (le_refl _)
      show b + ((s.running.eraseIdx (i % s.running.length)).length : Int) + 1 ≤
        b + (s.running.length : Int)
      omega

theorem acquireConnector_spec {σ : Type} (env : PostCrawlEnv σ) (zoneName : String)
    (startLineIndex : Int) (b : Int) (s s1 : PostCrawlRun σ)
    (h : acquireConnector env zoneName startLineIndex s = .ok s1) :
    Counted (b + (s.running.length : Int)) (b + (s1.running.length : Int)) s.world s1.world ∧
      Wrote (GetPostCrawlFilterOutputFilePath env.cacheFolderPath zoneName)
        [checkpointKey .PreCrawlFilter zoneName, checkpointKey .PostCrawlFilter zoneName]
        s.world s.fileOutputBuffer s.bHasAppendedToFileOnce
        s1.world s1.fileOutputBuffer s1.bHasAppendedToFileOnce := by
  unfold acquireConnector at h
  by_cases hav : 0 < s.availableConnectors
  · simp only [hav, if_true] at h
    cases h
    exact ⟨Counted.refl _ _, Wrote.same _ _ _ _ _⟩
  · simp only [hav, if_false] at h
    by_cases hblock : s.running.isEmpty ∨ s.processedWorkItemsMutex
    · rw [if_pos hblock] at h
      cases h
    · rw [if_neg hblock] at h
      cases h
      exact finishConnector_spec env zoneName startLineIndex (env.next s.waits) b
        { s with waits := s.waits + 1 }

theorem drainConnectors_spec {σ : Type} (env : PostCrawlEnv σ) (zoneName : String)
    (startLineIndex : Int) (b : Int) (n : Nat) :
    ∀ (s s1 : PostCrawlRun σ), drainConnectors env zoneName startLineIndex n s = .ok s1 →
      Counted (b + (s.running.length : Int)) (b + (s1.running.length : Int)) s.world s1.world ∧
        Wrote (GetPostCrawlFilterOutputFilePath env.cacheFolderPath zoneName)
          [checkpointKey .PreCrawlFilter zoneName, checkpointKey .PostCrawlFilter zoneName]
          s.world s.fileOutputBuffer s.bHasAppendedToFileOnce
          s1.world s1.fileOutputBuffer s1.bHasAppendedToFileOnce := by
  induction n with
  | zero =>
    intro s s1 h
    unfold drainConnectors at h
    cases h
    exact ⟨Counted.refl _ _, Wrote.same _ _ _ _ _⟩
  | succ n ih =>
    intro s s1 h
    unfold drainConnectors at h
    cases ha : acquireConnector env zoneName startLineIndex s with
    | error e => simp [ha] at h
    | ok s2 =>
      simp only [ha] at h
      obtain ⟨c1, w1⟩ := acquireConnector_spec env zoneName startLineIndex b s s2 ha
      obtain ⟨c2, w2⟩ := ih s2 s1 h
      exact ⟨c1.trans c2, w1.andThen w2⟩

theorem finishConnectors_spec {σ : Type} (env : PostCrawlEnv σ) (zoneName : String)
    (startLineIndex : Int) (b : Int) (finishing : List Nat) :
    ∀ (s : PostCrawlRun σ),
      Counted (b + (s.running.length : Int))
          (b + ((finishing.foldl (fun s i => finishConnector env zoneName startLineIndex i s)
            s).running.length : Int))
          s.world
          (finishing.foldl (fun s i => finishConnector env zoneName startLineIndex i s) s).world ∧
        Wrote (GetPostCrawlFilterOutputFilePath env.cacheFolderPath zoneName)
          [checkpointKey .PreCrawlFilter zoneName, checkpointKey .PostCrawlFilter zoneName]
          s.world s.fileOutputBuffer s.bHasAppendedToFileOnce
          (finishing.foldl (fun s i => finishConnector env zoneName startLineIndex i s) s).world
          (finishing.foldl (fun s i => finishConnector env zoneName startLineIndex i s)
            s).fileOutputBuffer
          (finishing.foldl (fun s i => finishConnector env zoneName startLineIndex i s)
            s).bHasAppendedToFileOnce := by
  induction finishing with
  | nil =>
    intro s
    exact ⟨Counted.refl _ _, Wrote.same _ _ _ _ _⟩
  | cons i rest ih =>
    intro s
    obtain ⟨c1, w1⟩ := finishConnector_spec env zoneName startLineIndex i b s
    obtain ⟨c2, w2⟩ := ih (finishConnector env zoneName startLineIndex i s)
    exact ⟨c1.trans c2, w1.andThen w2⟩

theorem PostCrawlRun.observeShutdown_spec {σ : Type} (env : PostCrawlEnv σ) (zoneName : String)
    (startLineIndex : Int) (b : Int) (s : PostCrawlRun σ) :
    Counted (b + (s.running.length : Int))
        (b + ((s.observeShutdown env zoneName startLineIndex).running.length : Int))
        s.world (s.observeShutdown env zoneName startLineIndex).world ∧
      ((s.observeShutdown env zoneName startLineIndex).world.app.task ≠ .Shutdown →
        Wrote (GetPostCrawlFilterOutputFilePath env.cacheFolderPath zoneName)
          [checkpointKey .PreCrawlFilter zoneName, checkpointKey .PostCrawlFilter zoneName]
          s.world s.fileOutputBuffer s.bHasAppendedToFileOnce
          (s.observeShutdown env zoneName startLineIndex).world
          (s.observeShutdown env zoneName startLineIndex).fileOutputBuffer
          (s.observeShutdown env zoneName startLineIndex).bHasAppendedToFileOnce) := by
  obtain ⟨c1, w1⟩ := finishConnectors_spec env zoneName startLineIndex b (env.finishing s.tick) s
  unfold PostCrawlRun.observeShutdown
  generalize (env.finishing s.tick).foldl
    (fun s i => finishConnector env zoneName startLineIndex i s) s = s2 at c1 w1 ⊢
  refine ⟨c1.trans (Counted_observe _ _ _), ?_⟩
  intro ht
  cases hs : env.signal s2.tick
  · simp only [hs]
    exact w1.then_same rfl rfl rfl
  · simp only [hs, if_true] at ht
    exact absurd rfl ht


/-! ### The post-crawl runner: lines and zones -/

theorem postCrawlLine_spec {σ : Type} (env : PostCrawlEnv σ) (zoneName : String)
    (startLineIndex : Int) (line : String) (b : Int) (s s1 : PostCrawlRun σ)
    (h : postCrawlLine env zoneName startLineIndex line s = .ok s1) :
    Counted (b + 1 + (s.running.length : Int)) (b + (s1.running.length : Int))
        s.world s1.world ∧
      Wrote (GetPostCrawlFilterOutputFilePath env.cacheFolderPath zoneName)
        [checkpointKey .PreCrawlFilter zoneName, checkpointKey .PostCrawlFilter zoneName]
        s.world s.fileOutputBuffer s.bHasAppendedToFileOnce
        s1.world s1.fileOutputBuffer s1.bHasAppendedToFileOnce := by
  unfold postCrawlLine at h
  by_cases hidx : s.lineIndex ≥ startLineIndex
  · simp only [hidx, if_true] at h
    by_cases hempty : (TrimSpace line).utf8ByteSize = 0
    · simp only [hempty, if_true] at h
      by_cases hm : s.processedWorkItemsMutex = true
      · rw [if_pos hm] at h
        cases h
      · rw [if_neg hm] at h
        cases h
        exact ⟨(Counted_countProcessed (env.clock s.tick) b s.world).shift _,
          (Wrote.same _ _ s.world s.fileOutputBuffer s.bHasAppendedToFileOnce).then_same
            rfl rfl rfl⟩
    · simp only [hempty, if_false] at h
      cases hu : unmarshalLine env.decode (TrimSpace line) with
      | error e => simp [hu] at h
      | ok domainProperties =>
        simp only [hu] at h
        cases ha : acquireConnector env zoneName startLineIndex s with
        | error e => simp [ha] at h
        | ok s2 =>
          simp only [ha] at h
          cases h
          obtain ⟨c1, w1⟩ := acquireConnector_spec env zoneName startLineIndex (b + 1) s s2 ha
          refine ⟨c1.weaken (le_refl _) ?_, w1⟩
          show b + ((s2.running ++ [(s2.launched, domainProperties)]).length : Int) ≤
            b + 1 + (s2.running.length : Int)
          simp only [List.length_append, List.length_singleton, Nat.cast_add, Nat.cast_one]
          omega
  · simp only [hidx, if_false] at h
    cases h
    exact ⟨(Counted.refl (b + (s.running.length : Int)) s.world).weaken (by omega) (le_refl _),
      Wrote.same _ _ _ _ _⟩

theorem postCrawlShutdown_Counted {σ : Type} (env : PostCrawlEnv σ) (zoneName : String)
    (startLineIndex : Int) (b : Int) (s s1 : PostCrawlRun σ) (stopped : Bool)
    (h : postCrawlShutdown env zoneName startLineIndex s = .ok (s1, stopped)) :
    Counted (b + (s.running.length : Int)) (b + (s1.running.length : Int))
      s.world s1.world := by
  unfold postCrawlShutdown at h
  cases hd : drainConnectors env zoneName startLineIndex env.ConcurrentConnections s with
  | error e => simp [hd] at h
  | ok s2 =>
    simp only [hd] at h
    cases h
    obtain ⟨c1, _⟩ := drainConnectors_spec env zoneName startLineIndex b _ s s2 hd
    exact c1.trans (Flush_Counted _
      (postCrawlBufferOpts_flush_counts env zoneName startLineIndex (env.clock s2.tick))
      s2.fileOutputBuffer _ s2.world)

/-- The line loop of the post-crawl runner: at most one count for a line read and one for a
connector still running; and what it wrote when it ends without a shutdown. -/
theorem postCrawlLoop_spec {σ : Type} (env : PostCrawlEnv σ) (zoneName : String)
    (startLineIndex : Int) (lines : List String) :
    ∀ (b : Int) (s s1 : PostCrawlRun σ) (stopped : Bool),
      postCrawlLoop env zoneName startLineIndex lines s = .ok (s1, stopped) →
      Counted (b + (lines.length : Int) + (s.running.length : Int))
          (b + (s1.running.length : Int)) s.world s1.world ∧
        (stopped = false →
          Wrote (GetPostCrawlFilterOutputFilePath env.cacheFolderPath zoneName)
            [checkpointKey .PreCrawlFilter zoneName, checkpointKey .PostCrawlFilter zoneName]
            s.world s.fileOutputBuffer s.bHasAppendedToFileOnce
            s1.world s1.fileOutputBuffer s1.bHasAppendedToFileOnce) := by
  induction lines with
  | nil =>
    intro b s s1 stopped h
    unfold postCrawlLoop at h
    obtain ⟨c0, w0⟩ := PostCrawlRun.observeShutdown_spec env zoneName startLineIndex b s
    by_cases ht : (s.observeShutdown env zoneName startLineIndex).world.app.task = .Shutdown
    · simp only [ht, if_true] at h
      have hstop : stopped = true := by
        unfold postCrawlShutdown at h
        cases hd : drainConnectors env zoneName startLineIndex env.ConcurrentConnections
            (s.observeShutdown env zoneName startLineIndex) with
        | error e => simp [hd] at h
        | ok s2 =>
          simp only [hd] at h
          cases h
          rfl
      have c1 := postCrawlShutdown_Counted env zoneName startLineIndex b _ s1 stopped h
      refine ⟨(c0.trans c1).weaken ?_ (le_refl _), fun hf => ?_⟩
      · simp
      · rw [hstop] at hf
        cases hf
    · simp only [ht, if_false] at h
      cases h
      exact ⟨c0.weaken (by simp) (le_refl _), fun _ => w0 ht⟩
  | cons line rest ih =>
    intro b s s1 stopped h
    unfold postCrawlLoop at h
    obtain ⟨c0, w0⟩ := PostCrawlRun.observeShutdown_spec env zoneName startLineIndex
      (b + (rest.length : Int) + 1) s
    by_cases ht : (s.observeShutdown env zoneName startLineIndex).world.app.task = .Shutdown
    · simp only [ht, if_true] at h
      have hstop : stopped = true := by
        unfold postCrawlShutdown at h
        cases hd : drainConnectors env zoneName startLineIndex env.ConcurrentConnections
            (s.observeShutdown env zoneName startLineIndex) with
        | error e => simp [hd] at h
        | ok s2 =>
          simp only [hd] at h
          cases h
          rfl
      have c1 := postCrawlShutdown_Counted env zoneName startLineIndex
        (b + (rest.length : Int) + 1) _ s1 stopped h
      refine ⟨(c0.trans c1).weaken ?_ ?_, fun hf => ?_⟩
      · simp only [List.length_cons, Nat.cast_add, Nat.cast_one]
        omega
      · omega
      · rw [hstop] at hf
        cases hf
    · simp only [ht, if_false] at h
      cases hl : postCrawlLine env zoneName startLineIndex line
          (s.observeShutdown env zoneName startLineIndex) with
      | error e => simp [hl] at h
      | ok s2 =>
        simp only [hl] at h
        obtain ⟨c1, w1⟩ := postCrawlLine_spec env zoneName startLineIndex line
          (b + (rest.length : Int)) _ s2 hl
        obtain ⟨c2, w2⟩ := ih b s2 s1 stopped h
        refine ⟨((c0.weaken ?_ ?_).trans c1).trans c2,
          fun hf => ((w0 ht).andThen w1).andThen (w2 hf)⟩
        · simp only [List.length_cons, Nat.cast_add, Nat.cast_one]
          omega
        · omega

/-- One zone of the post-crawl runner. -/
theorem postCrawlZone_spec {σ : Type} (env : PostCrawlEnv σ) (zoneName : String)
    (totalLines b : Int) (s s1 : PostCrawlRun σ) (stopped : Bool)
    (hlines : lineCount s.world.files
      (GetPreCrawlFilterOutputFilePath env.cacheFolderPath zoneName) = totalLines)
    (h : postCrawlZone env zoneName totalLines s = .ok (s1, stopped)) :
    Counted (b + totalLines + (s.running.length : Int)) (b + (s1.running.length : Int))
        s.world s1.world ∧
      (stopped = false →
        RunWrote (GetPostCrawlFilterOutputFilePath env.cacheFolderPath)
          (fun z => [checkpointKey .PreCrawlFilter z, checkpointKey .PostCrawlFilter z])
          .PostCrawlFilter [zoneName]
          s.world s.bHasAppendedToFileOnce s1.world s1.bHasAppendedToFileOnce) := by
  unfold postCrawlZone at h
  cases hg : GetPostCrawlFilterTaskState s.world.db zoneName with
  | error e => simp [hg] at h
  | ok taskState =>
    simp only [hg] at h
    by_cases hfin : taskState.BIsFinished = true
    · simp only [hfin, if_true] at h
      by_cases hm : s.processedWorkItemsMutex = true
      · rw [if_pos hm] at h
        cases h
      · rw [if_neg hm] at h
        cases h
        exact ⟨(Counted_finished (env.clock s.tick) b totalLines
            (by rw [← hlines]; exact lineCount_nonneg _ _) s.world).shift _,
          fun _ => ⟨fun _ _ => rfl, fun _ _ => rfl, rfl,
            ⟨fun _ => Or.inr (Or.inl ⟨zoneName, List.mem_singleton.2 rfl, taskState, hg, hfin⟩),
              fun _ => rfl⟩⟩⟩
    · simp only [hfin] at h
      cases hf : s.world.files.get
          (GetPreCrawlFilterOutputFilePath env.cacheFolderPath zoneName) with
      | none => simp [hf] at h
      | some content =>
        simp only [hf] at h
        have hlen : ((ReadLines content).length : Int) = totalLines := by
          rw [← hlines]
          simp [lineCount, hf, CountLinesInFile]
        cases hl : postCrawlLoop env zoneName taskState.LineIndex (ReadLines content)
            { s with lineIndex := 0, fileOutputBuffer := NewFileOutputBuffer } with
        | error e => simp [hl] at h
        | ok r =>
          obtain ⟨s2, b2⟩ := r
          obtain ⟨c1, w1⟩ := postCrawlLoop_spec env zoneName taskState.LineIndex
            (ReadLines content) b _ s2 b2 hl
          rw [hlen] at c1
          cases b2 with
          | true =>
            simp only [hl] at h
            cases h
            exact ⟨c1, fun hf => by cases hf⟩
          | false =>
            simp only [hl] at h
            cases hd : drainConnectors env zoneName taskState.LineIndex
                env.ConcurrentConnections s2 with
            | error e => simp [hd] at h
            | ok s3 =>
              simp only [hd] at h
              cases h
              obtain ⟨c2, w2⟩ := drainConnectors_spec env zoneName taskState.LineIndex b _ s2 s3 hd
              have c3 := Flush_Counted
                (postCrawlBufferOpts env zoneName taskState.LineIndex (env.clock s3.tick))
                (postCrawlBufferOpts_flush_counts env zoneName taskState.LineIndex
                  (env.clock s3.tick))
                s3.fileOutputBuffer (b + (s3.running.length : Int)) s3.world
              refine ⟨((c1.trans c2).trans c3).trans (Counted.of_same _ _ _ rfl rfl), fun _ => ?_⟩
              have w3 := Flush_Wrote
                (postCrawlBufferOpts env zoneName taskState.LineIndex (env.clock s3.tick))
                [checkpointKey .PreCrawlFilter zoneName, checkpointKey .PostCrawlFilter zoneName]
                (postCrawlBufferOpts_flush env zoneName taskState.LineIndex (env.clock s3.tick))
                s3.fileOutputBuffer s3.bHasAppendedToFileOnce s3.world
              have w4 := (((w1 rfl).andThen w2).andThen w3).then_save
                (checkpointKey .PostCrawlFilter zoneName)
                (.taskStateJSON { taskState with BIsFinished := true })
                (List.mem_cons_of_mem _ (List.mem_singleton.2 rfl))
              obtain ⟨f1, d1, t1, text, g1, e1⟩ := w4
              have hb := Flush_buffer
                (postCrawlBufferOpts env zoneName taskState.LineIndex (env.clock s3.tick))
                s3.fileOutputBuffer s3.world
              refine ⟨fun p hp => f1 p (hp zoneName (List.mem_singleton.2 rfl)),
                fun k hk => d1 k (hk zoneName (List.mem_singleton.2 rfl)), t1, ?_⟩
              simp only [outputWritten, hb, NewFileOutputBuffer, String.append_empty] at g1
              have hnot : ¬ ∃ z ∈ [zoneName], foundFinished .PostCrawlFilter s.world.db z := by
                rintro ⟨z, hz, ts, hts, hfin1⟩
                rw [List.mem_singleton] at hz
                subst hz
                have hts1 : GetPostCrawlFilterTaskState s.world.db z = .ok ts := hts
                rw [hg] at hts1
                cases hts1
                exact hfin hfin1
              show (s3.bHasAppendedToFileOnce = true ↔ _)
              rw [e1]
              simp only [List.mem_singleton, exists_eq_left]
              simp only [List.mem_singleton, exists_eq_left] at hnot
              constructor
              · intro hflag
                rcases Bool.or_eq_true _ _ ▸ hflag with h5 | h5
                · exact Or.inl h5
                · refine Or.inr (Or.inr ?_)
                  show fileContent _ _ ≠ _
                  rw [g1]
                  exact (String.append_ne_self_iff _ _).2 (of_decide_eq_true h5)
              · rintro (h5 | h5 | h5)
                · simp [h5]
                · exact absurd h5 hnot
                · have h6 : fileContent (s3.fileOutputBuffer.Flush
                      (postCrawlBufferOpts env zoneName taskState.LineIndex (env.clock s3.tick))
                      s3.world).2.files
                      (GetPostCrawlFilterOutputFilePath env.cacheFolderPath zoneName) ≠
                      fileContent s.world.files
                        (GetPostCrawlFilterOutputFilePath env.cacheFolderPath zoneName) := h5
                  rw [g1] at h6
                  simp [(String.append_ne_self_iff _ _).1 h6]

/-- The zone loop of the post-crawl runner. -/
theorem postCrawlZones_spec {σ : Type} (env : PostCrawlEnv σ) (totalLinesMap : GoMap Int) :
    ∀ (registry : List (String × String)) (s s1 : PostCrawlRun σ) (stopped : Bool),
      (registry.map Prod.fst).Nodup →
      (∀ zone ∈ registry, (totalLinesMap.get zone.1).getD 0 =
        lineCount s.world.files (GetPreCrawlFilterOutputFilePath env.cacheFolderPath zone.1)) →
      postCrawlZones env totalLinesMap registry s = .ok (s1, stopped) →
      Counted ((registry.map fun zone => (totalLinesMap.get zone.1).getD 0).sum +
            (s.running.length : Int)) (s1.running.length : Int) s.world s1.world ∧
        (stopped = false →
          RunWrote (GetPostCrawlFilterOutputFilePath env.cacheFolderPath)
            (fun z => [checkpointKey .PreCrawlFilter z, checkpointKey .PostCrawlFilter z])
            .PostCrawlFilter (registry.map Prod.fst)
            s.world s.bHasAppendedToFileOnce s1.world s1.bHasAppendedToFileOnce) := by
  intro registry
  induction registry with
  | nil =>
    intro s s1 stopped _ _ h
    unfold postCrawlZones at h
    cases h
    exact ⟨(Counted.refl _ _).weaken (by simp) (le_refl _), fun _ => RunWrote.nil _ _ _ _ _⟩
  | cons zone rest ih =>
    intro s s1 stopped hnd hmap h
    obtain ⟨zoneName, zoneFile⟩ := zone
    have hnd1 : zoneName ∉ rest.map Prod.fst ∧ (rest.map Prod.fst).Nodup := by
      simpa using hnd
    have hrest : ∀ zone ∈ rest, (totalLinesMap.get zone.1).getD 0 =
        lineCount s.world.files (GetPreCrawlFilterOutputFilePath env.cacheFolderPath zone.1) :=
      fun zone hz => hmap zone (List.mem_cons_of_mem _ hz)
    have hpos : 0 ≤ (rest.map fun zone => (totalLinesMap.get zone.1).getD 0).sum := by
      apply List.sum_nonneg
      intro x hx
      obtain ⟨zone, hz, rfl⟩ := List.mem_map.1 hx
      rw [hrest zone hz]
      exact lineCount_nonneg _ _
    unfold postCrawlZones at h
    cases hz : postCrawlZone env zoneName ((totalLinesMap.get zoneName).getD 0) s with
    | error e => simp [hz] at h
    | ok r =>
      obtain ⟨s2, b⟩ := r
      obtain ⟨c1, w1⟩ := postCrawlZone_spec env zoneName _
        ((rest.map fun zone => (totalLinesMap.get zone.1).getD 0).sum) s s2 b
        (hmap (zoneName, zoneFile) (List.mem_cons_self _ _)).symm hz
      have hsum : ((((zoneName, zoneFile) :: rest).map
          fun zone => (totalLinesMap.get zone.1).getD 0).sum) =
          (rest.map fun zone => (totalLinesMap.get zone.1).getD 0).sum +
            (totalLinesMap.get zoneName).getD 0 := by
        simp only [List.map_cons, List.sum_cons]
        omega
      rw [hsum]
      cases b with
      | true =>
        simp only [hz] at h
        cases h
        exact ⟨c1.weaken (le_refl _) (by omega), fun hf => by cases hf⟩
      | false =>
        simp only [hz] at h
        obtain ⟨f1, _, _, _⟩ := w1 rfl
        have hfiles : ∀ zone ∈ rest,
            s2.world.files.get (GetPreCrawlFilterOutputFilePath env.cacheFolderPath zone.1) =
              s.world.files.get
                (GetPreCrawlFilterOutputFilePath env.cacheFolderPath zone.1) := by
          intro zone _
          apply f1
          intro z _
          exact pre_path_ne_post_path _ _ _ _
        obtain ⟨c2, w2⟩ := ih s2 s1 stopped hnd1.2
          (fun zone hzone => by
            rw [hrest zone hzone]
            unfold lineCount
            rw [hfiles zone hzone])
          h
        refine ⟨c1.trans c2, fun hf => ?_⟩
        refine RunWrote.cons (GetPostCrawlFilterOutputFilePath_injective env.cacheFolderPath)
          ?_ hnd1.1 (w1 rfl) (w2 hf)
        intro a b hab hmem
        rcases List.mem_cons.1 hmem with hk | hk
        · exact absurd (checkpointKey_injective _ _ _ _ hk).1 (by decide)
        · rw [List.mem_singleton] at hk
          exact hab (checkpointKey_injective _ _ _ _ hk).2.symm


/-! ### Progress of a whole stage run -/

/-- What `SetTotalWorkItems` and `SetProcessedWorkItems(0)` publish before the zone loop. -/
theorem Published_start (now : ℚ) (total : Int) (w : World) :
    Published total
      { w with
        app := SetProcessedWorkItems now (SetTotalWorkItems w.app total) 0
        processedWorkItems := 0 } :=
  ⟨rfl, rfl, rfl⟩

theorem WithinTotal_of_Counted {total budget1 : Int} {w w1 : World} (hp : Published total w)
    (h0 : w.processedWorkItems = 0) (hb : 0 ≤ budget1) (h : Counted total budget1 w w1) :
    WithinTotal total w1 := by
  obtain ⟨p1, m1, c1⟩ := h
  obtain ⟨q1, q2, q3⟩ := p1 total hp
  unfold WithinTotal
  rw [q1, q2, q3]
  refine ⟨rfl, ?_, ?_, rfl, ?_⟩ <;> omega

theorem monotone_of_Counted {total budget budget1 : Int} {w w1 : World}
    (h : Counted budget budget1 w w1) (hp : Published total w) :
    Published total w1 ∧ w.app.processedWorkItems ≤ w1.app.processedWorkItems := by
  obtain ⟨p1, m1, _⟩ := h
  have hp1 := p1 total hp
  refine ⟨hp1, ?_⟩
  rw [hp.2.1, hp1.2.1]
  exact m1

theorem cacheFileRegistry_names (pathOf : String → String) (registry : List (String × String)) :
    (cacheFileRegistry pathOf registry).map Prod.fst = registry.map Prod.fst := by
  unfold cacheFileRegistry
  rw [List.map_map]
  rfl

theorem cacheFileRegistry_sum (pathOf : String → String) (registry : List (String × String))
    (totalLinesMap : GoMap Int) :
    ((cacheFileRegistry pathOf registry).map fun zone => (totalLinesMap.get zone.1).getD 0) =
      registry.map fun zone => (totalLinesMap.get zone.1).getD 0 := by
  unfold cacheFileRegistry
  rw [List.map_map]
  rfl

/-- The map of the totals of a stage that reads cache files. -/
theorem cacheFile_totals (pathOf : String → String) (files : GoMap String)
    (registry : List (String × String)) (totalLinesMap : GoMap Int)
    (hnd : (registry.map Prod.fst).Nodup)
    (h : getTotalZoneFileLinesToRead files (cacheFileRegistry pathOf registry) =
      .ok totalLinesMap) :
    (∀ zone ∈ registry, (totalLinesMap.get zone.1).getD 0 = lineCount files (pathOf zone.1)) ∧
      (registry.map fun zone => (totalLinesMap.get zone.1).getD 0).sum =
        totalLineCount files (cacheFileRegistry pathOf registry) ∧
      (totalLinesMap.map Prod.snd).sum = totalLineCount files (cacheFileRegistry pathOf registry) := by
  have hnd1 : ((cacheFileRegistry pathOf registry).map Prod.fst).Nodup := by
    rw [cacheFileRegistry_names]
    exact hnd
  obtain ⟨_, i2, i3⟩ := getTotalZoneFileLinesToRead_spec files _ totalLinesMap hnd1 h
  refine ⟨fun zone hz => ?_, ?_, i3⟩
  · exact i2 (zone.1, pathOf zone.1) (List.mem_map.2 ⟨zone, hz, rfl⟩)
  · rw [← cacheFileRegistry_sum pathOf]
    exact totalLineCount_eq_sum files _ totalLinesMap i2

/-- The zone loop of a pre-crawl run, from its start: the published progress is within the sum
of the line counts of the zone files. -/
theorem preCrawl_WithinTotal {σ : Type} (env : PreCrawlEnv σ)
    (registry : List (String × String)) (handlers : σ) (tick : Nat) (w : World)
    (totalLinesMap : GoMap Int) (s1 : PreCrawlRun σ) (stopped : Bool)
    (hnd : (registry.map Prod.fst).Nodup)
    (hpaths : ∀ zone ∈ registry, ∀ zone1 ∈ registry,
      zone.2 ≠ GetPreCrawlFilterOutputFilePath env.cacheFolderPath zone1.1)
    (hmap : getTotalZoneFileLinesToRead w.files registry = .ok totalLinesMap)
    (h : preCrawlZones env totalLinesMap registry
      (preCrawlStart env totalLinesMap handlers tick w) = .ok (s1, stopped)) :
    WithinTotal (totalLineCount w.files registry) s1.world := by
  obtain ⟨_, i2, i3⟩ := getTotalZoneFileLinesToRead_spec w.files registry totalLinesMap hnd hmap
  have hc := preCrawlZones_Counted env totalLinesMap registry _ s1 stopped i2 hpaths h
  rw [totalLineCount_eq_sum w.files registry totalLinesMap i2] at hc
  refine WithinTotal_of_Counted ?_ rfl (le_refl 0) hc
  rw [← i3]
  exact Published_start _ _ w

/-- The zone loop of a post-crawl run, from its start: the published progress is within the sum
of the line counts of the pre-crawl files. -/
theorem postCrawl_WithinTotal {σ : Type} (env : PostCrawlEnv σ)
    (registry : List (String × String)) (handlers : σ) (tick : Nat) (w : World)
    (totalLinesMap : GoMap Int) (s1 : PostCrawlRun σ) (stopped : Bool)
    (hnd : (registry.map Prod.fst).Nodup)
    (hmap : getTotalPreCrawlFileLinesToRead env.cacheFolderPath w.files registry =
      .ok totalLinesMap)
    (h : postCrawlZones env totalLinesMap registry
      (postCrawlStart env totalLinesMap handlers tick w) = .ok (s1, stopped)) :
    WithinTotal
      (totalLineCount w.files
        (cacheFileRegistry (GetPreCrawlFilterOutputFilePath env.cacheFolderPath) registry))
      s1.world := by
  obtain ⟨i2, i4, i3⟩ := cacheFile_totals _ w.files registry totalLinesMap hnd hmap
  obtain ⟨hc, _⟩ := postCrawlZones_spec env totalLinesMap registry _ s1 stopped hnd i2 h
  rw [i4] at hc
  refine WithinTotal_of_Counted ?_ rfl (Int.natCast_nonneg _)
    (hc.weaken (by simp [postCrawlStart]) (le_refl _))
  rw [← i3]
  exact Published_start _ _ w

/-- The zone loop of an indexer run, from its start: the published progress is within the sum
of the line counts of the post-crawl files. -/
theorem indexer_WithinTotal {ι : Type} (env : IndexerEnv ι)
    (registry : List (String × String)) (index : ι) (tick : Nat) (w : World)
    (totalLinesMap : GoMap Int) (s1 : IndexerRun ι) (stopped : Bool)
    (hnd : (registry.map Prod.fst).Nodup)
    (hmap : getTotalPostCrawlFileLinesToRead env.cacheFolderPath w.files registry =
      .ok totalLinesMap)
    (h : indexerZones env totalLinesMap registry
      (indexerStart env totalLinesMap index tick w) = .ok (s1, stopped)) :
    WithinTotal
      (totalLineCount w.files
        (cacheFileRegistry (GetPostCrawlFilterOutputFilePath env.cacheFolderPath) registry))
      s1.world := by
  obtain ⟨i2, i4, i3⟩ := cacheFile_totals _ w.files registry totalLinesMap hnd hmap
  have hc := indexerZones_Counted env totalLinesMap registry _ s1 stopped i2 h
  rw [i4] at hc
  refine WithinTotal_of_Counted ?_ rfl (le_refl 0) hc
  rw [← i3]
  exact Published_start _ _ w

/-- The runners start their zone loops from the start states. -/
theorem runPreCrawlFilters_eq {σ : Type} (env : PreCrawlEnv σ)
    (registry : List (String × String)) (handlers : σ) (tick : Nat) (w : World)
    (totalLinesMap : GoMap Int)
    (hmap : getTotalZoneFileLinesToRead w.files registry = .ok totalLinesMap) :
    runPreCrawlFilters env registry handlers tick w =
      match preCrawlZones env totalLinesMap registry
          (preCrawlStart env totalLinesMap handlers tick w) with
      | .error e => .error e
      | .ok (s, true) => .ok s
      | .ok (s, false) =>
        if !s.bHasAppendedToFileOnce then
          .ok { s with world := { s.world with app := (OnErrored s.world.app
            "Pre-crawl filters didn't produce any output. Unable to continue indexing.") } }
        else
          match OnPreCrawlFiltersFinished s.world.app with
          | .error e => .error e
          | .ok app => .ok { s with world := { s.world with app := app } } := by
  unfold runPreCrawlFilters
  rw [hmap]
  rfl

theorem runIndexer_eq {ι : Type} (env : IndexerEnv ι)
    (registry : List (String × String)) (index : ι) (tick : Nat) (w : World)
    (totalLinesMap : GoMap Int)
    (hmap : getTotalPostCrawlFileLinesToRead env.cacheFolderPath w.files registry =
      .ok totalLinesMap) :
    runIndexer env registry index tick w =
      match indexerZones env totalLinesMap registry
          (indexerStart env totalLinesMap index tick w) with
      | .error e => .error e
      | .ok (s, true) => .ok s
      | .ok (s, false) =>
        match OnReadyToSearch s.world.app with
        | .error e => .error e
        | .ok app => .ok { s with world := { s.world with app := app } } := by
  unfold runIndexer
  rw [hmap]
  rfl


/-! ### C22: the published progress of a stage run -/

/-- C22: during a run of any of the three stages, on any store (fresh or with any checkpoints)
and under any shutdown signals, clock readings and connector schedule, the published progress
stays within the total.  For a registry of distinct zone names, whenever the zone loop of
`runPreCrawlFilters`, `runPostCrawlFilters` or `runIndexer` returns, at its end or on a shutdown
at any line, the published total is the sum of the line counts of the zones' input files (the
zone files, which are not output files of the stage; the pre-crawl files; the post-crawl files),
the published processed count lies between 0 and that total, and the published remaining count
is the total less the processed count and is not negative.  And the processed count never
decreases: from any state of a run whose published progress is that of the runner's counter,
the rest of the zone loop and the rest of a line loop end with published progress of the same
kind and a processed count that is not smaller. -/
theorem progress_within_total {σ τ ι : Type} (pre : PreCrawlEnv σ) (post : PostCrawlEnv τ)
    (indexer : IndexerEnv ι) (registry : List (String × String)) (tick : Nat) (w : World)
    (hnd : (registry.map Prod.fst).Nodup) :
    (∀ handlers totalLinesMap s1 stopped,
      (∀ zone ∈ registry, ∀ zone1 ∈ registry,
        zone.2 ≠ GetPreCrawlFilterOutputFilePath pre.cacheFolderPath zone1.1) →
      getTotalZoneFileLinesToRead w.files registry = .ok totalLinesMap →
      preCrawlZones pre totalLinesMap registry
        (preCrawlStart pre totalLinesMap handlers tick w) = .ok (s1, stopped) →
      WithinTotal (totalLineCount w.files registry) s1.world) ∧
    (∀ handlers totalLinesMap s1 stopped,
      getTotalPreCrawlFileLinesToRead post.cacheFolderPath w.files registry =
        .ok totalLinesMap →
      postCrawlZones post totalLinesMap registry
        (postCrawlStart post totalLinesMap handlers tick w) = .ok (s1, stopped) →
      WithinTotal
        (totalLineCount w.files
          (cacheFileRegistry (GetPreCrawlFilterOutputFilePath post.cacheFolderPath) registry))
        s1.world) ∧
    (∀ index totalLinesMap s1 stopped,
      getTotalPostCrawlFileLinesToRead indexer.cacheFolderPath w.files registry =
        .ok totalLinesMap →
      indexerZones indexer totalLinesMap registry
        (indexerStart indexer totalLinesMap index tick w) = .ok (s1, stopped) →
      WithinTotal
        (totalLineCount w.files
          (cacheFileRegistry (GetPostCrawlFilterOutputFilePath indexer.cacheFolderPath)
            registry))
        s1.world) ∧
    (∀ totalLinesMap (rest : List (String × String)) s s1 stopped total,
      (∀ zone ∈ rest, (totalLinesMap.get zone.1).getD 0 = lineCount s.world.files zone.2) →
      (∀ zone ∈ rest, ∀ zone1 ∈ rest,
        zone.2 ≠ GetPreCrawlFilterOutputFilePath pre.cacheFolderPath zone1.1) →
      preCrawlZones pre totalLinesMap rest s = .ok (s1, stopped) →
      Published total s.world →
      Published total s1.world ∧
        s.world.app.processedWorkItems ≤ s1.world.app.processedWorkItems) ∧
    (∀ totalLinesMap (rest : List (String × String)) s s1 stopped total,
      (rest.map Prod.fst).Nodup →
      (∀ zone ∈ rest, (totalLinesMap.get zone.1).getD 0 =
        lineCount s.world.files
          (GetPreCrawlFilterOutputFilePath post.cacheFolderPath zone.1)) →
      postCrawlZones post totalLinesMap rest s = .ok (s1, stopped) →
      Published total s.world →
      Published total s1.world ∧
        s.world.app.processedWorkItems ≤ s1.world.app.processedWorkItems) ∧
    (∀ totalLinesMap (rest : List (String × String)) s s1 stopped total,
      (∀ zone ∈ rest, (totalLinesMap.get zone.1).getD 0 =
        lineCount s.world.files
          (GetPostCrawlFilterOutputFilePath indexer.cacheFolderPath zone.1)) →
      indexerZones indexer totalLinesMap rest s = .ok (s1, stopped) →
      Published total s.world →
      Published total s1.world ∧
        s.world.app.processedWorkItems ≤ s1.world.app.processedWorkItems) ∧
    (∀ zoneName startLineIndex lines s total,
      Published total s.world →
      Published total (preCrawlLoop pre zoneName startLineIndex lines s).1.world ∧
        s.world.app.processedWorkItems ≤
          (preCrawlLoop pre zoneName startLineIndex lines s).1.world.app.processedWorkItems) ∧
    (∀ zoneName startLineIndex lines s s1 stopped total,
      postCrawlLoop post zoneName startLineIndex lines s = .ok (s1, stopped) →
      Published total s.world →
      Published total s1.world ∧
        s.world.app.processedWorkItems ≤ s1.world.app.processedWorkItems) ∧
    (∀ zoneName startIndex lines s s1 stopped total,
      indexerLoop indexer zoneName startIndex lines s = .ok (s1, stopped) →
      Published total s.world →
      Published total s1.world ∧
        s.world.app.processedWorkItems ≤ s1.world.app.processedWorkItems) := by
  refine ⟨?_, ?_, ?_, ?_, ?_, ?_, ?_, ?_, ?_⟩
  · intro handlers totalLinesMap s1 stopped hpaths hmap h
    exact preCrawl_WithinTotal pre registry handlers tick w totalLinesMap s1 stopped hnd hpaths
      hmap h
  · intro handlers totalLinesMap s1 stopped hmap h
    exact postCrawl_WithinTotal post registry handlers tick w totalLinesMap s1 stopped hnd hmap h
  · intro index totalLinesMap s1 stopped hmap h
    exact indexer_WithinTotal indexer registry index tick w totalLinesMap s1 stopped hnd hmap h
  · intro totalLinesMap rest s s1 stopped total hmap hpaths h hp
    exact monotone_of_Counted
      (preCrawlZones_Counted pre totalLinesMap rest s s1 stopped hmap hpaths h) hp
  · intro totalLinesMap rest s s1 stopped total hnd1 hmap h hp
    exact monotone_of_Counted
      (postCrawlZones_spec post totalLinesMap rest s s1 stopped hnd1 hmap h).1 hp
  · intro totalLinesMap rest s s1 stopped total hmap h hp
    exact monotone_of_Counted
      (indexerZones_Counted indexer totalLinesMap rest s s1 stopped hmap h) hp
  · intro zoneName startLineIndex lines s total hp
    exact monotone_of_Counted (preCrawlLoop_Counted pre zoneName startLineIndex lines 0 s) hp
  · intro zoneName startLineIndex lines s s1 stopped total h hp
    exact monotone_of_Counted
      (postCrawlLoop_spec post zoneName startLineIndex lines 0 s s1 stopped h).1 hp
  · intro zoneName startIndex lines s s1 stopped total h hp
    exact monotone_of_Counted
      (indexerLoop_Counted indexer zoneName startIndex lines 0 s s1 stopped h).1 hp

/-- C22 at the zone `com`, on a fresh store and with no shutdown: the zone loops of the three
stages return, the pre-crawl stage with progress within the total 3 of its zone file, the
post-crawl stage and the indexer with progress within the total 2 of their input files; and the
line loop of the pre-crawl stage over the zone file does not decrease the processed count. -/
theorem progress_within_total_witness :
    (∃ s1, preCrawlZones (exampleEnv fun _ => false) [("com", 3)] exampleRegistry
        (preCrawlStart (exampleEnv fun _ => false) [("com", 3)] () 0
          (exampleStageWorld [] .RunningPreCrawlFilters)) = .ok (s1, false) ∧
      WithinTotal 3 s1.world) ∧
    (∃ s1, postCrawlZones (examplePostCrawlEnv fun _ => false) [("com", 2)] exampleRegistry
        (postCrawlStart (examplePostCrawlEnv fun _ => false) [("com", 2)] () 0
          (exampleStageWorld [] .RunningPostCrawlFilters)) = .ok (s1, false) ∧
      WithinTotal 2 s1.world) ∧
    (∃ s1, indexerZones (exampleIndexerEnv fun _ => false) [("com", 2)] exampleRegistry
        (indexerStart (exampleIndexerEnv fun _ => false) [("com", 2)] [] 0
          (exampleStageWorld [] .RunningIndexer)) = .ok (s1, false) ∧
      WithinTotal 2 s1.world) ∧
    (0 : Int) ≤ (preCrawlLoop (exampleEnv fun _ => false) "com" 0 (ReadLines exampleZoneFile)
        (preCrawlStart (exampleEnv fun _ => false) [("com", 3)] () 0
          (exampleStageWorld [] .RunningPreCrawlFilters))).1.world.app.processedWorkItems := by
  have hnd : (exampleRegistry.map Prod.fst).Nodup := by decide
  have hall := progress_within_total (exampleEnv fun _ => false)
    (examplePostCrawlEnv fun _ => false) (exampleIndexerEnv fun _ => false) exampleRegistry 0
  refine ⟨?_, ?_, ?_, ?_⟩
  · have hok : (preCrawlZones (exampleEnv fun _ => false) [("com", 3)] exampleRegistry
        (preCrawlStart (exampleEnv fun _ => false) [("com", 3)] () 0
          (exampleStageWorld [] .RunningPreCrawlFilters))).map (fun r => r.2) = .ok false := by
      rfl
    cases h : preCrawlZones (exampleEnv fun _ => false) [("com", 3)] exampleRegistry
        (preCrawlStart (exampleEnv fun _ => false) [("com", 3)] () 0
          (exampleStageWorld [] .RunningPreCrawlFilters)) with
    | error e =>
      rw [h] at hok
      cases hok
    | ok r =>
      obtain ⟨s1, stopped⟩ := r
      rw [h] at hok
      cases hok
      exact ⟨s1, rfl, (hall (exampleStageWorld [] .RunningPreCrawlFilters) hnd).1 ()
        [("com", 3)] s1 false (by decide) (by rfl) h⟩
  · have hok : (postCrawlZones (examplePostCrawlEnv fun _ => false) [("com", 2)]
        exampleRegistry
        (postCrawlStart (examplePostCrawlEnv fun _ => false) [("com", 2)] () 0
          (exampleStageWorld [] .RunningPostCrawlFilters))).map (fun r => r.2) = .ok false := by
      rfl
    cases h : postCrawlZones (examplePostCrawlEnv fun _ => false) [("com", 2)] exampleRegistry
        (postCrawlStart (examplePostCrawlEnv fun _ => false) [("com", 2)] () 0
          (exampleStageWorld [] .RunningPostCrawlFilters)) with
    | error e =>
      rw [h] at hok
      cases hok
    | ok r =>
      obtain ⟨s1, stopped⟩ := r
      rw [h] at hok
      cases hok
      exact ⟨s1, rfl, (hall (exampleStageWorld [] .RunningPostCrawlFilters) hnd).2.1 ()
        [("com", 2)] s1 false (by rfl) h⟩
  · have hok : (indexerZones (exampleIndexerEnv fun _ => false) [("com", 2)] exampleRegistry
        (indexerStart (exampleIndexerEnv fun _ => false) [("com", 2)] [] 0
          (exampleStageWorld [] .RunningIndexer))).map (fun r => r.2) = .ok false := by
      rfl
    cases h : indexerZones (exampleIndexerEnv fun _ => false) [("com", 2)] exampleRegistry
        (indexerStart (exampleIndexerEnv fun _ => false) [("com", 2)] [] 0
          (exampleStageWorld [] .RunningIndexer)) with
    | error e =>
      rw [h] at hok
      cases hok
    | ok r =>
      obtain ⟨s1, stopped⟩ := r
      rw [h] at hok
      cases hok
      exact ⟨s1, rfl, (hall (exampleStageWorld [] .RunningIndexer) hnd).2.2.1 []
        [("com", 2)] s1 false (by rfl) h⟩
  · exact ((hall (exampleStageWorld [] .RunningPreCrawlFilters) hnd).2.2.2.2.2.2.1 "com" 0
      (ReadLines exampleZoneFile)
      (preCrawlStart (exampleEnv fun _ => false) [("com", 3)] () 0
        (exampleStageWorld [] .RunningPreCrawlFilters)) 3 ⟨rfl, rfl, rfl⟩).2


/-! ### C29: the end of a pre-crawl or post-crawl run -/

theorem exists_zone_name_iff (registry : List (String × String)) (P : String → Prop) :
    (∃ z ∈ registry.map Prod.fst, P z) ↔ ∃ zone ∈ registry, P zone.1 := by
  constructor
  · rintro ⟨z, hz, hp⟩
    obtain ⟨zone, hzone, rfl⟩ := List.mem_map.1 hz
    exact ⟨zone, hzone, hp⟩
  · rintro ⟨zone, hzone, hp⟩
    exact ⟨zone.1, List.mem_map_of_mem Prod.fst hzone, hp⟩

/-- The flag `bHasAppendedToFileOnce` after a zone loop that started with the flag unset. -/
theorem flag_of_RunWrote {out : String → String} {keysOf : String → List String} {stage : Stage}
    {registry : List (String × String)} {w w1 : World} {flag1 : Bool}
    (h : RunWrote out keysOf stage (registry.map Prod.fst) w false w1 flag1) :
    flag1 = true ↔
      anyZoneFoundFinished stage registry w.db ∨ anyOutputAppended out registry w.files w1.files := by
  obtain ⟨_, _, _, e1⟩ := h
  rw [e1, exists_zone_name_iff registry (fun z => foundFinished stage w.db z),
    exists_zone_name_iff registry
      (fun z => fileContent w1.files (out z) ≠ fileContent w.files (out z))]
  unfold anyZoneFoundFinished anyOutputAppended
  simp

/-- The end of a pre-crawl run whose zone loop has gone through all zones. -/
theorem preCrawl_after_all_zones {σ : Type} (env : PreCrawlEnv σ)
    (registry : List (String × String)) (handlers : σ) (tick : Nat) (w : World)
    (totalLinesMap : GoMap Int) (s : PreCrawlRun σ)
    (hnd : (registry.map Prod.fst).Nodup) (htask : w.app.task = .RunningPreCrawlFilters)
    (hmap : getTotalZoneFileLinesToRead w.files registry = .ok totalLinesMap)
    (h : preCrawlZones env totalLinesMap registry
      (preCrawlStart env totalLinesMap handlers tick w) = .ok (s, false)) :
    ∃ r, runPreCrawlFilters env registry handlers tick w = .ok r ∧
      (anyZoneFoundFinished .PreCrawlFilter registry w.db ∨
          anyOutputAppended (GetPreCrawlFilterOutputFilePath env.cacheFolderPath) registry
            w.files r.world.files →
        r.world.app.task = .FinishedPreCrawlFilters) ∧
      (¬ (anyZoneFoundFinished .PreCrawlFilter registry w.db ∨
          anyOutputAppended (GetPreCrawlFilterOutputFilePath env.cacheFolderPath) registry
            w.files r.world.files) →
        r.world.app = OnErrored s.world.app
          "Pre-crawl filters didn't produce any output. Unable to continue indexing.") := by
  have hw := preCrawlZones_Wrote env totalLinesMap registry _ s hnd h
  have hflag := flag_of_RunWrote hw
  have hrun : s.world.app.task = .RunningPreCrawlFilters := by
    rw [hw.2.2.1]
    exact htask
  rw [runPreCrawlFilters_eq env registry handlers tick w totalLinesMap hmap, h]
  by_cases hf : s.bHasAppendedToFileOnce = true
  · have hfin : OnPreCrawlFiltersFinished s.world.app =
        .ok { s.world.app with
          task := .FinishedPreCrawlFilters
          totalWorkItems := 0
          processedWorkItems := 0
          estimateRemainingTimeInSeconds := 0 } := by
      unfold OnPreCrawlFiltersFinished
      rw [if_neg (by rw [hrun]; simp)]
    simp only [hf, Bool.not_true, Bool.false_eq_true, if_false, hfin]
    exact ⟨_, rfl, fun _ => rfl, fun hn => absurd (hflag.1 hf) hn⟩
  · simp only [hf, Bool.not_false, if_true]
    exact ⟨_, rfl, fun hc => absurd (hflag.2 hc) hf, fun _ => rfl⟩

/-- The end of a post-crawl run whose zone loop has gone through all zones. -/
theorem postCrawl_after_all_zones {σ : Type} (env : PostCrawlEnv σ)
    (registry : List (String × String)) (handlers : σ) (tick : Nat) (w : World)
    (totalLinesMap : GoMap Int) (s : PostCrawlRun σ)
    (hnd : (registry.map Prod.fst).Nodup) (htask : w.app.task = .RunningPostCrawlFilters)
    (hmap : getTotalPreCrawlFileLinesToRead env.cacheFolderPath w.files registry =
      .ok totalLinesMap)
    (h : postCrawlZones env totalLinesMap registry
      (postCrawlStart env totalLinesMap handlers tick w) = .ok (s, false)) :
    ∃ r, runPostCrawlFilters env registry handlers tick w = .ok r ∧
      (anyZoneFoundFinished .PostCrawlFilter registry w.db ∨
          anyOutputAppended (GetPostCrawlFilterOutputFilePath env.cacheFolderPath) registry
            w.files r.world.files →
        r.world.app.task = .FinishedPostCrawlFilters) ∧
      (¬ (anyZoneFoundFinished .PostCrawlFilter registry w.db ∨
          anyOutputAppended (GetPostCrawlFilterOutputFilePath env.cacheFolderPath) registry
            w.files r.world.files) →
        r.world.app = OnErrored s.world.app
          "Post-crawl filters didn't produce any output. Unable to continue indexing.") := by
  obtain ⟨i2, _, _⟩ := cacheFile_totals _ w.files registry totalLinesMap hnd hmap
  have hw := (postCrawlZones_spec env totalLinesMap registry _ s false hnd i2 h).2 rfl
  have hflag := flag_of_RunWrote hw
  have hrun : s.world.app.task = .RunningPostCrawlFilters := by
    rw [hw.2.2.1]
    exact htask
  unfold runPostCrawlFilters
  rw [hmap]
  simp only [h]
  by_cases hf : s.bHasAppendedToFileOnce = true
  · have hfin : OnPostCrawlFiltersFinished s.world.app =
        .ok { s.world.app with
          task := .FinishedPostCrawlFilters
          totalWorkItems := 0
          processedWorkItems := 0
          estimateRemainingTimeInSeconds := 0 } := by
      unfold OnPostCrawlFiltersFinished
      rw [if_neg (by rw [hrun]; simp)]
    simp only [hf, Bool.not_true, Bool.false_eq_true, if_false, hfin]
    exact ⟨_, rfl, fun _ => rfl, fun hn => absurd (hflag.1 hf) hn⟩
  · simp only [hf, Bool.not_false, if_true]
    exact ⟨_, rfl, fun hc => absurd (hflag.2 hc) hf, fun _ => rfl⟩


/-- C29 (amended): after the zone loop of a pre-crawl or post-crawl run has gone through all
zones of a registry of distinct zone names without a shutdown, the run returns; if no zone was
found already finished and nothing was appended to the output file of any zone, the only change
it makes to the application state after the zone loop is `OnErrored` with the stage's own
message, so it enters the Errored state and makes no transition to the stage's Finished state;
if some zone was found already finished or something was appended to the output file of some
zone, it transitions to the stage's Finished state. -/
theorem no_output_is_an_error {σ τ : Type} (pre : PreCrawlEnv σ) (post : PostCrawlEnv τ)
    (registry : List (String × String)) (tick : Nat) (w : World)
    (hnd : (registry.map Prod.fst).Nodup) :
    (∀ handlers totalLinesMap s,
      w.app.task = .RunningPreCrawlFilters →
      getTotalZoneFileLinesToRead w.files registry = .ok totalLinesMap →
      preCrawlZones pre totalLinesMap registry
        (preCrawlStart pre totalLinesMap handlers tick w) = .ok (s, false) →
      ∃ r, runPreCrawlFilters pre registry handlers tick w = .ok r ∧
        (anyZoneFoundFinished .PreCrawlFilter registry w.db ∨
            anyOutputAppended (GetPreCrawlFilterOutputFilePath pre.cacheFolderPath) registry
              w.files r.world.files →
          r.world.app.task = .FinishedPreCrawlFilters) ∧
        (¬ (anyZoneFoundFinished .PreCrawlFilter registry w.db ∨
            anyOutputAppended (GetPreCrawlFilterOutputFilePath pre.cacheFolderPath) registry
              w.files r.world.files) →
          r.world.app = OnErrored s.world.app
              "Pre-crawl filters didn't produce any output. Unable to continue indexing." ∧
            r.world.app.task = .Errored)) ∧
    (∀ handlers totalLinesMap s,
      w.app.task = .RunningPostCrawlFilters →
      getTotalPreCrawlFileLinesToRead post.cacheFolderPath w.files registry =
        .ok totalLinesMap →
      postCrawlZones post totalLinesMap registry
        (postCrawlStart post totalLinesMap handlers tick w) = .ok (s, false) →
      ∃ r, runPostCrawlFilters post registry handlers tick w = .ok r ∧
        (anyZoneFoundFinished .PostCrawlFilter registry w.db ∨
            anyOutputAppended (GetPostCrawlFilterOutputFilePath post.cacheFolderPath) registry
              w.files r.world.files →
          r.world.app.task = .FinishedPostCrawlFilters) ∧
        (¬ (anyZoneFoundFinished .PostCrawlFilter registry w.db ∨
            anyOutputAppended (GetPostCrawlFilterOutputFilePath post.cacheFolderPath) registry
              w.files r.world.files) →
          r.world.app = OnErrored s.world.app
              "Post-crawl filters didn't produce any output. Unable to continue indexing." ∧
            r.world.app.task = .Errored)) := by
  constructor
  · intro handlers totalLinesMap s htask hmap h
    obtain ⟨r, hr, h1, h2⟩ := preCrawl_after_all_zones pre registry handlers tick w
      totalLinesMap s hnd htask hmap h
    exact ⟨r, hr, h1, fun hn => ⟨h2 hn, by rw [h2 hn]; rfl⟩⟩
  · intro handlers totalLinesMap s htask hmap h
    obtain ⟨r, hr, h1, h2⟩ := postCrawl_after_all_zones post registry handlers tick w
      totalLinesMap s hnd htask hmap h
    exact ⟨r, hr, h1, fun hn => ⟨h2 hn, by rw [h2 hn]; rfl⟩⟩

/-- C29 (amended) at the zone `com` on a fresh store, with no shutdown: the pre-crawl run over
the zone file of two records appends to the pre-crawl file and ends in the state
FinishedPreCrawlFilters; the post-crawl run over the pre-crawl file of two records appends to
the post-crawl file and ends in the state FinishedPostCrawlFilters. -/
theorem no_output_is_an_error_witness :
    (runPreCrawlFilters (exampleEnv fun _ => false) exampleRegistry () 0
        (exampleStageWorld [] .RunningPreCrawlFilters)).map
        (fun r => r.world.app.task) = .ok .FinishedPreCrawlFilters ∧
      (runPostCrawlFilters (examplePostCrawlEnv fun _ => false) exampleRegistry () 0
        (exampleStageWorld [] .RunningPostCrawlFilters)).map
        (fun r => r.world.app.task) = .ok .FinishedPostCrawlFilters := by
  have hnd : (exampleRegistry.map Prod.fst).Nodup := by decide
  have hall := no_output_is_an_error (exampleEnv fun _ => false)
    (examplePostCrawlEnv fun _ => false) exampleRegistry 0
  constructor
  · have hok : (preCrawlZones (exampleEnv fun _ => false) [("com", 3)] exampleRegistry
        (preCrawlStart (exampleEnv fun _ => false) [("com", 3)] () 0
          (exampleStageWorld [] .RunningPreCrawlFilters))).map (fun r => r.2) = .ok false := by
      rfl
    have hfile : (runPreCrawlFilters (exampleEnv fun _ => false) exampleRegistry () 0
        (exampleStageWorld [] .RunningPreCrawlFilters)).map
        (fun r => decide (fileContent r.world.files "cache/zone/com/pre_crawl_output.txt" ≠
          fileContent exampleStageFiles "cache/zone/com/pre_crawl_output.txt")) = .ok true := by
      rfl
    cases h : preCrawlZones (exampleEnv fun _ => false) [("com", 3)] exampleRegistry
        (preCrawlStart (exampleEnv fun _ => false) [("com", 3)] () 0
          (exampleStageWorld [] .RunningPreCrawlFilters)) with
    | error e =>
      rw [h] at hok
      cases hok
    | ok p =>
      obtain ⟨s, stopped⟩ := p
      rw [h] at hok
      cases hok
      obtain ⟨r, hr, h1, _⟩ := (hall (exampleStageWorld [] .RunningPreCrawlFilters) hnd).1 ()
        [("com", 3)] s rfl (by rfl) h
      rw [hr] at hfile ⊢
      have hchanged : fileContent r.world.files "cache/zone/com/pre_crawl_output.txt" ≠
          fileContent exampleStageFiles "cache/zone/com/pre_crawl_output.txt" := by
        injection hfile with hfile
        exact of_decide_eq_true hfile
      exact congrArg Except.ok
        (h1 (Or.inr ⟨("com", "zones/com.txt"), List.mem_singleton.2 rfl, hchanged⟩))
  · have hok : (postCrawlZones (examplePostCrawlEnv fun _ => false) [("com", 2)]
        exampleRegistry
        (postCrawlStart (examplePostCrawlEnv fun _ => false) [("com", 2)] () 0
          (exampleStageWorld [] .RunningPostCrawlFilters))).map (fun r => r.2) = .ok false := by
      rfl
    have hfile : (runPostCrawlFilters (examplePostCrawlEnv fun _ => false) exampleRegistry () 0
        (exampleStageWorld [] .RunningPostCrawlFilters)).map
        (fun r => decide (fileContent r.world.files "cache/zone/com/post_crawl_output.txt" ≠
          fileContent exampleStageFiles "cache/zone/com/post_crawl_output.txt")) = .ok true := by
      rfl
    cases h : postCrawlZones (examplePostCrawlEnv fun _ => false) [("com", 2)] exampleRegistry
        (postCrawlStart (examplePostCrawlEnv fun _ => false) [("com", 2)] () 0
          (exampleStageWorld [] .RunningPostCrawlFilters)) with
    | error e =>
      rw [h] at hok
      cases hok
    | ok p =>
      obtain ⟨s, stopped⟩ := p
      rw [h] at hok
      cases hok
      obtain ⟨r, hr, h1, _⟩ := (hall (exampleStageWorld [] .RunningPostCrawlFilters) hnd).2 ()
        [("com", 2)] s rfl (by rfl) h
      rw [hr] at hfile ⊢
      have hchanged : fileContent r.world.files "cache/zone/com/post_crawl_output.txt" ≠
          fileContent exampleStageFiles "cache/zone/com/post_crawl_output.txt" := by
        injection hfile with hfile
        exact of_decide_eq_true hfile
      exact congrArg Except.ok
        (h1 (Or.inr ⟨("com", "zones/com.txt"), List.mem_singleton.2 rfl, hchanged⟩))

/-- C29 (counterexample): on a store in which the stage has already finished the only zone
`com`, the pre-crawl run and the post-crawl run go through the zone without a shutdown and
append nothing, the files after the run being the files before it, yet each ends in the
stage's Finished state, not in the Errored state: a zone found already finished sets
`bHasAppendedToFileOnce`.  On a fresh store and a zone file without a record, the pre-crawl
run appends nothing and ends in the Errored state with its message. -/
theorem finished_zone_counts_as_output :
    (runPreCrawlFilters (exampleEnv fun _ => false) exampleRegistry () 0
        (exampleStageWorld (comFinishedStore .PreCrawlFilter) .RunningPreCrawlFilters)).map
        (fun r => (r.world.app.task, r.world.app.errorDetails,
          decide (r.world.files = exampleStageFiles), r.outputFileBuffer.buffer)) =
      .ok (.FinishedPreCrawlFilters, "", true, "") ∧
    (runPostCrawlFilters (examplePostCrawlEnv fun _ => false) exampleRegistry () 0
        (exampleStageWorld (comFinishedStore .PostCrawlFilter) .RunningPostCrawlFilters)).map
        (fun r => (r.world.app.task, r.world.app.errorDetails,
          decide (r.world.files = exampleStageFiles), r.fileOutputBuffer.buffer)) =
      .ok (.FinishedPostCrawlFilters, "", true, "") ∧
    (runPreCrawlFilters (exampleEnv fun _ => false) exampleRegistry () 0
        { exampleStageWorld [] .RunningPreCrawlFilters with
          files := [("zones/com.txt", commentOnlyZoneFile)] }).map
        (fun r => (r.world.app.task, r.world.app.errorDetails,
          decide (r.world.files = [("zones/com.txt", commentOnlyZoneFile)]),
          r.outputFileBuffer.buffer)) =
      .ok (.Errored, "Pre-crawl filters didn't produce any output. Unable to continue indexing.",
        true, "") := by
  refine ⟨by rfl, by rfl, by rfl⟩


/-! ### C3: the uninterrupted pre-crawl run of a zone -/

theorem readLinesChars_line (line : List Char) (hline : '\n' ∉ line) :
    ∀ (current rest : List Char),
      readLinesChars current (line ++ '\n' :: rest) =
        (current.reverse ++ line ++ ['\n']) :: readLinesChars [] rest := by
  induction line with
  | nil =>
    intro current rest
    simp [readLinesChars]
  | cons c cs ih =>
    intro current rest
    have hc : c ≠ '\n' := fun h => hline (h ▸ List.mem_cons_self _ _)
    have hcs : '\n' ∉ cs := fun h => hline (List.mem_cons_of_mem _ h)
    simp only [List.cons_append, readLinesChars, hc, if_false]
    have h := ih hcs (c :: current) rest
    simp only [List.reverse_cons, List.append_assoc, List.singleton_append] at h
    simpa using h

/-- The reading loop returns the lines of a zone file whose lines all end with a newline. -/
theorem ReadLines_zoneFileOf (lines : List String) (hlines : ∀ line ∈ lines, '\n' ∉ line.toList) :
    ReadLines (zoneFileOf lines) = lines.map fun line => line ++ "\n" := by
  induction lines with
  | nil => rfl
  | cons line rest ih =>
    have h1 : (zoneFileOf (line :: rest)).toList =
        line.toList ++ '\n' :: (zoneFileOf rest).toList := by
      show (line ++ "\n" ++ zoneFileOf rest).data = _
      simp [String.data_append]
    have h2 := ih (fun l hl => hlines l (List.mem_cons_of_mem _ hl))
    unfold ReadLines at h2 ⊢
    rw [h1, readLinesChars_line _ (hlines line (List.mem_cons_self _ _)), List.map_cons, h2,
      List.map_cons]
    congr 1

theorem Fields_line_newline (line : String) : Fields (line ++ "\n") = Fields line := by
  unfold Fields
  have h : (line ++ "\n").toList = line.toList ++ ['\n'] := by
    show (line ++ "\n").data = _
    simp [String.data_append]
  rw [h, fieldsChars_append_space _ _ (by decide)]

/-- On a chain of at least one filter, the records the loop appends are the surviving records
of the lines. -/
theorem emittedRecords_eq_survivingRecords {σ : Type} (filters : List (PreConnectionFilter σ))
    (hne : filters ≠ []) (lines : List String) :
    ∀ handlers : σ,
      emittedRecords filters handlers (lines.map fun line => line ++ "\n") =
        survivingRecords filters handlers lines := by
  induction lines with
  | nil => intro handlers; rfl
  | cons line rest ih =>
    intro handlers
    simp only [List.map_cons, emittedRecords, survivingRecords, parseZoneLine_eq,
      Fields_line_newline]
    by_cases hlen : (Fields line).length < 5
    · simp only [hlen, if_true]
      exact ih handlers
    · simp only [hlen, if_false]
      rw [preCrawlProcessDomainProperties_eq_chain filters hne]
      cases hc : chainOf (preCrawlSteps filters) handlers (buildRecord (Fields line)) with
      | mk handlers1 out =>
        cases out with
        | none => exact ih handlers1
        | some output =>
          show output :: _ = output :: _
          rw [ih handlers1]

/-- C3 (amended): for a zone file whose lines all end with a newline and a filter chain of at
least one filter, a pre-crawl run of the zone that starts from the zero checkpoint and meets no
shutdown returns normally with the zone's checkpoint at finished = true, line_index = 0, with
nothing left in the buffer, and with an output file that holds what it held before the run
(nothing, for a file that did not exist) followed by exactly one JSON line per surviving record
(a line with at least five fields that no filter of the chain dropped), in input order. -/
theorem pre_crawl_zone_uninterrupted {σ : Type} (env : PreCrawlEnv σ)
    (zoneName zoneFile : String) (lines : List String) (totalLines : Int) (s : PreCrawlRun σ)
    (hchain : env.preCrawlFilterArray ≠ [])
    (hlines : ∀ line ∈ lines, '\n' ∉ line.toList)
    (hsig : ∀ n, env.signal n = false)
    (htask : s.world.app.task ≠ .Shutdown)
    (hzero : GetPreCrawlFilterTaskState s.world.db zoneName =
      .ok { BIsFinished := false, LineIndex := 0 })
    (hfile : s.world.files.get zoneFile = some (zoneFileOf lines)) :
    ∃ s1, preCrawlZone env zoneName zoneFile totalLines s = .ok (s1, false) ∧
      GetPreCrawlFilterTaskState s1.world.db zoneName =
        .ok { BIsFinished := true, LineIndex := 0 } ∧
      s1.outputFileBuffer.buffer = "" ∧
      fileContent s1.world.files (GetPreCrawlFilterOutputFilePath env.cacheFolderPath zoneName) =
        fileContent s.world.files (GetPreCrawlFilterOutputFilePath env.cacheFolderPath zoneName) ++
          jsonLines (survivingRecords env.preCrawlFilterArray s.handlers lines) := by
  obtain ⟨s1, h1, h2, h3, h4⟩ := preCrawlZone_uninterrupted env zoneName zoneFile
    (zoneFileOf lines) totalLines s hsig htask hzero hfile
  rw [ReadLines_zoneFileOf lines hlines,
    emittedRecords_eq_survivingRecords env.preCrawlFilterArray hchain lines] at h4
  exact ⟨s1, h1, h2, h3, h4⟩

/-- C3 (amended) on the example zone file of a comment and two records, run without
interruption from an empty store and no output file: the output file holds the JSON lines of
the two records. -/
theorem pre_crawl_zone_uninterrupted_witness :
    ∃ s1, preCrawlZone (exampleEnv fun _ => false) "com" "zones/com.txt" 3
          (exampleStart [] [("zones/com.txt", exampleZoneFile)]) = .ok (s1, false) ∧
      GetPreCrawlFilterTaskState s1.world.db "com" =
        .ok { BIsFinished := true, LineIndex := 0 } ∧
      s1.outputFileBuffer.buffer = "" ∧
      fileContent s1.world.files "cache/zone/com/pre_crawl_output.txt" =
        exampleRecordA ++ exampleRecordB :=
  pre_crawl_zone_uninterrupted (exampleEnv fun _ => false) "com" "zones/com.txt"
    exampleZoneLines 3 (exampleStart [] [("zones/com.txt", exampleZoneFile)])
    (by simp [exampleEnv]) (by decide) (fun _ => rfl) (by decide) rfl rfl

/-- C3 (counterexample): the output file is opened for appending and is never emptied.  On the
example zone file, started from the zero checkpoint with an output file that already holds the
line `stale`, the uninterrupted run ends with the checkpoint (finished, 0) and an output file of
three lines, the old line followed by the JSON lines of the two surviving records: the file
does not hold exactly one line per surviving record. -/
theorem pre_crawl_zone_keeps_prior_output :
    (survivingRecords (exampleEnv fun _ => false).preCrawlFilterArray () exampleZoneLines).length
        = 2 ∧
    exampleOutcome (preCrawlZone (exampleEnv fun _ => false) "com" "zones/com.txt" 3
        (exampleStart [] staleOutputFiles)) =
      some (false, some (.taskStateJSON { BIsFinished := true, LineIndex := 0 }),
        some ("stale\n" ++ exampleRecordA ++ exampleRecordB)) ∧
    CountLinesInFile ("stale\n" ++ exampleRecordA ++ exampleRecordB) = 3 := by
  refine ⟨by rfl, by rfl, by rfl⟩


theorem float64Units_pos : 0 < float64Units := by
  unfold float64Units
  positivity

/-! ### Rounding to `float64` -/

theorem significandShift_spec (fuel : Nat) :
    ∀ a, a ≤ fuel →
      a / 2 ^ significandShift fuel a < 2 ^ 53 ∧
        (significandShift fuel a = 0 ∨ 2 ^ 52 ≤ a / 2 ^ significandShift fuel a) := by
  induction fuel with
  | zero =>
    intro a ha
    have h0 : a = 0 := by omega
    subst h0
    simp [significandShift]
  | succ fuel ih =>
    intro a ha
    unfold significandShift
    by_cases hlt : a < 2 ^ 53
    · simp only [hlt, if_true, pow_zero, Nat.div_one]
      exact ⟨trivial, Or.inl trivial⟩
    · simp only [hlt, if_false]
      have h2 : a / 2 ≤ fuel := by omega
      obtain ⟨i1, i2⟩ := ih (a / 2) h2
      have hdiv : a / 2 ^ (significandShift fuel (a / 2) + 1) =
          a / 2 / 2 ^ significandShift fuel (a / 2) := by
        rw [pow_succ, mul_comm, Nat.div_div_eq_div_mul]
      rw [hdiv]
      refine ⟨i1, Or.inr ?_⟩
      rcases i2 with i2 | i2
      · rw [i2]
        simp only [pow_zero, Nat.div_one]
        omega
      · exact i2

/-- The shift is the least `e` with `a < 2^(53+e)`. -/
theorem significandShift_lt (a : Nat) : a < 2 ^ (53 + significandShift a a) := by
  obtain ⟨h1, _⟩ := significandShift_spec a a (le_refl a)
  have hpos : 0 < 2 ^ significandShift a a := by positivity
  have := (Nat.div_lt_iff_lt_mul hpos).1 h1
  rw [pow_add]
  exact this

theorem significandShift_ge (a : Nat) (h : significandShift a a ≠ 0) :
    2 ^ (52 + significandShift a a) ≤ a := by
  obtain ⟨_, h2⟩ := significandShift_spec a a (le_refl a)
  rcases h2 with h2 | h2
  · exact absurd h2 h
  · have hpos : 0 < 2 ^ significandShift a a := by positivity
    have := (Nat.le_div_iff_mul_le hpos).1 h2
    rw [pow_add]
    exact this

theorem significandShift_mono (a b : Nat) (hab : a ≤ b) :
    significandShift a a ≤ significandShift b b := by
  by_contra hlt
  push_neg at hlt
  have h0 : significandShift a a ≠ 0 := by omega
  have h1 := significandShift_ge a h0
  have h2 := significandShift_lt b
  have h3 : 2 ^ (53 + significandShift b b) ≤ 2 ^ (52 + significandShift a a) :=
    Nat.pow_le_pow_right (by norm_num) (by omega)
  omega

theorem significandShift_unique (a j : Nat) (h1 : 2 ^ (52 + j) ≤ a) (h2 : a < 2 ^ (53 + j)) :
    significandShift a a = j := by
  have h3 := significandShift_lt a
  have h4 : 52 + j < 53 + significandShift a a :=
    (Nat.pow_lt_pow_iff_right (by decide)).1 (lt_of_le_of_lt h1 h3)
  by_cases he : significandShift a a = 0
  · omega
  · have h5 := significandShift_ge a he
    have h6 : 52 + significandShift a a < 53 + j :=
      (Nat.pow_lt_pow_iff_right (by decide)).1 (lt_of_le_of_lt h5 h2)
    omega

theorem log2Bound_spec (a : Nat) (fuel : Nat) :
    ∀ k, a < 2 ^ 2 ^ (k + fuel) → a < 2 ^ 2 ^ log2Bound a fuel k := by
  induction fuel with
  | zero => intro k h; exact h
  | succ fuel ih =>
    intro k h
    show a < 2 ^ 2 ^ (if a < 2 ^ 2 ^ k then k else log2Bound a fuel (k + 1))
    by_cases hk : a < 2 ^ 2 ^ k
    · rw [if_pos hk]
      exact hk
    · rw [if_neg hk]
      apply ih
      rw [show k + 1 + fuel = k + (fuel + 1) by omega]
      exact h

theorem log2Search_spec (a : Nat) (j : Nat) :
    ∀ lo, 2 ^ lo ≤ a → a < 2 ^ (lo + 2 ^ j) →
      2 ^ log2Search a j lo ≤ a ∧ a < 2 ^ (log2Search a j lo + 1) := by
  induction j with
  | zero =>
    intro lo h1 h2
    exact ⟨h1, h2⟩
  | succ j ih =>
    intro lo h1 h2
    show 2 ^ (if 2 ^ (lo + 2 ^ j) ≤ a then log2Search a j (lo + 2 ^ j) else log2Search a j lo) ≤ a ∧
      a < 2 ^ ((if 2 ^ (lo + 2 ^ j) ≤ a then log2Search a j (lo + 2 ^ j)
        else log2Search a j lo) + 1)
    by_cases h : 2 ^ (lo + 2 ^ j) ≤ a
    · rw [if_pos h]
      apply ih _ h
      rw [show lo + 2 ^ j + 2 ^ j = lo + 2 ^ (j + 1) by rw [pow_succ]; omega]
      exact h2
    · rw [if_neg h]
      exact ih lo h1 (not_le.1 h)

/-- The position of the highest bit. -/
theorem floorLog2_spec (a : Nat) (ha : 0 < a) :
    2 ^ floorLog2 a ≤ a ∧ a < 2 ^ (floorLog2 a + 1) := by
  unfold floorLog2
  apply log2Search_spec
  · simpa using ha
  · rw [Nat.zero_add]
    apply log2Bound_spec
    rw [Nat.zero_add]
    exact lt_trans (Nat.lt_two_pow a) (Nat.pow_lt_pow_right (by decide) (Nat.lt_two_pow a))

theorem Float64.shift_eq (a : Nat) : Float64.shift a = significandShift a a := by
  unfold Float64.shift
  rcases Nat.eq_zero_or_pos a with h0 | hpos
  · subst h0
    rfl
  obtain ⟨h1, h2⟩ := floorLog2_spec a hpos
  by_cases hsmall : a < 2 ^ 53
  · have hl : floorLog2 a < 53 :=
      (Nat.pow_lt_pow_iff_right (by decide)).1 (lt_of_le_of_lt h1 hsmall)
    have hs : significandShift a a = 0 := by
      obtain ⟨n, rfl⟩ := Nat.exists_eq_succ_of_ne_zero (Nat.pos_iff_ne_zero.1 hpos)
      show (if n + 1 < 2 ^ 53 then 0 else significandShift n ((n + 1) / 2) + 1) = 0
      rw [if_pos hsmall]
    rw [hs]
    omega
  · have hl : 53 ≤ floorLog2 a := by
      by_contra hcon
      have : floorLog2 a + 1 ≤ 53 := by omega
      have := lt_of_lt_of_le h2 (Nat.pow_le_pow_right (by decide) this)
      exact hsmall this
    symm
    apply significandShift_unique
    · rw [show 52 + (floorLog2 a - 52) = floorLog2 a by omega]
      exact h1
    · rw [show 53 + (floorLog2 a - 52) = floorLog2 a + 1 by omega]
      exact h2

/-- The rounding of a magnitude, with the shift as `significandShift` gives it. -/
theorem Float64.roundUnits_eq (x : ℚ) :
    Float64.roundUnits x =
      roundHalfEven (x / ((2 ^ significandShift ⌊x⌋.toNat ⌊x⌋.toNat : ℕ) : ℚ)) *
        2 ^ significandShift ⌊x⌋.toNat ⌊x⌋.toNat := by
  unfold Float64.roundUnits
  simp only [Float64.shift_eq]

theorem roundHalfEven_natCast (n : Nat) : roundHalfEven (n : ℚ) = n := by
  unfold roundHalfEven
  simp

theorem roundHalfEven_bounds (x : ℚ) (hx : 0 ≤ x) :
    ((⌊x⌋.toNat : Nat) : ℚ) ≤ x ∧ x < (⌊x⌋.toNat : ℚ) + 1 ∧
      (roundHalfEven x = ⌊x⌋.toNat ∨ roundHalfEven x = ⌊x⌋.toNat + 1) := by
  have hf : 0 ≤ ⌊x⌋ := Int.floor_nonneg.2 hx
  have hc : ((⌊x⌋.toNat : Nat) : ℚ) = (⌊x⌋ : ℚ) := by
    have : ((⌊x⌋.toNat : Nat) : ℤ) = ⌊x⌋ := Int.toNat_of_nonneg hf
    exact_mod_cast congrArg (fun z : ℤ => (z : ℚ)) this
  refine ⟨?_, ?_, ?_⟩
  · rw [hc]
    exact Int.floor_le x
  · rw [hc]
    exact Int.lt_floor_add_one x
  · unfold roundHalfEven
    simp only
    split_ifs <;> simp

theorem roundHalfEven_mono (x y : ℚ) (hx : 0 ≤ x) (hxy : x ≤ y) :
    roundHalfEven x ≤ roundHalfEven y := by
  have hy : 0 ≤ y := le_trans hx hxy
  have hfx : 0 ≤ ⌊x⌋ := Int.floor_nonneg.2 hx
  have hfy : 0 ≤ ⌊y⌋ := Int.floor_nonneg.2 hy
  have hmono : ⌊x⌋.toNat ≤ ⌊y⌋.toNat := Int.toNat_le_toNat (Int.floor_mono hxy)
  obtain ⟨bx1, bx2, bx3⟩ := roundHalfEven_bounds x hx
  obtain ⟨by1, by2, by3⟩ := roundHalfEven_bounds y hy
  rcases Nat.lt_or_ge ⌊x⌋.toNat ⌊y⌋.toNat with hlt | hge
  · rcases bx3 with h | h <;> rcases by3 with h' | h' <;> omega
  · have heq : ⌊x⌋.toNat = ⌊y⌋.toNat := le_antisymm hmono hge
    unfold roundHalfEven
    simp only
    rw [heq]
    have hd : x - (⌊y⌋.toNat : ℚ) ≤ y - (⌊y⌋.toNat : ℚ) := by linarith
    split_ifs <;> first | omega | (exfalso; linarith)

theorem roundHalfEven_le_of_le (x : ℚ) (n : Nat) (hx : 0 ≤ x) (h : x ≤ n) :
    roundHalfEven x ≤ n := by
  have := roundHalfEven_mono x n hx h
  rwa [roundHalfEven_natCast] at this

theorem le_roundHalfEven_of_le (x : ℚ) (n : Nat) (h : (n : ℚ) ≤ x) :
    n ≤ roundHalfEven x := by
  have := roundHalfEven_mono n x (Nat.cast_nonneg n) h
  rwa [roundHalfEven_natCast] at this

theorem natCast_floor_toNat (x : ℚ) (hx : 0 ≤ x) :
    ((⌊x⌋.toNat : Nat) : ℚ) ≤ x ∧ x < (⌊x⌋.toNat : ℚ) + 1 := by
  obtain ⟨h1, h2, _⟩ := roundHalfEven_bounds x hx
  exact ⟨h1, h2⟩

/-- The scaled value lies in the binade of its shift. -/
theorem scaled_bounds (x : ℚ) (hx : 0 ≤ x) :
    x / ((2 ^ significandShift ⌊x⌋.toNat ⌊x⌋.toNat : ℕ) : ℚ) < ((2 ^ 53 : ℕ) : ℚ) ∧
      (significandShift ⌊x⌋.toNat ⌊x⌋.toNat ≠ 0 →
        ((2 ^ 52 : ℕ) : ℚ) ≤ x / ((2 ^ significandShift ⌊x⌋.toNat ⌊x⌋.toNat : ℕ) : ℚ)) := by
  obtain ⟨h1, h2⟩ := natCast_floor_toNat x hx
  have hpos : (0 : ℚ) < ((2 ^ significandShift ⌊x⌋.toNat ⌊x⌋.toNat : ℕ) : ℚ) := by positivity
  constructor
  · rw [div_lt_iff₀ hpos]
    have h3 := significandShift_lt ⌊x⌋.toNat
    have h4 : ((⌊x⌋.toNat + 1 : ℕ) : ℚ) ≤ ((2 ^ (53 + significandShift ⌊x⌋.toNat ⌊x⌋.toNat) : ℕ) : ℚ) := by
      exact_mod_cast h3
    have h5 : ((2 ^ (53 + significandShift ⌊x⌋.toNat ⌊x⌋.toNat) : ℕ) : ℚ) =
        ((2 ^ 53 : ℕ) : ℚ) * ((2 ^ significandShift ⌊x⌋.toNat ⌊x⌋.toNat : ℕ) : ℚ) := by
      rw [pow_add]
      push_cast
      ring
    rw [← h5]
    push_cast at h4 ⊢
    linarith
  · intro hne
    rw [le_div_iff₀ hpos]
    have h3 := significandShift_ge ⌊x⌋.toNat hne
    have h4 : ((2 ^ (52 + significandShift ⌊x⌋.toNat ⌊x⌋.toNat) : ℕ) : ℚ) ≤ ((⌊x⌋.toNat : ℕ) : ℚ) := by
      exact_mod_cast h3
    have h5 : ((2 ^ (52 + significandShift ⌊x⌋.toNat ⌊x⌋.toNat) : ℕ) : ℚ) =
        ((2 ^ 52 : ℕ) : ℚ) * ((2 ^ significandShift ⌊x⌋.toNat ⌊x⌋.toNat : ℕ) : ℚ) := by
      rw [pow_add]
      push_cast
      ring
    rw [← h5]
    linarith

theorem Float64.roundUnits_mono (x y : ℚ) (hx : 0 ≤ x) (hxy : x ≤ y) :
    Float64.roundUnits x ≤ Float64.roundUnits y := by
  have hy : 0 ≤ y := le_trans hx hxy
  have hfl : ⌊x⌋.toNat ≤ ⌊y⌋.toNat := Int.toNat_le_toNat (Int.floor_mono hxy)
  have he := significandShift_mono _ _ hfl
  obtain ⟨bx1, _⟩ := scaled_bounds x hx
  obtain ⟨_, by2⟩ := scaled_bounds y hy
  simp only [Float64.roundUnits_eq]
  generalize significandShift ⌊x⌋.toNat ⌊x⌋.toNat = ex at he bx1
  generalize significandShift ⌊y⌋.toNat ⌊y⌋.toNat = ey at he by2
  have hpx : (0 : ℚ) < ((2 ^ ex : ℕ) : ℚ) := by positivity
  rcases Nat.lt_or_ge ex ey with hlt | hge
  · have h1 : roundHalfEven (x / ((2 ^ ex : ℕ) : ℚ)) ≤ 2 ^ 53 :=
      roundHalfEven_le_of_le _ _ (div_nonneg hx (le_of_lt hpx)) (le_of_lt bx1)
    have h2 : 2 ^ 52 ≤ roundHalfEven (y / ((2 ^ ey : ℕ) : ℚ)) :=
      le_roundHalfEven_of_le _ _ (by2 (by omega))
    calc roundHalfEven (x / ((2 ^ ex : ℕ) : ℚ)) * 2 ^ ex
        ≤ 2 ^ 53 * 2 ^ ex := Nat.mul_le_mul_right _ h1
      _ = 2 ^ 52 * 2 ^ (ex + 1) := by rw [pow_succ]; ring
      _ ≤ 2 ^ 52 * 2 ^ ey :=
          Nat.mul_le_mul_left _ (Nat.pow_le_pow_right (by norm_num) hlt)
      _ ≤ roundHalfEven (y / ((2 ^ ey : ℕ) : ℚ)) * 2 ^ ey := Nat.mul_le_mul_right _ h2
  · have heq : ex = ey := le_antisymm he hge
    subst heq
    apply Nat.mul_le_mul_right
    apply roundHalfEven_mono _ _ (div_nonneg hx (le_of_lt hpx))
    exact div_le_div_of_nonneg_right hxy (le_of_lt hpx)

/-- A positive whole number of units does not round to zero. -/
theorem Float64.roundUnits_pos (n : Nat) (hn : 0 < n) : 0 < Float64.roundUnits (n : ℚ) := by
  have hx : (0 : ℚ) ≤ (n : ℚ) := Nat.cast_nonneg n
  obtain ⟨_, b2⟩ := scaled_bounds (n : ℚ) hx
  simp only [Float64.roundUnits_eq]
  generalize significandShift ⌊(n : ℚ)⌋.toNat ⌊(n : ℚ)⌋.toNat = e at b2
  apply Nat.mul_pos _ (by positivity)
  by_cases he : e = 0
  · subst he
    have h1 : (n : ℚ) / ((2 ^ 0 : ℕ) : ℚ) = (n : ℚ) := by simp
    rw [h1, roundHalfEven_natCast]
    exact hn
  · have := le_roundHalfEven_of_le _ _ (b2 he)
    have h2 : 0 < 2 ^ 52 := by norm_num
    omega

theorem Float64.round_zero : Float64.round 0 = .finite 0 := by decide!

theorem Float64.round_one : Float64.round 1 = .finite 1 := by decide!

/-- Rounding is monotone on the non-negative numbers, and a number below one that rounds to a
finite value rounds to a finite value. -/
theorem Float64.round_mono (x y b : ℚ) (hx : 0 ≤ x) (hxy : x ≤ y)
    (hy : Float64.round y = .finite b) :
    ∃ a, Float64.round x = .finite a ∧ 0 ≤ a ∧ a ≤ b := by
  have hy0 : 0 ≤ y := le_trans hx hxy
  have hU := float64Units_pos
  have hmono := Float64.roundUnits_mono (|x| * float64Units) (|y| * float64Units)
    (by positivity) (by
      rw [abs_of_nonneg hx, abs_of_nonneg hy0]
      exact mul_le_mul_of_nonneg_right hxy (le_of_lt hU))
  unfold Float64.round at hy ⊢
  simp only at hy ⊢
  have hxn : ¬ x < 0 := not_lt.2 hx
  have hyn : ¬ y < 0 := not_lt.2 hy0
  by_cases hov : 2 ^ 2098 ≤ Float64.roundUnits (|y| * float64Units)
  · rw [if_pos hov] at hy
    cases hy
  · rw [if_neg hov, if_neg hyn] at hy
    have hovx : ¬ 2 ^ 2098 ≤ Float64.roundUnits (|x| * float64Units) := by omega
    rw [if_neg hovx, if_neg hxn]
    injection hy with hy
    refine ⟨_, rfl, by positivity, ?_⟩
    rw [← hy]
    apply div_le_div_of_nonneg_right _ (le_of_lt hU)
    exact_mod_cast hmono

/-- A `float64` is a whole number of units of `2^-1074`. -/
theorem isFloat64_units (q : ℚ) (h : isFloat64 q) : ∃ n : ℤ, q * float64Units = n := by
  unfold isFloat64 Float64.round at h
  simp only at h
  have hU := float64Units_pos
  generalize Float64.roundUnits (|q| * float64Units) = k at h
  split_ifs at h with h1 h2
  · injection h with h
    refine ⟨-(k : ℤ), ?_⟩
    rw [← h]
    push_cast
    field_simp
  · injection h with h
    refine ⟨(k : ℤ), ?_⟩
    rw [← h]
    push_cast
    field_simp

/-- The difference of two different `float64` values does not round to zero. -/
theorem Float64.round_sub_ne_zero (a b : ℚ) (ha : isFloat64 a) (hb : isFloat64 b)
    (hne : a ≠ b) : Float64.round (a - b) ≠ .finite 0 := by
  obtain ⟨na, hna⟩ := isFloat64_units a ha
  obtain ⟨nb, hnb⟩ := isFloat64_units b hb
  have hU := float64Units_pos
  have hd : |a - b| * float64Units = ((na - nb).natAbs : ℚ) := by
    have h1 : (a - b) * float64Units = ((na - nb : ℤ) : ℚ) := by
      rw [sub_mul, hna, hnb]
      push_cast
      rfl
    rw [← abs_of_pos hU, ← abs_mul, h1, Nat.cast_natAbs]
    push_cast
    rfl
  have hn0 : 0 < (na - nb).natAbs := by
    apply Int.natAbs_pos.2
    intro h0
    apply hne
    have h1 : a * float64Units = b * float64Units := by
      rw [hna, hnb]
      have : na = nb := by omega
      rw [this]
    exact mul_right_cancel₀ (ne_of_gt hU) h1
  have hk := Float64.roundUnits_pos _ hn0
  unfold Float64.round
  simp only
  rw [hd]
  generalize Float64.roundUnits ((na - nb).natAbs : ℚ) = k at hk
  intro h
  have hkq : (0 : ℚ) < (k : ℚ) := by exact_mod_cast hk
  have hq : (k : ℚ) / float64Units > 0 := div_pos hkq hU
  split_ifs at h with h1 h2
  · injection h with h
    linarith
  · injection h with h
    linarith


/-! ### C5: the score normalisation -/

theorem findMinMax_fold_finite (raw : GoMap ℚ) :
    ∀ (mn mx : ℚ) (first : Bool),
      (finiteScores raw).foldl
        (fun (acc : Float64 × Float64 × Bool) kv =>
          if acc.2.2 then (kv.2, kv.2, false)
          else
            let maxScore := if Float64.lt acc.2.1 kv.2 then kv.2 else acc.2.1
            let minScore := if Float64.lt kv.2 acc.1 then kv.2 else acc.1
            (minScore, maxScore, false))
        (.finite mn, .finite mx, first) =
      (.finite (raw.foldl
          (fun (acc : ℚ × ℚ × Bool) kv =>
            if acc.2.2 then (kv.2, kv.2, false)
            else
              let maxScore := if kv.2 > acc.2.1 then kv.2 else acc.2.1
              let minScore := if kv.2 < acc.1 then kv.2 else acc.1
              (minScore, maxScore, false))
          (mn, mx, first)).1,
        .finite (raw.foldl
          (fun (acc : ℚ × ℚ × Bool) kv =>
            if acc.2.2 then (kv.2, kv.2, false)
            else
              let maxScore := if kv.2 > acc.2.1 then kv.2 else acc.2.1
              let minScore := if kv.2 < acc.1 then kv.2 else acc.1
              (minScore, maxScore, false))
          (mn, mx, first)).2.1,
        (raw.foldl
          (fun (acc : ℚ × ℚ × Bool) kv =>
            if acc.2.2 then (kv.2, kv.2, false)
            else
              let maxScore := if kv.2 > acc.2.1 then kv.2 else acc.2.1
              let minScore := if kv.2 < acc.1 then kv.2 else acc.1
              (minScore, maxScore, false))
          (mn, mx, first)).2.2) := by
  induction raw with
  | nil => intro mn mx first; rfl
  | cons e rest ih =>
    intro mn mx first
    simp only [finiteScores, List.map_cons, List.foldl_cons]
    cases first with
    | true =>
      simp only [if_true]
      exact ih e.2 e.2 false
    | false =>
      simp only [Bool.false_eq_true, if_false, Float64.lt, decide_eq_true_eq, gt_iff_lt]
      have h := ih (if e.2 < mn then e.2 else mn) (if mx < e.2 then e.2 else mx) false
      simp only [finiteScores] at h
      rw [← h]
      congr 2
      · split <;> rfl
      · congr 1
        split <;> rfl

/-- On finite scores `findMinMaxIndexerScore` returns the least and the greatest score. -/
theorem findMinMaxIndexerScore_finite (raw : GoMap ℚ) :
    findMinMaxIndexerScore (finiteScores raw) =
      (.finite (scoreBounds raw).1, .finite (scoreBounds raw).2) := by
  unfold findMinMaxIndexerScore scoreBounds
  simp only
  rw [findMinMax_fold_finite raw 0 0 true]

/-- The map `normalizeIndexerScore` returns for finite scores, as one assignment per entry. -/
theorem normalizeIndexerScore_finite (raw : GoMap ℚ) :
    normalizeIndexerScore (finiteScores raw) =
      raw.foldl
        (fun p kv => GoMap.set p kv.1
          ((fun score : ℚ =>
            if Float64.round ((scoreBounds raw).2 - (scoreBounds raw).1) = .finite 0 then
              Float64.finite 1
            else
              Float64.div (Float64.round (score - (scoreBounds raw).1))
                (Float64.round ((scoreBounds raw).2 - (scoreBounds raw).1))) kv.2))
        [] := by
  unfold normalizeIndexerScore
  simp only [findMinMaxIndexerScore_finite, Float64.sub]
  unfold finiteScores
  rw [List.foldl_map]
  congr 1
  funext p kv
  simp only [Float64.sub]
  split <;> rfl

/-- C5 (amended): for every score map of finite `float64` scores in which no difference of two
scores overflows, `normalizeIndexerScore` returns a map with the same keys and finite values.
When the scores are not all equal, every key holding the minimum raw score maps to 0, every key
holding the maximum raw score maps to 1, and every value lies in [0, 1]; when all scores are
equal, every key maps to 1.  (For the empty map there is nothing to say.) -/
theorem normalize_indexer_score (raw : GoMap ℚ) (hwf : GoMap.WF raw)
    (hrep : ∀ e ∈ raw, isFloat64 e.2)
    (hrange : ∀ a ∈ raw, ∀ b ∈ raw, ∃ r, Float64.round (a.2 - b.2) = .finite r) :
    GoMap.keys (normalizeIndexerScore (finiteScores raw)) = GoMap.keys raw ∧
      ∀ k s, GoMap.get raw k = some s →
        ∃ v, GoMap.get (normalizeIndexerScore (finiteScores raw)) k = some (.finite v) ∧
          ((∃ a ∈ raw, ∃ b ∈ raw, a.2 ≠ b.2) →
            0 ≤ v ∧ v ≤ 1 ∧
              ((∀ e ∈ raw, s ≤ e.2) → v = 0) ∧
              ((∀ e ∈ raw, e.2 ≤ s) → v = 1)) ∧
          ((∀ a ∈ raw, ∀ b ∈ raw, a.2 = b.2) → v = 1) := by
  constructor
  · rw [normalizeIndexerScore_finite]
    have h := GoMap.keys_foldl_set
      (fun score : ℚ =>
        if Float64.round ((scoreBounds raw).2 - (scoreBounds raw).1) = .finite 0 then
          Float64.finite 1
        else
          Float64.div (Float64.round (score - (scoreBounds raw).1))
            (Float64.round ((scoreBounds raw).2 - (scoreBounds raw).1)))
      raw hwf [] (by intro k _; simp [GoMap.keys])
    rw [h]
    simp [GoMap.keys]
  · intro k s hk
    have hmem : (k, s) ∈ raw := GoMap.mem_of_get hk
    have hne : raw ≠ [] := by
      intro h
      rw [h] at hmem
      cases hmem
    obtain ⟨hb, ⟨emin, hemin, hmin⟩, ⟨emax, hemax, hmax⟩⟩ := findMinMax_spec raw hne
    have hs := hb (k, s) hmem
    simp only at hs
    have hget := GoMap.get_foldl_set
      (fun score : ℚ =>
        if Float64.round ((scoreBounds raw).2 - (scoreBounds raw).1) = .finite 0 then
          Float64.finite 1
        else
          Float64.div (Float64.round (score - (scoreBounds raw).1))
            (Float64.round ((scoreBounds raw).2 - (scoreBounds raw).1)))
      raw hwf k []
    rw [← normalizeIndexerScore_finite, hk] at hget
    simp only [Option.map_some'] at hget
    obtain ⟨r, hr⟩ := hrange emax hemax emin hemin
    rw [← hmax, ← hmin] at hr
    -- the difference of the score and the minimum
    obtain ⟨t, ht, ht0, htr⟩ := Float64.round_mono (s - (scoreBounds raw).1)
      ((scoreBounds raw).2 - (scoreBounds raw).1) r (by linarith [hs.1]) (by linarith [hs.2]) hr
    have hr0 : 0 ≤ r := le_trans ht0 htr
    by_cases hall : ∀ a ∈ raw, ∀ b ∈ raw, a.2 = b.2
    · have hz : (scoreBounds raw).2 - (scoreBounds raw).1 = 0 := by
        rw [hmin, hmax, hall emax hemax emin hemin]
        ring
      have hrz : Float64.round ((scoreBounds raw).2 - (scoreBounds raw).1) = .finite 0 := by
        rw [hz]
        exact Float64.round_zero
      rw [if_pos hrz] at hget
      refine ⟨1, hget, ?_, fun _ => rfl⟩
      rintro ⟨a, ha, b, hb1, hab⟩
      exact absurd (hall a ha b hb1) hab
    · have hdiff : ∃ a ∈ raw, ∃ b ∈ raw, a.2 ≠ b.2 := by
        push_neg at hall
        exact hall
      have hne2 : (scoreBounds raw).2 ≠ (scoreBounds raw).1 := by
        obtain ⟨a, ha, b, hb1, hab⟩ := hdiff
        intro heq
        have h1 := hb a ha
        have h2 := hb b hb1
        apply hab
        linarith [h1.1, h1.2, h2.1, h2.2]
      have hrnz : Float64.round ((scoreBounds raw).2 - (scoreBounds raw).1) ≠ .finite 0 := by
        apply Float64.round_sub_ne_zero
        · rw [hmax]
          exact hrep emax hemax
        · rw [hmin]
          exact hrep emin hemin
        · exact hne2
      have hrpos : 0 < r := by
        rcases lt_or_eq_of_le hr0 with h | h
        · exact h
        · exfalso
          apply hrnz
          rw [hr, ← h]
      rw [if_neg hrnz, ht, hr] at hget
      have hrne : r ≠ 0 := ne_of_gt hrpos
      simp only [Float64.div, hrne, if_false] at hget
      have hq0 : 0 ≤ t / r := div_nonneg ht0 (le_of_lt hrpos)
      have hq1 : t / r ≤ 1 := (div_le_one hrpos).2 htr
      obtain ⟨v, hv, hv0, hv1⟩ := Float64.round_mono (t / r) 1 1 hq0 hq1 Float64.round_one
      rw [hv] at hget
      refine ⟨v, hget, fun _ => ⟨hv0, hv1, ?_, ?_⟩, fun h => absurd h hall⟩
      · intro hsmin
        have h2 : s = (scoreBounds raw).1 := by
          apply le_antisymm
          · rw [hmin]
            exact hsmin emin hemin
          · exact hs.1
        have ht2 : t = 0 := by
          rw [h2, sub_self, Float64.round_zero] at ht
          injection ht with ht
          exact ht.symm
        rw [ht2, zero_div, Float64.round_zero] at hv
        injection hv with hv
        exact hv.symm
      · intro hsmax
        have h2 : s = (scoreBounds raw).2 := by
          apply le_antisymm
          · exact hs.2
          · rw [hmax]
            exact hsmax emax hemax
        have ht2 : t = r := by
          rw [h2, hr] at ht
          injection ht with ht
          exact ht.symm
        rw [ht2, div_self hrne, Float64.round_one] at hv
        injection hv with hv
        exact hv.symm

/-- C5 (amended) on a map of the three scores 2, 5 and 8: the scores are `float64` values, no
difference overflows, the result has the same keys, and the key of the score 2 maps to 0. -/
theorem normalize_indexer_score_witness :
    GoMap.keys (normalizeIndexerScore (finiteScores [("com_0", 2), ("com_1", 5), ("org_4", 8)])) =
        ["com_0", "com_1", "org_4"] ∧
      GoMap.get (normalizeIndexerScore (finiteScores [("com_0", 2), ("com_1", 5), ("org_4", 8)]))
        "com_0" = some (.finite 0) := by
  have hdiff : ∀ a ∈ [("com_0", (2 : ℚ)), ("com_1", 5), ("org_4", 8)],
      ∀ b ∈ [("com_0", (2 : ℚ)), ("com_1", 5), ("org_4", 8)],
        Float64.round (a.2 - b.2) = .finite (a.2 - b.2) := by decide!
  have h := normalize_indexer_score [("com_0", 2), ("com_1", 5), ("org_4", 8)] (by decide)
    (by decide!) (fun a ha b hb => ⟨a.2 - b.2, hdiff a ha b hb⟩)
  refine ⟨h.1, ?_⟩
  obtain ⟨v, hv, h1, _⟩ := h.2 "com_0" 2 rfl
  have h2 := h1 ⟨("com_0", 2), by simp, ("com_1", 5), by simp, by norm_num⟩
  have h3 : v = 0 := by
    apply h2.2.2.1
    intro e he
    simp only [List.mem_cons, List.mem_singleton, List.not_mem_nil, or_false] at he
    rcases he with he | he | he <;> subst he <;> norm_num
  rw [hv, h3]

/-- C5 (counterexample): on the score map `a = -2^1023`, `b = 2^1023`, `c = 0` of three finite
`float64` scores, the range `2^1024` overflows to `+Inf`, and the key `b`, which holds the
maximum raw score, maps to a NaN, not to 1; `a` and `c` map to 0.  On the score map `a = +Inf`,
`b = 0` the key `a`, which holds the maximum raw score, maps to a NaN as well. -/
theorem normalize_indexer_score_overflow :
    (∀ e ∈ wideScores, ∃ q, e.2 = Float64.finite q ∧ isFloat64 q) ∧
      Float64.sub (.finite (2 ^ 1023)) (.finite (-(2 ^ 1023))) = .inf false ∧
      normalizeIndexerScore wideScores =
        [("a", .finite 0), ("b", .nan), ("c", .finite 0)] ∧
      normalizeIndexerScore [("a", .inf false), ("b", .finite 0)] =
        [("a", .nan), ("b", .finite 0)] := by
  refine ⟨?_, by decide!, by decide!, by decide!⟩
  intro e he
  simp only [wideScores, List.mem_cons, List.mem_singleton, List.not_mem_nil, or_false] at he
  rcases he with he | he | he <;> subst he
  · exact ⟨_, rfl, by decide!⟩
  · exact ⟨_, rfl, by decide!⟩
  · exact ⟨_, rfl, by decide!⟩

/-! ## The JSON round trip through the text -/

/-! ### Reading back the text of `json.Marshal`: strings -/

theorem hexValue_hexDigit (d : Nat) (h : d < 16) : hexValue (hexDigit d) = some d := by
  interval_cases d <;> decide

theorem hexValue4_hexDigit (n : Nat) (h : n < 65536) :
    hexValue4 (hexDigit (n / 4096 % 16)) (hexDigit (n / 256 % 16)) (hexDigit (n / 16 % 16))
      (hexDigit (n % 16)) = some n := by
  unfold hexValue4
  rw [hexValue_hexDigit _ (Nat.mod_lt _ (by decide)), hexValue_hexDigit _ (Nat.mod_lt _ (by decide)),
    hexValue_hexDigit _ (Nat.mod_lt _ (by decide)), hexValue_hexDigit _ (Nat.mod_lt _ (by decide))]
  simp only [Option.some.injEq]
  omega

theorem String.toList_join (l : List String) (acc : String) :
    (l.foldl (fun r s => r ++ s) acc).toList =
      acc.toList ++ (l.map String.toList).foldr (fun a b => a ++ b) [] := by
  induction l generalizing acc with
  | nil => simp
  | cons a l ih =>
    rw [List.foldl_cons, ih]
    simp [String.toList, String.data_append, List.append_assoc]

theorem escapeChars_eq (cs : List Char) :
    (String.join (cs.map jsonEscapeChar)).toList = escapeChars cs := by
  unfold String.join
  rw [String.toList_join]
  induction cs with
  | nil => rfl
  | cons c cs ih =>
    simp only [List.map_cons, List.foldr_cons, escapeChars]
    simp only [String.toList, List.nil_append] at ih ⊢
    rw [ih]

theorem jsonQuote_toList (s : String) :
    (jsonQuote s).toList = '"' :: (escapeChars s.toList ++ ['"']) := by
  unfold jsonQuote
  show ("\"" ++ String.join (s.toList.map jsonEscapeChar) ++ "\"").data = _
  rw [String.data_append, String.data_append]
  have h := escapeChars_eq s.toList
  simp only [String.toList] at h ⊢
  rw [h]
  rfl

theorem Char.eq_ofNat_of_toNat (c : Char) (n : Nat) (h : c.toNat = n) : c = Char.ofNat n := by
  rw [← h, Char.ofNat_toNat]

theorem readChar_cons (c : Char) (rest : List Char) :
    readChar (c :: rest) =
      if c = '"' then some (none, rest)
      else if c = '\\' then
        match rest with
        | [] => none
        | e :: rest1 =>
          if e = 'u' then
            match rest1 with
            | a :: b :: c :: d :: rest2 =>
              match hexValue4 a b c d with
              | none => none
              | some n =>
                match unescapeUnit n rest2 with
                | (x, false) => some (some x, rest2)
                | (x, true) => some (some x, rest2.drop 6)
            | _ => none
          else
            match unescapeChar e with
            | some x => some (some x, rest1)
            | none => none
      else if c.toNat < 0x20 then none
      else some (some c, rest) := rfl

/-- A short escape `\e` is read as the character it stands for. -/
theorem readChar_short (e x : Char) (tail : List Char) (he : e ≠ 'u')
    (hx : unescapeChar e = some x) : readChar ('\\' :: e :: tail) = some (some x, tail) := by
  rw [readChar_cons, if_neg (by decide), if_pos rfl]
  simp only [he, if_false, hx]

/-- Reading what `json.Marshal` writes for one character gives the character. -/
theorem readChar_jsonEscapeChar (c : Char) (tail : List Char) :
    readChar ((jsonEscapeChar c).toList ++ tail) = some (some c, tail) := by
  unfold jsonEscapeChar
  by_cases h1 : c = '"'
  · subst h1
    exact readChar_short '"' '"' tail (by decide) (by decide)
  rw [if_neg h1]
  by_cases h2 : c = '\\'
  · subst h2
    exact readChar_short '\\' '\\' tail (by decide) (by decide)
  rw [if_neg h2]
  by_cases h3 : c.toNat = 8
  · have := Char.eq_ofNat_of_toNat c 8 h3
    subst this
    exact readChar_short 'b' _ tail (by decide) (by decide)
  rw [if_neg h3]
  by_cases h4 : c.toNat = 12
  · have := Char.eq_ofNat_of_toNat c 12 h4
    subst this
    exact readChar_short 'f' _ tail (by decide) (by decide)
  rw [if_neg h4]
  by_cases h5 : c = '\n'
  · subst h5
    exact readChar_short 'n' _ tail (by decide) (by decide)
  rw [if_neg h5]
  by_cases h6 : c = '\r'
  · subst h6
    exact readChar_short 'r' _ tail (by decide) (by decide)
  rw [if_neg h6]
  by_cases h7 : c = '\t'
  · subst h7
    exact readChar_short 't' _ tail (by decide) (by decide)
  rw [if_neg h7]
  by_cases h8 : c.toNat < 0x20 ∨ c = '<' ∨ c = '>' ∨ c = '&' ∨ c.toNat = 0x2028 ∨ c.toNat = 0x2029
  · rw [if_pos h8]
    have hlt : c.toNat < 0xD800 := by
      rcases h8 with h | h | h | h | h | h
      · omega
      · subst h; decide
      · subst h; decide
      · subst h; decide
      · omega
      · omega
    have hhex := hexValue4_hexDigit c.toNat (by omega)
    have hunit : unescapeUnit c.toNat tail = (c, false) := by
      unfold unescapeUnit
      rw [if_neg (by omega), Char.ofNat_toNat]
    show readChar ('\\' :: 'u' :: hexDigit (c.toNat / 4096 % 16) :: hexDigit (c.toNat / 256 % 16) ::
      hexDigit (c.toNat / 16 % 16) :: hexDigit (c.toNat % 16) :: tail) = _
    rw [readChar_cons, if_neg (by decide), if_pos rfl]
    simp only [if_true, hhex, hunit]
  · rw [if_neg h8]
    push_neg at h8
    show readChar (c :: tail) = _
    rw [readChar_cons, if_neg h1, if_neg h2, if_neg (not_lt.2 h8.1)]

theorem readString_succ (fuel : Nat) (cs : List Char) :
    readString (fuel + 1) cs =
      match readChar cs with
      | none => none
      | some (none, rest) => some ([], rest)
      | some (some c, rest) =>
        (readString fuel rest).map fun (r : List Char × List Char) => (c :: r.1, r.2) := rfl

/-- Reading what `json.Marshal` writes for a string, from behind the opening quote, gives the
string and the text behind the closing quote. -/
theorem readString_escapeChars (cs rest : List Char) :
    ∀ fuel, cs.length < fuel →
      readString fuel (escapeChars cs ++ '"' :: rest) = some (cs, rest) := by
  induction cs with
  | nil =>
    intro fuel h
    obtain ⟨fuel, rfl⟩ := Nat.exists_eq_succ_of_ne_zero (Nat.pos_iff_ne_zero.1 h)
    rw [readString_succ]
    show (match readChar ('"' :: rest) with
      | none => none
      | some (none, rest) => some ([], rest)
      | some (some c, rest) =>
        (readString fuel rest).map fun (r : List Char × List Char) => (c :: r.1, r.2)) = _
    rw [readChar_cons, if_pos rfl]
  | cons c cs ih =>
    intro fuel h
    obtain ⟨fuel, rfl⟩ :=
      Nat.exists_eq_succ_of_ne_zero (Nat.pos_iff_ne_zero.1 (by omega : 0 < fuel))
    simp only [escapeChars, List.append_assoc]
    rw [readString_succ, readChar_jsonEscapeChar]
    simp only
    rw [ih fuel (by simpa using h)]
    rfl

/-- The text `json.Marshal` writes for a string is at least as long as the string. -/
theorem length_escapeChars (cs : List Char) : cs.length ≤ (escapeChars cs).length := by
  induction cs with
  | nil => simp [escapeChars]
  | cons c cs ih =>
    have h : 1 ≤ (jsonEscapeChar c).toList.length := by
      unfold jsonEscapeChar unicodeEscape
      split_ifs <;> simp [String.toList]
    simp only [escapeChars, List.length_append, List.length_cons]
    omega
/-! ### Reading back the text of `json.Marshal`: decimal digits -/

theorem digitChar_toNat (d : Nat) (h : d < 10) : (Nat.digitChar d).toNat = 48 + d := by
  interval_cases d <;> rfl

theorem readDigits_cons (c : Char) (cs : List Char) :
    readDigits (c :: cs) =
      if 48 ≤ c.toNat ∧ c.toNat ≤ 57 then ((readDigits cs).1.cons c, (readDigits cs).2)
      else ([], c :: cs) := rfl

/-- Digits in front of a text that does not start with a digit are read as they are. -/
theorem readDigits_append (l rest : List Char) (hl : ∀ c ∈ l, 48 ≤ c.toNat ∧ c.toNat ≤ 57)
    (hrest : ∀ c t, rest = c :: t → ¬ (48 ≤ c.toNat ∧ c.toNat ≤ 57)) :
    readDigits (l ++ rest) = (l, rest) := by
  induction l with
  | nil =>
    cases rest with
    | nil => rfl
    | cons c t =>
      rw [List.nil_append, readDigits_cons, if_neg (hrest c t rfl)]
  | cons c l ih =>
    rw [List.cons_append, readDigits_cons, if_pos (hl c (List.mem_cons_self _ _)),
      ih (fun x hx => hl x (List.mem_cons_of_mem _ hx))]

theorem digitsValue_foldl (l : List Char) (a : Nat) :
    l.foldl (fun n c => n * 10 + (c.toNat - 48)) a = a * 10 ^ l.length + digitsValue l := by
  unfold digitsValue
  induction l generalizing a with
  | nil => simp
  | cons c l ih =>
    rw [List.foldl_cons, ih, List.foldl_cons, ih (0 * 10 + (c.toNat - 48))]
    simp only [List.length_cons, pow_succ]
    ring

theorem digitsValue_append (l m : List Char) :
    digitsValue (l ++ m) = digitsValue l * 10 ^ m.length + digitsValue m := by
  show (l ++ m).foldl (fun n c => n * 10 + (c.toNat - 48)) 0 = _
  rw [List.foldl_append, digitsValue_foldl m]
  rfl

theorem digitsValue_replicate (k : Nat) : digitsValue (List.replicate k '0') = 0 := by
  induction k with
  | zero => rfl
  | succ k ih =>
    rw [List.replicate_succ]
    show digitsValue (['0'] ++ List.replicate k '0') = 0
    rw [digitsValue_append, ih]
    show (0 * 10 + ('0'.toNat - 48)) * 10 ^ (List.replicate k '0').length + 0 = 0
    simp

/-- The digits `Nat.toDigitsCore` puts in front of `ds`: decimal digits that write `n`, without
a zero in front unless `n` is 0, and no more of them than the size of `n` needs. -/
theorem toDigitsCore_spec (fuel : Nat) :
    ∀ (n : Nat) (ds : List Char), n < fuel →
      ∃ l, Nat.toDigitsCore 10 fuel n ds = l ++ ds ∧ l ≠ [] ∧
        (∀ c ∈ l, 48 ≤ c.toNat ∧ c.toNat ≤ 57) ∧ digitsValue l = n ∧
        (n ≠ 0 → ∀ c t, l = c :: t → 49 ≤ c.toNat) ∧ (n = 0 → l = ['0']) ∧
        (∀ w, 0 < w → n < 10 ^ w → l.length ≤ w) := by
  induction fuel with
  | zero => intro n ds h; omega
  | succ fuel ih =>
    intro n ds h
    have hd := digitChar_toNat (n % 10) (Nat.mod_lt _ (by decide))
    unfold Nat.toDigitsCore
    by_cases h0 : n / 10 = 0
    · have hn : n < 10 := by omega
      have hmod : n % 10 = n := Nat.mod_eq_of_lt hn
      simp only [h0, if_true]
      refine ⟨[Nat.digitChar (n % 10)], rfl, by simp, ?_, ?_, ?_, ?_, ?_⟩
      · intro c hc
        rw [List.mem_singleton] at hc
        rw [hc, hd]
        omega
      · show 0 * 10 + ((Nat.digitChar (n % 10)).toNat - 48) = n
        rw [hd]
        omega
      · intro hne c t hct
        injection hct with hc _
        rw [← hc, hd]
        omega
      · intro hz
        subst hz
        rfl
      · intro w hw _
        simpa using hw
    · simp only [h0, if_false]
      obtain ⟨l, h1, h2, h3, h4, h5, _, h7⟩ := ih (n / 10) (Nat.digitChar (n % 10) :: ds) (by omega)
      refine ⟨l ++ [Nat.digitChar (n % 10)], by rw [h1]; simp, by simp, ?_, ?_, ?_, ?_, ?_⟩
      · intro c hc
        rcases List.mem_append.1 hc with hc | hc
        · exact h3 c hc
        · rw [List.mem_singleton] at hc
          rw [hc, hd]
          omega
      · rw [digitsValue_append, h4]
        show n / 10 * 10 ^ 1 + (0 * 10 + ((Nat.digitChar (n % 10)).toNat - 48)) = n
        rw [hd]
        omega
      · intro _ c t hct
        cases l with
        | nil => exact absurd rfl h2
        | cons x xs =>
          injection hct with hc _
          rw [← hc]
          exact h5 h0 x xs rfl
      · intro hz
        rw [hz] at h0
        exact absurd rfl h0
      · intro w hw hlt
        cases w with
        | zero => omega
        | succ w =>
          have hw0 : 0 < w := by
            rcases Nat.eq_zero_or_pos w with hz | hp
            · subst hz
              simp at hlt
              omega
            · exact hp
          have := h7 w hw0 (by rw [pow_succ] at hlt; omega)
          simp only [List.length_append, List.length_singleton]
          omega

/-- The decimal digits of a natural number, as `strconv` writes them. -/
theorem natDigits_spec (n : Nat) :
    (toString n).toList ≠ [] ∧
      (∀ c ∈ (toString n).toList, 48 ≤ c.toNat ∧ c.toNat ≤ 57) ∧
      digitsValue (toString n).toList = n ∧
      (n ≠ 0 → ∀ c t, (toString n).toList = c :: t → 49 ≤ c.toNat) ∧
      (n = 0 → (toString n).toList = ['0']) ∧
      (∀ w, 0 < w → n < 10 ^ w → (toString n).toList.length ≤ w) := by
  obtain ⟨l, h1, h2, h3, h4, h5, h6, h7⟩ := toDigitsCore_spec (n + 1) n [] (by omega)
  rw [List.append_nil] at h1
  have h : (toString n).toList = l := h1
  rw [h]
  exact ⟨h2, h3, h4, h5, h6, h7⟩

theorem toString_int_toList (n : Int) :
    (toString n).toList =
      if n < 0 then '-' :: (toString n.natAbs).toList else (toString n.natAbs).toList := by
  cases n with
  | ofNat m =>
    rw [if_neg (by simp)]
    rfl
  | negSucc m =>
    rw [if_pos (Int.negSucc_lt_zero m)]
    rfl
/-! ### Reading back the text of `json.Marshal`: the shortest decimal of a `float64` -/

theorem pow10_pos (p : Int) : 0 < pow10 p := by
  unfold pow10
  split_ifs <;> positivity

theorem pow10_zero : pow10 0 = 1 := by
  unfold pow10
  simp

theorem pow10_neg (w : Nat) (hw : 0 < w) : pow10 (-(w : Int)) = 1 / ((10 ^ w : ℕ) : ℚ) := by
  unfold pow10
  rw [if_neg (by omega)]
  simp

theorem pow10_natCast (w : Nat) : pow10 (w : Int) = ((10 ^ w : ℕ) : ℚ) := by
  unfold pow10
  rw [if_pos (by omega)]
  simp

theorem shortestDecimal.search_succ (x : ℚ) (fuel : Nat) (p : Int) :
    shortestDecimal.search x (fuel + 1) p =
      if Float64.round ((⌊x / pow10 p⌋.toNat : ℚ) * pow10 p) = .finite x ∧
          Float64.round (((⌊x / pow10 p⌋.toNat + 1 : ℕ) : ℚ) * pow10 p) = .finite x then
        if x - (⌊x / pow10 p⌋.toNat : ℚ) * pow10 p <
            ((⌊x / pow10 p⌋.toNat + 1 : ℕ) : ℚ) * pow10 p - x then (⌊x / pow10 p⌋.toNat, p)
        else if ((⌊x / pow10 p⌋.toNat + 1 : ℕ) : ℚ) * pow10 p - x <
            x - (⌊x / pow10 p⌋.toNat : ℚ) * pow10 p then (⌊x / pow10 p⌋.toNat + 1, p)
        else if ⌊x / pow10 p⌋.toNat % 2 = 0 then (⌊x / pow10 p⌋.toNat, p)
        else (⌊x / pow10 p⌋.toNat + 1, p)
      else if Float64.round ((⌊x / pow10 p⌋.toNat : ℚ) * pow10 p) = .finite x then
        (⌊x / pow10 p⌋.toNat, p)
      else if Float64.round (((⌊x / pow10 p⌋.toNat + 1 : ℕ) : ℚ) * pow10 p) = .finite x then
        (⌊x / pow10 p⌋.toNat + 1, p)
      else shortestDecimal.search x fuel (p - 1) := rfl

theorem units_decimal (w : ℕ) (m : ℤ) :
    (m : ℚ) / ((2 ^ w : ℕ) : ℚ) / (1 / ((10 ^ w : ℕ) : ℚ)) = ((m * 5 ^ w : ℤ) : ℚ) := by
  have h : ((10 ^ w : ℕ) : ℚ) = ((2 ^ w : ℕ) : ℚ) * ((5 ^ w : ℕ) : ℚ) := by
    rw [← Nat.cast_mul, ← mul_pow]
    rfl
  have h2 : (0 : ℚ) < ((2 ^ w : ℕ) : ℚ) := by positivity
  rw [h]
  push_cast
  field_simp
  ring

/-- A positive `float64` value is a whole number of units of `10^-1074`. -/
theorem isFloat64_decimal (x : ℚ) (hx : 0 < x) (hf : isFloat64 x) :
    ((⌊x / pow10 (-1074)⌋.toNat : ℚ)) * pow10 (-1074) = x := by
  obtain ⟨m, hm⟩ := isFloat64_units x hf
  have hU : float64Units = ((2 ^ 1074 : ℕ) : ℚ) := rfl
  have hp : pow10 (-1074) = 1 / ((10 ^ 1074 : ℕ) : ℚ) := pow10_neg 1074 (by decide)
  have h2 : (0 : ℚ) < ((2 ^ 1074 : ℕ) : ℚ) := by positivity
  have h10 : (0 : ℚ) < ((10 ^ 1074 : ℕ) : ℚ) := by positivity
  have hm0 : 0 ≤ m := by
    have : (0 : ℚ) ≤ (m : ℚ) := by
      rw [← hm, hU]
      positivity
    exact_mod_cast this
  have hx2 : x = (m : ℚ) / ((2 ^ 1074 : ℕ) : ℚ) := by
    rw [← hm, hU]
    field_simp
  have hval : x / pow10 (-1074) = ((m * 5 ^ 1074 : ℤ) : ℚ) := by
    rw [hp, hx2]
    exact units_decimal 1074 m
  rw [hval, Int.floor_intCast]
  have hnn : 0 ≤ m * 5 ^ 1074 := by positivity
  have hcast : ((m * 5 ^ 1074).toNat : ℚ) = ((m * 5 ^ 1074 : ℤ) : ℚ) := by
    have := Int.toNat_of_nonneg hnn
    exact_mod_cast congrArg (fun z : ℤ => (z : ℚ)) this
  rw [hcast, ← hval]
  have hpp := pow10_pos (-1074)
  field_simp

/-- The search finds a decimal that is read back as `x`, with a mantissa that is not zero. -/
theorem shortestDecimal.search_spec (x : ℚ) (hx : 0 < x) (hf : isFloat64 x) (fuel : Nat) :
    ∀ p : Int, -1074 ≤ p → p + 1074 < fuel →
      Float64.round (((shortestDecimal.search x fuel p).1 : ℚ) *
          pow10 (shortestDecimal.search x fuel p).2) = .finite x ∧
        0 < (shortestDecimal.search x fuel p).1 := by
  induction fuel with
  | zero => intro p h1 h2; omega
  | succ fuel ih =>
    intro p h1 h2
    have hdown : Float64.round ((⌊x / pow10 p⌋.toNat : ℚ) * pow10 p) = .finite x →
        0 < ⌊x / pow10 p⌋.toNat := by
      intro h
      rcases Nat.eq_zero_or_pos ⌊x / pow10 p⌋.toNat with hz | hp
      · rw [hz] at h
        simp only [Nat.cast_zero, zero_mul] at h
        rw [Float64.round_zero] at h
        injection h with h
        exact absurd h.symm (ne_of_gt hx)
      · exact hp
    rw [shortestDecimal.search_succ]
    by_cases hd : Float64.round ((⌊x / pow10 p⌋.toNat : ℚ) * pow10 p) = .finite x
    · by_cases hu : Float64.round (((⌊x / pow10 p⌋.toNat + 1 : ℕ) : ℚ) * pow10 p) = .finite x
      · rw [if_pos ⟨hd, hu⟩]
        split_ifs
        · exact ⟨hd, hdown hd⟩
        · exact ⟨hu, Nat.succ_pos _⟩
        · exact ⟨hd, hdown hd⟩
        · exact ⟨hu, Nat.succ_pos _⟩
      · rw [if_neg (fun h => hu h.2), if_pos hd]
        exact ⟨hd, hdown hd⟩
    · rw [if_neg (fun h => hd h.1), if_neg hd]
      by_cases hu : Float64.round (((⌊x / pow10 p⌋.toNat + 1 : ℕ) : ℚ) * pow10 p) = .finite x
      · rw [if_pos hu]
        exact ⟨hu, Nat.succ_pos _⟩
      · rw [if_neg hu]
        have hp : p ≠ -1074 := by
          intro h
          apply hd
          rw [h, isFloat64_decimal x hx hf]
          exact hf
        exact ih (p - 1) (by omega) (by omega)

/-- The shortest decimal of a positive `float64` value is read back as the value. -/
theorem shortestDecimal_spec (x : ℚ) (hx : 0 < x) (hf : isFloat64 x) :
    Float64.round (((shortestDecimal x).1 : ℚ) * pow10 (shortestDecimal x).2) = .finite x ∧
      0 < (shortestDecimal x).1 := by
  unfold shortestDecimal
  apply shortestDecimal.search_spec x hx hf
  · omega
  · push_cast
    omega
/-! ### Reading back the text of `json.Marshal`: numbers -/

theorem readIntegerPart_natDigits (n : Nat) (rest : List Char)
    (hrest : ∀ c t, rest = c :: t → ¬ (48 ≤ c.toNat ∧ c.toNat ≤ 57)) :
    readIntegerPart ((toString n).toList ++ rest) = some ((toString n).toList, rest) := by
  obtain ⟨h1, h2, _, h4, h5, _⟩ := natDigits_spec n
  by_cases hn : n = 0
  · rw [h5 hn]
    rfl
  · cases hl : (toString n).toList with
    | nil => exact absurd hl h1
    | cons c t =>
      have hc := h4 hn c t hl
      have hd := h2 c (by rw [hl]; exact List.mem_cons_self _ _)
      have hc0 : c ≠ '0' := by
        intro h
        rw [h] at hc
        revert hc
        decide
      show (if c = '0' then some (['0'], t ++ rest)
        else if 49 ≤ c.toNat ∧ c.toNat ≤ 57 then some (readDigits (c :: (t ++ rest)))
        else none) = _
      rw [if_neg hc0, if_pos ⟨hc, hd.2⟩]
      have := readDigits_append (c :: t) rest (by rw [← hl]; exact h2) hrest
      rw [List.cons_append] at this
      rw [this]

theorem readFraction_cons (c : Char) (cs : List Char) :
    readFraction (c :: cs) =
      if c = '.' then
        if (readDigits cs).1 = [] then none else some (readDigits cs)
      else some ([], c :: cs) := rfl

theorem readExponent_cons (c : Char) (rest : List Char) :
    readExponent (c :: rest) =
      if c = 'e' ∨ c = 'E' then
        match rest with
        | [] => none
        | s :: rest1 =>
          if s = '-' then
            if (readDigits rest1).1 = [] then none
            else some (-(digitsValue (readDigits rest1).1 : Int), (readDigits rest1).2)
          else if s = '+' then
            if (readDigits rest1).1 = [] then none
            else some ((digitsValue (readDigits rest1).1 : Int), (readDigits rest1).2)
          else
            if (readDigits (s :: rest1)).1 = [] then none
            else
              some ((digitsValue (readDigits (s :: rest1)).1 : Int), (readDigits (s :: rest1)).2)
      else some (0, c :: rest) := rfl

theorem readFraction_none (rest : List Char) (hrest : ∀ c t, rest = c :: t → c ≠ '.') :
    readFraction rest = some ([], rest) := by
  cases rest with
  | nil => rfl
  | cons c t => rw [readFraction_cons, if_neg (hrest c t rfl)]

theorem readFraction_digits (digits rest : List Char) (hne : digits ≠ [])
    (hd : ∀ c ∈ digits, 48 ≤ c.toNat ∧ c.toNat ≤ 57)
    (hrest : ∀ c t, rest = c :: t → ¬ (48 ≤ c.toNat ∧ c.toNat ≤ 57)) :
    readFraction ('.' :: (digits ++ rest)) = some (digits, rest) := by
  rw [readFraction_cons, if_pos rfl, readDigits_append digits rest hd hrest, if_neg hne]

theorem readExponent_none (rest : List Char)
    (hrest : ∀ c t, rest = c :: t → c ≠ 'e' ∧ c ≠ 'E') :
    readExponent rest = some (0, rest) := by
  cases rest with
  | nil => rfl
  | cons c t =>
    rw [readExponent_cons, if_neg (fun h => h.elim (hrest c t rfl).1 (hrest c t rfl).2)]

theorem readExponent_minus (digits rest : List Char) (hne : digits ≠ [])
    (hd : ∀ c ∈ digits, 48 ≤ c.toNat ∧ c.toNat ≤ 57)
    (hrest : ∀ c t, rest = c :: t → ¬ (48 ≤ c.toNat ∧ c.toNat ≤ 57)) :
    readExponent ('e' :: '-' :: (digits ++ rest)) = some (-(digitsValue digits : Int), rest) := by
  rw [readExponent_cons, if_pos (Or.inl rfl)]
  simp only [if_true]
  rw [readDigits_append digits rest hd hrest, if_neg hne]

theorem readExponent_plus (digits rest : List Char) (hne : digits ≠ [])
    (hd : ∀ c ∈ digits, 48 ≤ c.toNat ∧ c.toNat ≤ 57)
    (hrest : ∀ c t, rest = c :: t → ¬ (48 ≤ c.toNat ∧ c.toNat ≤ 57)) :
    readExponent ('e' :: '+' :: (digits ++ rest)) = some ((digitsValue digits : Int), rest) := by
  rw [readExponent_cons, if_pos (Or.inl rfl)]
  simp only [if_true]
  rw [readDigits_append digits rest hd hrest, if_neg (by decide), if_neg hne]

theorem readMagnitude_eq (cs whole rest fraction rest1 rest2 : List Char) (exp : Int)
    (h1 : readIntegerPart cs = some (whole, rest))
    (h2 : readFraction rest = some (fraction, rest1))
    (h3 : readExponent rest1 = some (exp, rest2)) :
    readMagnitude cs =
      some ((digitsValue (whole ++ fraction) : ℚ) * pow10 (exp - fraction.length), rest2) := by
  unfold readMagnitude
  rw [h1]
  simp only
  rw [h2]
  simp only
  rw [h3]

/-- The digits of a natural number are read back as the number. -/
theorem readMagnitude_natDigits (n : Nat) (rest : List Char)
    (hrest : ∀ c t, rest = c :: t → c = ',' ∨ c = '\x7d') :
    readMagnitude ((toString n).toList ++ rest) = some ((n : ℚ), rest) := by
  have hr : ∀ c t, rest = c :: t →
      ¬ (48 ≤ c.toNat ∧ c.toNat ≤ 57) ∧ c ≠ '.' ∧ c ≠ 'e' ∧ c ≠ 'E' := by
    intro c t h
    rcases hrest c t h with h | h <;> subst h <;> decide
  rw [readMagnitude_eq _ _ _ _ _ _ 0
    (readIntegerPart_natDigits n rest (fun c t h => (hr c t h).1))
    (readFraction_none rest (fun c t h => (hr c t h).2.1))
    (readExponent_none rest (fun c t h => (hr c t h).2.2))]
  rw [List.append_nil, (natDigits_spec n).2.2.1]
  simp [pow10_zero]

theorem zeroPad_toList (w n : Nat) :
    (zeroPad w n).toList =
      List.replicate (w - (toString n).toList.length) '0' ++ (toString n).toList := by
  unfold zeroPad
  show (String.mk (List.replicate (w - (toString n).length) '0') ++ toString n).data = _
  rw [String.data_append]
  rfl

theorem zeroPad_spec (w n : Nat) :
    (zeroPad w n).toList ≠ [] ∧ (∀ c ∈ (zeroPad w n).toList, 48 ≤ c.toNat ∧ c.toNat ≤ 57) ∧
      digitsValue (zeroPad w n).toList = n ∧
      (0 < w → n < 10 ^ w → (zeroPad w n).toList.length = w) := by
  obtain ⟨h1, h2, h3, _, _, h6⟩ := natDigits_spec n
  rw [zeroPad_toList]
  refine ⟨fun h => h1 (List.append_eq_nil.1 h).2, ?_, ?_, ?_⟩
  · intro c hc
    rcases List.mem_append.1 hc with hc | hc
    · rw [(List.mem_replicate.1 hc).2]
      decide
    · exact h2 c hc
  · rw [digitsValue_append, digitsValue_replicate, h3]
    simp
  · intro hw hn
    have := h6 w hw hn
    simp only [List.length_append, List.length_replicate]
    omega

/-- The text of the format `'f'` is read back as the decimal it writes. -/
theorem readMagnitude_formatFixed (n : Nat) (p : Int) (rest : List Char)
    (hrest : ∀ c t, rest = c :: t → c = ',' ∨ c = '\x7d') :
    readMagnitude ((formatFixed n p).toList ++ rest) = some ((n : ℚ) * pow10 p, rest) := by
  have hr : ∀ c t, rest = c :: t →
      ¬ (48 ≤ c.toNat ∧ c.toNat ≤ 57) ∧ c ≠ '.' ∧ c ≠ 'e' ∧ c ≠ 'E' := by
    intro c t h
    rcases hrest c t h with h | h <;> subst h <;> decide
  unfold formatFixed
  by_cases hp : 0 ≤ p
  · rw [if_pos hp, readMagnitude_natDigits _ rest hrest]
    obtain ⟨w, rfl⟩ := Int.eq_ofNat_of_zero_le hp
    rw [pow10_natCast]
    simp
  · rw [if_neg hp]
    obtain ⟨w, hw⟩ : ∃ w : Nat, p = -(w : Int) := ⟨(-p).toNat, by omega⟩
    have hw0 : 0 < w := by omega
    subst hw
    have hwn : (- -(w : Int)).toNat = w := by simp
    rw [hwn]
    obtain ⟨z1, z2, z3, z4⟩ := zeroPad_spec w (n % 10 ^ w)
    have hlen := z4 hw0 (Nat.mod_lt _ (by positivity))
    have htext : (toString (n / 10 ^ w) ++ "." ++ zeroPad w (n % 10 ^ w)).toList ++ rest =
        (toString (n / 10 ^ w)).toList ++ ('.' :: ((zeroPad w (n % 10 ^ w)).toList ++ rest)) := by
      show (toString (n / 10 ^ w) ++ "." ++ zeroPad w (n % 10 ^ w)).data ++ rest = _
      rw [String.data_append, String.data_append]
      simp [String.toList]
    rw [htext]
    rw [readMagnitude_eq _ _ _ _ _ _ 0
      (readIntegerPart_natDigits (n / 10 ^ w) _ (by
        intro c t h
        injection h with h _
        rw [← h]
        decide))
      (readFraction_digits _ rest z1 z2 (fun c t h => (hr c t h).1))
      (readExponent_none rest (fun c t h => (hr c t h).2.2))]
    rw [digitsValue_append, (natDigits_spec _).2.2.1, z3, hlen, zero_sub, pow10_neg w hw0]
    have : n / 10 ^ w * 10 ^ w + n % 10 ^ w = n := Nat.div_add_mod' n (10 ^ w)
    rw [this]
theorem readIntegerPart_digit (c : Char) (rest : List Char) (hc : 49 ≤ c.toNat ∧ c.toNat ≤ 57)
    (hrest : ∀ x t, rest = x :: t → ¬ (48 ≤ x.toNat ∧ x.toNat ≤ 57)) :
    readIntegerPart (c :: rest) = some ([c], rest) := by
  have hc0 : c ≠ '0' := by
    intro h
    rw [h] at hc
    revert hc
    decide
  show (if c = '0' then some (['0'], rest)
    else if 49 ≤ c.toNat ∧ c.toNat ≤ 57 then some (readDigits (c :: rest))
    else none) = _
  rw [if_neg hc0, if_pos hc]
  have := readDigits_append [c] rest (by
    intro x hx
    rw [List.mem_singleton] at hx
    rw [hx]
    omega) hrest
  rw [List.singleton_append] at this
  rw [this]

/-- The exponent of the format `'e'` is read back. -/
theorem readExponent_text (exp : Int) (rest : List Char)
    (hrest : ∀ c t, rest = c :: t → c = ',' ∨ c = '\x7d') :
    readExponent ('e' :: ((if exp < 0 then "-" ++ toString exp.natAbs
      else "+" ++ zeroPad 2 exp.natAbs).toList ++ rest)) = some (exp, rest) := by
  have hr : ∀ c t, rest = c :: t → ¬ (48 ≤ c.toNat ∧ c.toNat ≤ 57) := by
    intro c t h
    rcases hrest c t h with h | h <;> subst h <;> decide
  by_cases he : exp < 0
  · rw [if_pos he]
    obtain ⟨h1, h2, h3, _⟩ := natDigits_spec exp.natAbs
    have htext : ("-" ++ toString exp.natAbs).toList ++ rest =
        '-' :: ((toString exp.natAbs).toList ++ rest) := by
      show ("-" ++ toString exp.natAbs).data ++ rest = _
      rw [String.data_append]
      rfl
    rw [htext, readExponent_minus _ rest h1 h2 hr, h3]
    congr 2
    omega
  · rw [if_neg he]
    obtain ⟨h1, h2, h3, _⟩ := zeroPad_spec 2 exp.natAbs
    have htext : ("+" ++ zeroPad 2 exp.natAbs).toList ++ rest =
        '+' :: ((zeroPad 2 exp.natAbs).toList ++ rest) := by
      show ("+" ++ zeroPad 2 exp.natAbs).data ++ rest = _
      rw [String.data_append]
      rfl
    rw [htext, readExponent_plus _ rest h1 h2 hr, h3]
    congr 2
    omega

/-- The text of the format `'e'` is read back as the decimal it writes. -/
theorem readMagnitude_formatExponent (n : Nat) (p : Int) (rest : List Char) (hn : 0 < n)
    (hrest : ∀ c t, rest = c :: t → c = ',' ∨ c = '\x7d') :
    readMagnitude ((formatExponent n p).toList ++ rest) = some ((n : ℚ) * pow10 p, rest) := by
  obtain ⟨h1, h2, h3, h4, _, _⟩ := natDigits_spec n
  unfold formatExponent
  simp only
  cases hl : (toString n).toList with
  | nil => exact absurd hl h1
  | cons c t =>
    have hc : 49 ≤ c.toNat ∧ c.toNat ≤ 57 :=
      ⟨h4 (by omega) c t hl, (h2 c (by rw [hl]; exact List.mem_cons_self _ _)).2⟩
    have ht : ∀ x ∈ t, 48 ≤ x.toNat ∧ x.toNat ≤ 57 :=
      fun x hx => h2 x (by rw [hl]; exact List.mem_cons_of_mem _ hx)
    have hval : digitsValue (c :: t) = n := by rw [← hl]; exact h3
    have hexp := readExponent_text (p + ((c :: t).length : Int) - 1) rest hrest
    generalize hE : (if p + ((c :: t).length : Int) - 1 < 0 then
      "-" ++ toString (p + ((c :: t).length : Int) - 1).natAbs
      else "+" ++ zeroPad 2 (p + ((c :: t).length : Int) - 1).natAbs) = expText at hexp ⊢
    have he : ∀ x r, ('e' :: (expText.toList ++ rest)) = x :: r →
        ¬ (48 ≤ x.toNat ∧ x.toNat ≤ 57) ∧ x ≠ '.' := by
      intro x r h
      injection h with h _
      rw [← h]
      decide
    by_cases hlen : (c :: t).length ≤ 1
    · have htnil : t = [] := by
        cases t with
        | nil => rfl
        | cons _ _ => simp at hlen
      subst htnil
      rw [if_pos hlen]
      have htext : (String.mk ([c].take 1) ++ "" ++ "e" ++ expText).toList ++ rest =
          c :: 'e' :: (expText.toList ++ rest) := by
        show (String.mk ([c].take 1) ++ "" ++ "e" ++ expText).data ++ rest = _
        rw [String.data_append, String.data_append, String.data_append]
        rfl
      rw [htext, readMagnitude_eq _ _ _ _ _ _ _
        (readIntegerPart_digit c _ hc (fun x r h => (he x r h).1))
        (readFraction_none _ (fun x r h => (he x r h).2)) hexp]
      rw [List.append_nil, hval]
      congr 3
      simp
    · rw [if_neg hlen]
      have htne : t ≠ [] := by
        intro h
        subst h
        simp at hlen
      have htext : (String.mk ((c :: t).take 1) ++ ("." ++ String.mk ((c :: t).drop 1)) ++ "e" ++
          expText).toList ++ rest = c :: '.' :: (t ++ 'e' :: (expText.toList ++ rest)) := by
        show (String.mk ((c :: t).take 1) ++ ("." ++ String.mk ((c :: t).drop 1)) ++ "e" ++
          expText).data ++ rest = _
        rw [String.data_append, String.data_append, String.data_append, String.data_append]
        simp [String.toList]
      rw [htext, readMagnitude_eq _ _ _ _ _ _ _
        (readIntegerPart_digit c _ hc (by
          intro x r h
          injection h with h _
          rw [← h]
          decide))
        (readFraction_digits t _ htne ht (fun x r h => (he x r h).1)) hexp]
      rw [List.singleton_append, hval]
      congr 3
      simp only [List.length_cons, Nat.cast_add, Nat.cast_one]
      congr 1
      omega

theorem Float64.round_neg (x y : ℚ) (h : Float64.round x = .finite y) :
    Float64.round (-x) = .finite (-y) := by
  by_cases hx0 : x = 0
  · subst hx0
    rw [Float64.round_zero] at h
    injection h with h
    rw [← h, neg_zero, Float64.round_zero]
  unfold Float64.round at h ⊢
  simp only [abs_neg] at h ⊢
  generalize Float64.roundUnits (|x| * float64Units) = k at h ⊢
  by_cases hbig : 2 ^ 2098 ≤ k
  · rw [if_pos hbig] at h
    cases h
  · rw [if_neg hbig] at h ⊢
    injection h with h
    rcases lt_or_gt_of_ne hx0 with hx | hx
    · rw [if_pos hx] at h
      rw [if_neg (by linarith), ← h]
      simp
    · rw [if_neg (by linarith)] at h
      rw [if_pos (by linarith), ← h]
theorem readNumber_cons (c : Char) (cs : List Char) :
    readNumber (c :: cs) =
      if c = '-' then (readMagnitude cs).map fun r => (-r.1, r.2)
      else readMagnitude (c :: cs) := rfl

/-- The text `json.Marshal` writes for a finite `float64` is a number literal that is read back
as the same `float64`. -/
theorem readNumber_formatFloat (q : ℚ) (hq : isFloat64 q) (rest : List Char)
    (hrest : ∀ c t, rest = c :: t → c = ',' ∨ c = '\x7d') :
    ∃ c t literal, (formatFloat q).toList ++ rest = c :: t ∧
      (c = '-' ∨ (48 ≤ c.toNat ∧ c.toNat ≤ 57)) ∧
      readNumber (c :: t) = some (literal, rest) ∧ convertNumber literal = some q := by
  unfold formatFloat
  by_cases h0 : q = 0
  · subst h0
    rw [if_pos rfl]
    refine ⟨'0', rest, 0, rfl, Or.inr (by decide), ?_, ?_⟩
    · rw [readNumber_cons, if_neg (by decide)]
      have := readMagnitude_natDigits 0 rest hrest
      simpa using this
    · unfold convertNumber
      rw [Float64.round_zero]
  · rw [if_neg h0]
    simp only
    have habs : 0 < |q| := abs_pos.2 h0
    have hfabs : isFloat64 |q| := by
      rcases lt_or_gt_of_ne h0 with h | h
      · rw [abs_of_neg h]
        have := Float64.round_neg q q hq
        exact this
      · rw [abs_of_pos h]
        exact hq
    obtain ⟨hround, hpos⟩ := shortestDecimal_spec |q| habs hfabs
    generalize shortestDecimal |q| = digits at hround hpos
    have hbody : ∀ text : String,
        readMagnitude (text.toList ++ rest) = some ((digits.1 : ℚ) * pow10 digits.2, rest) →
        ∃ c t, text.toList ++ rest = c :: t ∧ (48 ≤ c.toNat ∧ c.toNat ≤ 57) := by
      intro text h
      cases hc : text.toList ++ rest with
      | nil =>
        rw [hc] at h
        cases h
      | cons c t =>
        refine ⟨c, t, rfl, ?_⟩
        rw [hc] at h
        unfold readMagnitude at h
        cases hi : readIntegerPart (c :: t) with
        | none =>
          rw [hi] at h
          cases h
        | some r =>
          by_contra hcon
          have : readIntegerPart (c :: t) = none := by
            show (if c = '0' then some (['0'], t)
              else if 49 ≤ c.toNat ∧ c.toNat ≤ 57 then some (readDigits (c :: t))
              else none) = none
            have hc0 : c ≠ '0' := by
              intro h
              subst h
              exact hcon (by decide)
            rw [if_neg hc0, if_neg (fun h => hcon ⟨by omega, h.2⟩)]
          rw [this] at hi
          cases hi
    generalize hbt : (if |q| < float64Micro ∨ 1000000000000000000000 ≤ |q| then
      formatExponent digits.1 digits.2 else formatFixed digits.1 digits.2) = body
    have hread : readMagnitude (body.toList ++ rest) =
        some ((digits.1 : ℚ) * pow10 digits.2, rest) := by
      rw [← hbt]
      split_ifs
      · exact readMagnitude_formatExponent _ _ rest hpos hrest
      · exact readMagnitude_formatFixed _ _ rest hrest
    obtain ⟨c, t, hct, hc⟩ := hbody body hread
    rcases lt_or_gt_of_ne h0 with hneg | hpos2
    · rw [if_pos hneg]
      refine ⟨'-', body.toList ++ rest, -((digits.1 : ℚ) * pow10 digits.2), ?_, Or.inl rfl, ?_, ?_⟩
      · show ("-" ++ body).data ++ rest = _
        rw [String.data_append]
        rfl
      · rw [readNumber_cons, if_pos rfl, hread]
        rfl
      · unfold convertNumber
        rw [Float64.round_neg _ _ hround, abs_of_neg hneg, neg_neg]
    · rw [if_neg (by linarith)]
      refine ⟨c, t, (digits.1 : ℚ) * pow10 digits.2, ?_, Or.inr hc, ?_, ?_⟩
      · show ("" ++ body).data ++ rest = _
        rw [String.data_append]
        exact hct
      · have hcm : c ≠ '-' := by
          intro h
          subst h
          revert hc
          decide
        rw [readNumber_cons, if_neg hcm, ← hct, hread]
      · unfold convertNumber
        rw [hround, abs_of_pos hpos2]
/-! ### Integers that are `float64` values -/

/-- A magnitude of at most 53 significant bits is left as it is by the rounding. -/
theorem Float64.roundUnits_exact (m j : Nat) (hm : m < 2 ^ 53) :
    Float64.roundUnits ((m * 2 ^ j : ℕ) : ℚ) = m * 2 ^ j := by
  generalize hK : m * 2 ^ j = K
  simp only [Float64.roundUnits_eq]
  have hfloor : ⌊(K : ℚ)⌋.toNat = K := by
    rw [Int.floor_natCast]
    simp
  rw [hfloor]
  have hdvd : 2 ^ significandShift K K ∣ K := by
    by_cases he : significandShift K K = 0
    · rw [he]
      simp
    · have h1 := significandShift_ge K he
      have h2 : K < 2 ^ (53 + j) := by
        rw [← hK, pow_add]
        exact Nat.mul_lt_mul_of_lt_of_le hm (le_refl _) (by positivity)
      have h3 : 52 + significandShift K K < 53 + j :=
        (Nat.pow_lt_pow_iff_right (by decide)).1 (lt_of_le_of_lt h1 h2)
      have h4 : 2 ^ significandShift K K ∣ 2 ^ j := pow_dvd_pow 2 (by omega)
      have h5 : 2 ^ significandShift K K ∣ m * 2 ^ j := Dvd.dvd.mul_left h4 m
      rwa [hK] at h5
  obtain ⟨r, hr⟩ := hdvd
  have hpos : (0 : ℚ) < ((2 ^ significandShift K K : ℕ) : ℚ) := by positivity
  have hdiv : (K : ℚ) / ((2 ^ significandShift K K : ℕ) : ℚ) = (r : ℚ) := by
    rw [div_eq_iff (ne_of_gt hpos)]
    have : K = r * 2 ^ significandShift K K := by rw [mul_comm]; exact hr
    exact_mod_cast this
  rw [hdiv, roundHalfEven_natCast]
  rw [mul_comm]
  exact hr.symm

/-- A rational whose magnitude is a whole number of units of at most 53 significant bits, below
`2^1024`, is a `float64` value. -/
theorem isFloat64_of_units (x : ℚ) (m j : Nat) (hm : m < 2 ^ 53)
    (hx : |x| * float64Units = ((m * 2 ^ j : ℕ) : ℚ)) (hsmall : m * 2 ^ j < 2 ^ 2098) :
    isFloat64 x := by
  unfold isFloat64 Float64.round
  simp only
  rw [hx, Float64.roundUnits_exact m j hm, if_neg (not_le.2 hsmall)]
  have hU := float64Units_pos
  have habs : |x| = ((m * 2 ^ j : ℕ) : ℚ) / float64Units := by
    rw [← hx]
    field_simp
  congr 1
  split_ifs with hneg
  · rw [← habs, abs_of_neg hneg, neg_neg]
  · rw [← habs, abs_of_nonneg (not_lt.1 hneg)]

/-- An integer of magnitude at most `2^53` is a `float64` value. -/
theorem isFloat64_intCast (n : Int) (hn : n.natAbs ≤ 2 ^ 53) : isFloat64 (n : ℚ) := by
  have habs : |(n : ℚ)| = (n.natAbs : ℚ) := by
    rw [Nat.cast_natAbs, Int.cast_abs]
  have hU : float64Units = ((2 ^ 1074 : ℕ) : ℚ) := rfl
  have hp1 : (2 : ℕ) ^ 53 * 2 ^ 1074 < 2 ^ 2098 := by
    rw [← pow_add]
    exact Nat.pow_lt_pow_right (by norm_num) (by norm_num)
  have hp2 : (2 : ℕ) ^ 52 * 2 ^ 1075 = 2 ^ 53 * 2 ^ 1074 := by
    rw [← pow_add, ← pow_add]
  rcases Nat.lt_or_ge n.natAbs (2 ^ 53) with h | h
  · apply isFloat64_of_units (n : ℚ) n.natAbs 1074 h
    · rw [habs, hU]
      exact (Nat.cast_mul _ _).symm
    · exact lt_trans (Nat.mul_lt_mul_of_lt_of_le h (le_refl _) (by positivity)) hp1
  · have heq : n.natAbs = 2 ^ 53 := le_antisymm hn h
    have h52 : 2 ^ 52 < 2 ^ 53 := by norm_num
    apply isFloat64_of_units (n : ℚ) (2 ^ 52) 1075 h52
    · rw [habs, hU, hp2, heq]
      exact (Nat.cast_mul _ _).symm
    · rw [hp2]
      exact hp1

/-- An integer that is a `float64` value is left as it is by the conversion `float64(n)`. -/
theorem float64OfInt_of_isFloat64 (z : Int) (h : isFloat64 (z : ℚ)) : float64OfInt z = z := by
  by_cases hsmall : z.natAbs ≤ 2 ^ 53
  · exact float64OfInt_small z hsmall
  have hbig : 2 ^ 53 < z.natAbs := not_le.1 hsmall
  have habs : |(z : ℚ)| = (z.natAbs : ℚ) := by
    rw [Nat.cast_natAbs, Int.cast_abs]
  have hU : float64Units = ((2 ^ 1074 : ℕ) : ℚ) := rfl
  have hUpos : (0 : ℚ) < ((2 ^ 1074 : ℕ) : ℚ) := float64Units_pos
  generalize ha : z.natAbs = a at hbig habs
  -- the shift of the integer
  have he0 : significandShift a a ≠ 0 := by
    intro he
    have := significandShift_lt a
    rw [he] at this
    omega
  have hlo := significandShift_ge a he0
  have hhi := significandShift_lt a
  generalize he : significandShift a a = e at he0 hlo hhi
  -- the shift of the magnitude in units
  have hK1 : 2 ^ (52 + (e + 1074)) ≤ a * 2 ^ 1074 := by
    have : 2 ^ (52 + (e + 1074)) = 2 ^ (52 + e) * 2 ^ 1074 := by rw [← pow_add, Nat.add_assoc]
    rw [this]
    exact Nat.mul_le_mul_right _ hlo
  have hK2 : a * 2 ^ 1074 < 2 ^ (53 + (e + 1074)) := by
    have : 2 ^ (53 + (e + 1074)) = 2 ^ (53 + e) * 2 ^ 1074 := by rw [← pow_add, Nat.add_assoc]
    rw [this]
    exact Nat.mul_lt_mul_of_lt_of_le hhi (le_refl _) (by positivity)
  have hE := significandShift_unique (a * 2 ^ 1074) (e + 1074) hK1 hK2
  -- the rounded magnitude is the magnitude
  have hround : Float64.roundUnits (((a * 2 ^ 1074 : ℕ) : ℚ)) = a * 2 ^ 1074 := by
    unfold isFloat64 Float64.round at h
    simp only at h
    rw [habs, hU, ← Nat.cast_mul] at h
    generalize Float64.roundUnits (((a * 2 ^ 1074 : ℕ) : ℚ)) = k at h ⊢
    split_ifs at h with h1 h2
    · injection h with h
      have h3 : (k : ℚ) = (a : ℚ) * ((2 ^ 1074 : ℕ) : ℚ) := by
        have hz : (z : ℚ) = -(a : ℚ) := by
          rw [← habs, abs_of_neg h2]
          ring
        rw [hz] at h
        have h4 : (k : ℚ) / ((2 ^ 1074 : ℕ) : ℚ) = (a : ℚ) := by linarith
        rw [div_eq_iff (ne_of_gt hUpos)] at h4
        exact h4
      exact_mod_cast h3
    · injection h with h
      have h3 : (k : ℚ) = (a : ℚ) * ((2 ^ 1074 : ℕ) : ℚ) := by
        have hz : (z : ℚ) = (a : ℚ) := by
          rw [← habs, abs_of_nonneg (not_lt.1 h2)]
        rw [hz] at h
        rw [div_eq_iff (ne_of_gt hUpos)] at h
        exact h
      exact_mod_cast h3
  have hdvd : 2 ^ e ∣ a := by
    rw [Float64.roundUnits_eq] at hround
    rw [Int.floor_natCast, Int.toNat_ofNat, hE] at hround
    have h1 : 2 ^ (e + 1074) ∣ a * 2 ^ 1074 := Dvd.intro_left _ hround
    rw [pow_add] at h1
    exact Nat.dvd_of_mul_dvd_mul_right (by positivity) h1
  -- the conversion
  unfold float64OfInt
  simp only
  rw [ha, if_neg (not_le.2 hbig), he]
  have hr : a % 2 ^ e = 0 := Nat.mod_eq_zero_of_dvd hdvd
  have hhalf : 0 < 2 ^ (e - 1) := by positivity
  have hcond : ¬ (a % 2 ^ e > 2 ^ (e - 1) ∨ (a % 2 ^ e = 2 ^ (e - 1) ∧ a / 2 ^ e % 2 = 1)) := by
    rw [hr]
    omega
  rw [if_neg hcond, Nat.div_mul_cancel hdvd]
  split_ifs with hneg
  · omega
  · omega
/-! ### Reading back the text of `json.Marshal`: values and objects -/

theorem skipSpace_cons (c : Char) (cs : List Char) (hc : isJSONSpace c = false) :
    skipSpace (c :: cs) = c :: cs := by
  show (if isJSONSpace c then skipSpace cs else c :: cs) = _
  rw [hc]
  rfl

theorem readValue_succ (fuel depth : Nat) (cs : List Char) :
    readValue (fuel + 1) depth cs =
      match skipSpace cs with
      | [] => none
      | c :: rest =>
        if c = '"' then
          (readString rest.length rest).map fun r => (JsonValue.string (String.mk r.1), r.2)
        else if c = '\x7b' then
          if 10000 ≤ depth then none
          else
            match skipSpace rest with
            | '\x7d' :: rest1 => some (.object [], rest1)
            | rest1 => (readMembers fuel (depth + 1) [] rest1).map fun r => (.object r.1, r.2)
        else if c = '[' then
          if 10000 ≤ depth then none
          else
            match skipSpace rest with
            | ']' :: rest1 => some (.array [], rest1)
            | rest1 => (readElements fuel (depth + 1) [] rest1).map fun r => (.array r.1, r.2)
        else if c = 't' then
          match rest with
          | 'r' :: 'u' :: 'e' :: rest1 => some (.bool true, rest1)
          | _ => none
        else if c = 'f' then
          match rest with
          | 'a' :: 'l' :: 's' :: 'e' :: rest1 => some (.bool false, rest1)
          | _ => none
        else if c = 'n' then
          match rest with
          | 'u' :: 'l' :: 'l' :: rest1 => some (.null, rest1)
          | _ => none
        else
          match readNumber (c :: rest) with
          | none => none
          | some (literal, rest1) =>
            (convertNumber literal).map fun value => (.number value, rest1) := by
  rfl

theorem readMembers_succ (fuel depth : Nat) (members : List (String × JsonValue))
    (cs : List Char) :
    readMembers (fuel + 1) depth members cs =
      match skipSpace cs with
      | '"' :: rest =>
        match readString rest.length rest with
        | none => none
        | some (key, rest1) =>
          match skipSpace rest1 with
          | ':' :: rest2 =>
            match readValue fuel depth rest2 with
            | none => none
            | some (value, rest3) =>
              match skipSpace rest3 with
              | ',' :: rest4 =>
                readMembers fuel depth (GoMap.set members (String.mk key) value) rest4
              | '\x7d' :: rest4 => some (GoMap.set members (String.mk key) value, rest4)
              | _ => none
          | _ => none
      | _ => none := by
  rfl

/-- A number literal at the head of a text is decoded as the `float64` nearest to it. -/
theorem readValue_number (fuel depth : Nat) (c : Char) (t rest : List Char) (literal value : ℚ)
    (hc : c = '-' ∨ (48 ≤ c.toNat ∧ c.toNat ≤ 57))
    (hread : readNumber (c :: t) = some (literal, rest))
    (hconv : convertNumber literal = some value) :
    readValue (fuel + 1) depth (c :: t) = some (.number value, rest) := by
  have hne : isJSONSpace c = false ∧ c ≠ '"' ∧ c ≠ '\x7b' ∧ c ≠ '[' ∧ c ≠ 't' ∧ c ≠ 'f' ∧
      c ≠ 'n' := by
    rcases hc with h | h
    · subst h
      decide
    · refine ⟨?_, ?_, ?_, ?_, ?_, ?_, ?_⟩
      · unfold isJSONSpace
        have h1 : c ≠ ' ' := by intro e; subst e; revert h; decide
        have h2 : c ≠ '\t' := by intro e; subst e; revert h; decide
        have h3 : c ≠ '\r' := by intro e; subst e; revert h; decide
        have h4 : c ≠ '\n' := by intro e; subst e; revert h; decide
        simp [h1, h2, h3, h4]
      all_goals
        intro e
        subst e
        revert h
        decide
  obtain ⟨h0, h1, h2, h3, h4, h5, h6⟩ := hne
  rw [readValue_succ, skipSpace_cons c t h0]
  simp only
  rw [if_neg h1, if_neg h2, if_neg h3, if_neg h4, if_neg h5, if_neg h6, hread]
  simp only
  rw [hconv]
  rfl
/-- The text `json.Marshal` writes for a string is decoded as the string. -/
theorem readValue_jsonQuote (fuel depth : Nat) (s : String) (rest : List Char) :
    readValue (fuel + 1) depth ((jsonQuote s).toList ++ rest) = some (.string s, rest) := by
  rw [jsonQuote_toList, List.cons_append, List.append_assoc, List.singleton_append,
    readValue_succ, skipSpace_cons _ _ (by decide)]
  simp only [if_true]
  rw [readString_escapeChars s.toList rest _ (by
    have := length_escapeChars s.toList
    simp only [List.length_append, List.length_cons]
    omega)]
  rfl

/-- The text `json.Marshal` writes for a property value, within the conditions of the round
trip, is decoded as `decodeMarshalledValue` gives it. -/
theorem readValue_jsonValueText (fuel depth : Nat) (v : PropertyValue) (rest : List Char)
    (hrest : ∀ c t, rest = c :: t → c = ',' ∨ c = '\x7d')
    (hint : ∀ n, v = .int64 n → n.natAbs ≤ 2 ^ 53)
    (hfloat : ∀ q, v = .float64 q → isFloat64 q) :
    readValue (fuel + 1) depth ((jsonValueText v).toList ++ rest) =
      some (decodeMarshalledValue v, rest) := by
  cases v with
  | str s => exact readValue_jsonQuote fuel depth s rest
  | bool b =>
    cases b
    · show readValue (fuel + 1) depth ('f' :: 'a' :: 'l' :: 's' :: 'e' :: rest) = _
      rw [readValue_succ, skipSpace_cons _ _ (by decide)]
      rfl
    · show readValue (fuel + 1) depth ('t' :: 'r' :: 'u' :: 'e' :: rest) = _
      rw [readValue_succ, skipSpace_cons _ _ (by decide)]
      rfl
  | int64 n =>
    have hn := hint n rfl
    have hf := isFloat64_intCast n hn
    have hconv : convertNumber (n : ℚ) = some ((float64OfInt n : Int) : ℚ) := by
      unfold convertNumber
      rw [show Float64.round (n : ℚ) = .finite (n : ℚ) from hf, float64OfInt_small n hn]
    show readValue (fuel + 1) depth ((toString n).toList ++ rest) = _
    rw [toString_int_toList]
    obtain ⟨h1, h2, _⟩ := natDigits_spec n.natAbs
    have hmag := readMagnitude_natDigits n.natAbs rest hrest
    by_cases hneg : n < 0
    · rw [if_pos hneg, List.cons_append]
      apply readValue_number fuel depth '-' _ rest (n : ℚ) _ (Or.inl rfl) _ hconv
      rw [readNumber_cons, if_pos rfl, hmag]
      show some (-((n.natAbs : ℕ) : ℚ), rest) = _
      rw [Nat.cast_natAbs, abs_of_neg hneg]
      push_cast
      rw [neg_neg]
    · rw [if_neg hneg]
      cases hl : (toString n.natAbs).toList with
      | nil => exact absurd hl h1
      | cons c t =>
        have hc := h2 c (by rw [hl]; exact List.mem_cons_self _ _)
        rw [List.cons_append]
        apply readValue_number fuel depth c _ rest (n : ℚ) _ (Or.inr hc) _ hconv
        have hcm : c ≠ '-' := by
          intro e
          subst e
          revert hc
          decide
        rw [readNumber_cons, if_neg hcm, ← List.cons_append, ← hl, hmag]
        rw [Nat.cast_natAbs, abs_of_nonneg (not_lt.1 hneg)]
  | float64 q =>
    obtain ⟨c, t, literal, h1, h2, h3, h4⟩ := readNumber_formatFloat q (hfloat q rfl) rest hrest
    show readValue (fuel + 1) depth ((formatFloat q).toList ++ rest) = _
    rw [h1]
    exact readValue_number fuel depth c t rest literal q h2 h3 h4

theorem GoMap.set_append {V : Type} (m : GoMap V) (k : String) (v : V)
    (h : k ∉ GoMap.keys m) : GoMap.set m k v = m ++ [(k, v)] := by
  induction m with
  | nil => rfl
  | cons e m ih =>
    obtain ⟨k1, v1⟩ := e
    have h1 : ¬ k1 = k := fun e => h (by simp [GoMap.keys, e])
    have h2 : k ∉ GoMap.keys m := fun hm => h (by
      simp only [GoMap.keys, List.map_cons, List.mem_cons]
      exact Or.inr hm)
    show (if k1 = k then (k, v) :: m else (k1, v1) :: GoMap.set m k v) = _
    rw [if_neg h1, ih h2]
    rfl

theorem tailChars_head (ms : List (String × PropertyValue)) (rest : List Char) :
    ∀ c t, tailChars ms ++ rest = c :: t → c = ',' ∨ c = '\x7d' := by
  intro c t h
  cases ms with
  | nil =>
    injection h with h _
    exact Or.inr h.symm
  | cons m ms =>
    injection h with h _
    exact Or.inl h.symm

/-- The members `json.Marshal` writes, with keys that differ from each other and from the keys
read before them, are read back, behind those read before them, as `decodeMarshalled` gives
them. -/
theorem readMembers_memberChars (ms : List (String × PropertyValue)) :
    ∀ (fuel depth : Nat) (m : String × PropertyValue) (acc : List (String × JsonValue))
      (rest : List Char),
      ms.length + 2 ≤ fuel →
      (GoMap.keys acc ++ GoMap.keys (m :: ms)).Nodup →
      (∀ e ∈ m :: ms, ∀ n, e.2 = .int64 n → n.natAbs ≤ 2 ^ 53) →
      (∀ e ∈ m :: ms, ∀ q, e.2 = .float64 q → isFloat64 q) →
      readMembers fuel depth acc (memberChars m ++ tailChars ms ++ rest) =
        some (acc ++ decodeMarshalled (m :: ms), rest) := by
  induction ms with
  | nil =>
    intro fuel depth m acc rest hfuel hkeys hint hfloat
    obtain ⟨fuel, rfl⟩ : ∃ f, fuel = f + 2 := ⟨fuel - 2, by omega⟩
    have hk : m.1 ∉ GoMap.keys acc := by
      intro h
      have := List.disjoint_of_nodup_append hkeys h
      exact this (by simp [GoMap.keys])
    rw [readMembers_succ]
    unfold memberChars
    rw [jsonQuote_toList]
    simp only [List.cons_append, List.append_assoc, List.singleton_append, List.nil_append,
      tailChars]
    rw [skipSpace_cons _ _ (by decide)]
    simp only
    rw [readString_escapeChars m.1.toList _ _ (by
      have := length_escapeChars m.1.toList
      simp only [List.length_append, List.length_cons]
      omega)]
    simp only
    rw [skipSpace_cons _ _ (by decide)]
    simp only
    have hv := readValue_jsonValueText fuel depth m.2 ('\x7d' :: rest)
      (by intro c t h; injection h with h _; exact Or.inr h.symm)
      (hint m (List.mem_cons_self _ _)) (hfloat m (List.mem_cons_self _ _))
    rw [hv]
    simp only
    rw [skipSpace_cons _ _ (by decide)]
    simp only
    have hmk : (String.mk m.1.toList) = m.1 := rfl
    rw [hmk, GoMap.set_append acc _ _ hk]
    rfl
  | cons m2 ms ih =>
    intro fuel depth m acc rest hfuel hkeys hint hfloat
    obtain ⟨fuel, rfl⟩ : ∃ f, fuel = f + 1 := ⟨fuel - 1, by simp only [List.length_cons] at hfuel; omega⟩
    have hfuel2 : ms.length + 2 ≤ fuel := by simp only [List.length_cons] at hfuel; omega
    obtain ⟨fuel1, hf1⟩ : ∃ f, fuel = f + 1 := ⟨fuel - 1, by omega⟩
    have hk : m.1 ∉ GoMap.keys acc := by
      intro h
      have := List.disjoint_of_nodup_append hkeys h
      exact this (by simp [GoMap.keys])
    rw [readMembers_succ]
    unfold memberChars
    rw [jsonQuote_toList]
    simp only [List.cons_append, List.append_assoc, List.singleton_append, List.nil_append,
      tailChars]
    rw [skipSpace_cons _ _ (by decide)]
    simp only
    rw [readString_escapeChars m.1.toList _ _ (by
      have := length_escapeChars m.1.toList
      simp only [List.length_append, List.length_cons]
      omega)]
    simp only
    rw [skipSpace_cons _ _ (by decide)]
    simp only
    have hv := readValue_jsonValueText fuel1 depth m.2
      (',' :: (memberChars m2 ++ (tailChars ms ++ rest)))
      (by intro c t h; injection h with h _; exact Or.inl h.symm)
      (hint m (List.mem_cons_self _ _)) (hfloat m (List.mem_cons_self _ _))
    rw [hf1, hv]
    simp only
    rw [skipSpace_cons _ _ (by decide)]
    simp only
    have hmk : (String.mk m.1.toList) = m.1 := rfl
    rw [hmk, GoMap.set_append acc _ _ hk, ← hf1]
    have := ih fuel depth m2 (acc ++ [(m.1, decodeMarshalledValue m.2)]) rest hfuel2
      (by
        simp only [GoMap.keys, List.map_append, List.map_cons, List.map_nil,
          List.append_assoc, List.singleton_append] at hkeys ⊢
        exact hkeys)
      (fun e he => hint e (List.mem_cons_of_mem _ he))
      (fun e he => hfloat e (List.mem_cons_of_mem _ he))
    rw [List.append_assoc] at this
    rw [this]
    simp [decodeMarshalled]
theorem intercalate_go_toList (ms : List (String × PropertyValue)) :
    ∀ acc : String,
      (String.intercalate.go acc ","
        (ms.map fun e => jsonQuote e.1 ++ ":" ++ jsonValueText e.2)).toList ++ ['\x7d'] =
        acc.toList ++ tailChars ms := by
  induction ms with
  | nil =>
    intro acc
    rfl
  | cons m ms ih =>
    intro acc
    show (String.intercalate.go (acc ++ "," ++ (jsonQuote m.1 ++ ":" ++ jsonValueText m.2)) ","
      (ms.map fun e => jsonQuote e.1 ++ ":" ++ jsonValueText e.2)).toList ++ ['\x7d'] = _
    rw [ih]
    show (acc ++ "," ++ (jsonQuote m.1 ++ ":" ++ jsonValueText m.2)).data ++ tailChars ms = _
    rw [String.data_append, String.data_append, String.data_append, String.data_append]
    simp [tailChars, memberChars, String.toList]

/-- The characters of the text of a JSON object that is not empty. -/
theorem jsonObjectText_toList (m : String × PropertyValue)
    (ms : List (String × PropertyValue)) :
    (jsonObjectText (m :: ms)).toList = '\x7b' :: (memberChars m ++ tailChars ms) := by
  unfold jsonObjectText
  show ("\x7b" ++ String.intercalate.go (jsonQuote m.1 ++ ":" ++ jsonValueText m.2) ","
    (ms.map fun e => jsonQuote e.1 ++ ":" ++ jsonValueText e.2) ++ "\x7d").data = _
  rw [String.data_append, String.data_append]
  have h := intercalate_go_toList ms (jsonQuote m.1 ++ ":" ++ jsonValueText m.2)
  simp only [String.toList] at h
  show ['\x7b'] ++ (String.intercalate.go (jsonQuote m.1 ++ ":" ++ jsonValueText m.2) ","
    (ms.map fun e => jsonQuote e.1 ++ ":" ++ jsonValueText e.2)).data ++ ['\x7d'] = _
  rw [List.append_assoc, h, String.data_append, String.data_append]
  simp [memberChars, String.toList]

theorem length_tailChars (ms : List (String × PropertyValue)) :
    ms.length + 1 ≤ (tailChars ms).length := by
  induction ms with
  | nil => simp [tailChars]
  | cons m ms ih =>
    simp only [tailChars, List.length_cons, List.length_append]
    omega

/-- An object whose members are read by `readMembers` is read by `readValue`. -/
theorem readValue_object (fuel : Nat) (c : Char) (body rest : List Char)
    (members : List (String × JsonValue)) (hc : c = '"')
    (hread : readMembers fuel 1 [] (c :: body) = some (members, rest)) :
    readValue (fuel + 1) 0 ('\x7b' :: c :: body) = some (.object members, rest) := by
  subst hc
  rw [readValue_succ, skipSpace_cons _ _ (by decide)]
  simp only [if_true]
  rw [if_neg (by decide), skipSpace_cons _ _ (by decide)]
  show (readMembers fuel (0 + 1) [] ('"' :: body)).map
    (fun (r : List (String × JsonValue) × List Char) => (JsonValue.object r.1, r.2)) = _
  rw [hread]
  rfl

/-- The text `json.Marshal` writes for an object with at least one member, with keys that differ
from each other and values within the conditions of the round trip, is read back by
`json.Unmarshal` as the members `decodeMarshalled` gives. -/
theorem jsonUnmarshal_jsonObjectText (m : String × PropertyValue)
    (ms : List (String × PropertyValue)) (hkeys : (GoMap.keys (m :: ms)).Nodup)
    (hint : ∀ e ∈ m :: ms, ∀ n, e.2 = .int64 n → n.natAbs ≤ 2 ^ 53)
    (hfloat : ∀ e ∈ m :: ms, ∀ q, e.2 = .float64 q → isFloat64 q) :
    jsonUnmarshal (jsonObjectText (m :: ms)) = .ok (decodeMarshalled (m :: ms)) := by
  unfold jsonUnmarshal
  have hlen : (jsonObjectText (m :: ms)).length = (jsonObjectText (m :: ms)).toList.length := rfl
  rw [hlen, jsonObjectText_toList]
  have hfuel : ms.length + 2 ≤
      2 * ('\x7b' :: (memberChars m ++ tailChars ms)).length + 1 := by
    have := length_tailChars ms
    simp only [List.length_cons, List.length_append]
    omega
  have hsucc : 2 * ('\x7b' :: (memberChars m ++ tailChars ms)).length + 2 =
      (2 * ('\x7b' :: (memberChars m ++ tailChars ms)).length + 1) + 1 := rfl
  rw [hsucc]
  generalize 2 * ('\x7b' :: (memberChars m ++ tailChars ms)).length + 1 = fuel at hfuel
  have hbody : memberChars m ++ tailChars ms =
      '"' :: (escapeChars m.1.toList ++ '"' :: ':' :: ((jsonValueText m.2).toList ++ tailChars ms))
      := by
    unfold memberChars
    rw [jsonQuote_toList]
    simp
  have hread := readMembers_memberChars ms fuel 1 m [] [] hfuel
    (by simpa [GoMap.keys] using hkeys) hint hfloat
  rw [List.append_nil, List.nil_append, hbody] at hread
  rw [hbody, readValue_object fuel _ _ _ _ rfl hread]
  rfl

/-! ### C4: the round trip of a record -/

/-- C4 (amended): for every record whose attribute keys are pairwise distinct within and across
the four buckets, none of them the reserved key `domainName`, whose int attributes lie within
`±2^53` and whose doubles are finite `float64` values (the strings of a record of the embedding
are valid Unicode text), the text that `ToJSONString` returns is read by `json.Unmarshal` without
an error, and the loop of `UnmarshalJSON` over the map read, in whatever order the map is
visited, fills a fresh record with the same domain name, the same string attributes, the same
bool attributes and the same value of every numeric attribute; an int stays in the int bucket,
and an integral double within the range of `int64` comes back in the int bucket, and not in the
float bucket, with the same value. -/
theorem json_round_trip (d : DomainProperties)
    (hkeys : (attributeKeys d).Nodup)
    (hreserved : "domainName" ∉ attributeKeys d)
    (hint : ∀ k n, d.IntProperties.get k = some n → n.natAbs ≤ 2 ^ 53)
    (hfloat : ∀ k q, d.FloatProperties.get k = some q → isFloat64 q) :
    ∃ rawData, jsonUnmarshal (ToJSONString d) = .ok rawData ∧
      ∀ raw, List.Perm raw rawData →
        ∃ d1, UnmarshalJSON raw NewDomainProperties = .ok d1 ∧
          d1.DomainName = d.DomainName ∧
          (∀ k, d1.StringProperties.get k = d.StringProperties.get k) ∧
          (∀ k, d1.BoolProperties.get k = d.BoolProperties.get k) ∧
          (∀ k, numericValue d1 k = numericValue d k) ∧
          (∀ k n, d.IntProperties.get k = some n → d1.IntProperties.get k = some n) ∧
          (∀ k q, d.FloatProperties.get k = some q → q.den = 1 → -(2 : Int) ^ 63 ≤ q.num →
            q.num < (2 : Int) ^ 63 →
            d1.IntProperties.get k = some q.num ∧ d1.FloatProperties.get k = none) := by
  have hwf := properties_WF d
  have hperm := sortByKey_perm (ToJSONString.properties d)
  have hmem : ∀ e ∈ sortByKey (ToJSONString.properties d), isMemberOf d e.1 e.2 := by
    intro e he
    exact (properties_get_iff d hkeys hreserved e.1 e.2).1
      (GoMap.get_of_mem hwf (hperm.subset he))
  have hint2 : ∀ e ∈ sortByKey (ToJSONString.properties d), ∀ n, e.2 = .int64 n →
      n.natAbs ≤ 2 ^ 53 := by
    intro e he n hn
    rcases hmem e he with ⟨_, h⟩ | ⟨s, _, h⟩ | ⟨n1, h1, h⟩ | ⟨q, _, h⟩ | ⟨b, _, h⟩
    · rw [hn] at h; cases h
    · rw [hn] at h; cases h
    · rw [hn] at h
      injection h with h
      rw [h]
      exact hint e.1 n1 h1
    · rw [hn] at h; cases h
    · rw [hn] at h; cases h
  have hfloat2 : ∀ e ∈ sortByKey (ToJSONString.properties d), ∀ q, e.2 = .float64 q →
      isFloat64 q := by
    intro e he q hq
    rcases hmem e he with ⟨_, h⟩ | ⟨s, _, h⟩ | ⟨n1, _, h⟩ | ⟨q1, h1, h⟩ | ⟨b, _, h⟩
    · rw [hq] at h; cases h
    · rw [hq] at h; cases h
    · rw [hq] at h; cases h
    · rw [hq] at h
      injection h with h
      rw [h]
      exact hfloat e.1 q1 h1
    · rw [hq] at h; cases h
  have hnodup : (GoMap.keys (sortByKey (ToJSONString.properties d))).Nodup :=
    ((hperm.map Prod.fst).nodup_iff).2 hwf
  have htext : ToJSONString d = jsonObjectText (sortByKey (ToJSONString.properties d)) := rfl
  have hname : ("domainName", PropertyValue.str d.DomainName) ∈
      sortByKey (ToJSONString.properties d) :=
    hperm.symm.subset (GoMap.mem_of_get
      ((properties_get_iff d hkeys hreserved _ _).2 (Or.inl ⟨rfl, rfl⟩)))
  refine ⟨decodeMarshalled (sortByKey (ToJSONString.properties d)), ?_, ?_⟩
  · rw [htext]
    cases hs : sortByKey (ToJSONString.properties d) with
    | nil =>
      rw [hs] at hname
      cases hname
    | cons m ms =>
      rw [hs] at hnodup hint2 hfloat2
      exact jsonUnmarshal_jsonObjectText m ms hnodup hint2 hfloat2
  · intro raw hraw
    have horder : List.Perm raw (decodeMarshalled (ToJSONString.properties d)) :=
      hraw.trans (hperm.map _)
    exact unmarshal_decodeMarshalled d raw horder hkeys hreserved hint (by
      intro k q hq hden
      have hqz : q = (q.num : ℚ) := by
        have := Rat.num_div_den q
        rw [hden] at this
        simpa using this.symm
      apply float64OfInt_of_isFloat64
      rw [← hqz]
      exact hfloat k q hq)

/-- C4 (amended) on a record with two strings, two ints, a fractional and an integral double and
a bool: the record read back from the text of `ToJSONString` has the same domain name, strings,
bools and numeric values, and the integral double `3` is in its int bucket. -/
theorem json_round_trip_witness :
    ∃ d1, roundTrip exampleRecord = .ok d1 ∧
      d1.DomainName = exampleRecord.DomainName ∧
      (∀ k, d1.StringProperties.get k = exampleRecord.StringProperties.get k) ∧
      (∀ k, d1.BoolProperties.get k = exampleRecord.BoolProperties.get k) ∧
      (∀ k, numericValue d1 k = numericValue exampleRecord k) ∧
      d1.IntProperties.get "visits" = some 3 := by
  obtain ⟨rawData, hparse, h⟩ := json_round_trip exampleRecord (by decide) (by decide)
    (by
      intro k n h
      have hm := GoMap.mem_of_get h
      simp only [exampleRecord, List.mem_cons, Prod.mk.injEq, List.mem_singleton,
        List.not_mem_nil, or_false] at hm
      rcases hm with ⟨_, h1⟩ | ⟨_, h1⟩ <;> subst h1 <;> decide)
    (by
      intro k q h
      have hm := GoMap.mem_of_get h
      simp only [exampleRecord, List.mem_cons, Prod.mk.injEq, List.mem_singleton,
        List.not_mem_nil, or_false] at hm
      rcases hm with ⟨_, h1⟩ | ⟨_, h1⟩ <;> subst h1 <;> decide!)
  obtain ⟨d1, h1, h2, h3, h4, h5, _, h7⟩ := h rawData (List.Perm.refl _)
  refine ⟨d1, ?_, h2, h3, h4, h5, ?_⟩
  · unfold roundTrip UnmarshalJSON.ofText
    rw [hparse]
    exact h1
  · exact (h7 "visits" 3 rfl rfl (by decide) (by decide)).1

/-- C4 (counterexample): three records whose attribute keys are disjoint across the buckets and
for which the claim fails.  A string attribute stored under the key `domainName` replaces the
domain name and is itself lost; the int attribute `2^53 + 1` comes back as `2^53`; the integral
double `2^63`, written as `9223372036854776000`, does not come back in the int bucket. -/
theorem json_round_trip_fails :
    ((attributeKeys reservedKeyRecord).Nodup ∧
      reservedKeyRecord.DomainName = "example.com" ∧
      reservedKeyRecord.StringProperties.get "domainName" = some "other.org" ∧
      ∃ d1, roundTrip reservedKeyRecord = .ok d1 ∧ d1.DomainName = "other.org" ∧
        d1.StringProperties.get "domainName" = none) ∧
    ((attributeKeys largeIntRecord).Nodup ∧
      largeIntRecord.IntProperties.get "serial" = some 9007199254740993 ∧
      ∃ d2, roundTrip largeIntRecord = .ok d2 ∧
        d2.IntProperties.get "serial" = some 9007199254740992 ∧
        numericValue d2 "serial" ≠ numericValue largeIntRecord "serial") ∧
    ((attributeKeys hugeDoubleRecord).Nodup ∧
      hugeDoubleRecord.FloatProperties.get "size" = some 9223372036854775808 ∧
      ToJSONString hugeDoubleRecord =
        "\x7b\"domainName\":\"example.com\",\"size\":9223372036854776000\x7d" ∧
      ∃ d3, roundTrip hugeDoubleRecord = .ok d3 ∧ d3.IntProperties.get "size" = none) := by
  have h1 : (roundTrip reservedKeyRecord).toOption =
      some { reservedKeyRecord with DomainName := "other.org", StringProperties := [] } := by
    decide!
  have h2 : (roundTrip largeIntRecord).toOption =
      some { largeIntRecord with IntProperties := [("serial", 9007199254740992)] } := by
    decide!
  have h3 : (roundTrip hugeDoubleRecord).toOption = some hugeDoubleRecord := by
    decide!
  refine ⟨⟨by decide, rfl, rfl, ?_⟩, ⟨by decide, rfl, ?_⟩, ⟨by decide, rfl, by decide!, ?_⟩⟩
  · cases hr : roundTrip reservedKeyRecord with
    | error e =>
      rw [hr] at h1
      cases h1
    | ok d =>
      rw [hr] at h1
      injection h1 with h1
      subst h1
      exact ⟨_, rfl, rfl, rfl⟩
  · cases hr : roundTrip largeIntRecord with
    | error e =>
      rw [hr] at h2
      cases h2
    | ok d =>
      rw [hr] at h2
      injection h2 with h2
      subst h2
      refine ⟨_, rfl, rfl, ?_⟩
      simp [numericValue, GoMap.get, largeIntRecord]
  · cases hr : roundTrip hugeDoubleRecord with
    | error e =>
      rw [hr] at h3
      cases h3
    | ok d =>
      rw [hr] at h3
      injection h3 with h3
      subst h3
      exact ⟨_, rfl, rfl⟩

/-- The text of some `float64` values: a fraction, an integer beyond `2^53` (written with the
shortest digits and zeros behind them), and values written with an exponent. -/
theorem formatFloat_examples :
    formatFloat (9 / 2) = "4.5" ∧
      formatFloat 9223372036854775808 = "9223372036854776000" ∧
      formatFloat (-(1 / 8)) = "-0.125" ∧
      formatFloat 1000000000000000000000 = "1e+21" ∧
      formatFloat (1 / 1073741824) = "9.313225746154785e-10" ∧
      isFloat64 (1 / 1073741824) := by
  refine ⟨?_, ?_, ?_, ?_, ?_, ?_⟩ <;> decide!

/-- The text of a string with a backspace, a form feed, a newline, the unit separator, `<` and a
quote. -/
theorem jsonQuote_examples :
    jsonQuote (String.mk [Char.ofNat 8, Char.ofNat 12, '\n', Char.ofNat 31, '<', '"']) =
      "\"\\b\\f\\n\\u001f\\u003c\\\"\"" := by
  decide!

end Zfse
